import Mathlib

/-!
# Channel mixing matrices (audio-channel-mix.c)

A shallow embedding of `gst-libs/gst/audio/audio-channel-mix.c`.

* `gfloat` / `gdouble` weights are elements of a linearly ordered field `α`
  with a floor function (exact arithmetic; `ℝ` and `ℚ` are instances).
* The libm function `sqrt` used by the `RATIO_*` macros is an argument.
* C `for` loops are `forLoop` / `forLoopDown`.
* `gfloat **matrix` and `gint **matrix_int` are functions of the two indices,
  an assignment `matrix[i][j] = v` is `setCell`.
* Sample memory is one address space `Nat → Int`; `in_data` and `out_data`
  are offsets into it, so that aliasing pointers can be expressed.
* `gint64` arithmetic wraps (`wrap64`).
-/

namespace AudioChannelMix

/-! ## Types declared in headers -/

/-- The channel positions that `audio-channel-mix.c` names, and `OTHER n` for
the remaining enumerators of `GstAudioChannelPosition`. The code compares
positions for equality only, except in `gst_audio_channel_mix_is_passthrough`,
which uses their integer values. -/
inductive GstAudioChannelPosition where
  | NONE
  | MONO
  | INVALID
  | FRONT_LEFT
  | FRONT_RIGHT
  | FRONT_CENTER
  | LFE1
  | REAR_LEFT
  | REAR_RIGHT
  | FRONT_LEFT_OF_CENTER
  | FRONT_RIGHT_OF_CENTER
  | REAR_CENTER
  | LFE2
  | SIDE_LEFT
  | SIDE_RIGHT
  | OTHER (n : Nat)
  deriving DecidableEq

/-- The sample formats: the two that `gst_audio_channel_mix_new` accepts and
`OTHER n` for every other enumerator of `GstAudioFormat`. -/
inductive GstAudioFormat where
  | S32
  | F64
  | OTHER (n : Nat)
  deriving DecidableEq

/-- Modelled from the spec: the flag "input layout is unpositioned" of
`GstAudioChannelMixFlags`, declared in `audio-channel-mix.h`; flags are a bit
set and this flag is one bit of it. -/
def GST_AUDIO_CHANNEL_MIX_FLAGS_UNPOSITIONED_IN : Nat := 4

/-- The macro `INT_MATRIX_FACTOR_EXPONENT` -/
def INT_MATRIX_FACTOR_EXPONENT : Nat := 10

/-- The macro `G_MININT32` -/
def G_MININT32 : Int := -2147483648

/-- The macro `G_MAXINT32` -/
def G_MAXINT32 : Int := 2147483647

/-- The instance: `struct _GstAudioChannelMix`. The scratch frame `tmp` is
local to the mixing functions and `func` is determined by `format`. Only the
first `in_channels` (`out_channels`) entries of the position arrays are ever
read; they are kept as lists. -/
structure GstAudioChannelMix (α : Type) where
  flags : Nat
  format : GstAudioFormat
  in_channels : Nat
  out_channels : Nat
  in_position : List GstAudioChannelPosition
  out_position : List GstAudioChannelPosition
  matrix : Nat → Nat → α
  matrix_int : Nat → Nat → Int

/-! ## Helpers of the embedding -/

/-- The loop `for (i = 0; i < n; i++) s = body (i, s);` -/
def forLoop {σ : Type} (body : Nat → σ → σ) : Nat → σ → σ
  | 0, s => s
  | n + 1, s => body n (forLoop body n s)

/-- The loop `for (i = n - 1; i >= 0; i--) s = body (i, s);` -/
def forLoopDown {σ : Type} (body : Nat → σ → σ) : Nat → σ → σ
  | 0, s => s
  | n + 1, s => forLoopDown body n (body n s)

/-- Array read `position[n]`. -/
def posAt (position : List GstAudioChannelPosition) (n : Nat) : GstAudioChannelPosition :=
  position.getD n GstAudioChannelPosition.INVALID

/-- Assignment `m[i][j] = v`. -/
def setCell {β : Type} (m : Nat → Nat → β) (i j : Nat) (v : β) : Nat → Nat → β :=
  fun a b => if a = i ∧ b = j then v else m a b

/-- Assignment `buf[k] = v`. -/
def setAt {β : Type} (buf : Nat → β) (k : Nat) (v : β) : Nat → β :=
  fun a => if a = k then v else buf a

/-- Two's complement wrap of a `gint64` result. -/
def wrap64 (x : Int) : Int := (x + 2 ^ 63) % 2 ^ 64 - 2 ^ 63

/-- Conversion of an `int` to `guint64`. -/
def toGuint64 (x : Int) : Nat := (x % 2 ^ 64).toNat

/-- The cast `(gint) tmp` of a float: truncation toward zero. -/
def truncToInt {α : Type} [LinearOrderedField α] [FloorRing α] (x : α) : Int :=
  if 0 ≤ x then Int.floor x else Int.ceil x

section Builder

variable {α : Type} [LinearOrderedField α]

/-! ## Matrix builder -/

/-- The function `gst_audio_channel_mix_fill_identical` -/
def gst_audio_channel_mix_fill_identical (mix : GstAudioChannelMix α) : GstAudioChannelMix α :=
  { mix with
    matrix :=
      forLoop (fun co m =>
        forLoop (fun ci m =>
          if posAt mix.in_position ci = posAt mix.out_position co then
            setCell m ci co 1
          else m) mix.in_channels m) mix.out_channels mix.matrix }

/-- One entry of the table `conv[]` of `gst_audio_channel_mix_fill_compatible`. -/
structure Conv where
  pos1_0 : GstAudioChannelPosition
  pos1_1 : GstAudioChannelPosition
  pos2_0 : GstAudioChannelPosition

/-- The table `conv[]`, without its terminating `INVALID` entry. -/
def conv : List Conv :=
  [ ⟨.FRONT_LEFT, .FRONT_RIGHT, .MONO⟩,
    ⟨.FRONT_LEFT_OF_CENTER, .FRONT_RIGHT_OF_CENTER, .FRONT_CENTER⟩,
    ⟨.REAR_LEFT, .REAR_RIGHT, .REAR_CENTER⟩ ]

/-- The three indices `pos_0, pos_1, pos_2` found by one scan of a layout. -/
structure Idx3 where
  i0 : Int := -1
  i1 : Int := -1
  i2 : Int := -1
  deriving DecidableEq

/-- The scan loops of `gst_audio_channel_mix_fill_compatible`:
`for (n = 0; n < channels; n++) if (position[n] == pos1[0]) pos_0 = n; else if ...`. -/
def convScan (cv : Conv) (channels : Nat) (position : List GstAudioChannelPosition) : Idx3 :=
  forLoop (fun n (p : Idx3) =>
    if posAt position n = cv.pos1_0 then { p with i0 := n }
    else if posAt position n = cv.pos1_1 then { p with i1 := n }
    else if posAt position n = cv.pos2_0 then { p with i2 := n }
    else p) channels {}

/-- The body of the loop over `conv[]` in `gst_audio_channel_mix_fill_compatible`. -/
def fillCompatibleOne (mix : GstAudioChannelMix α) (cv : Conv) (m : Nat → Nat → α) :
    Nat → Nat → α :=
  let p1 := convScan cv mix.in_channels mix.in_position
  let p2 := convScan cv mix.out_channels mix.out_position
  let pos1_0 := p1.i0
  let pos1_1 := p1.i1
  let pos1_2 := p1.i2
  let pos2_0 := p2.i0
  let pos2_1 := p2.i1
  let pos2_2 := p2.i2
  -- left -> center
  let m :=
    if pos1_0 ≠ -1 ∧ pos1_2 = -1 ∧ pos2_0 = -1 ∧ pos2_2 ≠ -1 then
      setCell m pos1_0.toNat pos2_2.toNat 1
    else if pos1_0 ≠ -1 ∧ pos1_2 ≠ -1 ∧ pos2_0 = -1 ∧ pos2_2 ≠ -1 then
      setCell m pos1_0.toNat pos2_2.toNat (1 / 2)
    else if pos1_0 ≠ -1 ∧ pos1_2 = -1 ∧ pos2_0 ≠ -1 ∧ pos2_2 ≠ -1 then
      setCell m pos1_0.toNat pos2_2.toNat 1
    else m
  -- right -> center
  let m :=
    if pos1_1 ≠ -1 ∧ pos1_2 = -1 ∧ pos2_1 = -1 ∧ pos2_2 ≠ -1 then
      setCell m pos1_1.toNat pos2_2.toNat 1
    else if pos1_1 ≠ -1 ∧ pos1_2 ≠ -1 ∧ pos2_1 = -1 ∧ pos2_2 ≠ -1 then
      setCell m pos1_1.toNat pos2_2.toNat (1 / 2)
    else if pos1_1 ≠ -1 ∧ pos1_2 = -1 ∧ pos2_1 ≠ -1 ∧ pos2_2 ≠ -1 then
      setCell m pos1_1.toNat pos2_2.toNat 1
    else m
  -- center -> left
  let m :=
    if pos1_2 ≠ -1 ∧ pos1_0 = -1 ∧ pos2_2 = -1 ∧ pos2_0 ≠ -1 then
      setCell m pos1_2.toNat pos2_0.toNat 1
    else if pos1_2 ≠ -1 ∧ pos1_0 ≠ -1 ∧ pos2_2 = -1 ∧ pos2_0 ≠ -1 then
      setCell m pos1_2.toNat pos2_0.toNat (1 / 2)
    else if pos1_2 ≠ -1 ∧ pos1_0 = -1 ∧ pos2_2 ≠ -1 ∧ pos2_0 ≠ -1 then
      setCell m pos1_2.toNat pos2_0.toNat 1
    else m
  -- center -> right
  let m :=
    if pos1_2 ≠ -1 ∧ pos1_1 = -1 ∧ pos2_2 = -1 ∧ pos2_1 ≠ -1 then
      setCell m pos1_2.toNat pos2_1.toNat 1
    else if pos1_2 ≠ -1 ∧ pos1_1 ≠ -1 ∧ pos2_2 = -1 ∧ pos2_1 ≠ -1 then
      setCell m pos1_2.toNat pos2_1.toNat (1 / 2)
    else if pos1_2 ≠ -1 ∧ pos1_1 = -1 ∧ pos2_2 ≠ -1 ∧ pos2_1 ≠ -1 then
      setCell m pos1_2.toNat pos2_1.toNat 1
    else m
  m

/-- The function `gst_audio_channel_mix_fill_compatible` -/
def gst_audio_channel_mix_fill_compatible (mix : GstAudioChannelMix α) : GstAudioChannelMix α :=
  { mix with matrix := conv.foldl (fun m cv => fillCompatibleOne mix cv m) mix.matrix }

/-- The out-parameters of `gst_audio_channel_mix_detect_pos`: the index arrays
`f`, `c`, `r`, `s`, `b` (three entries each) and the five `has_*` flags. -/
structure DetectPos where
  f : Idx3 := {}
  has_f : Bool := false
  c : Idx3 := {}
  has_c : Bool := false
  r : Idx3 := {}
  has_r : Bool := false
  s : Idx3 := {}
  has_s : Bool := false
  b : Idx3 := {}
  has_b : Bool := false
  deriving DecidableEq

/-- The function `gst_audio_channel_mix_detect_pos`, started from arrays of `-1` and flags
`FALSE` as `gst_audio_channel_mix_fill_others` initialises them. -/
def gst_audio_channel_mix_detect_pos (channels : Nat)
    (position : List GstAudioChannelPosition) : DetectPos :=
  forLoop (fun n (d : DetectPos) =>
    match posAt position n with
    | .MONO => { d with f := { d.f with i1 := n }, has_f := true }
    | .FRONT_LEFT => { d with f := { d.f with i0 := n }, has_f := true }
    | .FRONT_RIGHT => { d with f := { d.f with i2 := n }, has_f := true }
    | .FRONT_CENTER => { d with c := { d.c with i1 := n }, has_c := true }
    | .FRONT_LEFT_OF_CENTER => { d with c := { d.c with i0 := n }, has_c := true }
    | .FRONT_RIGHT_OF_CENTER => { d with c := { d.c with i2 := n }, has_c := true }
    | .REAR_CENTER => { d with r := { d.r with i1 := n }, has_r := true }
    | .REAR_LEFT => { d with r := { d.r with i0 := n }, has_r := true }
    | .REAR_RIGHT => { d with r := { d.r with i2 := n }, has_r := true }
    | .SIDE_LEFT => { d with s := { d.s with i0 := n }, has_s := true }
    | .SIDE_RIGHT => { d with s := { d.s with i2 := n }, has_s := true }
    | .LFE1 => { d with has_b := true, b := { d.b with i1 := n } }
    | _ => d) channels {}

/-- The function `gst_audio_channel_mix_fill_one_other` -/
def gst_audio_channel_mix_fill_one_other (matrix : Nat → Nat → α)
    (from_idx to_idx : Idx3) (ratio : α) : Nat → Nat → α :=
  -- src & dst have center => passthrough
  let matrix :=
    if from_idx.i1 ≠ -1 ∧ to_idx.i1 ≠ -1 then
      setCell matrix from_idx.i1.toNat to_idx.i1.toNat ratio
    else matrix
  -- src & dst have left => passthrough
  let matrix :=
    if from_idx.i0 ≠ -1 ∧ to_idx.i0 ≠ -1 then
      setCell matrix from_idx.i0.toNat to_idx.i0.toNat ratio
    else matrix
  -- src & dst have right => passthrough
  let matrix :=
    if from_idx.i2 ≠ -1 ∧ to_idx.i2 ≠ -1 then
      setCell matrix from_idx.i2.toNat to_idx.i2.toNat ratio
    else matrix
  -- src has left & dst has center => put into center
  let matrix :=
    if from_idx.i0 ≠ -1 ∧ to_idx.i1 ≠ -1 ∧ from_idx.i1 ≠ -1 then
      setCell matrix from_idx.i0.toNat to_idx.i1.toNat (1 / 2 * ratio)
    else if from_idx.i0 ≠ -1 ∧ to_idx.i1 ≠ -1 ∧ from_idx.i1 = -1 then
      setCell matrix from_idx.i0.toNat to_idx.i1.toNat ratio
    else matrix
  -- src has right & dst has center => put into center
  let matrix :=
    if from_idx.i2 ≠ -1 ∧ to_idx.i1 ≠ -1 ∧ from_idx.i1 ≠ -1 then
      setCell matrix from_idx.i2.toNat to_idx.i1.toNat (1 / 2 * ratio)
    else if from_idx.i2 ≠ -1 ∧ to_idx.i1 ≠ -1 ∧ from_idx.i1 = -1 then
      setCell matrix from_idx.i2.toNat to_idx.i1.toNat ratio
    else matrix
  -- src has center & dst has left => passthrough
  let matrix :=
    if from_idx.i1 ≠ -1 ∧ to_idx.i0 ≠ -1 ∧ from_idx.i0 ≠ -1 then
      setCell matrix from_idx.i1.toNat to_idx.i0.toNat (1 / 2 * ratio)
    else if from_idx.i1 ≠ -1 ∧ to_idx.i0 ≠ -1 ∧ from_idx.i0 = -1 then
      setCell matrix from_idx.i1.toNat to_idx.i0.toNat ratio
    else matrix
  -- src has center & dst has right => passthrough
  let matrix :=
    if from_idx.i1 ≠ -1 ∧ to_idx.i2 ≠ -1 ∧ from_idx.i2 ≠ -1 then
      setCell matrix from_idx.i1.toNat to_idx.i2.toNat (1 / 2 * ratio)
    else if from_idx.i1 ≠ -1 ∧ to_idx.i2 ≠ -1 ∧ from_idx.i2 = -1 then
      setCell matrix from_idx.i1.toNat to_idx.i2.toNat ratio
    else matrix
  matrix

/-! The `RATIO_*` macros; `sqrt` is the libm function. -/

/-- The macro `RATIO_CENTER_FRONT` -/
def RATIO_CENTER_FRONT (sqrt : α → α) : α := 1 / sqrt 2
/-- The macro `RATIO_CENTER_SIDE` -/
def RATIO_CENTER_SIDE : α := 1 / 2
/-- The macro `RATIO_CENTER_REAR` -/
def RATIO_CENTER_REAR (sqrt : α → α) : α := 1 / sqrt 8
/-- The macro `RATIO_FRONT_CENTER` -/
def RATIO_FRONT_CENTER (sqrt : α → α) : α := 1 / sqrt 2
/-- The macro `RATIO_FRONT_SIDE` -/
def RATIO_FRONT_SIDE (sqrt : α → α) : α := 1 / sqrt 2
/-- The macro `RATIO_FRONT_REAR` -/
def RATIO_FRONT_REAR : α := 1 / 2
/-- The macro `RATIO_SIDE_CENTER` -/
def RATIO_SIDE_CENTER : α := 1 / 2
/-- The macro `RATIO_SIDE_FRONT` -/
def RATIO_SIDE_FRONT (sqrt : α → α) : α := 1 / sqrt 2
/-- The macro `RATIO_SIDE_REAR` -/
def RATIO_SIDE_REAR (sqrt : α → α) : α := 1 / sqrt 2
/-- The macro `RATIO_CENTER_BASS` -/
def RATIO_CENTER_BASS (sqrt : α → α) : α := 1 / sqrt 2
/-- The macro `RATIO_FRONT_BASS` -/
def RATIO_FRONT_BASS : α := 1
/-- The macro `RATIO_SIDE_BASS` -/
def RATIO_SIDE_BASS (sqrt : α → α) : α := 1 / sqrt 2
/-- The macro `RATIO_REAR_BASS` -/
def RATIO_REAR_BASS (sqrt : α → α) : α := 1 / sqrt 2

/-! `gst_audio_channel_mix_fill_others`, one definition for each of its five
`if`/`else if` chains. `i` and `o` are the results of
`gst_audio_channel_mix_detect_pos` on the input and on the output layout. -/

/-- The chain `center <-> front/side/rear`. -/
def fillOthersCenter (sqrt : α → α) (i o : DetectPos) (m : Nat → Nat → α) : Nat → Nat → α :=
  if !i.has_c && i.has_f && o.has_c then
    gst_audio_channel_mix_fill_one_other m i.f o.c (RATIO_CENTER_FRONT sqrt)
  else if !i.has_c && !i.has_f && i.has_s && o.has_c then
    gst_audio_channel_mix_fill_one_other m i.s o.c RATIO_CENTER_SIDE
  else if !i.has_c && !i.has_f && !i.has_s && i.has_r && o.has_c then
    gst_audio_channel_mix_fill_one_other m i.r o.c (RATIO_CENTER_REAR sqrt)
  else if i.has_c && !o.has_c && o.has_f then
    gst_audio_channel_mix_fill_one_other m i.c o.f (RATIO_CENTER_FRONT sqrt)
  else if i.has_c && !o.has_c && !o.has_f && o.has_s then
    gst_audio_channel_mix_fill_one_other m i.c o.s RATIO_CENTER_SIDE
  else if i.has_c && !o.has_c && !o.has_f && !o.has_s && o.has_r then
    gst_audio_channel_mix_fill_one_other m i.c o.r (RATIO_CENTER_REAR sqrt)
  else m

/-- The chain `front <-> center/side/rear`. -/
def fillOthersFront (sqrt : α → α) (i o : DetectPos) (m : Nat → Nat → α) : Nat → Nat → α :=
  if !i.has_f && i.has_c && !i.has_s && o.has_f then
    gst_audio_channel_mix_fill_one_other m i.c o.f (RATIO_CENTER_FRONT sqrt)
  else if !i.has_f && !i.has_c && i.has_s && o.has_f then
    gst_audio_channel_mix_fill_one_other m i.s o.f (RATIO_FRONT_SIDE sqrt)
  else if !i.has_f && i.has_c && i.has_s && o.has_f then
    gst_audio_channel_mix_fill_one_other
      (gst_audio_channel_mix_fill_one_other m i.c o.f (1 / 2 * RATIO_CENTER_FRONT sqrt))
      i.s o.f (1 / 2 * RATIO_FRONT_SIDE sqrt)
  else if !i.has_f && !i.has_c && !i.has_s && i.has_r && o.has_f then
    gst_audio_channel_mix_fill_one_other m i.r o.f RATIO_FRONT_REAR
  else if i.has_f && o.has_c && !o.has_s && !o.has_f then
    gst_audio_channel_mix_fill_one_other m i.f o.c (RATIO_CENTER_FRONT sqrt)
  else if i.has_f && !o.has_c && o.has_s && !o.has_f then
    gst_audio_channel_mix_fill_one_other m i.f o.s (RATIO_FRONT_SIDE sqrt)
  else if i.has_f && o.has_c && o.has_s && !o.has_f then
    gst_audio_channel_mix_fill_one_other
      (gst_audio_channel_mix_fill_one_other m i.f o.c (1 / 2 * RATIO_CENTER_FRONT sqrt))
      i.f o.s (1 / 2 * RATIO_FRONT_SIDE sqrt)
  else if i.has_f && !o.has_c && !o.has_s && !o.has_f && o.has_r then
    gst_audio_channel_mix_fill_one_other m i.f o.r RATIO_FRONT_REAR
  else m

/-- The chain `side <-> center/front/rear`. -/
def fillOthersSide (sqrt : α → α) (i o : DetectPos) (m : Nat → Nat → α) : Nat → Nat → α :=
  if !i.has_s && i.has_f && !i.has_r && o.has_s then
    gst_audio_channel_mix_fill_one_other m i.f o.s (RATIO_FRONT_SIDE sqrt)
  else if !i.has_s && !i.has_f && i.has_r && o.has_s then
    gst_audio_channel_mix_fill_one_other m i.r o.s (RATIO_SIDE_REAR sqrt)
  else if !i.has_s && i.has_f && i.has_r && o.has_s then
    gst_audio_channel_mix_fill_one_other
      (gst_audio_channel_mix_fill_one_other m i.f o.s (1 / 2 * RATIO_FRONT_SIDE sqrt))
      i.r o.s (1 / 2 * RATIO_SIDE_REAR sqrt)
  else if !i.has_s && !i.has_f && !i.has_r && i.has_c && o.has_s then
    gst_audio_channel_mix_fill_one_other m i.c o.s RATIO_CENTER_SIDE
  else if i.has_s && o.has_f && !o.has_r && !o.has_s then
    gst_audio_channel_mix_fill_one_other m i.s o.f (RATIO_FRONT_SIDE sqrt)
  else if i.has_s && !o.has_f && o.has_r && !o.has_s then
    gst_audio_channel_mix_fill_one_other m i.s o.r (RATIO_SIDE_REAR sqrt)
  else if i.has_s && o.has_f && o.has_r && !o.has_s then
    gst_audio_channel_mix_fill_one_other
      (gst_audio_channel_mix_fill_one_other m i.s o.f (1 / 2 * RATIO_FRONT_SIDE sqrt))
      i.s o.r (1 / 2 * RATIO_SIDE_REAR sqrt)
  else if i.has_s && !o.has_f && !o.has_r && o.has_c && !o.has_s then
    gst_audio_channel_mix_fill_one_other m i.s o.c RATIO_CENTER_SIDE
  else m

/-- The chain `rear <-> center/front/side`. -/
def fillOthersRear (sqrt : α → α) (i o : DetectPos) (m : Nat → Nat → α) : Nat → Nat → α :=
  if !i.has_r && i.has_s && o.has_r then
    gst_audio_channel_mix_fill_one_other m i.s o.r (RATIO_SIDE_REAR sqrt)
  else if !i.has_r && !i.has_s && i.has_f && o.has_r then
    gst_audio_channel_mix_fill_one_other m i.f o.r RATIO_FRONT_REAR
  else if !i.has_r && !i.has_s && !i.has_f && i.has_c && o.has_r then
    gst_audio_channel_mix_fill_one_other m i.c o.r (RATIO_CENTER_REAR sqrt)
  else if i.has_r && !o.has_r && o.has_s then
    gst_audio_channel_mix_fill_one_other m i.r o.s (RATIO_SIDE_REAR sqrt)
  else if i.has_r && !o.has_r && !o.has_s && o.has_f then
    gst_audio_channel_mix_fill_one_other m i.r o.f RATIO_FRONT_REAR
  else if i.has_r && !o.has_r && !o.has_s && !o.has_f && o.has_c then
    gst_audio_channel_mix_fill_one_other m i.r o.c (RATIO_CENTER_REAR sqrt)
  else m

/-- The chain `bass <-> any`. -/
def fillOthersBass (sqrt : α → α) (i o : DetectPos) (m : Nat → Nat → α) : Nat → Nat → α :=
  if i.has_b && !o.has_b then
    let m := if o.has_c then
      gst_audio_channel_mix_fill_one_other m i.b o.c (RATIO_CENTER_BASS sqrt) else m
    let m := if o.has_f then
      gst_audio_channel_mix_fill_one_other m i.b o.f RATIO_FRONT_BASS else m
    let m := if o.has_s then
      gst_audio_channel_mix_fill_one_other m i.b o.s (RATIO_SIDE_BASS sqrt) else m
    let m := if o.has_r then
      gst_audio_channel_mix_fill_one_other m i.b o.r (RATIO_REAR_BASS sqrt) else m
    m
  else if !i.has_b && o.has_b then
    let m := if i.has_c then
      gst_audio_channel_mix_fill_one_other m i.c o.b (RATIO_CENTER_BASS sqrt) else m
    let m := if i.has_f then
      gst_audio_channel_mix_fill_one_other m i.f o.b RATIO_FRONT_BASS else m
    let m := if i.has_s then
      gst_audio_channel_mix_fill_one_other m i.s o.b (RATIO_REAR_BASS sqrt) else m
    let m := if i.has_r then
      gst_audio_channel_mix_fill_one_other m i.r o.b (RATIO_REAR_BASS sqrt) else m
    m
  else m

/-- The function `gst_audio_channel_mix_fill_others` -/
def gst_audio_channel_mix_fill_others (sqrt : α → α) (mix : GstAudioChannelMix α) :
    GstAudioChannelMix α :=
  let i := gst_audio_channel_mix_detect_pos mix.in_channels mix.in_position
  let o := gst_audio_channel_mix_detect_pos mix.out_channels mix.out_position
  { mix with
    matrix :=
      fillOthersBass sqrt i o
        (fillOthersRear sqrt i o
          (fillOthersSide sqrt i o
            (fillOthersFront sqrt i o
              (fillOthersCenter sqrt i o mix.matrix)))) }

/-- The five groups of positions that `gst_audio_channel_mix_detect_pos` tells
apart: front (`f`), center (`c`), rear (`r`), side (`s`) and bass (`b`). -/
inductive SpatialGroup where
  | front
  | center
  | rear
  | side
  | bass
  deriving DecidableEq

/-- The index array that `gst_audio_channel_mix_detect_pos` fills for a group. -/
def DetectPos.group (d : DetectPos) : SpatialGroup → Idx3
  | .front => d.f
  | .center => d.c
  | .rear => d.r
  | .side => d.s
  | .bass => d.b

/-- The group and the array slot (0 left, 1 center, 2 right) that the `switch`
of `gst_audio_channel_mix_detect_pos` assigns to a position; `none` for the
positions of its `default` case. -/
def slotOf : GstAudioChannelPosition → Option (SpatialGroup × Nat)
  | .MONO => some (.front, 1)
  | .FRONT_LEFT => some (.front, 0)
  | .FRONT_RIGHT => some (.front, 2)
  | .FRONT_CENTER => some (.center, 1)
  | .FRONT_LEFT_OF_CENTER => some (.center, 0)
  | .FRONT_RIGHT_OF_CENTER => some (.center, 2)
  | .REAR_CENTER => some (.rear, 1)
  | .REAR_LEFT => some (.rear, 0)
  | .REAR_RIGHT => some (.rear, 2)
  | .SIDE_LEFT => some (.side, 0)
  | .SIDE_RIGHT => some (.side, 2)
  | .LFE1 => some (.bass, 1)
  | _ => none

/-- Entry `k` of an index array. -/
def Idx3.get (p : Idx3) : Nat → Int
  | 0 => p.i0
  | 1 => p.i1
  | _ => p.i2

/-- The entries of an index array are `-1` or indices, and the entries other than
`-1` are pairwise different: what `gst_audio_channel_mix_detect_pos` produces,
each channel index being stored in one slot. -/
def Idx3.Distinct (p : Idx3) : Prop :=
  -1 ≤ p.i0 ∧ -1 ≤ p.i1 ∧ -1 ≤ p.i2 ∧
  (p.i0 ≠ -1 → p.i0 ≠ p.i1) ∧ (p.i0 ≠ -1 → p.i0 ≠ p.i2) ∧ (p.i1 ≠ -1 → p.i1 ≠ p.i2)

/-- The flag `has_*` that `gst_audio_channel_mix_detect_pos` sets for a group. -/
def DetectPos.has (d : DetectPos) : SpatialGroup → Bool
  | .front => d.has_f
  | .center => d.has_c
  | .rear => d.has_r
  | .side => d.has_s
  | .bass => d.has_b

/-- The value left in a scan variable that starts at `-1` and is assigned `n` at
every channel `n < channels` whose position satisfies `q`: the index of the last
such channel, and `-1` when there is none. -/
def IsLastIndex (channels : Nat) (position : List GstAudioChannelPosition)
    (q : GstAudioChannelPosition → Prop) (x : Int) : Prop :=
  (x = -1 ∧ ∀ k, k < channels → ¬ q (posAt position k)) ∨
  (0 ≤ x ∧ x.toNat < channels ∧ q (posAt position x.toNat) ∧
    ∀ k, k < channels → q (posAt position k) → k ≤ x.toNat)

/-- Channel `a` is the last of the first `channels` channels of a layout that has
position `p` (the only one when the layout has no repeated position). -/
def IsLastAt (channels : Nat) (position : List GstAudioChannelPosition)
    (p : GstAudioChannelPosition) (a : Nat) : Prop :=
  a < channels ∧ posAt position a = p ∧
    ∀ k, k < channels → posAt position k = p → k ≤ a

/-- None of the first `channels` channels of a layout has position `p`. -/
def Lacks (channels : Nat) (position : List GstAudioChannelPosition)
    (p : GstAudioChannelPosition) : Prop :=
  ∀ k, k < channels → posAt position k ≠ p

/-- The first `channels` channels of a layout include a channel of group `X`. -/
def HasGroup (channels : Nat) (position : List GstAudioChannelPosition)
    (X : SpatialGroup) : Prop :=
  ∃ k, k < channels ∧ ∃ s, slotOf (posAt position k) = some (X, s)

/-- The value of a scan variable after the channels of the scanned layout have
been reordered: `-1` stays `-1`, and the index `x` becomes `q x`. -/
def movedIndex (q : Nat → Nat) (x : Int) : Int :=
  if x = -1 then -1 else ((q x.toNat : Nat) : Int)

/-- An index array after the channels of the scanned layout have been reordered. -/
def Idx3.moved (q : Nat → Nat) (p : Idx3) : Idx3 :=
  { i0 := movedIndex q p.i0, i1 := movedIndex q p.i1, i2 := movedIndex q p.i2 }

/-- The out-parameters of `gst_audio_channel_mix_detect_pos` after the channels
of the scanned layout have been reordered: the flags stay, the index arrays move. -/
def DetectPos.moved (q : Nat → Nat) (d : DetectPos) : DetectPos :=
  { f := d.f.moved q, has_f := d.has_f, c := d.c.moved q, has_c := d.has_c,
    r := d.r.moved q, has_r := d.has_r, s := d.s.moved q, has_s := d.has_s,
    b := d.b.moved q, has_b := d.has_b }

/-- Matrix `m2` is matrix `m` with its rows reordered: row `a` of `m2` is row
`p a` of `m`. -/
def RowsMoved {β : Type} (p : Nat → Nat) (m2 m : Nat → Nat → β) : Prop :=
  ∀ a b, m2 a b = m (p a) b

/-- The ratios that `gst_audio_channel_mix_fill_others` passes to
`gst_audio_channel_mix_fill_one_other`. -/
def othersRatios (sqrt : α → α) : List α :=
  [ RATIO_CENTER_FRONT sqrt, RATIO_CENTER_SIDE, RATIO_CENTER_REAR sqrt,
    RATIO_FRONT_SIDE sqrt, RATIO_FRONT_REAR, RATIO_SIDE_REAR sqrt,
    RATIO_CENTER_BASS sqrt, RATIO_FRONT_BASS, RATIO_SIDE_BASS sqrt, RATIO_REAR_BASS sqrt,
    1 / 2 * RATIO_CENTER_FRONT sqrt, 1 / 2 * RATIO_FRONT_SIDE sqrt,
    1 / 2 * RATIO_SIDE_REAR sqrt ]

/-- The column sum `sum` of `gst_audio_channel_mix_fill_normalize`:
`sum = 0.0; for (i ...) sum += fabs (matrix[i][j]);`. -/
def normalizeSum (mix : GstAudioChannelMix α) (j : Nat) : α :=
  forLoop (fun i sum => sum + |mix.matrix i j|) mix.in_channels 0

/-- The value of `top` after the first loop of
`gst_audio_channel_mix_fill_normalize`. -/
def normalizeTop (mix : GstAudioChannelMix α) : α :=
  forLoop (fun j top => if normalizeSum mix j > top then normalizeSum mix j else top)
    mix.out_channels 0

/-- The function `gst_audio_channel_mix_fill_normalize` -/
def gst_audio_channel_mix_fill_normalize (mix : GstAudioChannelMix α) : GstAudioChannelMix α :=
  let top := normalizeTop mix
  if top = 0 then mix
  else
    { mix with
      matrix :=
        forLoop (fun j m =>
          forLoop (fun i m => setCell m i j (m i j / top)) mix.in_channels m)
          mix.out_channels mix.matrix }

/-- The function `gst_audio_channel_mix_fill_special`: the matrix after the call and the
returned `gboolean`. -/
def gst_audio_channel_mix_fill_special (mix : GstAudioChannelMix α) :
    GstAudioChannelMix α × Bool :=
  if mix.in_channels = 2 ∧ mix.out_channels = 1 ∧
      ((posAt mix.in_position 0 = .FRONT_LEFT ∧ posAt mix.in_position 1 = .FRONT_RIGHT) ∨
       (posAt mix.in_position 0 = .FRONT_RIGHT ∧ posAt mix.in_position 1 = .FRONT_LEFT)) ∧
      posAt mix.out_position 0 = .MONO then
    ({ mix with matrix := setCell (setCell mix.matrix 0 0 (1 / 2)) 1 0 (1 / 2) }, true)
  else if mix.in_channels = 1 ∧ mix.out_channels = 2 ∧
      ((posAt mix.out_position 0 = .FRONT_LEFT ∧ posAt mix.out_position 1 = .FRONT_RIGHT) ∨
       (posAt mix.out_position 0 = .FRONT_RIGHT ∧ posAt mix.out_position 1 = .FRONT_LEFT)) ∧
      posAt mix.in_position 0 = .MONO then
    ({ mix with matrix := setCell (setCell mix.matrix 0 0 1) 0 1 1 }, true)
  else (mix, false)

/-- The function `gst_audio_channel_mix_fill_matrix` -/
def gst_audio_channel_mix_fill_matrix (sqrt : α → α) (mix : GstAudioChannelMix α) :
    GstAudioChannelMix α :=
  if (gst_audio_channel_mix_fill_special mix).2 then (gst_audio_channel_mix_fill_special mix).1
  else
    let mix := gst_audio_channel_mix_fill_identical (gst_audio_channel_mix_fill_special mix).1
    if mix.flags &&& GST_AUDIO_CHANNEL_MIX_FLAGS_UNPOSITIONED_IN = 0 then
      gst_audio_channel_mix_fill_normalize
        (gst_audio_channel_mix_fill_others sqrt
          (gst_audio_channel_mix_fill_compatible mix))
    else mix

end Builder

section Engine

variable {α : Type} [LinearOrderedField α] [FloorRing α]

/-- The function `gst_audio_channel_mix_setup_matrix_int`; `factor` is `1 << 10`. -/
def gst_audio_channel_mix_setup_matrix_int (mix : GstAudioChannelMix α) : GstAudioChannelMix α :=
  let factor : α := ((1 <<< INT_MATRIX_FACTOR_EXPONENT : Nat) : α)
  { mix with
    matrix_int :=
      forLoop (fun i mi =>
        forLoop (fun j mi => setCell mi i j (truncToInt (mix.matrix i j * factor)))
          mix.out_channels mi) mix.in_channels (fun _ _ => 0) }

/-- The function `gst_audio_channel_mix_setup_matrix`: a zeroed matrix is allocated, filled,
and the fixed-point matrix is derived from it. -/
def gst_audio_channel_mix_setup_matrix (sqrt : α → α) (mix : GstAudioChannelMix α) :
    GstAudioChannelMix α :=
  gst_audio_channel_mix_setup_matrix_int
    (gst_audio_channel_mix_fill_matrix sqrt { mix with matrix := fun _ _ => 0 })

/-- The value stored in `tmp[out]` for frame `n` by
`gst_audio_channel_mix_mix_int`: accumulate in a `gint64`, shift right by
`INT_MATRIX_FACTOR_EXPONENT`, clip to the `gint32` range. -/
def mixIntSample (mix : GstAudioChannelMix α) (mem : Nat → Int) (in_data n out : Nat) : Int :=
  let res : Int :=
    forLoop (fun i res =>
      wrap64 (res + wrap64 (mem (in_data + (n * mix.in_channels + i)) * mix.matrix_int i out)))
      mix.in_channels 0
  let res := res >>> INT_MATRIX_FACTOR_EXPONENT
  if res < G_MININT32 then G_MININT32
  else if res > G_MAXINT32 then G_MAXINT32
  else res

/-- One iteration of the frame loop of `gst_audio_channel_mix_mix_int`: every
output sample of frame `n` is staged in `tmp`, then `tmp` is copied to
`out_data[n * outchannels ..]`. -/
def mixIntFrame (mix : GstAudioChannelMix α) (in_data out_data : Nat) (n : Nat)
    (mem : Nat → Int) : Nat → Int :=
  let tmp : Nat → Int :=
    forLoop (fun out tmp => setAt tmp out (mixIntSample mix mem in_data n out))
      mix.out_channels (fun _ => 0)
  -- memcpy (&out_data[n * outchannels], tmp, sizeof (gint32) * outchannels)
  forLoop (fun k mem => setAt mem (out_data + (n * mix.out_channels + k)) (tmp k))
    mix.out_channels mem

/-- The function `gst_audio_channel_mix_mix_int` on the sample memory `mem`: `in_data` and
`out_data` are the offsets of the two buffers (equal offsets are the same
buffer); the result is the memory after the call. Frames run from
`samples - 1` down to `0` when `outchannels > inchannels`, else from `0` up. -/
def gst_audio_channel_mix_mix_int (mix : GstAudioChannelMix α) (mem : Nat → Int)
    (in_data out_data : Nat) (samples : Int) : Nat → Int :=
  let backwards : Bool := decide (mix.out_channels > mix.in_channels)
  if backwards then forLoopDown (mixIntFrame mix in_data out_data) samples.toNat mem
  else forLoop (mixIntFrame mix in_data out_data) samples.toNat mem

/-- The value stored in `tmp[out]` for frame `n` by
`gst_audio_channel_mix_mix_double`: accumulate in a `gdouble`, clip to
`[-1.0, 1.0]`. -/
def mixDoubleSample (mix : GstAudioChannelMix α) (mem : Nat → α) (in_data n out : Nat) : α :=
  let res : α :=
    forLoop (fun i res => res + mem (in_data + (n * mix.in_channels + i)) * mix.matrix i out)
      mix.in_channels 0
  if res < -1 then -1
  else if res > 1 then 1
  else res

/-- One iteration of the frame loop of `gst_audio_channel_mix_mix_double`:
every output sample of frame `n` is staged in `tmp`, then `tmp` is copied to
`out_data[n * outchannels ..]`. -/
def mixDoubleFrame (mix : GstAudioChannelMix α) (in_data out_data : Nat) (n : Nat)
    (mem : Nat → α) : Nat → α :=
  let tmp : Nat → α :=
    forLoop (fun out tmp => setAt tmp out (mixDoubleSample mix mem in_data n out))
      mix.out_channels (fun _ => 0)
  -- memcpy (&out_data[n * outchannels], tmp, sizeof (gdouble) * outchannels)
  forLoop (fun k mem => setAt mem (out_data + (n * mix.out_channels + k)) (tmp k))
    mix.out_channels mem

/-- The function `gst_audio_channel_mix_mix_double` on the sample memory `mem` of
doubles: `in_data` and `out_data` are the offsets of the two buffers; the
result is the memory after the call. The frame order is that of
`gst_audio_channel_mix_mix_int`. -/
def gst_audio_channel_mix_mix_double (mix : GstAudioChannelMix α) (mem : Nat → α)
    (in_data out_data : Nat) (samples : Int) : Nat → α :=
  let backwards : Bool := decide (mix.out_channels > mix.in_channels)
  if backwards then forLoopDown (mixDoubleFrame mix in_data out_data) samples.toNat mem
  else forLoop (mixDoubleFrame mix in_data out_data) samples.toNat mem

/-- The two buffers of a call of a mixing function are the same
buffer, or they do not overlap. -/
def BuffersOk (mix : GstAudioChannelMix α) (in_data out_data : Nat) (samples : Int) : Prop :=
  in_data = out_data ∨
  in_data + samples.toNat * mix.in_channels ≤ out_data ∨
  out_data + samples.toNat * mix.out_channels ≤ in_data

instance (mix : GstAudioChannelMix α) (in_data out_data : Nat) (samples : Int) :
    Decidable (BuffersOk mix in_data out_data samples) := by
  unfold BuffersOk
  infer_instance

/-- The instance as `gst_audio_channel_mix_new` has it before it calls
`gst_audio_channel_mix_setup_matrix`: zeroed by `g_slice_new0`, with the flags,
the format, the channel counts and the copied positions assigned. -/
def mixInit (flags : Nat) (format : GstAudioFormat)
    (in_channels : Int) (in_position : List GstAudioChannelPosition)
    (out_channels : Int) (out_position : List GstAudioChannelPosition) :
    GstAudioChannelMix α :=
  { flags := flags
    format := format
    in_channels := in_channels.toNat
    out_channels := out_channels.toNat
    in_position := in_position.take in_channels.toNat
    out_position := out_position.take out_channels.toNat
    matrix := fun _ _ => 0
    matrix_int := fun _ _ => 0 }

/-- The function `gst_audio_channel_mix_new`; `none` is the `NULL` of a failed
`g_return_val_if_fail`. -/
def gst_audio_channel_mix_new (sqrt : α → α) (flags : Nat) (format : GstAudioFormat)
    (in_channels : Int) (in_position : List GstAudioChannelPosition)
    (out_channels : Int) (out_position : List GstAudioChannelPosition) :
    Option (GstAudioChannelMix α) :=
  if ¬ (format = .S32 ∨ format = .F64) then none
  else if ¬ (in_channels > 0 ∧ in_channels < 64) then none
  else if ¬ (out_channels > 0 ∧ out_channels < 64) then none
  else
    some (gst_audio_channel_mix_setup_matrix sqrt
      (mixInit flags format in_channels in_position out_channels out_position))

/-- The layout pairs that `gst_audio_channel_mix_fill_special` recognises:
front-left and front-right (in either order) to mono, and mono to front-left
and front-right (in either order). -/
def IsSpecialPair (in_channels : Nat) (in_position : List GstAudioChannelPosition)
    (out_channels : Nat) (out_position : List GstAudioChannelPosition) : Prop :=
  (in_channels = 2 ∧ out_channels = 1 ∧
    ((posAt in_position 0 = .FRONT_LEFT ∧ posAt in_position 1 = .FRONT_RIGHT) ∨
     (posAt in_position 0 = .FRONT_RIGHT ∧ posAt in_position 1 = .FRONT_LEFT)) ∧
    posAt out_position 0 = .MONO) ∨
  (in_channels = 1 ∧ out_channels = 2 ∧
    ((posAt out_position 0 = .FRONT_LEFT ∧ posAt out_position 1 = .FRONT_RIGHT) ∨
     (posAt out_position 0 = .FRONT_RIGHT ∧ posAt out_position 1 = .FRONT_LEFT)) ∧
    posAt in_position 0 = .MONO)

instance (in_channels : Nat) (in_position : List GstAudioChannelPosition)
    (out_channels : Nat) (out_position : List GstAudioChannelPosition) :
    Decidable (IsSpecialPair in_channels in_position out_channels out_position) := by
  unfold IsSpecialPair
  infer_instance

/-- The function `gst_audio_channel_mix_is_passthrough`; `value` gives the integer value of
each enumerator of `GstAudioChannelPosition` (declared in `audio-channels.h`). -/
def gst_audio_channel_mix_is_passthrough (value : GstAudioChannelPosition → Int)
    (mix : GstAudioChannelMix α) : Bool :=
  if mix.in_channels ≠ mix.out_channels then false
  else if mix.in_channels = 1 ∧ mix.out_channels = 1 then true
  else
    let masks : Nat × Nat :=
      forLoop (fun i (mk : Nat × Nat) =>
        (mk.1 ||| toGuint64 (value (posAt mix.in_position i)),
         mk.2 ||| toGuint64 (value (posAt mix.out_position i))))
        mix.in_channels (0, 0)
    decide (masks.1 = masks.2)

/-- The enumerator values of `GstAudioChannelPosition` in GStreamer's
`audio-channels.h`: `NONE`, `MONO`, `INVALID` are `-3`, `-2`, `-1`, the speaker
positions count up from `FRONT_LEFT = 0`. -/
def gstPositionValue : GstAudioChannelPosition → Int
  | .NONE => -3
  | .MONO => -2
  | .INVALID => -1
  | .FRONT_LEFT => 0
  | .FRONT_RIGHT => 1
  | .FRONT_CENTER => 2
  | .LFE1 => 3
  | .REAR_LEFT => 4
  | .REAR_RIGHT => 5
  | .FRONT_LEFT_OF_CENTER => 6
  | .FRONT_RIGHT_OF_CENTER => 7
  | .REAR_CENTER => 8
  | .LFE2 => 9
  | .SIDE_LEFT => 10
  | .SIDE_RIGHT => 11
  | .OTHER n => 12 + n

end Engine


/-! ## Loop lemmas -/

section Loops

theorem forLoop_succ {σ : Type} (body : Nat → σ → σ) (n : Nat) (s : σ) :
    forLoop body (n + 1) s = body n (forLoop body n s) := rfl

theorem forLoopDown_succ {σ : Type} (body : Nat → σ → σ) (n : Nat) (s : σ) :
    forLoopDown body (n + 1) s = forLoopDown body n (body n s) := rfl

/-- A loop that stores `f k` at index `k` of an array. -/
theorem forLoop_setAt {β : Type} (f : Nat → β) (n : Nat) (init : Nat → β) (k : Nat) :
    forLoop (fun o t => setAt t o (f o)) n init k = if k < n then f k else init k := by
  induction n with
  | zero => simp [forLoop]
  | succ n ih =>
    simp only [forLoop, setAt]
    by_cases hk : k = n
    · subst hk; simp
    · rw [if_neg hk, ih]
      by_cases hlt : k < n
      · simp [hlt, Nat.lt_succ_of_lt hlt]
      · have : ¬ k < n + 1 := by omega
        simp [hlt, this]

/-- The copy loop `memcpy (&buf[base], tmp, n)`. -/
theorem forLoop_memcpy {β : Type} (tmp : Nat → β) (base n : Nat) (mem : Nat → β) (a : Nat) :
    forLoop (fun k m => setAt m (base + k) (tmp k)) n mem a =
      if base ≤ a ∧ a < base + n then tmp (a - base) else mem a := by
  induction n with
  | zero =>
    have : ¬ (base ≤ a ∧ a < base) := by omega
    simp [forLoop, this]
  | succ n ih =>
    simp only [forLoop, setAt]
    by_cases hk : a = base + n
    · subst hk
      have : base ≤ base + n ∧ base + n < base + (n + 1) := by omega
      simp [this]
    · rw [if_neg hk, ih]
      by_cases hlt : base ≤ a ∧ a < base + n
      · have : base ≤ a ∧ a < base + (n + 1) := by omega
        simp [hlt, this]
      · have : ¬ (base ≤ a ∧ a < base + (n + 1)) := by omega
        simp [hlt, this]

/-- A loop whose body only reads the state through `g` agrees on states that
agree through the bodies. -/
theorem forLoop_congr {σ : Type} (body body2 : Nat → σ → σ) (n : Nat) (s : σ)
    (h : ∀ i, i < n → ∀ t, body i t = body2 i t) :
    forLoop body n s = forLoop body2 n s := by
  induction n with
  | zero => rfl
  | succ n ih =>
    simp only [forLoop]
    rw [ih (fun i hi t => h i (Nat.lt_succ_of_lt hi) t), h n (Nat.lt_succ_self n)]

end Loops

/-! ## The S32 mixing engine -/

section EngineLemmas

variable {α : Type}

/-- A frame's sample depends on the memory only through the frame's input. -/
theorem mixIntSample_congr (mix : GstAudioChannelMix α) (mem mem2 : Nat → Int)
    (p p2 n o : Nat)
    (h : ∀ i, i < mix.in_channels →
      mem (p + (n * mix.in_channels + i)) = mem2 (p2 + (n * mix.in_channels + i))) :
    mixIntSample mix mem p n o = mixIntSample mix mem2 p2 n o := by
  unfold mixIntSample
  have : forLoop (fun i res =>
      wrap64 (res + wrap64 (mem (p + (n * mix.in_channels + i)) * mix.matrix_int i o)))
      mix.in_channels 0 =
    forLoop (fun i res =>
      wrap64 (res + wrap64 (mem2 (p2 + (n * mix.in_channels + i)) * mix.matrix_int i o)))
      mix.in_channels 0 := by
    apply forLoop_congr
    intro i hi t
    rw [h i hi]
  rw [this]

/-- What one iteration of the frame loop does to the memory. -/
theorem mixIntFrame_apply (mix : GstAudioChannelMix α) (p q n : Nat) (mem : Nat → Int)
    (a : Nat) :
    mixIntFrame mix p q n mem a =
      if q + n * mix.out_channels ≤ a ∧ a < q + n * mix.out_channels + mix.out_channels then
        mixIntSample mix mem p n (a - (q + n * mix.out_channels))
      else mem a := by
  unfold mixIntFrame
  have h1 : (fun k (m : Nat → Int) => setAt m (q + (n * mix.out_channels + k))
      (forLoop (fun out tmp => setAt tmp out (mixIntSample mix mem p n out))
        mix.out_channels (fun _ => 0) k)) =
      (fun k (m : Nat → Int) => setAt m ((q + n * mix.out_channels) + k)
      (forLoop (fun out tmp => setAt tmp out (mixIntSample mix mem p n out))
        mix.out_channels (fun _ => 0) k)) := by
    funext k m
    rw [Nat.add_assoc]
  rw [h1, forLoop_memcpy]
  split_ifs with h
  · rw [forLoop_setAt]
    have : a - (q + n * mix.out_channels) < mix.out_channels := by omega
    simp [this]
  · rfl

theorem mixIntFrame_written (mix : GstAudioChannelMix α) (p q n : Nat) (mem : Nat → Int)
    (o : Nat) (ho : o < mix.out_channels) :
    mixIntFrame mix p q n mem (q + (n * mix.out_channels + o)) = mixIntSample mix mem p n o := by
  rw [mixIntFrame_apply]
  have h : q + n * mix.out_channels ≤ q + (n * mix.out_channels + o) ∧
      q + (n * mix.out_channels + o) < q + n * mix.out_channels + mix.out_channels := by omega
  rw [if_pos h]
  congr 1
  omega

theorem mixIntFrame_other (mix : GstAudioChannelMix α) (p q n : Nat) (mem : Nat → Int)
    (a : Nat)
    (ha : ¬ (q + n * mix.out_channels ≤ a ∧ a < q + (n + 1) * mix.out_channels)) :
    mixIntFrame mix p q n mem a = mem a := by
  rw [mixIntFrame_apply]
  have : ¬ (q + n * mix.out_channels ≤ a ∧
      a < q + n * mix.out_channels + mix.out_channels) := by
    rw [Nat.succ_mul] at ha
    omega
  rw [if_neg this]

end EngineLemmas


section FrameLoops

variable {α : Type}

/-- Frames visited first to last: when no frame reads what an earlier frame
has written, every frame's output is computed from the initial memory, and
nothing outside the output buffer changes. -/
theorem forLoop_frames (mix : GstAudioChannelMix α) (p q : Nat) (mem : Nat → Int) (S : Nat)
    (hsafe : ∀ n, n < S → ∀ i, i < mix.in_channels →
      ¬ (q ≤ p + (n * mix.in_channels + i) ∧
         p + (n * mix.in_channels + i) < q + n * mix.out_channels)) :
    (∀ n, n < S → ∀ o, o < mix.out_channels →
      forLoop (mixIntFrame mix p q) S mem (q + (n * mix.out_channels + o)) =
        mixIntSample mix mem p n o) ∧
    (∀ a, ¬ (q ≤ a ∧ a < q + S * mix.out_channels) →
      forLoop (mixIntFrame mix p q) S mem a = mem a) := by
  induction S with
  | zero =>
    constructor
    · intro n hn; omega
    · intro a _; rfl
  | succ S ih =>
    have ih2 := ih (fun n hn i hi => hsafe n (Nat.lt_succ_of_lt hn) i hi)
    obtain ⟨ihw, iho⟩ := ih2
    have hSm : (S + 1) * mix.out_channels = S * mix.out_channels + mix.out_channels :=
      Nat.succ_mul _ _
    constructor
    · intro n hn o ho
      rw [forLoop_succ]
      by_cases hnS : n = S
      · subst hnS
        rw [mixIntFrame_written _ _ _ _ _ _ ho]
        apply mixIntSample_congr
        intro i hi
        exact iho _ (hsafe n (Nat.lt_succ_self n) i hi)
      · have hlt : n < S := by omega
        have hle : (n + 1) * mix.out_channels ≤ S * mix.out_channels :=
          Nat.mul_le_mul_right _ hlt
        have hnm : (n + 1) * mix.out_channels = n * mix.out_channels + mix.out_channels :=
          Nat.succ_mul _ _
        rw [mixIntFrame_other]
        · exact ihw n hlt o ho
        · omega
    · intro a ha
      rw [forLoop_succ, mixIntFrame_other]
      · apply iho
        omega
      · omega

/-- Frames visited last to first: when no frame reads what a later frame has
written, every frame's output is computed from the initial memory, and nothing
outside the output buffer changes. -/
theorem forLoopDown_frames (mix : GstAudioChannelMix α) (p q : Nat) (S : Nat) :
    ∀ mem : Nat → Int,
    (∀ n n2, n < n2 → n2 < S → ∀ i, i < mix.in_channels →
      ¬ (q + n2 * mix.out_channels ≤ p + (n * mix.in_channels + i) ∧
         p + (n * mix.in_channels + i) < q + (n2 + 1) * mix.out_channels)) →
    (∀ n, n < S → ∀ o, o < mix.out_channels →
      forLoopDown (mixIntFrame mix p q) S mem (q + (n * mix.out_channels + o)) =
        mixIntSample mix mem p n o) ∧
    (∀ a, ¬ (q ≤ a ∧ a < q + S * mix.out_channels) →
      forLoopDown (mixIntFrame mix p q) S mem a = mem a) := by
  induction S with
  | zero =>
    intro mem _
    constructor
    · intro n hn; omega
    · intro a _; rfl
  | succ S ih =>
    intro mem hsafe
    have ih2 := ih (mixIntFrame mix p q S mem)
      (fun n n2 h1 h2 i hi => hsafe n n2 h1 (Nat.lt_succ_of_lt h2) i hi)
    obtain ⟨ihw, iho⟩ := ih2
    have hSm : (S + 1) * mix.out_channels = S * mix.out_channels + mix.out_channels :=
      Nat.succ_mul _ _
    constructor
    · intro n hn o ho
      rw [forLoopDown_succ]
      by_cases hnS : n = S
      · subst hnS
        rw [iho]
        · exact mixIntFrame_written _ _ _ _ _ _ ho
        · omega
      · have hlt : n < S := by omega
        rw [ihw n hlt o ho]
        apply mixIntSample_congr
        intro i hi
        apply mixIntFrame_other
        exact hsafe n S hlt (Nat.lt_succ_self S) i hi
    · intro a ha
      rw [forLoopDown_succ, iho]
      · apply mixIntFrame_other
        omega
      · omega

/-- Semantics of `gst_audio_channel_mix_mix_int`: output sample `out` of frame
`n` is computed from the input frame `n` as it was before the call, for
buffers that are identical or disjoint. -/
theorem mix_int_sample (mix : GstAudioChannelMix α) (mem : Nat → Int) (p q : Nat)
    (samples : Int) (hb : BuffersOk mix p q samples)
    (n : Nat) (hn : n < samples.toNat) (o : Nat) (ho : o < mix.out_channels) :
    gst_audio_channel_mix_mix_int mix mem p q samples (q + (n * mix.out_channels + o)) =
      mixIntSample mix mem p n o := by
  unfold gst_audio_channel_mix_mix_int
  by_cases hbw : mix.out_channels > mix.in_channels
  · rw [if_pos (by simpa using hbw)]
    refine (forLoopDown_frames mix p q samples.toNat mem ?_).1 n hn o ho
    intro a b hab hbS i hi
    have h1 : (a + 1) * mix.in_channels ≤ b * mix.in_channels := Nat.mul_le_mul_right _ hab
    have h2 : b * mix.in_channels ≤ b * mix.out_channels :=
      Nat.mul_le_mul_left _ (Nat.le_of_lt hbw)
    have h3 : (a + 1) * mix.in_channels = a * mix.in_channels + mix.in_channels :=
      Nat.succ_mul _ _
    have h4 : (b + 1) * mix.out_channels ≤ samples.toNat * mix.out_channels :=
      Nat.mul_le_mul_right _ hbS
    have h5 : (a + 1) * mix.in_channels ≤ samples.toNat * mix.in_channels :=
      Nat.mul_le_mul_right _ (by omega)
    have h6 : (b + 1) * mix.out_channels = b * mix.out_channels + mix.out_channels :=
      Nat.succ_mul _ _
    rcases hb with hb | hb | hb
    · subst hb; omega
    · omega
    · omega
  · rw [if_neg (by simpa using hbw)]
    refine (forLoop_frames mix p q mem samples.toNat ?_).1 n hn o ho
    intro a haS i hi
    have h2 : a * mix.out_channels ≤ a * mix.in_channels :=
      Nat.mul_le_mul_left _ (Nat.le_of_not_gt hbw)
    have h4 : a * mix.out_channels ≤ samples.toNat * mix.out_channels :=
      Nat.mul_le_mul_right _ (Nat.le_of_lt haS)
    have h5 : (a + 1) * mix.in_channels ≤ samples.toNat * mix.in_channels :=
      Nat.mul_le_mul_right _ haS
    have h3 : (a + 1) * mix.in_channels = a * mix.in_channels + mix.in_channels :=
      Nat.succ_mul _ _
    rcases hb with hb | hb | hb
    · subst hb; omega
    · omega
    · omega

/-- Memory outside the output buffer is left as it was. -/
theorem mix_int_outside (mix : GstAudioChannelMix α) (mem : Nat → Int) (p q : Nat)
    (samples : Int) (hb : BuffersOk mix p q samples) (a : Nat)
    (ha : ¬ (q ≤ a ∧ a < q + samples.toNat * mix.out_channels)) :
    gst_audio_channel_mix_mix_int mix mem p q samples a = mem a := by
  unfold gst_audio_channel_mix_mix_int
  by_cases hbw : mix.out_channels > mix.in_channels
  · rw [if_pos (by simpa using hbw)]
    refine (forLoopDown_frames mix p q samples.toNat mem ?_).2 a ha
    intro a b hab hbS i hi
    have h1 : (a + 1) * mix.in_channels ≤ b * mix.in_channels := Nat.mul_le_mul_right _ hab
    have h2 : b * mix.in_channels ≤ b * mix.out_channels :=
      Nat.mul_le_mul_left _ (Nat.le_of_lt hbw)
    have h3 : (a + 1) * mix.in_channels = a * mix.in_channels + mix.in_channels :=
      Nat.succ_mul _ _
    have h4 : (b + 1) * mix.out_channels ≤ samples.toNat * mix.out_channels :=
      Nat.mul_le_mul_right _ hbS
    have h5 : (a + 1) * mix.in_channels ≤ samples.toNat * mix.in_channels :=
      Nat.mul_le_mul_right _ (by omega)
    have h6 : (b + 1) * mix.out_channels = b * mix.out_channels + mix.out_channels :=
      Nat.succ_mul _ _
    rcases hb with hb | hb | hb
    · subst hb; omega
    · omega
    · omega
  · rw [if_neg (by simpa using hbw)]
    refine (forLoop_frames mix p q mem samples.toNat ?_).2 a ha
    intro a haS i hi
    have h2 : a * mix.out_channels ≤ a * mix.in_channels :=
      Nat.mul_le_mul_left _ (Nat.le_of_not_gt hbw)
    have h4 : a * mix.out_channels ≤ samples.toNat * mix.out_channels :=
      Nat.mul_le_mul_right _ (Nat.le_of_lt haS)
    have h5 : (a + 1) * mix.in_channels ≤ samples.toNat * mix.in_channels :=
      Nat.mul_le_mul_right _ haS
    have h3 : (a + 1) * mix.in_channels = a * mix.in_channels + mix.in_channels :=
      Nat.succ_mul _ _
    rcases hb with hb | hb | hb
    · subst hb; omega
    · omega
    · omega

end FrameLoops


/-! ## Loops over the cells of a matrix -/

section CellLoops

/-- A loop over the rows of column `j` that rewrites each visited cell from
its own value. -/
theorem forLoop_column {β : Type} (g : β → Nat → β) (j N : Nat) (m0 : Nat → Nat → β)
    (a b : Nat) :
    forLoop (fun i m => setCell m i j (g (m i j) i)) N m0 a b =
      if a < N ∧ b = j then g (m0 a j) a else m0 a b := by
  induction N generalizing a b with
  | zero => simp [forLoop]
  | succ N ih =>
    simp only [forLoop, setCell]
    by_cases h : a = N ∧ b = j
    · obtain ⟨h1, h2⟩ := h
      subst h1; subst h2
      simp [ih]
    · rw [if_neg h, ih]
      by_cases h2 : a < N ∧ b = j
      · have : a < N + 1 ∧ b = j := ⟨Nat.lt_succ_of_lt h2.1, h2.2⟩
        simp [h2, this]
      · have : ¬ (a < N + 1 ∧ b = j) := by
          intro h3
          rcases Nat.lt_succ_iff_lt_or_eq.mp h3.1 with h4 | h4
          · exact h2 ⟨h4, h3.2⟩
          · exact h ⟨h4, h3.2⟩
        simp [h2, this]

/-- The nested loop `for (j ...) for (i ...) m[i][j] = g (m[i][j], i, j)`. -/
theorem forLoop_columns {β : Type} (g : β → Nat → Nat → β) (N M : Nat) (m0 : Nat → Nat → β)
    (a b : Nat) :
    forLoop (fun j m => forLoop (fun i m => setCell m i j (g (m i j) i j)) N m) M m0 a b =
      if a < N ∧ b < M then g (m0 a b) a b else m0 a b := by
  induction M generalizing a b with
  | zero => simp [forLoop]
  | succ M ih =>
    rw [forLoop_succ]
    have hc := forLoop_column (fun x i => g x i M) M N
      (forLoop (fun j m => forLoop (fun i m => setCell m i j (g (m i j) i j)) N m) M m0) a b
    simp only [] at hc
    rw [hc]
    by_cases h : a < N ∧ b = M
    · obtain ⟨h1, h2⟩ := h
      subst h2
      have h3 : ¬ (a < N ∧ b < b) := by omega
      simp [h1, ih, h3]
    · rw [if_neg h, ih]
      by_cases h2 : a < N ∧ b < M
      · have : a < N ∧ b < M + 1 := ⟨h2.1, Nat.lt_succ_of_lt h2.2⟩
        simp [h2, this]
      · have : ¬ (a < N ∧ b < M + 1) := by
          intro h3
          rcases Nat.lt_succ_iff_lt_or_eq.mp h3.2 with h4 | h4
          · exact h2 ⟨h3.1, h4⟩
          · exact h ⟨h3.1, h4⟩
        simp [h2, this]

/-- The nested loop `for (i ...) for (j ...) m[i][j] = v (i, j)`. -/
theorem forLoop_rows {β : Type} (v : Nat → Nat → β) (N M : Nat) (m0 : Nat → Nat → β)
    (a b : Nat) :
    forLoop (fun i m => forLoop (fun j m => setCell m i j (v i j)) M m) N m0 a b =
      if a < N ∧ b < M then v a b else m0 a b := by
  induction N generalizing a b with
  | zero => simp [forLoop]
  | succ N ih =>
    rw [forLoop_succ]
    have inner : ∀ (K : Nat) (m1 : Nat → Nat → β) (x y : Nat),
        forLoop (fun j m => setCell m N j (v N j)) K m1 x y =
          if x = N ∧ y < K then v N y else m1 x y := by
      intro K
      induction K with
      | zero => intro m1 x y; simp [forLoop]
      | succ K ihK =>
        intro m1 x y
        simp only [forLoop, setCell]
        by_cases h : x = N ∧ y = K
        · obtain ⟨h1, h2⟩ := h
          subst h1; subst h2
          simp
        · rw [if_neg h, ihK]
          by_cases h2 : x = N ∧ y < K
          · have : x = N ∧ y < K + 1 := ⟨h2.1, Nat.lt_succ_of_lt h2.2⟩
            simp [h2, this]
          · have : ¬ (x = N ∧ y < K + 1) := by
              intro h3
              rcases Nat.lt_succ_iff_lt_or_eq.mp h3.2 with h4 | h4
              · exact h2 ⟨h3.1, h4⟩
              · exact h ⟨h3.1, h4⟩
            simp [h2, this]
    rw [inner]
    by_cases h : a = N ∧ b < M
    · obtain ⟨h1, h2⟩ := h
      subst h1
      simp [h2]
    · rw [if_neg h, ih]
      by_cases h2 : a < N ∧ b < M
      · have : a < N + 1 ∧ b < M := ⟨Nat.lt_succ_of_lt h2.1, h2.2⟩
        simp [h2, this]
      · have : ¬ (a < N + 1 ∧ b < M) := by
          intro h3
          rcases Nat.lt_succ_iff_lt_or_eq.mp h3.1 with h4 | h4
          · exact h2 ⟨h4, h3.2⟩
          · exact h ⟨h4, h3.2⟩
        simp [h2, this]

end CellLoops


/-! ## The matrix builder -/

section BuilderLemmas

variable {α : Type} [LinearOrderedField α]

theorem setCell_self {β : Type} (m : Nat → Nat → β) (i j : Nat) : setCell m i j (m i j) = m := by
  funext a b
  simp only [setCell]
  split_ifs with h
  · rw [h.1, h.2]
  · rfl

/-- The cells of the matrix after `gst_audio_channel_mix_fill_identical`. -/
theorem fill_identical_matrix (mix : GstAudioChannelMix α) (a b : Nat) :
    (gst_audio_channel_mix_fill_identical mix).matrix a b =
      if a < mix.in_channels ∧ b < mix.out_channels ∧
          posAt mix.in_position a = posAt mix.out_position b then 1
      else mix.matrix a b := by
  have hbody : (fun co (m : Nat → Nat → α) =>
      forLoop (fun ci m =>
        if posAt mix.in_position ci = posAt mix.out_position co then setCell m ci co 1
        else m) mix.in_channels m) =
      (fun co (m : Nat → Nat → α) =>
      forLoop (fun ci m => setCell m ci co
        (if posAt mix.in_position ci = posAt mix.out_position co then 1 else m ci co))
        mix.in_channels m) := by
    funext co m
    congr 1
    funext ci m2
    by_cases h : posAt mix.in_position ci = posAt mix.out_position co
    · simp only [if_pos h]
    · simp only [if_neg h]
      exact (setCell_self m2 ci co).symm
  show forLoop _ mix.out_channels mix.matrix a b = _
  have hc := forLoop_columns
    (fun (x : α) i j => if posAt mix.in_position i = posAt mix.out_position j then 1 else x)
    mix.in_channels mix.out_channels mix.matrix a b
  simp only [] at hc
  rw [hbody, hc]
  by_cases h1 : a < mix.in_channels ∧ b < mix.out_channels
  · rw [if_pos h1]
    by_cases h2 : posAt mix.in_position a = posAt mix.out_position b
    · rw [if_pos h2, if_pos ⟨h1.1, h1.2, h2⟩]
    · rw [if_neg h2, if_neg (fun h => h2 h.2.2)]
  · rw [if_neg h1, if_neg (fun h => h1 ⟨h.1, h.2.1⟩)]

/-- A summing loop is a finite sum. -/
theorem forLoop_sum (f : Nat → α) (n : Nat) :
    forLoop (fun i sum => sum + f i) n 0 = ∑ i in Finset.range n, f i := by
  induction n with
  | zero => simp [forLoop]
  | succ n ih => rw [forLoop_succ, ih, Finset.sum_range_succ]

/-- The column sum computed by `gst_audio_channel_mix_fill_normalize`. -/
theorem normalizeSum_eq (mix : GstAudioChannelMix α) (j : Nat) :
    normalizeSum mix j = ∑ i in Finset.range mix.in_channels, |mix.matrix i j| := by
  unfold normalizeSum
  exact forLoop_sum (fun i => |mix.matrix i j|) mix.in_channels

theorem normalizeSum_nonneg (mix : GstAudioChannelMix α) (j : Nat) : 0 ≤ normalizeSum mix j := by
  rw [normalizeSum_eq]
  exact Finset.sum_nonneg (fun i _ => abs_nonneg _)

/-- The running maximum `if (sum > top) top = sum;` started from `0`. -/
theorem topLoop_spec (f : Nat → α) (M : Nat) :
    0 ≤ forLoop (fun j top => if f j > top then f j else top) M 0 ∧
    (∀ j, j < M → f j ≤ forLoop (fun j top => if f j > top then f j else top) M 0) ∧
    (forLoop (fun j top => if f j > top then f j else top) M 0 = 0 ∨
      ∃ j, j < M ∧ forLoop (fun j top => if f j > top then f j else top) M 0 = f j) := by
  induction M with
  | zero =>
    refine ⟨le_refl _, ?_, Or.inl rfl⟩
    intro j hj
    omega
  | succ M ih =>
    obtain ⟨h0, hle, hex⟩ := ih
    rw [forLoop_succ]
    by_cases hgt : f M > forLoop (fun j top => if f j > top then f j else top) M 0
    · simp only [if_pos hgt]
      refine ⟨le_trans h0 (le_of_lt hgt), ?_, Or.inr ⟨M, Nat.lt_succ_self M, rfl⟩⟩
      intro j hj
      rcases Nat.lt_succ_iff_lt_or_eq.mp hj with h | h
      · exact le_trans (hle j h) (le_of_lt hgt)
      · rw [h]
    · simp only [if_neg hgt]
      refine ⟨h0, ?_, ?_⟩
      · intro j hj
        rcases Nat.lt_succ_iff_lt_or_eq.mp hj with h | h
        · exact hle j h
        · rw [h]; exact not_lt.mp hgt
      · rcases hex with h | ⟨j, hj, h⟩
        · exact Or.inl h
        · exact Or.inr ⟨j, Nat.lt_succ_of_lt hj, h⟩

theorem normalizeTop_nonneg (mix : GstAudioChannelMix α) : 0 ≤ normalizeTop mix :=
  (topLoop_spec (normalizeSum mix) mix.out_channels).1

theorem normalizeSum_le_top (mix : GstAudioChannelMix α) (j : Nat) (hj : j < mix.out_channels) :
    normalizeSum mix j ≤ normalizeTop mix :=
  (topLoop_spec (normalizeSum mix) mix.out_channels).2.1 j hj

theorem normalizeTop_attained (mix : GstAudioChannelMix α) :
    normalizeTop mix = 0 ∨ ∃ j, j < mix.out_channels ∧ normalizeTop mix = normalizeSum mix j :=
  (topLoop_spec (normalizeSum mix) mix.out_channels).2.2

/-- A weight is at most its column's sum of absolute weights. -/
theorem abs_le_normalizeSum (mix : GstAudioChannelMix α) (i j : Nat) (hi : i < mix.in_channels) :
    |mix.matrix i j| ≤ normalizeSum mix j := by
  rw [normalizeSum_eq]
  exact Finset.single_le_sum (f := fun i => |mix.matrix i j|) (fun k _ => abs_nonneg _)
    (Finset.mem_range.mpr hi)

/-- The cells of the matrix after `gst_audio_channel_mix_fill_normalize`. -/
theorem fill_normalize_matrix (mix : GstAudioChannelMix α) (a b : Nat) :
    (gst_audio_channel_mix_fill_normalize mix).matrix a b =
      if normalizeTop mix ≠ 0 ∧ a < mix.in_channels ∧ b < mix.out_channels then
        mix.matrix a b / normalizeTop mix
      else mix.matrix a b := by
  unfold gst_audio_channel_mix_fill_normalize
  by_cases ht : normalizeTop mix = 0
  · simp [ht]
  · simp only [if_neg ht]
    have := forLoop_columns (fun (x : α) _ _ => x / normalizeTop mix)
      mix.in_channels mix.out_channels mix.matrix a b
    simp only [] at this
    rw [this]
    by_cases h : a < mix.in_channels ∧ b < mix.out_channels
    · rw [if_pos h, if_pos ⟨ht, h.1, h.2⟩]
    · rw [if_neg h, if_neg (fun h2 => h ⟨h2.2.1, h2.2.2⟩)]

@[simp] theorem fill_normalize_in_channels (mix : GstAudioChannelMix α) :
    (gst_audio_channel_mix_fill_normalize mix).in_channels = mix.in_channels := by
  unfold gst_audio_channel_mix_fill_normalize
  by_cases ht : normalizeTop mix = 0 <;> simp [ht]

@[simp] theorem fill_normalize_out_channels (mix : GstAudioChannelMix α) :
    (gst_audio_channel_mix_fill_normalize mix).out_channels = mix.out_channels := by
  unfold gst_audio_channel_mix_fill_normalize
  by_cases ht : normalizeTop mix = 0 <;> simp [ht]

/-- After normalization every column's absolute sum is at most `1`, and a
column attains `1` unless `top` was `0`, in which case the matrix is zero. -/
theorem fill_normalize_sums (mix : GstAudioChannelMix α) :
    (∀ j, j < mix.out_channels →
      normalizeSum (gst_audio_channel_mix_fill_normalize mix) j ≤ 1) ∧
    ((∀ i j, i < mix.in_channels → j < mix.out_channels →
        (gst_audio_channel_mix_fill_normalize mix).matrix i j = 0) ∨
      ∃ j, j < mix.out_channels ∧
        normalizeSum (gst_audio_channel_mix_fill_normalize mix) j = 1) := by
  have hsum : ∀ j, j < mix.out_channels → normalizeTop mix ≠ 0 →
      normalizeSum (gst_audio_channel_mix_fill_normalize mix) j =
        normalizeSum mix j / normalizeTop mix := by
    intro j hj ht
    have hpos : 0 < normalizeTop mix := lt_of_le_of_ne (normalizeTop_nonneg mix) (Ne.symm ht)
    rw [normalizeSum_eq, normalizeSum_eq, fill_normalize_in_channels, Finset.sum_div]
    apply Finset.sum_congr rfl
    intro i hi
    rw [fill_normalize_matrix, if_pos ⟨ht, Finset.mem_range.mp hi, hj⟩, abs_div,
      abs_of_pos hpos]
  by_cases ht : normalizeTop mix = 0
  · have hz : ∀ i j, i < mix.in_channels → j < mix.out_channels → mix.matrix i j = 0 := by
      intro i j hi hj
      have h1 := abs_le_normalizeSum mix i j hi
      have h2 := normalizeSum_le_top mix j hj
      rw [ht] at h2
      exact abs_eq_zero.mp (le_antisymm (le_trans h1 h2) (abs_nonneg _))
    have hm : ∀ i j, i < mix.in_channels → j < mix.out_channels →
        (gst_audio_channel_mix_fill_normalize mix).matrix i j = 0 := by
      intro i j hi hj
      rw [fill_normalize_matrix, if_neg (fun h => h.1 ht)]
      exact hz i j hi hj
    refine ⟨?_, Or.inl hm⟩
    intro j hj
    rw [normalizeSum_eq, fill_normalize_in_channels]
    have : ∑ i in Finset.range mix.in_channels,
        |(gst_audio_channel_mix_fill_normalize mix).matrix i j| = 0 := by
      apply Finset.sum_eq_zero
      intro i hi
      rw [hm i j (Finset.mem_range.mp hi) hj, abs_zero]
    rw [this]
    exact zero_le_one
  · have hpos : 0 < normalizeTop mix := lt_of_le_of_ne (normalizeTop_nonneg mix) (Ne.symm ht)
    constructor
    · intro j hj
      rw [hsum j hj ht, div_le_one hpos]
      exact normalizeSum_le_top mix j hj
    · right
      rcases normalizeTop_attained mix with h | ⟨j, hj, h⟩
      · exact absurd h ht
      · refine ⟨j, hj, ?_⟩
        rw [hsum j hj ht, ← h]
        exact div_self ht

end BuilderLemmas


/-! ## Construction -/

section NewLemmas

variable {α : Type} [LinearOrderedField α]

theorem fill_special_fst_of_false (mix : GstAudioChannelMix α)
    (h : (gst_audio_channel_mix_fill_special mix).2 = false) :
    (gst_audio_channel_mix_fill_special mix).1 = mix := by
  unfold gst_audio_channel_mix_fill_special at h ⊢
  split_ifs at h ⊢
  rfl

/-- The three ways `gst_audio_channel_mix_fill_matrix` produces the matrix. -/
theorem fill_matrix_cases (sqrt : α → α) (mix : GstAudioChannelMix α) :
    gst_audio_channel_mix_fill_matrix sqrt mix =
      if (gst_audio_channel_mix_fill_special mix).2 = true then
        (gst_audio_channel_mix_fill_special mix).1
      else if mix.flags &&& GST_AUDIO_CHANNEL_MIX_FLAGS_UNPOSITIONED_IN = 0 then
        gst_audio_channel_mix_fill_normalize
          (gst_audio_channel_mix_fill_others sqrt
            (gst_audio_channel_mix_fill_compatible
              (gst_audio_channel_mix_fill_identical mix)))
      else gst_audio_channel_mix_fill_identical mix := by
  unfold gst_audio_channel_mix_fill_matrix
  by_cases hs : (gst_audio_channel_mix_fill_special mix).2 = true
  · rw [if_pos hs, if_pos hs]
  · rw [if_neg hs, if_neg hs, fill_special_fst_of_false mix (by simpa using hs)]
    rfl

theorem fill_normalize_fields (mix : GstAudioChannelMix α) :
    (gst_audio_channel_mix_fill_normalize mix).flags = mix.flags ∧
    (gst_audio_channel_mix_fill_normalize mix).format = mix.format ∧
    (gst_audio_channel_mix_fill_normalize mix).in_channels = mix.in_channels ∧
    (gst_audio_channel_mix_fill_normalize mix).out_channels = mix.out_channels ∧
    (gst_audio_channel_mix_fill_normalize mix).in_position = mix.in_position ∧
    (gst_audio_channel_mix_fill_normalize mix).out_position = mix.out_position := by
  unfold gst_audio_channel_mix_fill_normalize
  by_cases ht : normalizeTop mix = 0 <;> simp [ht]

theorem fill_special_fields (mix : GstAudioChannelMix α) :
    (gst_audio_channel_mix_fill_special mix).1.flags = mix.flags ∧
    (gst_audio_channel_mix_fill_special mix).1.format = mix.format ∧
    (gst_audio_channel_mix_fill_special mix).1.in_channels = mix.in_channels ∧
    (gst_audio_channel_mix_fill_special mix).1.out_channels = mix.out_channels ∧
    (gst_audio_channel_mix_fill_special mix).1.in_position = mix.in_position ∧
    (gst_audio_channel_mix_fill_special mix).1.out_position = mix.out_position := by
  unfold gst_audio_channel_mix_fill_special
  split_ifs <;> simp

/-- The function `gst_audio_channel_mix_fill_matrix` changes the matrix only. -/
theorem fill_matrix_fields (sqrt : α → α) (mix : GstAudioChannelMix α) :
    (gst_audio_channel_mix_fill_matrix sqrt mix).flags = mix.flags ∧
    (gst_audio_channel_mix_fill_matrix sqrt mix).format = mix.format ∧
    (gst_audio_channel_mix_fill_matrix sqrt mix).in_channels = mix.in_channels ∧
    (gst_audio_channel_mix_fill_matrix sqrt mix).out_channels = mix.out_channels ∧
    (gst_audio_channel_mix_fill_matrix sqrt mix).in_position = mix.in_position ∧
    (gst_audio_channel_mix_fill_matrix sqrt mix).out_position = mix.out_position := by
  rw [fill_matrix_cases]
  split_ifs
  · exact fill_special_fields mix
  · exact fill_normalize_fields _
  · exact ⟨rfl, rfl, rfl, rfl, rfl, rfl⟩

/-- The special-case test of `gst_audio_channel_mix_fill_special`. -/
theorem fill_special_snd (mix : GstAudioChannelMix α) :
    (gst_audio_channel_mix_fill_special mix).2 = true ↔
      IsSpecialPair mix.in_channels mix.in_position mix.out_channels mix.out_position := by
  unfold gst_audio_channel_mix_fill_special IsSpecialPair
  split_ifs with h1 h2
  · simp only [true_iff]
    exact Or.inl h1
  · simp only [true_iff]
    exact Or.inr h2
  · simp only [Bool.false_eq_true, false_iff]
    rintro (h | h)
    · exact h1 h
    · exact h2 h

theorem posAt_take (l : List GstAudioChannelPosition) (n i : Nat) (hi : i < n) :
    posAt (l.take n) i = posAt l i := by
  unfold posAt
  rw [List.getD_eq_getElem?_getD, List.getD_eq_getElem?_getD, List.getElem?_take_of_lt hi]

theorem isSpecialPair_take (n m : Nat) (l l2 : List GstAudioChannelPosition) :
    IsSpecialPair n (l.take n) m (l2.take m) ↔ IsSpecialPair n l m l2 := by
  have a0 : posAt (l.take 2) 0 = posAt l 0 := posAt_take _ _ _ (by decide)
  have a1 : posAt (l.take 2) 1 = posAt l 1 := posAt_take _ _ _ (by decide)
  have b0 : posAt (l2.take 1) 0 = posAt l2 0 := posAt_take _ _ _ (by decide)
  have c0 : posAt (l.take 1) 0 = posAt l 0 := posAt_take _ _ _ (by decide)
  have d0 : posAt (l2.take 2) 0 = posAt l2 0 := posAt_take _ _ _ (by decide)
  have d1 : posAt (l2.take 2) 1 = posAt l2 1 := posAt_take _ _ _ (by decide)
  unfold IsSpecialPair
  constructor
  · rintro (⟨h1, h2, h3, h4⟩ | ⟨h1, h2, h3, h4⟩)
    · subst h1; subst h2
      rw [a0, a1] at h3
      rw [b0] at h4
      exact Or.inl ⟨rfl, rfl, h3, h4⟩
    · subst h1; subst h2
      rw [d0, d1] at h3
      rw [c0] at h4
      exact Or.inr ⟨rfl, rfl, h3, h4⟩
  · rintro (⟨h1, h2, h3, h4⟩ | ⟨h1, h2, h3, h4⟩)
    · subst h1; subst h2
      rw [a0, a1, b0]
      exact Or.inl ⟨rfl, rfl, h3, h4⟩
    · subst h1; subst h2
      rw [d0, d1, c0]
      exact Or.inr ⟨rfl, rfl, h3, h4⟩

/-- The special-case test on the instance that `gst_audio_channel_mix_new` sets up. -/
theorem fill_special_mixInit (flags : Nat) (format : GstAudioFormat)
    (in_channels : Int) (in_position : List GstAudioChannelPosition)
    (out_channels : Int) (out_position : List GstAudioChannelPosition) :
    (gst_audio_channel_mix_fill_special
      (mixInit (α := α) flags format in_channels in_position out_channels out_position)).2 = true ↔
      IsSpecialPair in_channels.toNat in_position out_channels.toNat out_position := by
  rw [fill_special_snd]
  exact isSpecialPair_take _ _ _ _


/-- The identical-position fill of the zero matrix. -/
theorem fill_identical_mixInit (flags : Nat) (format : GstAudioFormat)
    (in_channels : Int) (in_position : List GstAudioChannelPosition)
    (out_channels : Int) (out_position : List GstAudioChannelPosition)
    (i j : Nat) (hi : i < in_channels.toNat) (hj : j < out_channels.toNat) :
    (gst_audio_channel_mix_fill_identical
      (mixInit (α := α) flags format in_channels in_position
        out_channels out_position)).matrix i j =
      if posAt in_position i = posAt out_position j then 1 else 0 := by
  rw [fill_identical_matrix]
  have e1 : posAt (mixInit (α := α) flags format in_channels in_position out_channels
      out_position).in_position i = posAt in_position i := posAt_take _ _ _ hi
  have e2 : posAt (mixInit (α := α) flags format in_channels in_position out_channels
      out_position).out_position j = posAt out_position j := posAt_take _ _ _ hj
  rw [e1, e2]
  by_cases hp : posAt in_position i = posAt out_position j
  · rw [if_pos hp, if_pos ⟨hi, hj, hp⟩]
  · rw [if_neg hp, if_neg (fun h => hp h.2.2)]
    rfl

/-- The matrix written by the special case. -/
theorem fill_special_matrix (mix : GstAudioChannelMix α)
    (hs : IsSpecialPair mix.in_channels mix.in_position mix.out_channels mix.out_position) :
    (mix.in_channels = 2 ∧ mix.out_channels = 1 ∧
      (gst_audio_channel_mix_fill_special mix).1.matrix =
        setCell (setCell mix.matrix 0 0 (1 / 2)) 1 0 (1 / 2)) ∨
    (mix.in_channels = 1 ∧ mix.out_channels = 2 ∧
      (gst_audio_channel_mix_fill_special mix).1.matrix =
        setCell (setCell mix.matrix 0 0 1) 0 1 1) := by
  unfold gst_audio_channel_mix_fill_special
  unfold IsSpecialPair at hs
  split_ifs with h1 h2
  · exact Or.inl ⟨h1.1, h1.2.1, rfl⟩
  · exact Or.inr ⟨h2.1, h2.2.1, rfl⟩
  · rcases hs with h | h
    · exact absurd h h1
    · exact absurd h h2

/-- The matrix written by the special case on the instance that
`gst_audio_channel_mix_new` sets up. -/
theorem fill_special_mixInit_matrix (flags : Nat) (format : GstAudioFormat)
    (in_channels : Int) (in_position : List GstAudioChannelPosition)
    (out_channels : Int) (out_position : List GstAudioChannelPosition)
    (hs : IsSpecialPair in_channels.toNat in_position out_channels.toNat out_position) :
    (in_channels.toNat = 2 ∧ out_channels.toNat = 1 ∧
      (gst_audio_channel_mix_fill_special
        (mixInit (α := α) flags format in_channels in_position
          out_channels out_position)).1.matrix =
        setCell (setCell (fun _ _ => 0) 0 0 (1 / 2)) 1 0 (1 / 2)) ∨
    (in_channels.toNat = 1 ∧ out_channels.toNat = 2 ∧
      (gst_audio_channel_mix_fill_special
        (mixInit (α := α) flags format in_channels in_position
          out_channels out_position)).1.matrix =
        setCell (setCell (fun _ _ => 0) 0 0 1) 0 1 1) :=
  fill_special_matrix
    (mixInit (α := α) flags format in_channels in_position out_channels out_position)
    ((isSpecialPair_take _ _ _ _).mpr hs)


/-- A sum of indicators of a property that at most one index below `n` has. -/
theorem indicator_sum (n : Nat) (P : Nat → Prop) [DecidablePred P]
    (huniq : ∀ i i2, i < n → i2 < n → P i → P i2 → i = i2) :
    (∑ i in Finset.range n, |if P i then (1 : α) else 0| ≤ 1) ∧
    ((∃ i, i < n ∧ P i) → ∑ i in Finset.range n, |if P i then (1 : α) else 0| = 1) := by
  by_cases h : ∃ i, i < n ∧ P i
  · obtain ⟨i0, hi0, hP0⟩ := h
    have hsum : ∑ i in Finset.range n, |if P i then (1 : α) else 0| = 1 := by
      have hterm : ∀ i ∈ Finset.range n,
          |if P i then (1 : α) else 0| = if i = i0 then 1 else 0 := by
        intro i hi
        by_cases hP : P i
        · have : i = i0 := huniq i i0 (Finset.mem_range.mp hi) hi0 hP hP0
          rw [if_pos hP, if_pos this, abs_one]
        · have : i ≠ i0 := fun e => hP (e ▸ hP0)
          rw [if_neg hP, if_neg this, abs_zero]
      rw [Finset.sum_congr rfl hterm, Finset.sum_ite_eq' (Finset.range n) i0 (fun _ => (1 : α)),
        if_pos (Finset.mem_range.mpr hi0)]
    exact ⟨le_of_eq hsum, fun _ => hsum⟩
  · constructor
    · have hz : ∑ i in Finset.range n, |if P i then (1 : α) else 0| = 0 := by
        apply Finset.sum_eq_zero
        intro i hi
        have : ¬ P i := fun hP => h ⟨i, Finset.mem_range.mp hi, hP⟩
        rw [if_neg this, abs_zero]
      rw [hz]
      exact zero_le_one
    · intro h2
      exact absurd h2 h

end NewLemmas

section NewLemmas2

variable {α : Type} [LinearOrderedField α] [FloorRing α]

/-- The cells of the fixed-point matrix. -/
theorem setup_matrix_int_cell (mix : GstAudioChannelMix α) (a b : Nat) :
    (gst_audio_channel_mix_setup_matrix_int mix).matrix_int a b =
      if a < mix.in_channels ∧ b < mix.out_channels then
        truncToInt (mix.matrix a b * 1024)
      else 0 := by
  unfold gst_audio_channel_mix_setup_matrix_int
  simp only []
  rw [forLoop_rows]
  have h : (1 <<< INT_MATRIX_FACTOR_EXPONENT : Nat) = 1024 := by decide
  rw [h]
  norm_num

/-- The fields of the instance built by `gst_audio_channel_mix_setup_matrix`. -/
theorem setup_matrix_fields (sqrt : α → α) (mix : GstAudioChannelMix α) :
    (gst_audio_channel_mix_setup_matrix sqrt mix).flags = mix.flags ∧
    (gst_audio_channel_mix_setup_matrix sqrt mix).format = mix.format ∧
    (gst_audio_channel_mix_setup_matrix sqrt mix).in_channels = mix.in_channels ∧
    (gst_audio_channel_mix_setup_matrix sqrt mix).out_channels = mix.out_channels ∧
    (gst_audio_channel_mix_setup_matrix sqrt mix).in_position = mix.in_position ∧
    (gst_audio_channel_mix_setup_matrix sqrt mix).out_position = mix.out_position := by
  have h := fill_matrix_fields sqrt { mix with matrix := fun _ _ => 0 }
  unfold gst_audio_channel_mix_setup_matrix gst_audio_channel_mix_setup_matrix_int
  exact h

theorem setup_matrix_matrix (sqrt : α → α) (mix : GstAudioChannelMix α) :
    (gst_audio_channel_mix_setup_matrix sqrt mix).matrix =
      (gst_audio_channel_mix_fill_matrix sqrt { mix with matrix := fun _ _ => 0 }).matrix := rfl

/-- Unfolding of a successful `gst_audio_channel_mix_new`. -/
theorem new_eq_some (sqrt : α → α) (flags : Nat) (format : GstAudioFormat)
    (in_channels : Int) (in_position : List GstAudioChannelPosition)
    (out_channels : Int) (out_position : List GstAudioChannelPosition)
    (mix : GstAudioChannelMix α) :
    gst_audio_channel_mix_new sqrt flags format in_channels in_position
        out_channels out_position = some mix ↔
      ((format = .S32 ∨ format = .F64) ∧ (in_channels > 0 ∧ in_channels < 64) ∧
        (out_channels > 0 ∧ out_channels < 64)) ∧
      mix = gst_audio_channel_mix_setup_matrix sqrt
        (mixInit flags format in_channels in_position out_channels out_position) := by
  unfold gst_audio_channel_mix_new
  by_cases h1 : format = .S32 ∨ format = .F64
  · by_cases h2 : in_channels > 0 ∧ in_channels < 64
    · by_cases h3 : out_channels > 0 ∧ out_channels < 64
      · rw [if_neg (not_not.mpr h1), if_neg (not_not.mpr h2), if_neg (not_not.mpr h3)]
        constructor
        · intro h
          exact ⟨⟨h1, h2, h3⟩, (Option.some.inj h).symm⟩
        · intro h
          rw [h.2]
      · rw [if_neg (not_not.mpr h1), if_neg (not_not.mpr h2), if_pos h3]
        constructor
        · intro h; exact absurd h (by simp)
        · intro h; exact absurd h.1.2.2 h3
    · rw [if_neg (not_not.mpr h1), if_pos h2]
      constructor
      · intro h; exact absurd h (by simp)
      · intro h; exact absurd h.1.2.1 h2
  · rw [if_pos h1]
    constructor
    · intro h; exact absurd h (by simp)
    · intro h; exact absurd h.1.1 h1

/-- The float matrix of a constructed instance is what
`gst_audio_channel_mix_fill_matrix` makes of the zero matrix. -/
theorem setup_matrix_mixInit (sqrt : α → α) (flags : Nat) (format : GstAudioFormat)
    (in_channels : Int) (in_position : List GstAudioChannelPosition)
    (out_channels : Int) (out_position : List GstAudioChannelPosition) :
    (gst_audio_channel_mix_setup_matrix sqrt
      (mixInit flags format in_channels in_position out_channels out_position)).matrix =
    (gst_audio_channel_mix_fill_matrix sqrt
      (mixInit flags format in_channels in_position out_channels out_position)).matrix := rfl

/-- The instance returned by `gst_audio_channel_mix_new`: its channel counts and
the three ways its matrix is produced. -/
theorem new_matrix_cases (sqrt : α → α) (flags : Nat) (format : GstAudioFormat)
    (in_channels : Int) (in_position : List GstAudioChannelPosition)
    (out_channels : Int) (out_position : List GstAudioChannelPosition)
    (mix : GstAudioChannelMix α)
    (hnew : gst_audio_channel_mix_new sqrt flags format in_channels in_position
      out_channels out_position = some mix) :
    mix.in_channels = in_channels.toNat ∧ mix.out_channels = out_channels.toNat ∧
    mix.matrix =
      (if IsSpecialPair in_channels.toNat in_position out_channels.toNat out_position then
        (gst_audio_channel_mix_fill_special
          (mixInit (α := α) flags format in_channels in_position
            out_channels out_position)).1
      else if flags &&& GST_AUDIO_CHANNEL_MIX_FLAGS_UNPOSITIONED_IN = 0 then
        gst_audio_channel_mix_fill_normalize
          (gst_audio_channel_mix_fill_others sqrt
            (gst_audio_channel_mix_fill_compatible
              (gst_audio_channel_mix_fill_identical
                (mixInit (α := α) flags format in_channels in_position
                  out_channels out_position))))
      else gst_audio_channel_mix_fill_identical
        (mixInit (α := α) flags format in_channels in_position
          out_channels out_position)).matrix := by
  obtain ⟨_, hm⟩ := (new_eq_some _ _ _ _ _ _ _ _).mp hnew
  have hf := setup_matrix_fields sqrt
    (mixInit (α := α) flags format in_channels in_position out_channels out_position)
  rw [← hm] at hf
  refine ⟨hf.2.2.1, hf.2.2.2.1, ?_⟩
  rw [hm, setup_matrix_mixInit, fill_matrix_cases]
  by_cases hs : IsSpecialPair in_channels.toNat in_position out_channels.toNat out_position
  · rw [if_pos hs, if_pos ((fill_special_mixInit _ _ _ _ _ _).mpr hs)]
  · rw [if_neg hs, if_neg (fun h => hs ((fill_special_mixInit _ _ _ _ _ _).mp h))]
    rfl

/-- The fixed-point cells of a constructed instance, from its float cells. -/
theorem setup_matrix_matrix_int (sqrt : α → α) (mix : GstAudioChannelMix α) (a b : Nat) :
    (gst_audio_channel_mix_setup_matrix sqrt mix).matrix_int a b =
      if a < mix.in_channels ∧ b < mix.out_channels then
        truncToInt ((gst_audio_channel_mix_setup_matrix sqrt mix).matrix a b * 1024)
      else 0 := by
  have h := fill_matrix_fields sqrt { mix with matrix := fun _ _ => 0 }
  have hc := setup_matrix_int_cell
    (gst_audio_channel_mix_fill_matrix sqrt { mix with matrix := fun _ _ => 0 }) a b
  rw [h.2.2.1, h.2.2.2.1] at hc
  exact hc

theorem truncToInt_intCast (z : Int) : truncToInt ((z : Int) : α) = z := by
  unfold truncToInt
  split_ifs
  · exact Int.floor_intCast z
  · exact Int.ceil_intCast z

end NewLemmas2


section UnpositionedCells

variable {α : Type} [LinearOrderedField α] [FloorRing α]

/-- With the unpositioned flag set and outside the special case, the matrix
of a constructed instance is the identical-position fill of the zero matrix. -/
theorem new_unpositioned_cell (sqrt : α → α) (flags : Nat)
    (format : GstAudioFormat)
    (in_channels : Int) (in_position : List GstAudioChannelPosition)
    (out_channels : Int) (out_position : List GstAudioChannelPosition)
    (mix : GstAudioChannelMix α)
    (hnew : gst_audio_channel_mix_new sqrt flags format in_channels in_position
      out_channels out_position = some mix)
    (hflag : flags &&& GST_AUDIO_CHANNEL_MIX_FLAGS_UNPOSITIONED_IN ≠ 0)
    (hns : ¬ IsSpecialPair in_channels.toNat in_position out_channels.toNat out_position) :
    ∀ i j, i < mix.in_channels → j < mix.out_channels →
      mix.matrix i j = if posAt in_position i = posAt out_position j then 1 else 0 := by
  obtain ⟨_, hm⟩ := (new_eq_some _ _ _ _ _ _ _ _).mp hnew
  intro i j hi hj
  have hf := setup_matrix_fields sqrt
    (mixInit (α := α) flags format in_channels in_position out_channels out_position)
  rw [← hm] at hf
  have hi2 : i < in_channels.toNat := by
    have := hf.2.2.1
    rw [this] at hi
    exact hi
  have hj2 : j < out_channels.toNat := by
    have := hf.2.2.2.1
    rw [this] at hj
    exact hj
  rw [hm, setup_matrix_mixInit, fill_matrix_cases]
  have hs : ¬ (gst_audio_channel_mix_fill_special
      (mixInit (α := α) flags format in_channels in_position out_channels out_position)).2
        = true := by
    rw [fill_special_mixInit]
    exact hns
  rw [if_neg hs]
  have hfl : ¬ ((mixInit (α := α) flags format in_channels in_position out_channels
      out_position).flags &&& GST_AUDIO_CHANNEL_MIX_FLAGS_UNPOSITIONED_IN = 0) := hflag
  rw [if_neg hfl, fill_identical_matrix]
  have e1 : posAt (mixInit (α := α) flags format in_channels in_position out_channels
      out_position).in_position i = posAt in_position i := posAt_take _ _ _ hi2
  have e2 : posAt (mixInit (α := α) flags format in_channels in_position out_channels
      out_position).out_position j = posAt out_position j := posAt_take _ _ _ hj2
  rw [e1, e2]
  by_cases hp : posAt in_position i = posAt out_position j
  · rw [if_pos hp, if_pos ⟨hi2, hj2, hp⟩]
  · rw [if_neg hp, if_neg (fun h => hp h.2.2)]
    rfl

end UnpositionedCells

/-! ## Claims about construction -/

section ConstructionClaims

variable {α : Type} [LinearOrderedField α] [FloorRing α]

open GstAudioChannelPosition

/-- C7: `gst_audio_channel_mix_new` returns an instance if and only if the
format is S32 or F64 and both channel counts lie in 1..63; in every other case
it returns no instance; a returned instance holds the given flags, format and
channel counts and a copy of the first `in_channels` / `out_channels`
positions of the two layouts. -/
theorem new_returns_instance_iff (sqrt : α → α) (flags : Nat) (format : GstAudioFormat)
    (in_channels : Int) (in_position : List GstAudioChannelPosition)
    (out_channels : Int) (out_position : List GstAudioChannelPosition) :
    ((∃ mix : GstAudioChannelMix α,
        gst_audio_channel_mix_new sqrt flags format in_channels in_position
          out_channels out_position = some mix) ↔
      ((format = GstAudioFormat.S32 ∨ format = GstAudioFormat.F64) ∧
        (1 ≤ in_channels ∧ in_channels ≤ 63) ∧ (1 ≤ out_channels ∧ out_channels ≤ 63))) ∧
    (¬ ((format = GstAudioFormat.S32 ∨ format = GstAudioFormat.F64) ∧
        (1 ≤ in_channels ∧ in_channels ≤ 63) ∧ (1 ≤ out_channels ∧ out_channels ≤ 63)) →
      gst_audio_channel_mix_new sqrt flags format in_channels in_position
          out_channels out_position = (none : Option (GstAudioChannelMix α))) ∧
    (∀ mix : GstAudioChannelMix α,
      gst_audio_channel_mix_new sqrt flags format in_channels in_position
          out_channels out_position = some mix →
        mix.flags = flags ∧ mix.format = format ∧
        (mix.in_channels : Int) = in_channels ∧ (mix.out_channels : Int) = out_channels ∧
        mix.in_position = in_position.take in_channels.toNat ∧
        mix.out_position = out_position.take out_channels.toNat) := by
  have hiff : (∃ mix : GstAudioChannelMix α,
        gst_audio_channel_mix_new sqrt flags format in_channels in_position
          out_channels out_position = some mix) ↔
      ((format = GstAudioFormat.S32 ∨ format = GstAudioFormat.F64) ∧
        (1 ≤ in_channels ∧ in_channels ≤ 63) ∧ (1 ≤ out_channels ∧ out_channels ≤ 63)) := by
    constructor
    · rintro ⟨mix, h⟩
      obtain ⟨⟨h1, h2, h3⟩, _⟩ := (new_eq_some _ _ _ _ _ _ _ _).mp h
      exact ⟨h1, ⟨by omega, by omega⟩, ⟨by omega, by omega⟩⟩
    · rintro ⟨h1, h2, h3⟩
      exact ⟨_, (new_eq_some _ _ _ _ _ _ _ _).mpr
        ⟨⟨h1, ⟨by omega, by omega⟩, ⟨by omega, by omega⟩⟩, rfl⟩⟩
  refine ⟨hiff, ?_, ?_⟩
  · intro hnot
    cases hres : gst_audio_channel_mix_new sqrt flags format in_channels in_position
        out_channels out_position with
    | none => rfl
    | some mix => exact absurd (hiff.mp ⟨mix, hres⟩) hnot
  · intro mix h
    obtain ⟨⟨_, h2, h3⟩, hm⟩ := (new_eq_some _ _ _ _ _ _ _ _).mp h
    have hf := setup_matrix_fields sqrt
      (mixInit (α := α) flags format in_channels in_position out_channels out_position)
    rw [← hm] at hf
    obtain ⟨f1, f2, f3, f4, f5, f6⟩ := hf
    refine ⟨f1, f2, ?_, ?_, f5, f6⟩
    · rw [f3]
      exact Int.toNat_of_nonneg (le_of_lt h2.1)
    · rw [f4]
      exact Int.toNat_of_nonneg (le_of_lt h3.1)

/-- C4: the mono/stereo fast path. For input [front-left, front-right] or
[front-right, front-left] and output [mono] the constructed matrix is
[[0.5],[0.5]] and the fixed-point matrix [[512],[512]]; for input [mono] and
output [front-left, front-right] or [front-right, front-left] they are
[[1.0, 1.0]] and [[1024, 1024]]; whatever the flags. -/
theorem mono_stereo_fast_path (sqrt : α → α) (flags : Nat) (format : GstAudioFormat)
    (hf : format = GstAudioFormat.S32 ∨ format = GstAudioFormat.F64) :
    (∀ in_position, (in_position = [FRONT_LEFT, FRONT_RIGHT] ∨
        in_position = [FRONT_RIGHT, FRONT_LEFT]) →
      ∃ mix : GstAudioChannelMix α,
        gst_audio_channel_mix_new sqrt flags format 2 in_position 1 [MONO] = some mix ∧
        mix.matrix 0 0 = 1 / 2 ∧ mix.matrix 1 0 = 1 / 2 ∧
        mix.matrix_int 0 0 = 512 ∧ mix.matrix_int 1 0 = 512) ∧
    (∀ out_position, (out_position = [FRONT_LEFT, FRONT_RIGHT] ∨
        out_position = [FRONT_RIGHT, FRONT_LEFT]) →
      ∃ mix : GstAudioChannelMix α,
        gst_audio_channel_mix_new sqrt flags format 1 [MONO] 2 out_position = some mix ∧
        mix.matrix 0 0 = 1 ∧ mix.matrix 0 1 = 1 ∧
        mix.matrix_int 0 0 = 1024 ∧ mix.matrix_int 0 1 = 1024) := by
  have c512 : truncToInt ((1 : α) / 2 * 1024) = 512 := by
    have : ((1 : α) / 2 * 1024) = ((512 : Int) : α) := by norm_num
    rw [this, truncToInt_intCast]
  have c1024 : truncToInt ((1 : α) * 1024) = 1024 := by
    have : ((1 : α) * 1024) = ((1024 : Int) : α) := by norm_num
    rw [this, truncToInt_intCast]
  constructor
  · intro in_position hin
    refine ⟨_, (new_eq_some _ _ _ _ _ _ _ _).mpr ⟨⟨hf, by decide, by decide⟩, rfl⟩, ?_⟩
    have hm : ∀ a, a < 2 →
        (gst_audio_channel_mix_setup_matrix sqrt
          (mixInit (α := α) flags format 2 in_position 1 [MONO])).matrix a 0 = 1 / 2 := by
      intro a ha
      rw [setup_matrix_mixInit, fill_matrix_cases]
      have hs : (gst_audio_channel_mix_fill_special
          (mixInit (α := α) flags format 2 in_position 1 [MONO])).2 = true := by
        rw [fill_special_snd]
        rcases hin with h | h <;> subst h <;> simp [IsSpecialPair, mixInit, posAt]
      rw [if_pos hs]
      have ha2 : a = 0 ∨ a = 1 := by omega
      rcases hin with h | h <;> subst h <;> rcases ha2 with h2 | h2 <;> subst h2 <;>
        simp [gst_audio_channel_mix_fill_special, mixInit, posAt, setCell]
    refine ⟨hm 0 (by decide), hm 1 (by decide), ?_, ?_⟩
    · rw [setup_matrix_matrix_int, hm 0 (by decide)]
      simpa [mixInit] using c512
    · rw [setup_matrix_matrix_int, hm 1 (by decide)]
      simpa [mixInit] using c512
  · intro out_position hout
    refine ⟨_, (new_eq_some _ _ _ _ _ _ _ _).mpr ⟨⟨hf, by decide, by decide⟩, rfl⟩, ?_⟩
    have hm : ∀ b, b < 2 →
        (gst_audio_channel_mix_setup_matrix sqrt
          (mixInit (α := α) flags format 1 [MONO] 2 out_position)).matrix 0 b = 1 := by
      intro b hb
      rw [setup_matrix_mixInit, fill_matrix_cases]
      have hs : (gst_audio_channel_mix_fill_special
          (mixInit (α := α) flags format 1 [MONO] 2 out_position)).2 = true := by
        rw [fill_special_snd]
        rcases hout with h | h <;> subst h <;> simp [IsSpecialPair, mixInit, posAt]
      rw [if_pos hs]
      have hb2 : b = 0 ∨ b = 1 := by omega
      rcases hout with h | h <;> subst h <;> rcases hb2 with h2 | h2 <;> subst h2 <;>
        simp [gst_audio_channel_mix_fill_special, mixInit, posAt, setCell]
    refine ⟨hm 0 (by decide), hm 1 (by decide), ?_, ?_⟩
    · rw [setup_matrix_matrix_int, hm 0 (by decide)]
      simpa [mixInit] using c1024
    · rw [setup_matrix_matrix_int, hm 1 (by decide)]
      simpa [mixInit] using c1024

/-- C10: unpositioned input. For every layout pair built with
`GST_AUDIO_CHANNEL_MIX_FLAGS_UNPOSITIONED_IN` set that is not one of the two
mono/stereo special-case pairs, the constructed matrix is the
identical-position matrix: `matrix[i][j]` is 1.0 when
`in_position[i] = out_position[j]` and 0 otherwise. -/
theorem unpositioned_matrix_is_identical_fill (sqrt : α → α) (flags : Nat)
    (format : GstAudioFormat)
    (in_channels : Int) (in_position : List GstAudioChannelPosition)
    (out_channels : Int) (out_position : List GstAudioChannelPosition)
    (mix : GstAudioChannelMix α)
    (hnew : gst_audio_channel_mix_new sqrt flags format in_channels in_position
      out_channels out_position = some mix)
    (hflag : flags &&& GST_AUDIO_CHANNEL_MIX_FLAGS_UNPOSITIONED_IN ≠ 0)
    (hns : ¬ IsSpecialPair in_channels.toNat in_position out_channels.toNat out_position) :
    ∀ i j, i < mix.in_channels → j < mix.out_channels →
      mix.matrix i j = if posAt in_position i = posAt out_position j then 1 else 0 := by
  intro i j hi hj
  obtain ⟨hin, hout, hmat⟩ := new_matrix_cases _ _ _ _ _ _ _ _ hnew
  rw [if_neg hns, if_neg hflag] at hmat
  have hi2 : i < in_channels.toNat := hin ▸ hi
  have hj2 : j < out_channels.toNat := hout ▸ hj
  rw [hmat, fill_identical_matrix]
  have e1 : posAt (mixInit (α := α) flags format in_channels in_position out_channels
      out_position).in_position i = posAt in_position i := posAt_take _ _ _ hi2
  have e2 : posAt (mixInit (α := α) flags format in_channels in_position out_channels
      out_position).out_position j = posAt out_position j := posAt_take _ _ _ hj2
  rw [e1, e2]
  by_cases hp : posAt in_position i = posAt out_position j
  · rw [if_pos hp, if_pos ⟨hi2, hj2, hp⟩]
  · rw [if_neg hp, if_neg (fun h => hp h.2.2)]
    rfl

/-- C3 (as amended): normalization invariant. For every mixer returned by
`gst_audio_channel_mix_new` that is built with the unpositioned flag clear, or
whose input layout has pairwise distinct positions, and whose matrix has a
non-zero weight: every output column's sum of absolute weights is at most 1
and one column's sum equals 1, so the maximum over the columns is 1. -/
theorem normalization_invariant (sqrt : α → α) (flags : Nat) (format : GstAudioFormat)
    (in_channels : Int) (in_position : List GstAudioChannelPosition)
    (out_channels : Int) (out_position : List GstAudioChannelPosition)
    (mix : GstAudioChannelMix α)
    (hnew : gst_audio_channel_mix_new sqrt flags format in_channels in_position
      out_channels out_position = some mix)
    (hcase : flags &&& GST_AUDIO_CHANNEL_MIX_FLAGS_UNPOSITIONED_IN = 0 ∨
      ∀ i i2, i < mix.in_channels → i2 < mix.in_channels →
        posAt in_position i = posAt in_position i2 → i = i2)
    (hnz : ∃ i j, i < mix.in_channels ∧ j < mix.out_channels ∧ mix.matrix i j ≠ 0) :
    (∀ j, j < mix.out_channels →
      ∑ i in Finset.range mix.in_channels, |mix.matrix i j| ≤ 1) ∧
    (∃ j, j < mix.out_channels ∧
      ∑ i in Finset.range mix.in_channels, |mix.matrix i j| = 1) := by
  obtain ⟨hin, hout, hmat⟩ := new_matrix_cases _ _ _ _ _ _ _ _ hnew
  by_cases hs : IsSpecialPair in_channels.toNat in_position out_channels.toNat out_position
  · rw [if_pos hs] at hmat
    rcases fill_special_mixInit_matrix (α := α) flags format in_channels in_position
      out_channels out_position hs with ⟨h1, h2, hm⟩ | ⟨h1, h2, hm⟩
    · rw [hm] at hmat
      rw [hin, hout, h1, h2, hmat]
      have habs : |(1 : α) / 2| = 1 / 2 := abs_of_pos (by norm_num)
      constructor
      · intro j hj
        have : j = 0 := by omega
        subst this
        simp only [Finset.sum_range_succ, Finset.sum_range_zero, setCell]
        norm_num [habs]
      · refine ⟨0, by decide, ?_⟩
        simp only [Finset.sum_range_succ, Finset.sum_range_zero, setCell]
        norm_num [habs]
    · rw [hm] at hmat
      rw [hin, hout, h1, h2, hmat]
      constructor
      · intro j hj
        have : j = 0 ∨ j = 1 := by omega
        rcases this with h | h <;> subst h <;>
          simp only [Finset.sum_range_succ, Finset.sum_range_zero, setCell] <;> norm_num
      · refine ⟨0, by decide, ?_⟩
        simp only [Finset.sum_range_succ, Finset.sum_range_zero, setCell]
        norm_num
  · rw [if_neg hs] at hmat
    by_cases hfl : flags &&& GST_AUDIO_CHANNEL_MIX_FLAGS_UNPOSITIONED_IN = 0
    · rw [if_pos hfl] at hmat
      have hsums := fill_normalize_sums
        (gst_audio_channel_mix_fill_others sqrt
          (gst_audio_channel_mix_fill_compatible
            (gst_audio_channel_mix_fill_identical
              (mixInit (α := α) flags format in_channels in_position
                out_channels out_position))))
      have hi0 : (gst_audio_channel_mix_fill_others sqrt
          (gst_audio_channel_mix_fill_compatible
            (gst_audio_channel_mix_fill_identical
              (mixInit (α := α) flags format in_channels in_position
                out_channels out_position)))).in_channels = mix.in_channels := hin.symm
      have ho0 : (gst_audio_channel_mix_fill_others sqrt
          (gst_audio_channel_mix_fill_compatible
            (gst_audio_channel_mix_fill_identical
              (mixInit (α := α) flags format in_channels in_position
                out_channels out_position)))).out_channels = mix.out_channels := hout.symm
      simp only [normalizeSum_eq, fill_normalize_in_channels] at hsums
      rw [hi0, ho0, ← hmat] at hsums
      refine ⟨hsums.1, ?_⟩
      rcases hsums.2 with hz | hex
      · obtain ⟨i, j, hi, hj, hne⟩ := hnz
        exact absurd (hz i j hi hj) hne
      · exact hex
    · rw [if_neg hfl] at hmat
      have huniq : ∀ i i2, i < mix.in_channels → i2 < mix.in_channels →
          posAt in_position i = posAt in_position i2 → i = i2 := by
        rcases hcase with h | h
        · exact absurd h hfl
        · exact h
      have hcell : ∀ i j, i < mix.in_channels → j < mix.out_channels →
          mix.matrix i j = if posAt in_position i = posAt out_position j then 1 else 0 := by
        intro i j hi hj
        rw [hmat]
        exact fill_identical_mixInit _ _ _ _ _ _ i j (hin ▸ hi) (hout ▸ hj)
      have hcol : ∀ j, j < mix.out_channels →
          ∑ i in Finset.range mix.in_channels, |mix.matrix i j| =
          ∑ i in Finset.range mix.in_channels,
            |if posAt in_position i = posAt out_position j then (1 : α) else 0| := by
        intro j hj
        apply Finset.sum_congr rfl
        intro i hi
        rw [hcell i j (Finset.mem_range.mp hi) hj]
      have hind : ∀ j, _ := fun j => indicator_sum (α := α) mix.in_channels
        (fun i => posAt in_position i = posAt out_position j)
        (fun i i2 hi hi2 hp hp2 => huniq i i2 hi hi2 (hp.trans hp2.symm))
      constructor
      · intro j hj
        rw [hcol j hj]
        exact (hind j).1
      · obtain ⟨i, j, hi, hj, hne⟩ := hnz
        refine ⟨j, hj, ?_⟩
        rw [hcol j hj]
        apply (hind j).2
        refine ⟨i, hi, ?_⟩
        by_contra hp
        rw [hcell i j hi hj, if_neg hp] at hne
        exact hne rfl

end ConstructionClaims


/-! ## Fixed-point arithmetic of the S32 path -/

section FixedPoint

theorem wrap64_of_bounds (x : Int) (h1 : -2 ^ 63 ≤ x) (h2 : x < 2 ^ 63) : wrap64 x = x := by
  unfold wrap64
  have h : (x + 2 ^ 63) % 2 ^ 64 = x + 2 ^ 63 := by
    apply Int.emod_eq_of_lt
    · omega
    · omega
  rw [h]
  omega

/-- The accumulation loop of `gst_audio_channel_mix_mix_int` does not wrap when
every product is at most `2 ^ 41` in absolute value and there are at most 63
of them: it computes the mathematical sum. -/
theorem accLoop_spec (t : Nat → Int) (n : Nat) (hn : n ≤ 63)
    (ht : ∀ i, i < n → |t i| ≤ 2 ^ 41) :
    forLoop (fun i res => wrap64 (res + wrap64 (t i))) n 0 = ∑ i in Finset.range n, t i ∧
    |∑ i in Finset.range n, t i| ≤ (n : Int) * 2 ^ 41 := by
  induction n with
  | zero => simp [forLoop]
  | succ n ih =>
    obtain ⟨ih1, ih2⟩ := ih (by omega) (fun i hi => ht i (Nat.lt_succ_of_lt hi))
    have htn := ht n (Nat.lt_succ_self n)
    have hsum : |∑ i in Finset.range (n + 1), t i| ≤ ((n + 1 : Nat) : Int) * 2 ^ 41 := by
      rw [Finset.sum_range_succ]
      have := abs_add (∑ i in Finset.range n, t i) (t n)
      push_cast
      linarith
    refine ⟨?_, hsum⟩
    rw [forLoop_succ, ih1, Finset.sum_range_succ]
    have hn2 : (n : Int) ≤ 62 := by omega
    have b1 := abs_le.mp htn
    have b2 := abs_le.mp ih2
    have b3 : (n : Int) * 2 ^ 41 ≤ 62 * 2 ^ 41 := by nlinarith
    rw [wrap64_of_bounds (t n) (by omega) (by omega)]
    rw [wrap64_of_bounds _ (by omega) (by omega)]

/-- The shift `res >> 10` is the floor of the quotient by 1024. -/
theorem shiftRight_ten_eq_floor (x : Int) :
    x >>> INT_MATRIX_FACTOR_EXPONENT = Int.floor ((x : ℚ) / 1024) := by
  rw [Int.shiftRight_eq_div_pow]
  have h := Rat.floor_intCast_div_natCast x 1024
  simp only [Nat.cast_ofNat] at h
  rw [h]
  rfl

/-- The two comparisons that clip `res` to the `gint32` range. -/
theorem clip_eq_max_min (x : Int) :
    (if x < G_MININT32 then G_MININT32 else if x > G_MAXINT32 then G_MAXINT32 else x) =
      max (-2 ^ 31) (min (2 ^ 31 - 1) x) := by
  unfold G_MININT32 G_MAXINT32
  split_ifs <;> omega

end FixedPoint


section EngineSpec

variable {α : Type}

/-- The value of one output sample, when the accumulator cannot wrap: the sum
of the products, divided by 1024 with rounding toward minus infinity, clipped
to the `gint32` range. -/
theorem mixIntSample_eq (mix : GstAudioChannelMix α) (mem : Nat → Int) (p n o : Nat)
    (hin : mix.in_channels ≤ 63)
    (hmi : ∀ i, i < mix.in_channels → |mix.matrix_int i o| ≤ 1024)
    (hmem : ∀ a, G_MININT32 ≤ mem a ∧ mem a ≤ G_MAXINT32) :
    mixIntSample mix mem p n o =
      max (-2 ^ 31) (min (2 ^ 31 - 1)
        (Int.floor (((∑ i in Finset.range mix.in_channels,
          mem (p + (n * mix.in_channels + i)) * mix.matrix_int i o : Int) : ℚ) / 1024))) := by
  unfold mixIntSample
  have ht : ∀ i, i < mix.in_channels →
      |mem (p + (n * mix.in_channels + i)) * mix.matrix_int i o| ≤ 2 ^ 41 := by
    intro i hi
    rw [abs_mul]
    have h1 : |mem (p + (n * mix.in_channels + i))| ≤ 2 ^ 31 := by
      have := hmem (p + (n * mix.in_channels + i))
      unfold G_MININT32 G_MAXINT32 at this
      rw [abs_le]
      constructor <;> omega
    have h2 := hmi i hi
    calc |mem (p + (n * mix.in_channels + i))| * |mix.matrix_int i o|
        ≤ 2 ^ 31 * 1024 := mul_le_mul h1 h2 (abs_nonneg _) (by norm_num)
      _ = 2 ^ 41 := by norm_num
  have hacc := (accLoop_spec
    (fun i => mem (p + (n * mix.in_channels + i)) * mix.matrix_int i o)
    mix.in_channels hin ht).1
  simp only [] at hacc
  rw [hacc, clip_eq_max_min, shiftRight_ten_eq_floor]

end EngineSpec

section ConstructedBounds

variable {α : Type} [LinearOrderedField α] [FloorRing α]

theorem truncToInt_abs_le (x : α) (N : Int) (hx : |x| ≤ (N : α)) :
    |truncToInt x| ≤ N := by
  unfold truncToInt
  have hb := abs_le.mp hx
  split_ifs with h
  · have h1 : 0 ≤ Int.floor x := Int.floor_nonneg.mpr h
    rw [abs_of_nonneg h1]
    have h2 : ((Int.floor x : Int) : α) ≤ (N : α) := le_trans (Int.floor_le x) hb.2
    exact_mod_cast h2
  · have hneg : x < 0 := not_le.mp h
    have h1 : Int.ceil x ≤ 0 := Int.ceil_le.mpr (by exact_mod_cast le_of_lt hneg)
    rw [abs_of_nonpos h1]
    have h2 : ((-N : Int) : α) ≤ ((Int.ceil x : Int) : α) := by
      push_cast
      exact le_trans hb.1 (Int.le_ceil x)
    have h3 : -N ≤ Int.ceil x := by exact_mod_cast h2
    omega

/-- Every weight of a constructed instance is at most 1 in absolute value. -/
theorem new_matrix_abs_le_one (sqrt : α → α) (flags : Nat) (format : GstAudioFormat)
    (in_channels : Int) (in_position : List GstAudioChannelPosition)
    (out_channels : Int) (out_position : List GstAudioChannelPosition)
    (mix : GstAudioChannelMix α)
    (hnew : gst_audio_channel_mix_new sqrt flags format in_channels in_position
      out_channels out_position = some mix)
    (i j : Nat) (hi : i < mix.in_channels) (hj : j < mix.out_channels) :
    |mix.matrix i j| ≤ 1 := by
  obtain ⟨hin, hout, hmat⟩ := new_matrix_cases _ _ _ _ _ _ _ _ hnew
  by_cases hs : IsSpecialPair in_channels.toNat in_position out_channels.toNat out_position
  · rw [if_pos hs] at hmat
    have habs : |(1 : α) / 2| ≤ 1 := by
      rw [abs_of_pos (by norm_num)]
      norm_num
    rcases fill_special_mixInit_matrix (α := α) flags format in_channels in_position
      out_channels out_position hs with ⟨_, _, hm⟩ | ⟨_, _, hm⟩
    · rw [hmat, hm]
      simp only [setCell]
      split_ifs
      · exact habs
      · exact habs
      · simp
    · rw [hmat, hm]
      simp only [setCell]
      split_ifs <;> simp
  · rw [if_neg hs] at hmat
    by_cases hfl : flags &&& GST_AUDIO_CHANNEL_MIX_FLAGS_UNPOSITIONED_IN = 0
    · rw [if_pos hfl] at hmat
      rw [hmat]
      have h1 := abs_le_normalizeSum
        (gst_audio_channel_mix_fill_normalize
          (gst_audio_channel_mix_fill_others sqrt
            (gst_audio_channel_mix_fill_compatible
              (gst_audio_channel_mix_fill_identical
                (mixInit (α := α) flags format in_channels in_position
                  out_channels out_position))))) i j
        (by
          rw [fill_normalize_in_channels]
          have : i < in_channels.toNat := hin ▸ hi
          exact this)
      have h2 := (fill_normalize_sums
        (gst_audio_channel_mix_fill_others sqrt
          (gst_audio_channel_mix_fill_compatible
            (gst_audio_channel_mix_fill_identical
              (mixInit (α := α) flags format in_channels in_position
                out_channels out_position))))).1 j
        (by
          have : j < out_channels.toNat := hout ▸ hj
          exact this)
      exact le_trans h1 h2
    · rw [if_neg hfl] at hmat
      rw [hmat, fill_identical_mixInit _ _ _ _ _ _ i j (hin ▸ hi) (hout ▸ hj)]
      split_ifs <;> simp

/-- Every fixed-point weight of a constructed instance is at most 1024 in
absolute value. -/
theorem new_matrix_int_abs_le (sqrt : α → α) (flags : Nat) (format : GstAudioFormat)
    (in_channels : Int) (in_position : List GstAudioChannelPosition)
    (out_channels : Int) (out_position : List GstAudioChannelPosition)
    (mix : GstAudioChannelMix α)
    (hnew : gst_audio_channel_mix_new sqrt flags format in_channels in_position
      out_channels out_position = some mix)
    (i j : Nat) : |mix.matrix_int i j| ≤ 1024 := by
  obtain ⟨hin, hout, _⟩ := new_matrix_cases _ _ _ _ _ _ _ _ hnew
  obtain ⟨_, hm⟩ := (new_eq_some _ _ _ _ _ _ _ _).mp hnew
  have hcell := setup_matrix_matrix_int sqrt
    (mixInit (α := α) flags format in_channels in_position out_channels out_position) i j
  rw [← hm] at hcell
  rw [hcell]
  split_ifs with h
  · have hi : i < mix.in_channels := hin ▸ h.1
    have hj : j < mix.out_channels := hout ▸ h.2
    have h1 := new_matrix_abs_le_one _ _ _ _ _ _ _ _ hnew i j hi hj
    apply truncToInt_abs_le _ 1024
    rw [abs_mul]
    have : |(1024 : α)| = 1024 := abs_of_pos (by norm_num)
    rw [this]
    push_cast
    nlinarith [abs_nonneg (mix.matrix i j)]
  · simp

theorem new_in_channels_le (sqrt : α → α) (flags : Nat) (format : GstAudioFormat)
    (in_channels : Int) (in_position : List GstAudioChannelPosition)
    (out_channels : Int) (out_position : List GstAudioChannelPosition)
    (mix : GstAudioChannelMix α)
    (hnew : gst_audio_channel_mix_new sqrt flags format in_channels in_position
      out_channels out_position = some mix) :
    mix.in_channels ≤ 63 ∧ mix.out_channels ≤ 63 := by
  obtain ⟨hin, hout, _⟩ := new_matrix_cases _ _ _ _ _ _ _ _ hnew
  obtain ⟨⟨_, h2, h3⟩, _⟩ := (new_eq_some _ _ _ _ _ _ _ _).mp hnew
  rw [hin, hout]
  omega

end ConstructedBounds


/-! ## Claims about the S32 mixing engine -/

section EngineClaims

open GstAudioChannelPosition

/-- C2: in-place mixing equals out-of-place mixing. For every mixer and every
sample count, running `gst_audio_channel_mix_mix_int` with the output buffer
being the input buffer leaves in the first `samples * out_channels` entries
exactly the values that an out-of-place run on a copy of the same input
produces; frames are visited last to first exactly when
`out_channels > in_channels`, first to last otherwise. -/
theorem mix_int_in_place_eq_out_of_place {α : Type} (mix : GstAudioChannelMix α)
    (samples : Int) (mem : Nat → Int) (buf : Nat) (mem2 : Nat → Int) (in2 out2 : Nat)
    (hcopy : ∀ k, k < samples.toNat * mix.in_channels → mem2 (in2 + k) = mem (buf + k))
    (hdisj : in2 + samples.toNat * mix.in_channels ≤ out2 ∨
      out2 + samples.toNat * mix.out_channels ≤ in2) :
    (∀ k, k < samples.toNat * mix.out_channels →
      gst_audio_channel_mix_mix_int mix mem buf buf samples (buf + k) =
        gst_audio_channel_mix_mix_int mix mem2 in2 out2 samples (out2 + k)) ∧
    gst_audio_channel_mix_mix_int mix mem buf buf samples =
      (if mix.out_channels > mix.in_channels then
        forLoopDown (mixIntFrame mix buf buf) samples.toNat mem
      else forLoop (mixIntFrame mix buf buf) samples.toNat mem) := by
  constructor
  · intro k hk
    have hpos : 0 < mix.out_channels := by
      rcases Nat.eq_zero_or_pos mix.out_channels with h | h
      · rw [h, Nat.mul_zero] at hk
        omega
      · exact h
    have hn : k / mix.out_channels < samples.toNat :=
      Nat.div_lt_of_lt_mul (by rw [Nat.mul_comm]; exact hk)
    have ho : k % mix.out_channels < mix.out_channels := Nat.mod_lt _ hpos
    have hk2 : k = k / mix.out_channels * mix.out_channels + k % mix.out_channels := by
      rw [Nat.mul_comm]
      exact (Nat.div_add_mod k mix.out_channels).symm
    rw [hk2]
    rw [mix_int_sample mix mem buf buf samples (Or.inl rfl) _ hn _ ho,
      mix_int_sample mix mem2 in2 out2 samples (Or.inr hdisj) _ hn _ ho]
    apply mixIntSample_congr
    intro i hi
    symm
    apply hcopy
    have h1 : (k / mix.out_channels + 1) * mix.in_channels ≤ samples.toNat * mix.in_channels :=
      Nat.mul_le_mul_right _ hn
    rw [Nat.succ_mul] at h1
    omega
  · unfold gst_audio_channel_mix_mix_int
    by_cases h : mix.out_channels > mix.in_channels
    · simp [h]
    · simp [h]

/-- C2, at the test case of the specification: one channel to two channels,
four frames, the sample with index 5. -/
theorem mix_int_in_place_eq_out_of_place_witness :
    gst_audio_channel_mix_mix_int
        ({ flags := 0, format := GstAudioFormat.S32, in_channels := 1, out_channels := 2,
           in_position := [MONO], out_position := [FRONT_LEFT, FRONT_RIGHT],
           matrix := fun _ _ => 1, matrix_int := fun _ _ => 1024 } : GstAudioChannelMix ℚ)
        (fun a => (a : Int) + 7) 0 0 4 (0 + 5) =
      gst_audio_channel_mix_mix_int
        ({ flags := 0, format := GstAudioFormat.S32, in_channels := 1, out_channels := 2,
           in_position := [MONO], out_position := [FRONT_LEFT, FRONT_RIGHT],
           matrix := fun _ _ => 1, matrix_int := fun _ _ => 1024 } : GstAudioChannelMix ℚ)
        (fun a => (a : Int) + 7) 0 100 4 (100 + 5) :=
  (mix_int_in_place_eq_out_of_place
    ({ flags := 0, format := GstAudioFormat.S32, in_channels := 1, out_channels := 2,
       in_position := [MONO], out_position := [FRONT_LEFT, FRONT_RIGHT],
       matrix := fun _ _ => 1, matrix_int := fun _ _ => 1024 } : GstAudioChannelMix ℚ)
    4 (fun a => (a : Int) + 7) 0 (fun a => (a : Int) + 7) 0 100
    (fun _ _ => rfl) (by decide)).1 5 (by decide)

variable {α : Type} [LinearOrderedField α] [FloorRing α]

/-- C9: the S32 mixing formula. For every constructed mixer, every frame
`n < samples` and every output channel `o`, `gst_audio_channel_mix_mix_int`
writes `out[n * out_channels + o] = clamp (floor ((sum over the input channels
i of in[n * in_channels + i] * matrix_int[i][o]) / 1024), -2^31, 2^31 - 1)`;
the right shift by 10 is this floor; every output sample lies in the signed
32-bit range. The buffers are the same buffer or do not overlap, and the
memory holds `gint32` values. -/
theorem mix_int_formula (sqrt : α → α) (flags : Nat) (format : GstAudioFormat)
    (in_channels : Int) (in_position : List GstAudioChannelPosition)
    (out_channels : Int) (out_position : List GstAudioChannelPosition)
    (mix : GstAudioChannelMix α)
    (hnew : gst_audio_channel_mix_new sqrt flags format in_channels in_position
      out_channels out_position = some mix)
    (mem : Nat → Int) (in_data out_data : Nat) (samples : Int)
    (hb : BuffersOk mix in_data out_data samples)
    (hmem : ∀ a, G_MININT32 ≤ mem a ∧ mem a ≤ G_MAXINT32)
    (n : Nat) (hn : n < samples.toNat) (o : Nat) (ho : o < mix.out_channels) :
    gst_audio_channel_mix_mix_int mix mem in_data out_data samples
        (out_data + (n * mix.out_channels + o)) =
      max (-2 ^ 31) (min (2 ^ 31 - 1)
        (Int.floor (((∑ i in Finset.range mix.in_channels,
          mem (in_data + (n * mix.in_channels + i)) * mix.matrix_int i o : Int) : ℚ) / 1024))) ∧
    (∑ i in Finset.range mix.in_channels,
        mem (in_data + (n * mix.in_channels + i)) * mix.matrix_int i o) >>>
        INT_MATRIX_FACTOR_EXPONENT =
      Int.floor (((∑ i in Finset.range mix.in_channels,
        mem (in_data + (n * mix.in_channels + i)) * mix.matrix_int i o : Int) : ℚ) / 1024) ∧
    -2 ^ 31 ≤ gst_audio_channel_mix_mix_int mix mem in_data out_data samples
        (out_data + (n * mix.out_channels + o)) ∧
    gst_audio_channel_mix_mix_int mix mem in_data out_data samples
        (out_data + (n * mix.out_channels + o)) ≤ 2 ^ 31 - 1 := by
  have hval : gst_audio_channel_mix_mix_int mix mem in_data out_data samples
        (out_data + (n * mix.out_channels + o)) =
      max (-2 ^ 31) (min (2 ^ 31 - 1)
        (Int.floor (((∑ i in Finset.range mix.in_channels,
          mem (in_data + (n * mix.in_channels + i)) * mix.matrix_int i o : Int) : ℚ) / 1024))) := by
    rw [mix_int_sample mix mem in_data out_data samples hb n hn o ho]
    exact mixIntSample_eq mix mem in_data n o
      (new_in_channels_le _ _ _ _ _ _ _ _ hnew).1
      (fun i _ => new_matrix_int_abs_le _ _ _ _ _ _ _ _ hnew i o) hmem
  refine ⟨hval, shiftRight_ten_eq_floor _, ?_, ?_⟩
  · rw [hval]
    exact le_max_left _ _
  · rw [hval]
    exact max_le (by norm_num) (min_le_left _ _)

end EngineClaims


/-! ## The passthrough check -/

section Passthrough

open GstAudioChannelPosition

/-- The mask loop of `gst_audio_channel_mix_is_passthrough` computes the two
masks independently. -/
theorem maskLoop_eq (f g : Nat → Nat) (n : Nat) :
    forLoop (fun i (mk : Nat × Nat) => (mk.1 ||| f i, mk.2 ||| g i)) n (0, 0) =
      (forLoop (fun i m => m ||| f i) n 0, forLoop (fun i m => m ||| g i) n 0) := by
  induction n with
  | zero => rfl
  | succ n ih => rw [forLoop_succ, ih, forLoop_succ, forLoop_succ]

/-- The result of `gst_audio_channel_mix_is_passthrough` in terms of the two
masks. -/
theorem is_passthrough_eq {α : Type} (value : GstAudioChannelPosition → Int)
    (mix : GstAudioChannelMix α) :
    gst_audio_channel_mix_is_passthrough value mix =
      if mix.in_channels ≠ mix.out_channels then false
      else if mix.in_channels = 1 ∧ mix.out_channels = 1 then true
      else decide
        (forLoop (fun i m => m ||| toGuint64 (value (posAt mix.in_position i)))
            mix.in_channels 0 =
          forLoop (fun i m => m ||| toGuint64 (value (posAt mix.out_position i)))
            mix.in_channels 0) := by
  unfold gst_audio_channel_mix_is_passthrough
  simp only [maskLoop_eq]

/-- Instances with the same channel counts and the same positions below the
channel count have the same passthrough result. -/
theorem is_passthrough_congr {α β : Type} (value : GstAudioChannelPosition → Int)
    (mix : GstAudioChannelMix α) (mix2 : GstAudioChannelMix β)
    (hi : mix.in_channels = mix2.in_channels) (ho : mix.out_channels = mix2.out_channels)
    (hpi : ∀ i, i < mix.in_channels → posAt mix.in_position i = posAt mix2.in_position i)
    (hpo : ∀ i, i < mix.in_channels → posAt mix.out_position i = posAt mix2.out_position i) :
    gst_audio_channel_mix_is_passthrough value mix =
      gst_audio_channel_mix_is_passthrough value mix2 := by
  rw [is_passthrough_eq, is_passthrough_eq, ← hi, ← ho]
  have h1 : forLoop (fun i m => m ||| toGuint64 (value (posAt mix.in_position i)))
      mix.in_channels 0 =
      forLoop (fun i m => m ||| toGuint64 (value (posAt mix2.in_position i)))
      mix.in_channels 0 :=
    forLoop_congr _ _ _ _ (fun i hlt t => by rw [hpi i hlt])
  have h2 : forLoop (fun i m => m ||| toGuint64 (value (posAt mix.out_position i)))
      mix.in_channels 0 =
      forLoop (fun i m => m ||| toGuint64 (value (posAt mix2.out_position i)))
      mix.in_channels 0 :=
    forLoop_congr _ _ _ _ (fun i hlt t => by rw [hpo i hlt])
  rw [h1, h2]

/-- C6: `gst_audio_channel_mix_is_passthrough` returns false for every mixer
with `in_channels != out_channels` and true for every mixer with
`in_channels = out_channels = 1`, whatever the two positions are; its result
depends only on the channel counts and the two layouts, never on flags,
format or matrix weights. -/
theorem is_passthrough_counts_and_layouts {α β : Type}
    (value : GstAudioChannelPosition → Int)
    (mix : GstAudioChannelMix α) (mix2 : GstAudioChannelMix β) :
    (mix.in_channels ≠ mix.out_channels →
      gst_audio_channel_mix_is_passthrough value mix = false) ∧
    (mix.in_channels = 1 ∧ mix.out_channels = 1 →
      gst_audio_channel_mix_is_passthrough value mix = true) ∧
    (mix.in_channels = mix2.in_channels ∧ mix.out_channels = mix2.out_channels ∧
        (∀ i, i < mix.in_channels → posAt mix.in_position i = posAt mix2.in_position i) ∧
        (∀ i, i < mix.out_channels → posAt mix.out_position i = posAt mix2.out_position i) →
      gst_audio_channel_mix_is_passthrough value mix =
        gst_audio_channel_mix_is_passthrough value mix2) := by
  refine ⟨?_, ?_, ?_⟩
  · intro h
    rw [is_passthrough_eq, if_pos h]
  · intro h
    have h2 : ¬ mix.in_channels ≠ mix.out_channels := by
      rw [h.1, h.2]
      exact fun hne => hne rfl
    rw [is_passthrough_eq, if_neg h2, if_pos h]
  · rintro ⟨hi, ho, hpi, hpo⟩
    by_cases hne : mix.in_channels = mix.out_channels
    · exact is_passthrough_congr value mix mix2 hi ho hpi (fun i hlt => hpo i (hne ▸ hlt))
    · have hne2 : mix2.in_channels ≠ mix2.out_channels := by
        rw [← hi, ← ho]
        exact hne
      rw [is_passthrough_eq, is_passthrough_eq, if_pos hne, if_pos hne2]

end Passthrough

/-! ## What the mask comparison decides -/

section MaskComparison

/-- A bit is set in the accumulated mask exactly when it is set in one of the
values that were OR-ed into it. -/
theorem maskLoop_testBit (f : Nat → Nat) (n k : Nat) :
    (forLoop (fun i m => m ||| f i) n 0).testBit k = true ↔
      ∃ i, i < n ∧ (f i).testBit k = true := by
  induction n with
  | zero => simp [forLoop]
  | succ n ih =>
    rw [forLoop_succ, Nat.testBit_lor, Bool.or_eq_true, ih]
    constructor
    · rintro (⟨i, hi, h⟩ | h)
      · exact ⟨i, Nat.lt_succ_of_lt hi, h⟩
      · exact ⟨n, Nat.lt_succ_self n, h⟩
    · rintro ⟨i, hi, h⟩
      rcases Nat.lt_succ_iff_lt_or_eq.mp hi with h2 | h2
      · exact Or.inl ⟨i, h2, h⟩
      · subst h2
        exact Or.inr h

/-- For every numbering of the positions: when the two layouts have the same
channel count and use the same set of positions,
`gst_audio_channel_mix_is_passthrough` returns true. -/
theorem is_passthrough_of_same_position_set {α : Type}
    (value : GstAudioChannelPosition → Int) (mix : GstAudioChannelMix α)
    (hcount : mix.in_channels = mix.out_channels)
    (hio : ∀ i, i < mix.in_channels → ∃ i2, i2 < mix.in_channels ∧
      posAt mix.in_position i = posAt mix.out_position i2)
    (hoi : ∀ i, i < mix.in_channels → ∃ i2, i2 < mix.in_channels ∧
      posAt mix.out_position i = posAt mix.in_position i2) :
    gst_audio_channel_mix_is_passthrough value mix = true := by
  rw [is_passthrough_eq, if_neg (not_not.mpr hcount)]
  split_ifs
  · rfl
  · rw [decide_eq_true_eq]
    apply Nat.eq_of_testBit_eq
    intro k
    rw [Bool.eq_iff_iff, maskLoop_testBit, maskLoop_testBit]
    constructor
    · rintro ⟨i, hi, h⟩
      obtain ⟨i2, hi2, he⟩ := hio i hi
      exact ⟨i2, hi2, by rw [← he]; exact h⟩
    · rintro ⟨i, hi, h⟩
      obtain ⟨i2, hi2, he⟩ := hoi i hi
      exact ⟨i2, hi2, by rw [← he]; exact h⟩

/-- When every position's value is a bit of its own, and the layouts have the
same channel count of at least 2, `gst_audio_channel_mix_is_passthrough`
returns true only if the two layouts use the same set of positions. -/
theorem same_position_set_of_is_passthrough {α : Type}
    (value : GstAudioChannelPosition → Int) (bit : GstAudioChannelPosition → Nat)
    (hval : ∀ p, toGuint64 (value p) = 2 ^ bit p) (hinj : Function.Injective bit)
    (mix : GstAudioChannelMix α)
    (hcount : mix.in_channels = mix.out_channels) (h2 : 2 ≤ mix.in_channels)
    (hpass : gst_audio_channel_mix_is_passthrough value mix = true) :
    (∀ i, i < mix.in_channels → ∃ i2, i2 < mix.in_channels ∧
      posAt mix.in_position i = posAt mix.out_position i2) ∧
    (∀ i, i < mix.in_channels → ∃ i2, i2 < mix.in_channels ∧
      posAt mix.out_position i = posAt mix.in_position i2) := by
  have h1 : ¬ (mix.in_channels = 1 ∧ mix.out_channels = 1) := by
    intro h
    omega
  rw [is_passthrough_eq, if_neg (not_not.mpr hcount), if_neg h1, decide_eq_true_eq] at hpass
  have hbit : ∀ p k, (toGuint64 (value p)).testBit k = true ↔ bit p = k := by
    intro p k
    rw [hval p, Nat.testBit_two_pow]
    simp
  constructor
  · intro i hi
    have h := (maskLoop_testBit
      (fun i => toGuint64 (value (posAt mix.in_position i))) mix.in_channels
      (bit (posAt mix.in_position i))).mpr ⟨i, hi, (hbit _ _).mpr rfl⟩
    rw [hpass] at h
    obtain ⟨i2, hi2, h3⟩ := (maskLoop_testBit _ _ _).mp h
    exact ⟨i2, hi2, (hinj ((hbit _ _).mp h3)).symm⟩
  · intro i hi
    have h := (maskLoop_testBit
      (fun i => toGuint64 (value (posAt mix.out_position i))) mix.in_channels
      (bit (posAt mix.out_position i))).mpr ⟨i, hi, (hbit _ _).mpr rfl⟩
    rw [← hpass] at h
    obtain ⟨i2, hi2, h3⟩ := (maskLoop_testBit _ _ _).mp h
    exact ⟨i2, hi2, (hinj ((hbit _ _).mp h3)).symm⟩

end MaskComparison


section PassthroughDefect

open GstAudioChannelPosition

/-- C5, the code at a failing input: with the enumerator values of
`audio-channels.h`, input [front-left, low-frequency] and output
[front-right, front-center] have the masks `0 | 3` and `1 | 2`, so
`gst_audio_channel_mix_is_passthrough` returns true although front-left occurs
in the input layout only. -/
theorem is_passthrough_true_on_different_position_sets :
    ∃ mix : GstAudioChannelMix ℝ,
      gst_audio_channel_mix_new Real.sqrt 0 GstAudioFormat.S32
        2 [FRONT_LEFT, LFE1] 2 [FRONT_RIGHT, FRONT_CENTER] = some mix ∧
      mix.in_channels = 2 ∧ mix.out_channels = 2 ∧
      gst_audio_channel_mix_is_passthrough gstPositionValue mix = true ∧
      FRONT_LEFT ∈ mix.in_position ∧ FRONT_LEFT ∉ mix.out_position := by
  have hf := setup_matrix_fields Real.sqrt
    (mixInit (α := ℝ) 0 GstAudioFormat.S32 2 [FRONT_LEFT, LFE1] 2 [FRONT_RIGHT, FRONT_CENTER])
  obtain ⟨_, _, f3, f4, f5, f6⟩ := hf
  refine ⟨_, (new_eq_some _ _ _ _ _ _ _ _).mpr ⟨⟨Or.inl rfl, by decide, by decide⟩, rfl⟩,
    ?_, ?_, ?_, ?_, ?_⟩
  · rw [f3]; rfl
  · rw [f4]; rfl
  · have h := is_passthrough_congr gstPositionValue
      (gst_audio_channel_mix_setup_matrix Real.sqrt
        (mixInit (α := ℝ) 0 GstAudioFormat.S32 2 [FRONT_LEFT, LFE1] 2
          [FRONT_RIGHT, FRONT_CENTER]))
      (mixInit (α := ℚ) 0 GstAudioFormat.S32 2 [FRONT_LEFT, LFE1] 2
        [FRONT_RIGHT, FRONT_CENTER])
      (by rw [f3]; rfl) (by rw [f4]; rfl)
      (fun i _ => by rw [f5]; rfl) (fun i _ => by rw [f6]; rfl)
    rw [h]
    decide
  · rw [f5]
    decide
  · rw [f6]
    decide

end PassthroughDefect


/-! ## Evaluation at concrete layouts -/

section Evaluation

variable {α : Type} [LinearOrderedField α]

/-- The value of `top` from bounds on the column sums. -/
theorem normalizeTop_eq_of (mix : GstAudioChannelMix α) (t : α) (h0 : 0 ≤ t)
    (hle : ∀ j, j < mix.out_channels → normalizeSum mix j ≤ t)
    (hex : ∃ j, j < mix.out_channels ∧ normalizeSum mix j = t) :
    normalizeTop mix = t := by
  obtain ⟨j, hj, hjt⟩ := hex
  apply le_antisymm
  · rcases normalizeTop_attained mix with h | ⟨k, hk, h⟩
    · rw [h]; exact h0
    · rw [h]; exact hle k hk
  · rw [← hjt]
    exact normalizeSum_le_top mix j hj

end Evaluation

section Evaluation2

variable {α : Type} [LinearOrderedField α] [FloorRing α]

open GstAudioChannelPosition

/-- The fixed-point cells of a constructed instance. -/
theorem new_matrix_int_cell (sqrt : α → α) (flags : Nat) (format : GstAudioFormat)
    (in_channels : Int) (in_position : List GstAudioChannelPosition)
    (out_channels : Int) (out_position : List GstAudioChannelPosition)
    (mix : GstAudioChannelMix α)
    (hnew : gst_audio_channel_mix_new sqrt flags format in_channels in_position
      out_channels out_position = some mix) (i j : Nat) :
    mix.matrix_int i j =
      if i < mix.in_channels ∧ j < mix.out_channels then truncToInt (mix.matrix i j * 1024)
      else 0 := by
  obtain ⟨hin, hout, _⟩ := new_matrix_cases _ _ _ _ _ _ _ _ hnew
  obtain ⟨_, hm⟩ := (new_eq_some _ _ _ _ _ _ _ _).mp hnew
  have hcell := setup_matrix_matrix_int sqrt
    (mixInit (α := α) flags format in_channels in_position out_channels out_position) i j
  rw [← hm] at hcell
  rw [hcell, hin, hout]
  rfl

/-- The matrices built for input [front-left, front-right] and output
[front-right, front-left], unpositioned flag clear: the two channels are
exchanged. -/
theorem swapped_stereo_matrix (sqrt : α → α) (format : GstAudioFormat)
    (mix : GstAudioChannelMix α)
    (hnew : gst_audio_channel_mix_new sqrt 0 format 2 [FRONT_LEFT, FRONT_RIGHT]
      2 [FRONT_RIGHT, FRONT_LEFT] = some mix) :
    mix.in_channels = 2 ∧ mix.out_channels = 2 ∧
    mix.matrix 0 0 = 0 ∧ mix.matrix 0 1 = 1 ∧ mix.matrix 1 0 = 1 ∧ mix.matrix 1 1 = 0 ∧
    mix.matrix_int 0 0 = 0 ∧ mix.matrix_int 0 1 = 1024 ∧
    mix.matrix_int 1 0 = 1024 ∧ mix.matrix_int 1 1 = 0 := by
  obtain ⟨hin, hout, hmat⟩ := new_matrix_cases _ _ _ _ _ _ _ _ hnew
  have hin2 : mix.in_channels = 2 := hin
  have hout2 : mix.out_channels = 2 := hout
  have hns : ¬ IsSpecialPair (2 : Int).toNat [FRONT_LEFT, FRONT_RIGHT] (2 : Int).toNat
      [FRONT_RIGHT, FRONT_LEFT] := by decide
  have hfl : (0 : Nat) &&& GST_AUDIO_CHANNEL_MIX_FLAGS_UNPOSITIONED_IN = 0 := by decide
  rw [if_neg hns, if_pos hfl] at hmat
  have hpre : (gst_audio_channel_mix_fill_others sqrt
      (gst_audio_channel_mix_fill_compatible
        (gst_audio_channel_mix_fill_identical
          (mixInit (α := α) 0 format 2 [FRONT_LEFT, FRONT_RIGHT] 2
            [FRONT_RIGHT, FRONT_LEFT])))).matrix =
      setCell (setCell (fun _ _ => 0) 1 0 1) 0 1 1 := rfl
  have hsum : ∀ j, j < 2 → normalizeSum (gst_audio_channel_mix_fill_others sqrt
      (gst_audio_channel_mix_fill_compatible
        (gst_audio_channel_mix_fill_identical
          (mixInit (α := α) 0 format 2 [FRONT_LEFT, FRONT_RIGHT] 2
            [FRONT_RIGHT, FRONT_LEFT])))) j = 1 := by
    intro j hj
    rw [normalizeSum_eq, hpre]
    show ∑ i in Finset.range 2, _ = _
    have : j = 0 ∨ j = 1 := by omega
    rcases this with h | h <;> subst h <;>
      simp [Finset.sum_range_succ, setCell]
  have htop : normalizeTop (gst_audio_channel_mix_fill_others sqrt
      (gst_audio_channel_mix_fill_compatible
        (gst_audio_channel_mix_fill_identical
          (mixInit (α := α) 0 format 2 [FRONT_LEFT, FRONT_RIGHT] 2
            [FRONT_RIGHT, FRONT_LEFT])))) = 1 :=
    normalizeTop_eq_of _ 1 zero_le_one (fun j hj => le_of_eq (hsum j hj))
      ⟨0, Nat.zero_lt_two, hsum 0 Nat.zero_lt_two⟩
  have hcell : ∀ i j, mix.matrix i j =
      (setCell (setCell (fun _ _ => (0 : α)) 1 0 1) 0 1 1) i j := by
    intro i j
    rw [hmat, fill_normalize_matrix, htop, hpre]
    split_ifs <;> simp
  have c0 : truncToInt ((0 : α) * 1024) = 0 := by
    have : ((0 : α) * 1024) = ((0 : Int) : α) := by norm_num
    rw [this, truncToInt_intCast]
  have c1 : truncToInt ((1 : α) * 1024) = 1024 := by
    have : ((1 : α) * 1024) = ((1024 : Int) : α) := by norm_num
    rw [this, truncToInt_intCast]
  have m00 : mix.matrix 0 0 = 0 := by rw [hcell]; simp [setCell]
  have m01 : mix.matrix 0 1 = 1 := by rw [hcell]; simp [setCell]
  have m10 : mix.matrix 1 0 = 1 := by rw [hcell]; simp [setCell]
  have m11 : mix.matrix 1 1 = 0 := by rw [hcell]; simp [setCell]
  refine ⟨hin2, hout2, m00, m01, m10, m11, ?_, ?_, ?_, ?_⟩
  · rw [new_matrix_int_cell _ _ _ _ _ _ _ _ hnew, hin2, hout2, m00]
    simpa using c0
  · rw [new_matrix_int_cell _ _ _ _ _ _ _ _ hnew, hin2, hout2, m01]
    simpa using c1
  · rw [new_matrix_int_cell _ _ _ _ _ _ _ _ hnew, hin2, hout2, m10]
    simpa using c1
  · rw [new_matrix_int_cell _ _ _ _ _ _ _ _ hnew, hin2, hout2, m11]
    simpa using c0

end Evaluation2


section PassthroughNotIdentity

open GstAudioChannelPosition

theorem floor_div_1024 (x : Int) : Int.floor ((x : ℚ) / 1024) = x / 1024 := by
  have h := Rat.floor_intCast_div_natCast x 1024
  simp only [Nat.cast_ofNat] at h
  exact h

/-- C1, the code at a failing input: for input [front-left, front-right] and
output [front-right, front-left] `gst_audio_channel_mix_is_passthrough` returns
true (whatever the enumerator values are), and
`gst_audio_channel_mix_mix_int` turns the input frame (10, 20) into the output
frame (20, 10), which is not a copy of it. -/
theorem passthrough_true_but_channels_exchanged :
    ∃ mix : GstAudioChannelMix ℝ,
      gst_audio_channel_mix_new Real.sqrt 0 GstAudioFormat.S32
        2 [FRONT_LEFT, FRONT_RIGHT] 2 [FRONT_RIGHT, FRONT_LEFT] = some mix ∧
      (∀ value, gst_audio_channel_mix_is_passthrough value mix = true) ∧
      gst_audio_channel_mix_mix_int mix (fun a => if a = 0 then 10 else if a = 1 then 20 else 0)
        0 2 1 (2 + 0) = 20 ∧
      gst_audio_channel_mix_mix_int mix (fun a => if a = 0 then 10 else if a = 1 then 20 else 0)
        0 2 1 (2 + 1) = 10 := by
  have hnew : gst_audio_channel_mix_new Real.sqrt 0 GstAudioFormat.S32
      2 [FRONT_LEFT, FRONT_RIGHT] 2 [FRONT_RIGHT, FRONT_LEFT] =
      some (gst_audio_channel_mix_setup_matrix Real.sqrt
        (mixInit (α := ℝ) 0 GstAudioFormat.S32 2 [FRONT_LEFT, FRONT_RIGHT] 2
          [FRONT_RIGHT, FRONT_LEFT])) :=
    (new_eq_some _ _ _ _ _ _ _ _).mpr ⟨⟨Or.inl rfl, by decide, by decide⟩, rfl⟩
  obtain ⟨hin, hout, _, _, _, _, i00, i01, i10, i11⟩ :=
    swapped_stereo_matrix Real.sqrt GstAudioFormat.S32 _ hnew
  obtain ⟨_, _, _, _, f5, f6⟩ := setup_matrix_fields Real.sqrt
    (mixInit (α := ℝ) 0 GstAudioFormat.S32 2 [FRONT_LEFT, FRONT_RIGHT] 2
      [FRONT_RIGHT, FRONT_LEFT])
  have hmem : ∀ a : Nat, G_MININT32 ≤ (if a = 0 then (10 : Int) else if a = 1 then 20 else 0) ∧
      (if a = 0 then (10 : Int) else if a = 1 then 20 else 0) ≤ G_MAXINT32 := by
    intro a
    unfold G_MININT32 G_MAXINT32
    split_ifs <;> constructor <;> norm_num
  have hb : BuffersOk (gst_audio_channel_mix_setup_matrix Real.sqrt
      (mixInit (α := ℝ) 0 GstAudioFormat.S32 2 [FRONT_LEFT, FRONT_RIGHT] 2
        [FRONT_RIGHT, FRONT_LEFT])) 0 2 1 := by
    unfold BuffersOk
    rw [hin]
    decide
  have hsample : ∀ o, o < 2 →
      gst_audio_channel_mix_mix_int (gst_audio_channel_mix_setup_matrix Real.sqrt
        (mixInit (α := ℝ) 0 GstAudioFormat.S32 2 [FRONT_LEFT, FRONT_RIGHT] 2
          [FRONT_RIGHT, FRONT_LEFT]))
        (fun a => if a = 0 then 10 else if a = 1 then 20 else 0) 0 2 1 (2 + o) =
      max (-2 ^ 31) (min (2 ^ 31 - 1)
        (((10 : Int) * (gst_audio_channel_mix_setup_matrix Real.sqrt
          (mixInit (α := ℝ) 0 GstAudioFormat.S32 2 [FRONT_LEFT, FRONT_RIGHT] 2
            [FRONT_RIGHT, FRONT_LEFT])).matrix_int 0 o +
          20 * (gst_audio_channel_mix_setup_matrix Real.sqrt
          (mixInit (α := ℝ) 0 GstAudioFormat.S32 2 [FRONT_LEFT, FRONT_RIGHT] 2
            [FRONT_RIGHT, FRONT_LEFT])).matrix_int 1 o) / 1024)) := by
    intro o ho
    have h := mix_int_sample _ (fun a => if a = 0 then (10 : Int) else if a = 1 then 20 else 0)
      0 2 1 hb 0 (by decide) o (by rw [hout]; exact ho)
    rw [Nat.zero_mul, Nat.zero_add] at h
    rw [h, mixIntSample_eq _ _ _ _ _ (by rw [hin]; decide)
      (fun i _ => new_matrix_int_abs_le _ _ _ _ _ _ _ _ hnew i o) hmem, floor_div_1024, hin]
    simp [Finset.sum_range_succ]
  refine ⟨_, hnew, ?_, ?_, ?_⟩
  · intro value
    rw [is_passthrough_eq, hin, hout, f5, f6]
    simp [forLoop, posAt, mixInit, Nat.lor_comm]
  · rw [hsample 0 (by decide), i00, i10]
    norm_num
  · rw [hsample 1 (by decide), i01, i11]
    norm_num

end PassthroughNotIdentity


/-! ## Concrete instances of the construction claims -/

section ConstructionInstances

open GstAudioChannelPosition

/-- C3, as stated, fails: with the unpositioned flag set, input
[front-left, front-left] and output [front-left], both weights are 1.0, the
matrix is not zero and the only column sums to 2. -/
theorem normalization_fails_for_unpositioned_duplicates :
    ∃ mix : GstAudioChannelMix ℝ,
      gst_audio_channel_mix_new Real.sqrt GST_AUDIO_CHANNEL_MIX_FLAGS_UNPOSITIONED_IN
        GstAudioFormat.S32 2 [FRONT_LEFT, FRONT_LEFT] 1 [FRONT_LEFT] = some mix ∧
      (∃ i j, i < mix.in_channels ∧ j < mix.out_channels ∧ mix.matrix i j ≠ 0) ∧
      ¬ ((∀ j, j < mix.out_channels →
            ∑ i in Finset.range mix.in_channels, |mix.matrix i j| ≤ 1) ∧
          (∃ j, j < mix.out_channels ∧
            ∑ i in Finset.range mix.in_channels, |mix.matrix i j| = 1)) := by
  have hnew : gst_audio_channel_mix_new Real.sqrt GST_AUDIO_CHANNEL_MIX_FLAGS_UNPOSITIONED_IN
      GstAudioFormat.S32 2 [FRONT_LEFT, FRONT_LEFT] 1 [FRONT_LEFT] =
      some (gst_audio_channel_mix_setup_matrix Real.sqrt
        (mixInit (α := ℝ) GST_AUDIO_CHANNEL_MIX_FLAGS_UNPOSITIONED_IN GstAudioFormat.S32
          2 [FRONT_LEFT, FRONT_LEFT] 1 [FRONT_LEFT])) :=
    (new_eq_some _ _ _ _ _ _ _ _).mpr ⟨⟨Or.inl rfl, by decide, by decide⟩, rfl⟩
  obtain ⟨hin, hout, _⟩ := new_matrix_cases _ _ _ _ _ _ _ _ hnew
  have hin2 : (gst_audio_channel_mix_setup_matrix Real.sqrt
        (mixInit (α := ℝ) GST_AUDIO_CHANNEL_MIX_FLAGS_UNPOSITIONED_IN GstAudioFormat.S32
          2 [FRONT_LEFT, FRONT_LEFT] 1 [FRONT_LEFT])).in_channels = 2 := hin
  have hout2 : (gst_audio_channel_mix_setup_matrix Real.sqrt
        (mixInit (α := ℝ) GST_AUDIO_CHANNEL_MIX_FLAGS_UNPOSITIONED_IN GstAudioFormat.S32
          2 [FRONT_LEFT, FRONT_LEFT] 1 [FRONT_LEFT])).out_channels = 1 := hout
  have hcell := new_unpositioned_cell _ _ _ _ _ _ _ _ hnew (by decide) (by decide)
  have m0 := hcell 0 0 (by rw [hin2]; decide) (by rw [hout2]; decide)
  have m1 := hcell 1 0 (by rw [hin2]; decide) (by rw [hout2]; decide)
  have e0 : posAt [FRONT_LEFT, FRONT_LEFT] 0 = posAt [FRONT_LEFT] 0 := by decide
  have e1 : posAt [FRONT_LEFT, FRONT_LEFT] 1 = posAt [FRONT_LEFT] 0 := by decide
  rw [if_pos e0] at m0
  rw [if_pos e1] at m1
  refine ⟨_, hnew, ⟨0, 0, by rw [hin2]; decide, by rw [hout2]; decide, ?_⟩, ?_⟩
  · rw [m0]
    exact one_ne_zero
  · rintro ⟨hle, _⟩
    have h := hle 0 (by rw [hout2]; decide)
    rw [hin2] at h
    simp only [Finset.sum_range_succ, Finset.sum_range_zero, m0, m1] at h
    norm_num at h

/-- C3 (as amended) at input [front-left, front-right] and output
[front-right, front-left], unpositioned flag clear. -/
theorem normalization_invariant_witness :
    ∃ mix : GstAudioChannelMix ℝ,
      gst_audio_channel_mix_new Real.sqrt 0 GstAudioFormat.S32
        2 [FRONT_LEFT, FRONT_RIGHT] 2 [FRONT_RIGHT, FRONT_LEFT] = some mix ∧
      (∀ j, j < mix.out_channels →
        ∑ i in Finset.range mix.in_channels, |mix.matrix i j| ≤ 1) ∧
      (∃ j, j < mix.out_channels ∧
        ∑ i in Finset.range mix.in_channels, |mix.matrix i j| = 1) := by
  have hnew : gst_audio_channel_mix_new Real.sqrt 0 GstAudioFormat.S32
      2 [FRONT_LEFT, FRONT_RIGHT] 2 [FRONT_RIGHT, FRONT_LEFT] =
      some (gst_audio_channel_mix_setup_matrix Real.sqrt
        (mixInit (α := ℝ) 0 GstAudioFormat.S32 2 [FRONT_LEFT, FRONT_RIGHT] 2
          [FRONT_RIGHT, FRONT_LEFT])) :=
    (new_eq_some _ _ _ _ _ _ _ _).mpr ⟨⟨Or.inl rfl, by decide, by decide⟩, rfl⟩
  obtain ⟨hin, hout, _, m01, _⟩ := swapped_stereo_matrix Real.sqrt GstAudioFormat.S32 _ hnew
  exact ⟨_, hnew, normalization_invariant Real.sqrt 0 GstAudioFormat.S32
    2 [FRONT_LEFT, FRONT_RIGHT] 2 [FRONT_RIGHT, FRONT_LEFT] _ hnew (Or.inl (by decide))
    ⟨0, 1, by rw [hin]; decide, by rw [hout]; decide, by rw [m01]; exact one_ne_zero⟩⟩

/-- C4 at the S32 format with no flags, input [front-left, front-right]. -/
theorem mono_stereo_fast_path_witness :
    ∃ mix : GstAudioChannelMix ℝ,
      gst_audio_channel_mix_new Real.sqrt 0 GstAudioFormat.S32
        2 [FRONT_LEFT, FRONT_RIGHT] 1 [MONO] = some mix ∧
      mix.matrix 0 0 = 1 / 2 ∧ mix.matrix 1 0 = 1 / 2 ∧
      mix.matrix_int 0 0 = 512 ∧ mix.matrix_int 1 0 = 512 :=
  (mono_stereo_fast_path Real.sqrt 0 GstAudioFormat.S32 (Or.inl rfl)).1
    [FRONT_LEFT, FRONT_RIGHT] (Or.inl rfl)

/-- C10 at input [front-left, front-right] and output
[front-right, front-left] with the unpositioned flag: the weight from
front-left to the second output channel is 1.0. -/
theorem unpositioned_matrix_is_identical_fill_witness :
    (gst_audio_channel_mix_setup_matrix Real.sqrt
      (mixInit (α := ℝ) GST_AUDIO_CHANNEL_MIX_FLAGS_UNPOSITIONED_IN GstAudioFormat.S32
        2 [FRONT_LEFT, FRONT_RIGHT] 2 [FRONT_RIGHT, FRONT_LEFT])).matrix 0 1 =
      if posAt [FRONT_LEFT, FRONT_RIGHT] 0 = posAt [FRONT_RIGHT, FRONT_LEFT] 1 then 1 else 0 :=
  unpositioned_matrix_is_identical_fill Real.sqrt GST_AUDIO_CHANNEL_MIX_FLAGS_UNPOSITIONED_IN
    GstAudioFormat.S32 2 [FRONT_LEFT, FRONT_RIGHT] 2 [FRONT_RIGHT, FRONT_LEFT] _
    ((new_eq_some _ _ _ _ _ _ _ _).mpr ⟨⟨Or.inl rfl, by decide, by decide⟩, rfl⟩)
    (by decide) (by decide) 0 1
    (by rw [(setup_matrix_fields _ _).2.2.1]; decide)
    (by rw [(setup_matrix_fields _ _).2.2.2.1]; decide)

/-- C9 at the mixer for input [front-left, front-right] and output
[front-right, front-left], one frame mixed in place from a memory that holds
the sample 5 everywhere: the first output sample is `floor (5 * 1024 / 1024)`
clipped, and lies in the `gint32` range. -/
theorem mix_int_formula_witness :
    ∃ mix : GstAudioChannelMix ℝ,
      gst_audio_channel_mix_new Real.sqrt 0 GstAudioFormat.S32
        2 [FRONT_LEFT, FRONT_RIGHT] 2 [FRONT_RIGHT, FRONT_LEFT] = some mix ∧
      -2 ^ 31 ≤ gst_audio_channel_mix_mix_int mix (fun _ => 5) 0 0 1
        (0 + (0 * mix.out_channels + 0)) ∧
      gst_audio_channel_mix_mix_int mix (fun _ => 5) 0 0 1
        (0 + (0 * mix.out_channels + 0)) ≤ 2 ^ 31 - 1 := by
  have hnew : gst_audio_channel_mix_new Real.sqrt 0 GstAudioFormat.S32
      2 [FRONT_LEFT, FRONT_RIGHT] 2 [FRONT_RIGHT, FRONT_LEFT] =
      some (gst_audio_channel_mix_setup_matrix Real.sqrt
        (mixInit (α := ℝ) 0 GstAudioFormat.S32 2 [FRONT_LEFT, FRONT_RIGHT] 2
          [FRONT_RIGHT, FRONT_LEFT])) :=
    (new_eq_some _ _ _ _ _ _ _ _).mpr ⟨⟨Or.inl rfl, by decide, by decide⟩, rfl⟩
  have hout := (setup_matrix_fields Real.sqrt
    (mixInit (α := ℝ) 0 GstAudioFormat.S32 2 [FRONT_LEFT, FRONT_RIGHT] 2
      [FRONT_RIGHT, FRONT_LEFT])).2.2.2.1
  exact ⟨_, hnew, (mix_int_formula Real.sqrt 0 GstAudioFormat.S32
    2 [FRONT_LEFT, FRONT_RIGHT] 2 [FRONT_RIGHT, FRONT_LEFT] _ hnew (fun _ => 5) 0 0 1
    (Or.inl rfl) (fun _ => ⟨(by decide : G_MININT32 ≤ (5 : Int)), (by decide : (5 : Int) ≤ G_MAXINT32)⟩) 0 (by decide) 0
    (by rw [hout]; decide)).2.2⟩

end ConstructionInstances


/-! ## 5.1 to stereo -/

section Surround

open GstAudioChannelPosition

/-- The matrix for 5.1 input and stereo output before normalization. -/
theorem surround51_stereo_before_normalize {α : Type} [LinearOrderedField α]
    (sqrt : α → α) (flags : Nat) (format : GstAudioFormat) :
    (gst_audio_channel_mix_fill_others sqrt
      (gst_audio_channel_mix_fill_compatible
        (gst_audio_channel_mix_fill_identical
          (mixInit (α := α) flags format
            6 [FRONT_LEFT, FRONT_RIGHT, FRONT_CENTER, LFE1, REAR_LEFT, REAR_RIGHT]
            2 [FRONT_LEFT, FRONT_RIGHT])))).matrix =
      setCell (setCell (setCell (setCell (setCell (setCell (setCell (setCell
        (fun _ _ => 0) 0 0 1) 1 1 1)
        2 0 (RATIO_CENTER_FRONT sqrt)) 2 1 (RATIO_CENTER_FRONT sqrt))
        4 0 RATIO_FRONT_REAR) 5 1 RATIO_FRONT_REAR)
        3 0 RATIO_FRONT_BASS) 3 1 RATIO_FRONT_BASS := rfl

/-- C8: 5.1 to stereo. For input [front-left, front-right, front-center,
low-frequency, rear-left, rear-right], output [front-left, front-right] and
the unpositioned flag clear, the constructed matrix has, with
`T = 5/2 + 1/sqrt 2`, the rows front-left `[1/T, 0]`, front-right `[0, 1/T]`,
front-center `[(1/sqrt 2)/T, (1/sqrt 2)/T]`, low-frequency `[1/T, 1/T]`,
rear-left `[(1/2)/T, 0]`, rear-right `[0, (1/2)/T]`; front-center reaches left
and right at `1/sqrt 2` times the front-left weight, low-frequency at that
weight itself, and each output column's absolute weights sum to 1. -/
theorem surround51_to_stereo (flags : Nat) (format : GstAudioFormat)
    (hflag : flags &&& GST_AUDIO_CHANNEL_MIX_FLAGS_UNPOSITIONED_IN = 0)
    (hf : format = GstAudioFormat.S32 ∨ format = GstAudioFormat.F64) :
    ∃ mix : GstAudioChannelMix ℝ,
      gst_audio_channel_mix_new Real.sqrt flags format
        6 [FRONT_LEFT, FRONT_RIGHT, FRONT_CENTER, LFE1, REAR_LEFT, REAR_RIGHT]
        2 [FRONT_LEFT, FRONT_RIGHT] = some mix ∧
      mix.matrix 0 0 = 1 / (5 / 2 + 1 / Real.sqrt 2) ∧ mix.matrix 0 1 = 0 ∧
      mix.matrix 1 0 = 0 ∧ mix.matrix 1 1 = 1 / (5 / 2 + 1 / Real.sqrt 2) ∧
      mix.matrix 2 0 = (1 / Real.sqrt 2) / (5 / 2 + 1 / Real.sqrt 2) ∧
      mix.matrix 2 1 = (1 / Real.sqrt 2) / (5 / 2 + 1 / Real.sqrt 2) ∧
      mix.matrix 3 0 = 1 / (5 / 2 + 1 / Real.sqrt 2) ∧
      mix.matrix 3 1 = 1 / (5 / 2 + 1 / Real.sqrt 2) ∧
      mix.matrix 4 0 = (1 / 2) / (5 / 2 + 1 / Real.sqrt 2) ∧ mix.matrix 4 1 = 0 ∧
      mix.matrix 5 0 = 0 ∧ mix.matrix 5 1 = (1 / 2) / (5 / 2 + 1 / Real.sqrt 2) ∧
      mix.matrix 2 0 = (1 / Real.sqrt 2) * mix.matrix 0 0 ∧
      mix.matrix 2 1 = (1 / Real.sqrt 2) * mix.matrix 1 1 ∧
      mix.matrix 3 0 = 1 * mix.matrix 0 0 ∧ mix.matrix 3 1 = 1 * mix.matrix 1 1 ∧
      ∑ i in Finset.range 6, |mix.matrix i 0| = 1 ∧
      ∑ i in Finset.range 6, |mix.matrix i 1| = 1 := by
  have hnew : gst_audio_channel_mix_new Real.sqrt flags format
      6 [FRONT_LEFT, FRONT_RIGHT, FRONT_CENTER, LFE1, REAR_LEFT, REAR_RIGHT]
      2 [FRONT_LEFT, FRONT_RIGHT] =
      some (gst_audio_channel_mix_setup_matrix Real.sqrt
        (mixInit (α := ℝ) flags format
          6 [FRONT_LEFT, FRONT_RIGHT, FRONT_CENTER, LFE1, REAR_LEFT, REAR_RIGHT]
          2 [FRONT_LEFT, FRONT_RIGHT])) :=
    (new_eq_some _ _ _ _ _ _ _ _).mpr ⟨⟨hf, by decide, by decide⟩, rfl⟩
  obtain ⟨_, _, hmat⟩ := new_matrix_cases _ _ _ _ _ _ _ _ hnew
  have hns : ¬ IsSpecialPair (6 : Int).toNat
      [FRONT_LEFT, FRONT_RIGHT, FRONT_CENTER, LFE1, REAR_LEFT, REAR_RIGHT] (2 : Int).toNat
      [FRONT_LEFT, FRONT_RIGHT] := by decide
  rw [if_neg hns, if_pos hflag] at hmat
  have hpre := surround51_stereo_before_normalize Real.sqrt flags format
  have hc : 0 < 1 / Real.sqrt 2 := by positivity
  have hT : 0 < 5 / 2 + 1 / Real.sqrt 2 := by positivity
  have hsum : ∀ j, j < 2 → normalizeSum (gst_audio_channel_mix_fill_others Real.sqrt
      (gst_audio_channel_mix_fill_compatible
        (gst_audio_channel_mix_fill_identical
          (mixInit (α := ℝ) flags format
            6 [FRONT_LEFT, FRONT_RIGHT, FRONT_CENTER, LFE1, REAR_LEFT, REAR_RIGHT]
            2 [FRONT_LEFT, FRONT_RIGHT])))) j = 5 / 2 + 1 / Real.sqrt 2 := by
    intro j hj
    rw [normalizeSum_eq, hpre]
    show ∑ i in Finset.range 6, _ = _
    have : j = 0 ∨ j = 1 := by omega
    rcases this with h | h <;> subst h <;>
      simp [Finset.sum_range_succ, setCell, RATIO_CENTER_FRONT, RATIO_FRONT_REAR,
        RATIO_FRONT_BASS, abs_of_pos] <;> ring
  have htop := normalizeTop_eq_of _ (5 / 2 + 1 / Real.sqrt 2) (le_of_lt hT)
    (fun j hj => le_of_eq (hsum j hj)) ⟨0, Nat.zero_lt_two, hsum 0 Nat.zero_lt_two⟩
  have hcell : ∀ i j, i < 6 → j < 2 →
      (gst_audio_channel_mix_setup_matrix Real.sqrt
        (mixInit (α := ℝ) flags format
          6 [FRONT_LEFT, FRONT_RIGHT, FRONT_CENTER, LFE1, REAR_LEFT, REAR_RIGHT]
          2 [FRONT_LEFT, FRONT_RIGHT])).matrix i j =
      (setCell (setCell (setCell (setCell (setCell (setCell (setCell (setCell
        (fun _ _ => (0 : ℝ)) 0 0 1) 1 1 1)
        2 0 (RATIO_CENTER_FRONT Real.sqrt)) 2 1 (RATIO_CENTER_FRONT Real.sqrt))
        4 0 RATIO_FRONT_REAR) 5 1 RATIO_FRONT_REAR)
        3 0 RATIO_FRONT_BASS) 3 1 RATIO_FRONT_BASS) i j / (5 / 2 + 1 / Real.sqrt 2) := by
    intro i j hi hj
    rw [hmat, fill_normalize_matrix, htop, hpre]
    exact if_pos ⟨ne_of_gt hT, hi, hj⟩
  have m00 : (gst_audio_channel_mix_setup_matrix Real.sqrt
        (mixInit (α := ℝ) flags format
          6 [FRONT_LEFT, FRONT_RIGHT, FRONT_CENTER, LFE1, REAR_LEFT, REAR_RIGHT]
          2 [FRONT_LEFT, FRONT_RIGHT])).matrix 0 0 = 1 / (5 / 2 + 1 / Real.sqrt 2) := by
    rw [hcell 0 0 (by decide) (by decide)]; simp [setCell]
  have m01 : (gst_audio_channel_mix_setup_matrix Real.sqrt
        (mixInit (α := ℝ) flags format
          6 [FRONT_LEFT, FRONT_RIGHT, FRONT_CENTER, LFE1, REAR_LEFT, REAR_RIGHT]
          2 [FRONT_LEFT, FRONT_RIGHT])).matrix 0 1 = 0 := by
    rw [hcell 0 1 (by decide) (by decide)]; simp [setCell]
  have m10 : (gst_audio_channel_mix_setup_matrix Real.sqrt
        (mixInit (α := ℝ) flags format
          6 [FRONT_LEFT, FRONT_RIGHT, FRONT_CENTER, LFE1, REAR_LEFT, REAR_RIGHT]
          2 [FRONT_LEFT, FRONT_RIGHT])).matrix 1 0 = 0 := by
    rw [hcell 1 0 (by decide) (by decide)]; simp [setCell]
  have m11 : (gst_audio_channel_mix_setup_matrix Real.sqrt
        (mixInit (α := ℝ) flags format
          6 [FRONT_LEFT, FRONT_RIGHT, FRONT_CENTER, LFE1, REAR_LEFT, REAR_RIGHT]
          2 [FRONT_LEFT, FRONT_RIGHT])).matrix 1 1 = 1 / (5 / 2 + 1 / Real.sqrt 2) := by
    rw [hcell 1 1 (by decide) (by decide)]; simp [setCell]
  have m20 : (gst_audio_channel_mix_setup_matrix Real.sqrt
        (mixInit (α := ℝ) flags format
          6 [FRONT_LEFT, FRONT_RIGHT, FRONT_CENTER, LFE1, REAR_LEFT, REAR_RIGHT]
          2 [FRONT_LEFT, FRONT_RIGHT])).matrix 2 0 =
        (1 / Real.sqrt 2) / (5 / 2 + 1 / Real.sqrt 2) := by
    rw [hcell 2 0 (by decide) (by decide)]; simp [setCell, RATIO_CENTER_FRONT]
  have m21 : (gst_audio_channel_mix_setup_matrix Real.sqrt
        (mixInit (α := ℝ) flags format
          6 [FRONT_LEFT, FRONT_RIGHT, FRONT_CENTER, LFE1, REAR_LEFT, REAR_RIGHT]
          2 [FRONT_LEFT, FRONT_RIGHT])).matrix 2 1 =
        (1 / Real.sqrt 2) / (5 / 2 + 1 / Real.sqrt 2) := by
    rw [hcell 2 1 (by decide) (by decide)]; simp [setCell, RATIO_CENTER_FRONT]
  have m30 : (gst_audio_channel_mix_setup_matrix Real.sqrt
        (mixInit (α := ℝ) flags format
          6 [FRONT_LEFT, FRONT_RIGHT, FRONT_CENTER, LFE1, REAR_LEFT, REAR_RIGHT]
          2 [FRONT_LEFT, FRONT_RIGHT])).matrix 3 0 = 1 / (5 / 2 + 1 / Real.sqrt 2) := by
    rw [hcell 3 0 (by decide) (by decide)]; simp [setCell, RATIO_FRONT_BASS]
  have m31 : (gst_audio_channel_mix_setup_matrix Real.sqrt
        (mixInit (α := ℝ) flags format
          6 [FRONT_LEFT, FRONT_RIGHT, FRONT_CENTER, LFE1, REAR_LEFT, REAR_RIGHT]
          2 [FRONT_LEFT, FRONT_RIGHT])).matrix 3 1 = 1 / (5 / 2 + 1 / Real.sqrt 2) := by
    rw [hcell 3 1 (by decide) (by decide)]; simp [setCell, RATIO_FRONT_BASS]
  have m40 : (gst_audio_channel_mix_setup_matrix Real.sqrt
        (mixInit (α := ℝ) flags format
          6 [FRONT_LEFT, FRONT_RIGHT, FRONT_CENTER, LFE1, REAR_LEFT, REAR_RIGHT]
          2 [FRONT_LEFT, FRONT_RIGHT])).matrix 4 0 =
        (1 / 2) / (5 / 2 + 1 / Real.sqrt 2) := by
    rw [hcell 4 0 (by decide) (by decide)]; simp [setCell, RATIO_FRONT_REAR]
  have m41 : (gst_audio_channel_mix_setup_matrix Real.sqrt
        (mixInit (α := ℝ) flags format
          6 [FRONT_LEFT, FRONT_RIGHT, FRONT_CENTER, LFE1, REAR_LEFT, REAR_RIGHT]
          2 [FRONT_LEFT, FRONT_RIGHT])).matrix 4 1 = 0 := by
    rw [hcell 4 1 (by decide) (by decide)]; simp [setCell]
  have m50 : (gst_audio_channel_mix_setup_matrix Real.sqrt
        (mixInit (α := ℝ) flags format
          6 [FRONT_LEFT, FRONT_RIGHT, FRONT_CENTER, LFE1, REAR_LEFT, REAR_RIGHT]
          2 [FRONT_LEFT, FRONT_RIGHT])).matrix 5 0 = 0 := by
    rw [hcell 5 0 (by decide) (by decide)]; simp [setCell]
  have m51 : (gst_audio_channel_mix_setup_matrix Real.sqrt
        (mixInit (α := ℝ) flags format
          6 [FRONT_LEFT, FRONT_RIGHT, FRONT_CENTER, LFE1, REAR_LEFT, REAR_RIGHT]
          2 [FRONT_LEFT, FRONT_RIGHT])).matrix 5 1 =
        (1 / 2) / (5 / 2 + 1 / Real.sqrt 2) := by
    rw [hcell 5 1 (by decide) (by decide)]; simp [setCell, RATIO_FRONT_REAR]
  have hdiv : ∀ v : ℝ, 0 ≤ v → |v / (5 / 2 + 1 / Real.sqrt 2)| = v / (5 / 2 + 1 / Real.sqrt 2) :=
    fun v hv => abs_of_nonneg (div_nonneg hv (le_of_lt hT))
  refine ⟨_, hnew, m00, m01, m10, m11, m20, m21, m30, m31, m40, m41, m50, m51, ?_, ?_, ?_, ?_,
    ?_, ?_⟩
  · rw [m20, m00]; ring
  · rw [m21, m11]; ring
  · rw [m30, m00]; ring
  · rw [m31, m11]; ring
  · simp only [Finset.sum_range_succ, Finset.sum_range_zero, m00, m10, m20, m30, m40, m50]
    rw [hdiv 1 zero_le_one, hdiv _ (le_of_lt hc), hdiv _ (by norm_num), abs_zero]
    field_simp
    ring
  · simp only [Finset.sum_range_succ, Finset.sum_range_zero, m01, m11, m21, m31, m41, m51]
    rw [hdiv 1 zero_le_one, hdiv _ (le_of_lt hc), hdiv _ (by norm_num), abs_zero]
    field_simp
    ring

/-- C8 with no flags and the S32 format: the front-center weights. -/
theorem surround51_to_stereo_witness :
    ∃ mix : GstAudioChannelMix ℝ,
      gst_audio_channel_mix_new Real.sqrt 0 GstAudioFormat.S32
        6 [FRONT_LEFT, FRONT_RIGHT, FRONT_CENTER, LFE1, REAR_LEFT, REAR_RIGHT]
        2 [FRONT_LEFT, FRONT_RIGHT] = some mix ∧
      mix.matrix 2 0 = (1 / Real.sqrt 2) / (5 / 2 + 1 / Real.sqrt 2) ∧
      mix.matrix 2 1 = (1 / Real.sqrt 2) / (5 / 2 + 1 / Real.sqrt 2) := by
  obtain ⟨mix, h⟩ := surround51_to_stereo 0 GstAudioFormat.S32 (by decide) (Or.inl rfl)
  exact ⟨mix, h.1, h.2.2.2.2.2.1, h.2.2.2.2.2.2.1⟩

end Surround


section TopZero

variable {α : Type} [LinearOrderedField α]

/-- When every column sum is `0`, `top` stays `0`. -/
theorem normalizeTop_eq_of_zero (mix : GstAudioChannelMix α)
    (h : ∀ j, j < mix.out_channels → normalizeSum mix j = 0) : normalizeTop mix = 0 := by
  rcases normalizeTop_attained mix with h0 | ⟨j, hj, hj2⟩
  · exact h0
  · rw [hj2]
    exact h j hj

end TopZero


/-! ## The F64 mixing engine -/

section DoubleEngine

variable {α : Type} [LinearOrderedField α]

/-- A frame's sample depends on the memory only through the frame's input. -/
theorem mixDoubleSample_congr (mix : GstAudioChannelMix α) (mem mem2 : Nat → α)
    (p p2 n o : Nat)
    (h : ∀ i, i < mix.in_channels →
      mem (p + (n * mix.in_channels + i)) = mem2 (p2 + (n * mix.in_channels + i))) :
    mixDoubleSample mix mem p n o = mixDoubleSample mix mem2 p2 n o := by
  unfold mixDoubleSample
  have : forLoop (fun i res => res + mem (p + (n * mix.in_channels + i)) * mix.matrix i o)
      mix.in_channels 0 =
    forLoop (fun i res => res + mem2 (p2 + (n * mix.in_channels + i)) * mix.matrix i o)
      mix.in_channels 0 := by
    apply forLoop_congr
    intro i hi t
    rw [h i hi]
  rw [this]

/-- What one iteration of the frame loop does to the memory. -/
theorem mixDoubleFrame_apply (mix : GstAudioChannelMix α) (p q n : Nat) (mem : Nat → α)
    (a : Nat) :
    mixDoubleFrame mix p q n mem a =
      if q + n * mix.out_channels ≤ a ∧ a < q + n * mix.out_channels + mix.out_channels then
        mixDoubleSample mix mem p n (a - (q + n * mix.out_channels))
      else mem a := by
  unfold mixDoubleFrame
  have h1 : (fun k (m : Nat → α) => setAt m (q + (n * mix.out_channels + k))
      (forLoop (fun out tmp => setAt tmp out (mixDoubleSample mix mem p n out))
        mix.out_channels (fun _ => 0) k)) =
      (fun k (m : Nat → α) => setAt m ((q + n * mix.out_channels) + k)
      (forLoop (fun out tmp => setAt tmp out (mixDoubleSample mix mem p n out))
        mix.out_channels (fun _ => 0) k)) := by
    funext k m
    rw [Nat.add_assoc]
  rw [h1, forLoop_memcpy]
  split_ifs with h
  · rw [forLoop_setAt]
    have : a - (q + n * mix.out_channels) < mix.out_channels := by omega
    simp [this]
  · rfl

theorem mixDoubleFrame_written (mix : GstAudioChannelMix α) (p q n : Nat) (mem : Nat → α)
    (o : Nat) (ho : o < mix.out_channels) :
    mixDoubleFrame mix p q n mem (q + (n * mix.out_channels + o)) =
      mixDoubleSample mix mem p n o := by
  rw [mixDoubleFrame_apply]
  have h : q + n * mix.out_channels ≤ q + (n * mix.out_channels + o) ∧
      q + (n * mix.out_channels + o) < q + n * mix.out_channels + mix.out_channels := by omega
  rw [if_pos h]
  congr 1
  omega

theorem mixDoubleFrame_other (mix : GstAudioChannelMix α) (p q n : Nat) (mem : Nat → α)
    (a : Nat)
    (ha : ¬ (q + n * mix.out_channels ≤ a ∧ a < q + (n + 1) * mix.out_channels)) :
    mixDoubleFrame mix p q n mem a = mem a := by
  rw [mixDoubleFrame_apply]
  have : ¬ (q + n * mix.out_channels ≤ a ∧
      a < q + n * mix.out_channels + mix.out_channels) := by
    rw [Nat.succ_mul] at ha
    omega
  rw [if_neg this]

end DoubleEngine


section GenericFrames

/-- The frame loop of a mixing function, whatever the sample type: `step n`
writes the samples `sample mem n o` of frame `n` into the output buffer at `q`
and nothing else, and `sample mem n o` reads only frame `n` of the input
buffer at `p`. When the two buffers are the same or disjoint, visiting the
frames last to first for `outch > inch` and first to last otherwise computes
every output sample from the input as it was before the loop. -/
theorem frames_generic {β : Type} (step : Nat → (Nat → β) → Nat → β)
    (sample : (Nat → β) → Nat → Nat → β) (inch outch p q : Nat)
    (hw : ∀ mem n o, o < outch → step n mem (q + (n * outch + o)) = sample mem n o)
    (hoth : ∀ mem n a, ¬ (q + n * outch ≤ a ∧ a < q + (n + 1) * outch) → step n mem a = mem a)
    (hc : ∀ mem mem2 n o, (∀ i, i < inch → mem (p + (n * inch + i)) = mem2 (p + (n * inch + i))) →
      sample mem n o = sample mem2 n o)
    (S : Nat) (hok : p = q ∨ p + S * inch ≤ q ∨ q + S * outch ≤ p) (mem : Nat → β)
    (n : Nat) (hn : n < S) (o : Nat) (ho : o < outch) :
    (if outch > inch then forLoopDown step S mem else forLoop step S mem)
      (q + (n * outch + o)) = sample mem n o := by
  -- first to last
  have hup : ∀ T, (∀ k, k < T → ∀ i, i < inch →
        ¬ (q ≤ p + (k * inch + i) ∧ p + (k * inch + i) < q + k * outch)) →
      (∀ k, k < T → ∀ c, c < outch → forLoop step T mem (q + (k * outch + c)) = sample mem k c) ∧
      (∀ a, ¬ (q ≤ a ∧ a < q + T * outch) → forLoop step T mem a = mem a) := by
    intro T
    induction T with
    | zero =>
      intro _
      exact ⟨fun k hk => by omega, fun a _ => rfl⟩
    | succ T ih =>
      intro hsafe
      obtain ⟨ihw, iho⟩ := ih (fun k hk i hi => hsafe k (Nat.lt_succ_of_lt hk) i hi)
      have hTm : (T + 1) * outch = T * outch + outch := Nat.succ_mul _ _
      constructor
      · intro k hk c hcc
        rw [forLoop_succ]
        by_cases hkT : k = T
        · subst hkT
          rw [hw _ _ _ hcc]
          apply hc
          intro i hi
          exact iho _ (hsafe k (Nat.lt_succ_self k) i hi)
        · have hlt : k < T := by omega
          have hle : (k + 1) * outch ≤ T * outch := Nat.mul_le_mul_right _ hlt
          have hkm : (k + 1) * outch = k * outch + outch := Nat.succ_mul _ _
          rw [hoth]
          · exact ihw k hlt c hcc
          · omega
      · intro a ha
        rw [forLoop_succ, hoth]
        · apply iho
          omega
        · omega
  -- last to first
  have hdown : ∀ T, ∀ m0 : Nat → β, (∀ k k2, k < k2 → k2 < T → ∀ i, i < inch →
        ¬ (q + k2 * outch ≤ p + (k * inch + i) ∧ p + (k * inch + i) < q + (k2 + 1) * outch)) →
      (∀ k, k < T → ∀ c, c < outch →
        forLoopDown step T m0 (q + (k * outch + c)) = sample m0 k c) ∧
      (∀ a, ¬ (q ≤ a ∧ a < q + T * outch) → forLoopDown step T m0 a = m0 a) := by
    intro T
    induction T with
    | zero =>
      intro m0 _
      exact ⟨fun k hk => by omega, fun a _ => rfl⟩
    | succ T ih =>
      intro m0 hsafe
      obtain ⟨ihw, iho⟩ := ih (step T m0)
        (fun k k2 h1 h2 i hi => hsafe k k2 h1 (Nat.lt_succ_of_lt h2) i hi)
      have hTm : (T + 1) * outch = T * outch + outch := Nat.succ_mul _ _
      constructor
      · intro k hk c hcc
        rw [forLoopDown_succ]
        by_cases hkT : k = T
        · subst hkT
          rw [iho]
          · exact hw _ _ _ hcc
          · omega
        · have hlt : k < T := by omega
          rw [ihw k hlt c hcc]
          apply hc
          intro i hi
          apply hoth
          exact hsafe k T hlt (Nat.lt_succ_self T) i hi
      · intro a ha
        rw [forLoopDown_succ, iho]
        · apply hoth
          omega
        · omega
  by_cases hbw : outch > inch
  · rw [if_pos hbw]
    refine (hdown S mem ?_).1 n hn o ho
    intro a b hab hbS i hi
    have h1 : (a + 1) * inch ≤ b * inch := Nat.mul_le_mul_right _ hab
    have h2 : b * inch ≤ b * outch := Nat.mul_le_mul_left _ (Nat.le_of_lt hbw)
    have h3 : (a + 1) * inch = a * inch + inch := Nat.succ_mul _ _
    have h4 : (b + 1) * outch ≤ S * outch := Nat.mul_le_mul_right _ hbS
    have h5 : (a + 1) * inch ≤ S * inch := Nat.mul_le_mul_right _ (by omega)
    have h6 : (b + 1) * outch = b * outch + outch := Nat.succ_mul _ _
    rcases hok with hb | hb | hb
    · subst hb; omega
    · omega
    · omega
  · rw [if_neg hbw]
    refine (hup S ?_).1 n hn o ho
    intro a haS i hi
    have h2 : a * outch ≤ a * inch := Nat.mul_le_mul_left _ (Nat.le_of_not_gt hbw)
    have h4 : a * outch ≤ S * outch := Nat.mul_le_mul_right _ (Nat.le_of_lt haS)
    have h5 : (a + 1) * inch ≤ S * inch := Nat.mul_le_mul_right _ haS
    have h3 : (a + 1) * inch = a * inch + inch := Nat.succ_mul _ _
    rcases hok with hb | hb | hb
    · subst hb; omega
    · omega
    · omega

end GenericFrames

section DoubleEngine2

variable {α : Type} [LinearOrderedField α]

/-- Semantics of `gst_audio_channel_mix_mix_double`: output sample `o` of
frame `n` is computed from the input frame `n` as it was before the call, for
buffers that are identical or disjoint. -/
theorem mix_double_sample (mix : GstAudioChannelMix α) (mem : Nat → α) (p q : Nat)
    (samples : Int) (hb : BuffersOk mix p q samples)
    (n : Nat) (hn : n < samples.toNat) (o : Nat) (ho : o < mix.out_channels) :
    gst_audio_channel_mix_mix_double mix mem p q samples (q + (n * mix.out_channels + o)) =
      mixDoubleSample mix mem p n o := by
  have h := frames_generic (mixDoubleFrame mix p q) (fun m k c => mixDoubleSample mix m p k c)
    mix.in_channels mix.out_channels p q
    (fun m k c hc => mixDoubleFrame_written mix p q k m c hc)
    (fun m k a ha => mixDoubleFrame_other mix p q k m a ha)
    (fun m m2 k c hi => mixDoubleSample_congr mix m m2 p p k c hi)
    samples.toNat hb mem n hn o ho
  unfold gst_audio_channel_mix_mix_double
  by_cases hbw : mix.out_channels > mix.in_channels
  · rw [if_pos hbw] at h
    rw [if_pos (by simpa using hbw)]
    exact h
  · rw [if_neg hbw] at h
    rw [if_neg (by simpa using hbw)]
    exact h

/-- The accumulation loop of `gst_audio_channel_mix_mix_double` is a finite sum. -/
theorem mixDoubleSample_eq (mix : GstAudioChannelMix α) (mem : Nat → α) (p n o : Nat) :
    mixDoubleSample mix mem p n o =
      min 1 (max (-1) (∑ i in Finset.range mix.in_channels,
        mem (p + (n * mix.in_channels + i)) * mix.matrix i o)) := by
  unfold mixDoubleSample
  have hs := forLoop_sum (fun i => mem (p + (n * mix.in_channels + i)) * mix.matrix i o)
    mix.in_channels
  simp only [] at hs
  rw [hs]
  simp only []
  split_ifs with h1 h2
  · rw [max_eq_left (le_of_lt h1), min_eq_right (by norm_num)]
  · rw [max_eq_right (by linarith), min_eq_left (le_of_lt h2)]
  · rw [max_eq_right (not_lt.mp h1), min_eq_right (not_lt.mp h2)]

end DoubleEngine2


/-! ## Claims about the F64 path, the zero matrix and normalization -/

section DoubleClaims

variable {α : Type} [LinearOrderedField α]

open GstAudioChannelPosition

/-- C13: the F64 mixing formula, doubles being exact numbers. For every
mixer, every frame `n < samples` and every output channel `o`,
`gst_audio_channel_mix_mix_double` writes `out[n * out_channels + o] =
min (1, max (-1, sum over the input channels i of in[n * in_channels + i] *
matrix[i][o]))`, so every output sample lies in `[-1, 1]` whatever the input
samples are. The buffers are the same buffer or do not overlap. -/
theorem mix_double_formula (mix : GstAudioChannelMix α) (mem : Nat → α)
    (in_data out_data : Nat) (samples : Int)
    (hb : BuffersOk mix in_data out_data samples)
    (n : Nat) (hn : n < samples.toNat) (o : Nat) (ho : o < mix.out_channels) :
    gst_audio_channel_mix_mix_double mix mem in_data out_data samples
        (out_data + (n * mix.out_channels + o)) =
      min 1 (max (-1) (∑ i in Finset.range mix.in_channels,
        mem (in_data + (n * mix.in_channels + i)) * mix.matrix i o)) ∧
    -1 ≤ gst_audio_channel_mix_mix_double mix mem in_data out_data samples
        (out_data + (n * mix.out_channels + o)) ∧
    gst_audio_channel_mix_mix_double mix mem in_data out_data samples
        (out_data + (n * mix.out_channels + o)) ≤ 1 := by
  have hval := (mix_double_sample mix mem in_data out_data samples hb n hn o ho).trans
    (mixDoubleSample_eq mix mem in_data n o)
  refine ⟨hval, ?_, ?_⟩
  · rw [hval]
    exact le_min (by norm_num) (le_max_left _ _)
  · rw [hval]
    exact min_le_left _ _

/-- C13 at a one-channel mixer of weight 3 and the input sample 5: the sum 15
is clipped to 1. -/
theorem mix_double_formula_witness :
    gst_audio_channel_mix_mix_double
        ({ flags := 0, format := GstAudioFormat.F64, in_channels := 1, out_channels := 1,
           in_position := [MONO], out_position := [MONO],
           matrix := fun _ _ => 3, matrix_int := fun _ _ => 3072 } : GstAudioChannelMix ℚ)
        (fun _ => 5) 0 0 1 (0 + (0 * 1 + 0)) ≤ 1 :=
  (mix_double_formula
    ({ flags := 0, format := GstAudioFormat.F64, in_channels := 1, out_channels := 1,
       in_position := [MONO], out_position := [MONO],
       matrix := fun _ _ => 3, matrix_int := fun _ _ => 3072 } : GstAudioChannelMix ℚ)
    (fun _ => 5) 0 0 1 (Or.inl rfl) 0 (by decide) 0 (by decide)).2.2

end DoubleClaims

section ZeroMatrix

variable {α : Type} [LinearOrderedField α] [FloorRing α]

open GstAudioChannelPosition

theorem wrap64_zero : wrap64 0 = 0 := by decide

/-- With a zero column of fixed-point weights the accumulator stays `0`. -/
theorem accLoop_zero (x : Nat → Int) (w : Nat → Int) (n : Nat) (hw : ∀ i, i < n → w i = 0) :
    forLoop (fun i res => wrap64 (res + wrap64 (x i * w i))) n 0 = 0 := by
  induction n with
  | zero => rfl
  | succ n ih =>
    rw [forLoop_succ, ih (fun i hi => hw i (Nat.lt_succ_of_lt hi)), hw n (Nat.lt_succ_self n),
      Int.mul_zero, wrap64_zero, Int.add_zero, wrap64_zero]

/-- C11: the all-zero matrix. For every matrix that is entirely zero,
`gst_audio_channel_mix_fill_normalize` returns it unchanged, the derived
fixed-point matrix is entirely zero, and for every input buffer both mixing
paths write 0 to every one of the `samples * out_channels` output samples
(doubles being exact numbers; buffers the same or disjoint). -/
theorem zero_matrix_is_silent (mix : GstAudioChannelMix α)
    (hz : ∀ i j, i < mix.in_channels → j < mix.out_channels → mix.matrix i j = 0) :
    gst_audio_channel_mix_fill_normalize mix = mix ∧
    (∀ i j, (gst_audio_channel_mix_setup_matrix_int mix).matrix_int i j = 0) ∧
    (∀ (mem : Nat → Int) (in_data out_data : Nat) (samples : Int),
      BuffersOk mix in_data out_data samples →
      ∀ n o, n < samples.toNat → o < mix.out_channels →
        gst_audio_channel_mix_mix_int (gst_audio_channel_mix_setup_matrix_int mix)
          mem in_data out_data samples (out_data + (n * mix.out_channels + o)) = 0) ∧
    (∀ (mem : Nat → α) (in_data out_data : Nat) (samples : Int),
      BuffersOk mix in_data out_data samples →
      ∀ n o, n < samples.toNat → o < mix.out_channels →
        gst_audio_channel_mix_mix_double mix
          mem in_data out_data samples (out_data + (n * mix.out_channels + o)) = 0) := by
  have hint : ∀ i j, (gst_audio_channel_mix_setup_matrix_int mix).matrix_int i j = 0 := by
    intro i j
    rw [setup_matrix_int_cell]
    split_ifs with h
    · rw [hz i j h.1 h.2, zero_mul]
      have : truncToInt ((0 : Int) : α) = 0 := truncToInt_intCast 0
      simpa using this
    · rfl
  refine ⟨?_, hint, ?_, ?_⟩
  · have htop : normalizeTop mix = 0 := by
      apply normalizeTop_eq_of_zero
      intro j hj
      rw [normalizeSum_eq]
      apply Finset.sum_eq_zero
      intro i hi
      rw [hz i j (Finset.mem_range.mp hi) hj, abs_zero]
    unfold gst_audio_channel_mix_fill_normalize
    simp only [htop, if_true]
  · intro mem in_data out_data samples hb n o hn ho
    have h := mix_int_sample (gst_audio_channel_mix_setup_matrix_int mix) mem in_data out_data
      samples hb n hn o ho
    rw [show (gst_audio_channel_mix_setup_matrix_int mix).out_channels = mix.out_channels
      from rfl] at h
    rw [h]
    unfold mixIntSample
    rw [accLoop_zero _ _ _ (fun i _ => hint i o)]
    decide
  · intro mem in_data out_data samples hb n o hn ho
    rw [mix_double_sample mix mem in_data out_data samples hb n hn o ho, mixDoubleSample_eq]
    have : ∑ i in Finset.range mix.in_channels,
        mem (in_data + (n * mix.in_channels + i)) * mix.matrix i o = 0 := by
      apply Finset.sum_eq_zero
      intro i hi
      rw [hz i o (Finset.mem_range.mp hi) ho, mul_zero]
    rw [this]
    norm_num

end ZeroMatrix


section ZeroMatrixInstance

open GstAudioChannelPosition

/-- C11 at the mixer built for input [front-left] and output [front-right]
with the unpositioned flag: no position is shared, the matrix is zero and
normalizing it changes nothing. -/
theorem zero_matrix_is_silent_witness :
    gst_audio_channel_mix_fill_normalize
        (gst_audio_channel_mix_setup_matrix Real.sqrt
          (mixInit (α := ℝ) GST_AUDIO_CHANNEL_MIX_FLAGS_UNPOSITIONED_IN GstAudioFormat.S32
            1 [FRONT_LEFT] 1 [FRONT_RIGHT])) =
      gst_audio_channel_mix_setup_matrix Real.sqrt
        (mixInit (α := ℝ) GST_AUDIO_CHANNEL_MIX_FLAGS_UNPOSITIONED_IN GstAudioFormat.S32
          1 [FRONT_LEFT] 1 [FRONT_RIGHT]) :=
  (zero_matrix_is_silent
    (gst_audio_channel_mix_setup_matrix Real.sqrt
      (mixInit (α := ℝ) GST_AUDIO_CHANNEL_MIX_FLAGS_UNPOSITIONED_IN GstAudioFormat.S32
        1 [FRONT_LEFT] 1 [FRONT_RIGHT]))
    (fun i j hi hj => by
      have hnew : gst_audio_channel_mix_new Real.sqrt GST_AUDIO_CHANNEL_MIX_FLAGS_UNPOSITIONED_IN
          GstAudioFormat.S32 1 [FRONT_LEFT] 1 [FRONT_RIGHT] =
          some (gst_audio_channel_mix_setup_matrix Real.sqrt
            (mixInit (α := ℝ) GST_AUDIO_CHANNEL_MIX_FLAGS_UNPOSITIONED_IN GstAudioFormat.S32
              1 [FRONT_LEFT] 1 [FRONT_RIGHT])) :=
        (new_eq_some _ _ _ _ _ _ _ _).mpr ⟨⟨Or.inl rfl, by decide, by decide⟩, rfl⟩
      have hcell := new_unpositioned_cell _ _ _ _ _ _ _ _ hnew (by decide) (by decide) i j hi hj
      rw [hcell]
      have hi2 : i < 1 := by
        rw [(setup_matrix_fields _ _).2.2.1] at hi
        exact hi
      have hj2 : j < 1 := by
        rw [(setup_matrix_fields _ _).2.2.2.1] at hj
        exact hj
      have hi0 : i = 0 := by omega
      have hj0 : j = 0 := by omega
      subst hi0; subst hj0
      exact if_neg (by decide))).1

end ZeroMatrixInstance

section NormalizePost

variable {α : Type} [LinearOrderedField α]

open GstAudioChannelPosition

/-- C15: normalization postcondition. For every matrix `m` that is not
entirely zero, `gst_audio_channel_mix_fill_normalize` returns the matrix
`m[i][j] / top` for all `i`, `j`, where `top` is the single maximum over the
output columns of the column's sum of `|m[i][j]|`; in the result every output
column's sum of absolute weights is at most 1, one column's sum equals 1, and
the ratio between any two weights is unchanged. (The entries need not be
non-negative for this.) -/
theorem normalize_divides_by_top (mix : GstAudioChannelMix α)
    (hnz : ∃ i j, i < mix.in_channels ∧ j < mix.out_channels ∧ mix.matrix i j ≠ 0) :
    (0 < normalizeTop mix ∧
      (∀ j, j < mix.out_channels →
        ∑ i in Finset.range mix.in_channels, |mix.matrix i j| ≤ normalizeTop mix) ∧
      (∃ j, j < mix.out_channels ∧
        ∑ i in Finset.range mix.in_channels, |mix.matrix i j| = normalizeTop mix)) ∧
    (∀ i j, i < mix.in_channels → j < mix.out_channels →
      (gst_audio_channel_mix_fill_normalize mix).matrix i j =
        mix.matrix i j / normalizeTop mix) ∧
    (∀ j, j < mix.out_channels →
      ∑ i in Finset.range mix.in_channels,
        |(gst_audio_channel_mix_fill_normalize mix).matrix i j| ≤ 1) ∧
    (∃ j, j < mix.out_channels ∧
      ∑ i in Finset.range mix.in_channels,
        |(gst_audio_channel_mix_fill_normalize mix).matrix i j| = 1) ∧
    (∀ i j k l, i < mix.in_channels → j < mix.out_channels →
      k < mix.in_channels → l < mix.out_channels →
      (gst_audio_channel_mix_fill_normalize mix).matrix i j * mix.matrix k l =
        (gst_audio_channel_mix_fill_normalize mix).matrix k l * mix.matrix i j) := by
  obtain ⟨i0, j0, hi0, hj0, hne⟩ := hnz
  have hpos : 0 < normalizeTop mix := by
    have h1 := abs_le_normalizeSum mix i0 j0 hi0
    have h2 := normalizeSum_le_top mix j0 hj0
    exact lt_of_lt_of_le (abs_pos.mpr hne) (le_trans h1 h2)
  have hne0 : normalizeTop mix ≠ 0 := ne_of_gt hpos
  have hcell : ∀ i j, i < mix.in_channels → j < mix.out_channels →
      (gst_audio_channel_mix_fill_normalize mix).matrix i j =
        mix.matrix i j / normalizeTop mix := by
    intro i j hi hj
    rw [fill_normalize_matrix, if_pos ⟨hne0, hi, hj⟩]
  have hsums := fill_normalize_sums mix
  simp only [normalizeSum_eq, fill_normalize_in_channels] at hsums
  refine ⟨⟨hpos, ?_, ?_⟩, hcell, hsums.1, ?_, ?_⟩
  · intro j hj
    rw [← normalizeSum_eq]
    exact normalizeSum_le_top mix j hj
  · rcases normalizeTop_attained mix with h | ⟨j, hj, h⟩
    · exact absurd h hne0
    · exact ⟨j, hj, by rw [← normalizeSum_eq]; exact h.symm⟩
  · rcases hsums.2 with hz | hex
    · exfalso
      have := hz i0 j0 hi0 hj0
      rw [hcell i0 j0 hi0 hj0] at this
      rcases div_eq_zero_iff.mp this with h | h
      · exact hne h
      · exact hne0 h
    · exact hex
  · intro i j k l hi hj hk hl
    rw [hcell i j hi hj, hcell k l hk hl]
    field_simp
    ring

/-- C15 at the two-by-one matrix with the weights 3 and 1: `top` is positive. -/
theorem normalize_divides_by_top_witness :
    0 < normalizeTop
      ({ flags := 0, format := GstAudioFormat.F64, in_channels := 2, out_channels := 1,
         in_position := [FRONT_LEFT, FRONT_RIGHT], out_position := [MONO],
         matrix := fun i _ => if i = 0 then 3 else 1,
         matrix_int := fun _ _ => 0 } : GstAudioChannelMix ℚ) :=
  (normalize_divides_by_top
    ({ flags := 0, format := GstAudioFormat.F64, in_channels := 2, out_channels := 1,
       in_position := [FRONT_LEFT, FRONT_RIGHT], out_position := [MONO],
       matrix := fun i _ => if i = 0 then 3 else 1,
       matrix_int := fun _ _ => 0 } : GstAudioChannelMix ℚ)
    ⟨0, 0, by decide, by decide, by decide⟩).1.1

end NormalizePost


/-! ## Induction over the assignments of the fill rules -/

section FillInduction

variable {α : Type} [LinearOrderedField α]

theorem ite_induct {β : Type} (P : β → Prop) (c : Prop) [Decidable c] (m : β) (f : β → β)
    (hm : P m) (hf : c → ∀ m2, P m2 → P (f m2)) : P (if c then f m else m) := by
  split_ifs with h
  · exact hf h m hm
  · exact hm

theorem ite_ite_induct {β : Type} (P : β → Prop) (c1 c2 : Prop) [Decidable c1] [Decidable c2]
    (m : β) (f1 f2 : β → β) (hm : P m)
    (hf1 : c1 → ∀ m2, P m2 → P (f1 m2)) (hf2 : c2 → ∀ m2, P m2 → P (f2 m2)) :
    P (if c1 then f1 m else if c2 then f2 m else m) := by
  split_ifs with h1 h2
  · exact hf1 h1 m hm
  · exact hf2 h2 m hm
  · exact hm

/-- Every assignment of `gst_audio_channel_mix_fill_one_other` stores `ratio`
or `0.5 * ratio` in a cell whose row is an entry of `from_idx` other than `-1`
and whose column is an entry of `to_idx` other than `-1`: a property of
matrices that every such assignment keeps holds after the call. -/
theorem fill_one_other_induct (P : (Nat → Nat → α) → Prop) (m : Nat → Nat → α)
    (from_idx to_idx : Idx3) (ratio : α) (hm : P m)
    (hset : ∀ (m2 : Nat → Nat → α) (x y : Int) (v : α), P m2 →
      (x = from_idx.i0 ∨ x = from_idx.i1 ∨ x = from_idx.i2) → x ≠ -1 →
      (y = to_idx.i0 ∨ y = to_idx.i1 ∨ y = to_idx.i2) → y ≠ -1 →
      (v = ratio ∨ v = 1 / 2 * ratio) → P (setCell m2 x.toNat y.toNat v)) :
    P (gst_audio_channel_mix_fill_one_other m from_idx to_idx ratio) := by
  unfold gst_audio_channel_mix_fill_one_other
  simp only []
  refine ite_ite_induct P _ _ _ (fun M => setCell M _ _ _) (fun M => setCell M _ _ _) ?_
    (fun h m2 h2 => hset m2 _ _ _ h2 (Or.inr (Or.inl rfl)) h.1 (Or.inr (Or.inr rfl)) h.2.1
      (Or.inr rfl))
    (fun h m2 h2 => hset m2 _ _ _ h2 (Or.inr (Or.inl rfl)) h.1 (Or.inr (Or.inr rfl)) h.2.1
      (Or.inl rfl))
  refine ite_ite_induct P _ _ _ (fun M => setCell M _ _ _) (fun M => setCell M _ _ _) ?_
    (fun h m2 h2 => hset m2 _ _ _ h2 (Or.inr (Or.inl rfl)) h.1 (Or.inl rfl) h.2.1
      (Or.inr rfl))
    (fun h m2 h2 => hset m2 _ _ _ h2 (Or.inr (Or.inl rfl)) h.1 (Or.inl rfl) h.2.1
      (Or.inl rfl))
  refine ite_ite_induct P _ _ _ (fun M => setCell M _ _ _) (fun M => setCell M _ _ _) ?_
    (fun h m2 h2 => hset m2 _ _ _ h2 (Or.inr (Or.inr rfl)) h.1 (Or.inr (Or.inl rfl)) h.2.1
      (Or.inr rfl))
    (fun h m2 h2 => hset m2 _ _ _ h2 (Or.inr (Or.inr rfl)) h.1 (Or.inr (Or.inl rfl)) h.2.1
      (Or.inl rfl))
  refine ite_ite_induct P _ _ _ (fun M => setCell M _ _ _) (fun M => setCell M _ _ _) ?_
    (fun h m2 h2 => hset m2 _ _ _ h2 (Or.inl rfl) h.1 (Or.inr (Or.inl rfl)) h.2.1
      (Or.inr rfl))
    (fun h m2 h2 => hset m2 _ _ _ h2 (Or.inl rfl) h.1 (Or.inr (Or.inl rfl)) h.2.1
      (Or.inl rfl))
  refine ite_induct P _ _ (fun M => setCell M _ _ _) ?_
    (fun h m2 h2 => hset m2 _ _ _ h2 (Or.inr (Or.inr rfl)) h.1 (Or.inr (Or.inr rfl)) h.2
      (Or.inl rfl))
  refine ite_induct P _ _ (fun M => setCell M _ _ _) ?_
    (fun h m2 h2 => hset m2 _ _ _ h2 (Or.inl rfl) h.1 (Or.inl rfl) h.2 (Or.inl rfl))
  exact ite_induct P _ _ (fun M => setCell M _ _ _) hm
    (fun h m2 h2 => hset m2 _ _ _ h2 (Or.inr (Or.inl rfl)) h.1 (Or.inr (Or.inl rfl)) h.2
      (Or.inl rfl))

end FillInduction


section OthersInduction

variable {α : Type} [LinearOrderedField α]

theorem ite_split {β : Type} (P : β → Prop) (c : Prop) [Decidable c] (a b : β)
    (ha : c → P a) (hb : ¬ c → P b) : P (if c then a else b) := by
  split_ifs with h
  · exact ha h
  · exact hb h

/-- Every call of `gst_audio_channel_mix_fill_one_other` made by
`gst_audio_channel_mix_fill_others` goes from the index array of one group of
the input layout to the index array of another group of the output layout,
with one of the ratios of `othersRatios`: a property of matrices that every
such call keeps holds after the five chains. -/
theorem fill_others_induct (sqrt : α → α) (i o : DetectPos)
    (P : (Nat → Nat → α) → Prop) (m : Nat → Nat → α) (hm : P m)
    (hcall : ∀ (m2 : Nat → Nat → α) (X Y : SpatialGroup) (ratio : α), X ≠ Y →
      ratio ∈ othersRatios sqrt → P m2 →
      P (gst_audio_channel_mix_fill_one_other m2 (i.group X) (o.group Y) ratio)) :
    P (fillOthersBass sqrt i o (fillOthersRear sqrt i o (fillOthersSide sqrt i o
      (fillOthersFront sqrt i o (fillOthersCenter sqrt i o m))))) := by
  have hc : ∀ m2, P m2 → P (fillOthersCenter sqrt i o m2) := by
    intro m2 h2
    unfold fillOthersCenter
    refine ite_split P _ _ _
      (fun _ => hcall m2 .front .center _ (by decide) (by simp [othersRatios]) h2)
      (fun _ => ?_)
    refine ite_split P _ _ _
      (fun _ => hcall m2 .side .center _ (by decide) (by simp [othersRatios]) h2)
      (fun _ => ?_)
    refine ite_split P _ _ _
      (fun _ => hcall m2 .rear .center _ (by decide) (by simp [othersRatios]) h2)
      (fun _ => ?_)
    refine ite_split P _ _ _
      (fun _ => hcall m2 .center .front _ (by decide) (by simp [othersRatios]) h2)
      (fun _ => ?_)
    refine ite_split P _ _ _
      (fun _ => hcall m2 .center .side _ (by decide) (by simp [othersRatios]) h2)
      (fun _ => ?_)
    refine ite_split P _ _ _
      (fun _ => hcall m2 .center .rear _ (by decide) (by simp [othersRatios]) h2)
      (fun _ => ?_)
    exact h2
  have hf : ∀ m2, P m2 → P (fillOthersFront sqrt i o m2) := by
    intro m2 h2
    unfold fillOthersFront
    refine ite_split P _ _ _
      (fun _ => hcall m2 .center .front _ (by decide) (by simp [othersRatios]) h2)
      (fun _ => ?_)
    refine ite_split P _ _ _
      (fun _ => hcall m2 .side .front _ (by decide) (by simp [othersRatios]) h2)
      (fun _ => ?_)
    refine ite_split P _ _ _
      (fun _ => hcall _ .side .front _ (by decide) (by simp [othersRatios])
        (hcall m2 .center .front _ (by decide) (by simp [othersRatios]) h2))
      (fun _ => ?_)
    refine ite_split P _ _ _
      (fun _ => hcall m2 .rear .front _ (by decide) (by simp [othersRatios]) h2)
      (fun _ => ?_)
    refine ite_split P _ _ _
      (fun _ => hcall m2 .front .center _ (by decide) (by simp [othersRatios]) h2)
      (fun _ => ?_)
    refine ite_split P _ _ _
      (fun _ => hcall m2 .front .side _ (by decide) (by simp [othersRatios]) h2)
      (fun _ => ?_)
    refine ite_split P _ _ _
      (fun _ => hcall _ .front .side _ (by decide) (by simp [othersRatios])
        (hcall m2 .front .center _ (by decide) (by simp [othersRatios]) h2))
      (fun _ => ?_)
    refine ite_split P _ _ _
      (fun _ => hcall m2 .front .rear _ (by decide) (by simp [othersRatios]) h2)
      (fun _ => ?_)
    exact h2
  have hs : ∀ m2, P m2 → P (fillOthersSide sqrt i o m2) := by
    intro m2 h2
    unfold fillOthersSide
    refine ite_split P _ _ _
      (fun _ => hcall m2 .front .side _ (by decide) (by simp [othersRatios]) h2)
      (fun _ => ?_)
    refine ite_split P _ _ _
      (fun _ => hcall m2 .rear .side _ (by decide) (by simp [othersRatios]) h2)
      (fun _ => ?_)
    refine ite_split P _ _ _
      (fun _ => hcall _ .rear .side _ (by decide) (by simp [othersRatios])
        (hcall m2 .front .side _ (by decide) (by simp [othersRatios]) h2))
      (fun _ => ?_)
    refine ite_split P _ _ _
      (fun _ => hcall m2 .center .side _ (by decide) (by simp [othersRatios]) h2)
      (fun _ => ?_)
    refine ite_split P _ _ _
      (fun _ => hcall m2 .side .front _ (by decide) (by simp [othersRatios]) h2)
      (fun _ => ?_)
    refine ite_split P _ _ _
      (fun _ => hcall m2 .side .rear _ (by decide) (by simp [othersRatios]) h2)
      (fun _ => ?_)
    refine ite_split P _ _ _
      (fun _ => hcall _ .side .rear _ (by decide) (by simp [othersRatios])
        (hcall m2 .side .front _ (by decide) (by simp [othersRatios]) h2))
      (fun _ => ?_)
    refine ite_split P _ _ _
      (fun _ => hcall m2 .side .center _ (by decide) (by simp [othersRatios]) h2)
      (fun _ => ?_)
    exact h2
  have hr : ∀ m2, P m2 → P (fillOthersRear sqrt i o m2) := by
    intro m2 h2
    unfold fillOthersRear
    refine ite_split P _ _ _
      (fun _ => hcall m2 .side .rear _ (by decide) (by simp [othersRatios]) h2)
      (fun _ => ?_)
    refine ite_split P _ _ _
      (fun _ => hcall m2 .front .rear _ (by decide) (by simp [othersRatios]) h2)
      (fun _ => ?_)
    refine ite_split P _ _ _
      (fun _ => hcall m2 .center .rear _ (by decide) (by simp [othersRatios]) h2)
      (fun _ => ?_)
    refine ite_split P _ _ _
      (fun _ => hcall m2 .rear .side _ (by decide) (by simp [othersRatios]) h2)
      (fun _ => ?_)
    refine ite_split P _ _ _
      (fun _ => hcall m2 .rear .front _ (by decide) (by simp [othersRatios]) h2)
      (fun _ => ?_)
    refine ite_split P _ _ _
      (fun _ => hcall m2 .rear .center _ (by decide) (by simp [othersRatios]) h2)
      (fun _ => ?_)
    exact h2
  have hb : ∀ m2, P m2 → P (fillOthersBass sqrt i o m2) := by
    intro m2 h2
    unfold fillOthersBass
    simp only []
    refine ite_split P _ _ _ (fun _ => ?_) (fun _ => ite_split P _ _ _ (fun _ => ?_) (fun _ => h2))
    · refine ite_induct P _ _ (fun M => gst_audio_channel_mix_fill_one_other M _ _ _) ?_
        (fun _ m3 h3 => hcall m3 .bass .rear _ (by decide) (by simp [othersRatios]) h3)
      refine ite_induct P _ _ (fun M => gst_audio_channel_mix_fill_one_other M _ _ _) ?_
        (fun _ m3 h3 => hcall m3 .bass .side _ (by decide) (by simp [othersRatios]) h3)
      refine ite_induct P _ _ (fun M => gst_audio_channel_mix_fill_one_other M _ _ _) ?_
        (fun _ m3 h3 => hcall m3 .bass .front _ (by decide) (by simp [othersRatios]) h3)
      exact ite_induct P _ _ (fun M => gst_audio_channel_mix_fill_one_other M _ _ _) h2
        (fun _ m3 h3 => hcall m3 .bass .center _ (by decide) (by simp [othersRatios]) h3)
    · refine ite_induct P _ _ (fun M => gst_audio_channel_mix_fill_one_other M _ _ _) ?_
        (fun _ m3 h3 => hcall m3 .rear .bass _ (by decide) (by simp [othersRatios]) h3)
      refine ite_induct P _ _ (fun M => gst_audio_channel_mix_fill_one_other M _ _ _) ?_
        (fun _ m3 h3 => hcall m3 .side .bass _ (by decide) (by simp [othersRatios]) h3)
      refine ite_induct P _ _ (fun M => gst_audio_channel_mix_fill_one_other M _ _ _) ?_
        (fun _ m3 h3 => hcall m3 .front .bass _ (by decide) (by simp [othersRatios]) h3)
      exact ite_induct P _ _ (fun M => gst_audio_channel_mix_fill_one_other M _ _ _) h2
        (fun _ m3 h3 => hcall m3 .center .bass _ (by decide) (by simp [othersRatios]) h3)
  exact hb _ (hr _ (hs _ (hf _ (hc _ hm))))

end OthersInduction


section CompatibleInduction

variable {α : Type} [LinearOrderedField α]

theorem ite3_induct {β : Type} (P : β → Prop) (c1 c2 c3 : Prop)
    [Decidable c1] [Decidable c2] [Decidable c3] (m : β) (f1 f2 f3 : β → β) (hm : P m)
    (hf1 : c1 → ∀ m2, P m2 → P (f1 m2)) (hf2 : c2 → ∀ m2, P m2 → P (f2 m2))
    (hf3 : c3 → ∀ m2, P m2 → P (f3 m2)) :
    P (if c1 then f1 m else if c2 then f2 m else if c3 then f3 m else m) := by
  split_ifs with h1 h2 h3
  · exact hf1 h1 m hm
  · exact hf2 h2 m hm
  · exact hf3 h3 m hm
  · exact hm

/-- Every assignment of one pass of the loop of
`gst_audio_channel_mix_fill_compatible` stores 1.0 or 0.5 in one of the four
cells left -> center, right -> center, center -> left, center -> right of the
scanned indices: a property of matrices that every such assignment keeps holds
after the pass. -/
theorem fillCompatibleOne_induct (P : (Nat → Nat → α) → Prop) (mix : GstAudioChannelMix α)
    (cv : Conv) (m : Nat → Nat → α) (hm : P m)
    (hset : ∀ (m2 : Nat → Nat → α) (x y : Int) (v : α), P m2 →
      ((x = (convScan cv mix.in_channels mix.in_position).i0 ∧
          y = (convScan cv mix.out_channels mix.out_position).i2) ∨
        (x = (convScan cv mix.in_channels mix.in_position).i1 ∧
          y = (convScan cv mix.out_channels mix.out_position).i2) ∨
        (x = (convScan cv mix.in_channels mix.in_position).i2 ∧
          y = (convScan cv mix.out_channels mix.out_position).i0) ∨
        (x = (convScan cv mix.in_channels mix.in_position).i2 ∧
          y = (convScan cv mix.out_channels mix.out_position).i1)) →
      x ≠ -1 → y ≠ -1 → (v = 1 ∨ v = 1 / 2) → P (setCell m2 x.toNat y.toNat v)) :
    P (fillCompatibleOne mix cv m) := by
  unfold fillCompatibleOne
  simp only []
  refine ite3_induct P _ _ _ _ (fun M => setCell M _ _ _) (fun M => setCell M _ _ _)
    (fun M => setCell M _ _ _) ?_
    (fun h m2 h2 => hset m2 _ _ _ h2 (Or.inr (Or.inr (Or.inr ⟨rfl, rfl⟩))) h.1 h.2.2.2
      (Or.inl rfl))
    (fun h m2 h2 => hset m2 _ _ _ h2 (Or.inr (Or.inr (Or.inr ⟨rfl, rfl⟩))) h.1 h.2.2.2
      (Or.inr rfl))
    (fun h m2 h2 => hset m2 _ _ _ h2 (Or.inr (Or.inr (Or.inr ⟨rfl, rfl⟩))) h.1 h.2.2.2
      (Or.inl rfl))
  refine ite3_induct P _ _ _ _ (fun M => setCell M _ _ _) (fun M => setCell M _ _ _)
    (fun M => setCell M _ _ _) ?_
    (fun h m2 h2 => hset m2 _ _ _ h2 (Or.inr (Or.inr (Or.inl ⟨rfl, rfl⟩))) h.1 h.2.2.2
      (Or.inl rfl))
    (fun h m2 h2 => hset m2 _ _ _ h2 (Or.inr (Or.inr (Or.inl ⟨rfl, rfl⟩))) h.1 h.2.2.2
      (Or.inr rfl))
    (fun h m2 h2 => hset m2 _ _ _ h2 (Or.inr (Or.inr (Or.inl ⟨rfl, rfl⟩))) h.1 h.2.2.2
      (Or.inl rfl))
  refine ite3_induct P _ _ _ _ (fun M => setCell M _ _ _) (fun M => setCell M _ _ _)
    (fun M => setCell M _ _ _) ?_
    (fun h m2 h2 => hset m2 _ _ _ h2 (Or.inr (Or.inl ⟨rfl, rfl⟩)) h.1 h.2.2.2
      (Or.inl rfl))
    (fun h m2 h2 => hset m2 _ _ _ h2 (Or.inr (Or.inl ⟨rfl, rfl⟩)) h.1 h.2.2.2
      (Or.inr rfl))
    (fun h m2 h2 => hset m2 _ _ _ h2 (Or.inr (Or.inl ⟨rfl, rfl⟩)) h.1 h.2.2.2
      (Or.inl rfl))
  exact ite3_induct P _ _ _ _ (fun M => setCell M _ _ _) (fun M => setCell M _ _ _)
    (fun M => setCell M _ _ _) hm
    (fun h m2 h2 => hset m2 _ _ _ h2 (Or.inl ⟨rfl, rfl⟩) h.1 h.2.2.2 (Or.inl rfl))
    (fun h m2 h2 => hset m2 _ _ _ h2 (Or.inl ⟨rfl, rfl⟩) h.1 h.2.2.2 (Or.inr rfl))
    (fun h m2 h2 => hset m2 _ _ _ h2 (Or.inl ⟨rfl, rfl⟩) h.1 h.2.2.2 (Or.inl rfl))

/-- A property of matrices kept by every pass holds after
`gst_audio_channel_mix_fill_compatible`. -/
theorem fill_compatible_induct (P : (Nat → Nat → α) → Prop) (mix : GstAudioChannelMix α)
    (hm : P mix.matrix)
    (hpass : ∀ cv, cv ∈ conv → ∀ m2, P m2 → P (fillCompatibleOne mix cv m2)) :
    P (gst_audio_channel_mix_fill_compatible mix).matrix := by
  show P (conv.foldl (fun m cv => fillCompatibleOne mix cv m) mix.matrix)
  have : ∀ (l : List Conv) (m0 : Nat → Nat → α), (∀ cv, cv ∈ l → cv ∈ conv) → P m0 →
      P (l.foldl (fun m cv => fillCompatibleOne mix cv m) m0) := by
    intro l
    induction l with
    | nil => intro m0 _ h; exact h
    | cons cv l ih =>
      intro m0 hl h
      rw [List.foldl_cons]
      exact ih _ (fun c hc => hl c (List.mem_cons_of_mem _ hc))
        (hpass cv (hl cv (List.mem_cons_self _ _)) m0 h)
  exact this conv mix.matrix (fun _ h => h) hm

end CompatibleInduction


/-! ## Non-negative weights -/

section Nonneg

variable {α : Type} [LinearOrderedField α]

theorem setCell_nonneg (m : Nat → Nat → α) (i j : Nat) (v : α)
    (hm : ∀ a b, 0 ≤ m a b) (hv : 0 ≤ v) : ∀ a b, 0 ≤ setCell m i j v a b := by
  intro a b
  unfold setCell
  split_ifs
  · exact hv
  · exact hm a b

theorem fill_one_other_nonneg (m : Nat → Nat → α) (from_idx to_idx : Idx3) (ratio : α)
    (hm : ∀ a b, 0 ≤ m a b) (hr : 0 ≤ ratio) :
    ∀ a b, 0 ≤ gst_audio_channel_mix_fill_one_other m from_idx to_idx ratio a b := by
  apply fill_one_other_induct (fun M => ∀ a b, 0 ≤ M a b) m from_idx to_idx ratio hm
  intro m2 x y v h2 _ _ _ _ hv
  apply setCell_nonneg m2 _ _ v h2
  rcases hv with h | h
  · rw [h]; exact hr
  · rw [h]; exact mul_nonneg (by norm_num) hr

theorem fill_others_nonneg (sqrt : α → α) (mix : GstAudioChannelMix α)
    (hr : ∀ r, r ∈ othersRatios sqrt → 0 ≤ r) (hm : ∀ a b, 0 ≤ mix.matrix a b) :
    ∀ a b, 0 ≤ (gst_audio_channel_mix_fill_others sqrt mix).matrix a b := by
  show ∀ a b, 0 ≤ fillOthersBass sqrt _ _ (fillOthersRear sqrt _ _ (fillOthersSide sqrt _ _
      (fillOthersFront sqrt _ _ (fillOthersCenter sqrt _ _ mix.matrix)))) a b
  apply fill_others_induct sqrt _ _ (fun M => ∀ a b, 0 ≤ M a b) mix.matrix hm
  intro m2 X Y ratio _ hmem h2
  exact fill_one_other_nonneg m2 _ _ ratio h2 (hr ratio hmem)

theorem fill_compatible_nonneg (mix : GstAudioChannelMix α) (hm : ∀ a b, 0 ≤ mix.matrix a b) :
    ∀ a b, 0 ≤ (gst_audio_channel_mix_fill_compatible mix).matrix a b := by
  apply fill_compatible_induct (fun M => ∀ a b, 0 ≤ M a b) mix hm
  intro cv _ m2 h2
  apply fillCompatibleOne_induct (fun M => ∀ a b, 0 ≤ M a b) mix cv m2 h2
  intro m3 x y v h3 _ _ _ hv
  apply setCell_nonneg m3 _ _ v h3
  rcases hv with h | h
  · rw [h]; exact zero_le_one
  · rw [h]; norm_num

theorem fill_identical_nonneg (mix : GstAudioChannelMix α) (hm : ∀ a b, 0 ≤ mix.matrix a b) :
    ∀ a b, 0 ≤ (gst_audio_channel_mix_fill_identical mix).matrix a b := by
  intro a b
  rw [fill_identical_matrix]
  split_ifs
  · exact zero_le_one
  · exact hm a b

theorem fill_normalize_nonneg (mix : GstAudioChannelMix α) (hm : ∀ a b, 0 ≤ mix.matrix a b) :
    ∀ a b, 0 ≤ (gst_audio_channel_mix_fill_normalize mix).matrix a b := by
  intro a b
  rw [fill_normalize_matrix]
  split_ifs
  · exact div_nonneg (hm a b) (normalizeTop_nonneg mix)
  · exact hm a b

theorem fill_special_nonneg (mix : GstAudioChannelMix α) (hm : ∀ a b, 0 ≤ mix.matrix a b) :
    ∀ a b, 0 ≤ (gst_audio_channel_mix_fill_special mix).1.matrix a b := by
  unfold gst_audio_channel_mix_fill_special
  split_ifs
  · exact setCell_nonneg _ _ _ _ (setCell_nonneg _ _ _ _ hm (by norm_num)) (by norm_num)
  · exact setCell_nonneg _ _ _ _ (setCell_nonneg _ _ _ _ hm zero_le_one) zero_le_one
  · exact hm

/-- When the ratios are non-negative, `gst_audio_channel_mix_fill_matrix`
keeps the weights non-negative. -/
theorem fill_matrix_nonneg (sqrt : α → α) (mix : GstAudioChannelMix α)
    (hr : ∀ r, r ∈ othersRatios sqrt → 0 ≤ r) (hm : ∀ a b, 0 ≤ mix.matrix a b) :
    ∀ a b, 0 ≤ (gst_audio_channel_mix_fill_matrix sqrt mix).matrix a b := by
  rw [fill_matrix_cases]
  split_ifs
  · exact fill_special_nonneg mix hm
  · exact fill_normalize_nonneg _ (fill_others_nonneg sqrt _ hr
      (fill_compatible_nonneg _ (fill_identical_nonneg mix hm)))
  · exact fill_identical_nonneg mix hm

/-- The ratios are non-negative when `sqrt 2` and `sqrt 8` are. -/
theorem othersRatios_nonneg (sqrt : α → α) (h2 : 0 ≤ sqrt 2) (h8 : 0 ≤ sqrt 8) :
    ∀ r, r ∈ othersRatios sqrt → 0 ≤ r := by
  intro r hr
  simp only [othersRatios, RATIO_CENTER_FRONT, RATIO_CENTER_SIDE, RATIO_CENTER_REAR,
    RATIO_FRONT_SIDE, RATIO_FRONT_REAR, RATIO_SIDE_REAR, RATIO_CENTER_BASS, RATIO_FRONT_BASS,
    RATIO_SIDE_BASS, RATIO_REAR_BASS, List.mem_cons, List.mem_singleton, List.not_mem_nil,
    or_false] at hr
  have c2 : (0 : α) ≤ 1 / sqrt 2 := div_nonneg zero_le_one h2
  have c8 : (0 : α) ≤ 1 / sqrt 8 := div_nonneg zero_le_one h8
  have ch : (0 : α) ≤ 1 / 2 := by norm_num
  have chh : (0 : α) ≤ 1 / 2 * (1 / sqrt 2) := mul_nonneg ch c2
  rcases hr with h | h | h | h | h | h | h | h | h | h | h | h | h <;> rw [h] <;>
    first | exact c2 | exact c8 | exact ch | exact chh | exact zero_le_one

/-- The ratios computed with the real square root are non-negative. -/
theorem othersRatios_real_nonneg : ∀ r, r ∈ othersRatios Real.sqrt → 0 ≤ r :=
  othersRatios_nonneg Real.sqrt (Real.sqrt_nonneg 2) (Real.sqrt_nonneg 8)

end Nonneg

section NonnegNew

variable {α : Type} [LinearOrderedField α] [FloorRing α]

/-- When the ratios are non-negative, every weight of a constructed instance
is non-negative. -/
theorem new_matrix_nonneg (sqrt : α → α) (flags : Nat) (format : GstAudioFormat)
    (in_channels : Int) (in_position : List GstAudioChannelPosition)
    (out_channels : Int) (out_position : List GstAudioChannelPosition)
    (mix : GstAudioChannelMix α)
    (hr : ∀ r, r ∈ othersRatios sqrt → 0 ≤ r)
    (hnew : gst_audio_channel_mix_new sqrt flags format in_channels in_position
      out_channels out_position = some mix) (i j : Nat) : 0 ≤ mix.matrix i j := by
  obtain ⟨_, hm⟩ := (new_eq_some _ _ _ _ _ _ _ _).mp hnew
  rw [hm, setup_matrix_mixInit]
  exact fill_matrix_nonneg sqrt _ hr (fun _ _ => le_refl _) i j

theorem truncToInt_nonneg (x : α) (hx : 0 ≤ x) : 0 ≤ truncToInt x := by
  unfold truncToInt
  rw [if_pos hx]
  exact Int.floor_nonneg.mpr hx

/-- When the ratios are non-negative, every fixed-point weight of a
constructed instance lies between 0 and 1024. -/
theorem new_matrix_int_range (sqrt : α → α) (flags : Nat) (format : GstAudioFormat)
    (in_channels : Int) (in_position : List GstAudioChannelPosition)
    (out_channels : Int) (out_position : List GstAudioChannelPosition)
    (mix : GstAudioChannelMix α)
    (hr : ∀ r, r ∈ othersRatios sqrt → 0 ≤ r)
    (hnew : gst_audio_channel_mix_new sqrt flags format in_channels in_position
      out_channels out_position = some mix) (i j : Nat) :
    0 ≤ mix.matrix_int i j ∧ mix.matrix_int i j ≤ 1024 := by
  constructor
  · rw [new_matrix_int_cell _ _ _ _ _ _ _ _ hnew]
    split_ifs
    · exact truncToInt_nonneg _
        (mul_nonneg (new_matrix_nonneg _ _ _ _ _ _ _ _ hr hnew i j) (by norm_num))
    · exact le_refl _
  · exact (abs_le.mp (new_matrix_int_abs_le _ _ _ _ _ _ _ _ hnew i j)).2

end NonnegNew


/-! ## The accumulator of the S32 path -/

section Accumulator

open GstAudioChannelPosition

/-- C14: the 64-bit accumulator of the S32 path never overflows. For every
constructed mixer (weights over the reals) `in_channels <= 63` and every
`matrix_int` entry lies between 0 and 1024; for every `gint32` input frame
every partial sum of `in[n * in_channels + i] * matrix_int[i][o]` over `i` has
absolute value at most `63 * 2^31 * 2^10 < 2^63`, and the wrapped accumulator
equals that mathematical sum. -/
theorem accumulator_never_overflows (flags : Nat) (format : GstAudioFormat)
    (in_channels : Int) (in_position : List GstAudioChannelPosition)
    (out_channels : Int) (out_position : List GstAudioChannelPosition)
    (mix : GstAudioChannelMix ℝ)
    (hnew : gst_audio_channel_mix_new Real.sqrt flags format in_channels in_position
      out_channels out_position = some mix)
    (mem : Nat → Int) (hmem : ∀ a, G_MININT32 ≤ mem a ∧ mem a ≤ G_MAXINT32)
    (in_data n o : Nat) :
    mix.in_channels ≤ 63 ∧
    (∀ i j, 0 ≤ mix.matrix_int i j ∧ mix.matrix_int i j ≤ 1024) ∧
    (63 * 2 ^ 31 * 2 ^ 10 : Int) < 2 ^ 63 ∧
    ∀ k, k ≤ mix.in_channels →
      |∑ i in Finset.range k, mem (in_data + (n * mix.in_channels + i)) * mix.matrix_int i o| ≤
        63 * 2 ^ 31 * 2 ^ 10 ∧
      forLoop (fun i res =>
        wrap64 (res + wrap64 (mem (in_data + (n * mix.in_channels + i)) * mix.matrix_int i o)))
        k 0 =
      ∑ i in Finset.range k, mem (in_data + (n * mix.in_channels + i)) * mix.matrix_int i o := by
  have hin := (new_in_channels_le _ _ _ _ _ _ _ _ hnew).1
  refine ⟨hin, fun i j => new_matrix_int_range _ _ _ _ _ _ _ _ othersRatios_real_nonneg hnew i j,
    by norm_num, ?_⟩
  intro k hk
  have ht : ∀ i, i < k →
      |mem (in_data + (n * mix.in_channels + i)) * mix.matrix_int i o| ≤ 2 ^ 41 := by
    intro i _
    rw [abs_mul]
    have h1 : |mem (in_data + (n * mix.in_channels + i))| ≤ 2 ^ 31 := by
      have := hmem (in_data + (n * mix.in_channels + i))
      unfold G_MININT32 G_MAXINT32 at this
      rw [abs_le]
      constructor <;> omega
    have h2 := new_matrix_int_abs_le _ _ _ _ _ _ _ _ hnew i o
    calc |mem (in_data + (n * mix.in_channels + i))| * |mix.matrix_int i o|
        ≤ 2 ^ 31 * 1024 := mul_le_mul h1 h2 (abs_nonneg _) (by norm_num)
      _ = 2 ^ 41 := by norm_num
  obtain ⟨hsum, hbound⟩ := accLoop_spec
    (fun i => mem (in_data + (n * mix.in_channels + i)) * mix.matrix_int i o) k (by omega) ht
  refine ⟨?_, hsum⟩
  have hk2 : (k : Int) ≤ 63 := by omega
  have : (k : Int) * 2 ^ 41 ≤ 63 * 2 ^ 31 * 2 ^ 10 := by nlinarith
  exact le_trans hbound this

/-- C14 at the mixer for input [front-left, front-right] and output
[front-right, front-left], with the sample 5 everywhere. -/
theorem accumulator_never_overflows_witness :
    ∃ mix : GstAudioChannelMix ℝ,
      gst_audio_channel_mix_new Real.sqrt 0 GstAudioFormat.S32
        2 [FRONT_LEFT, FRONT_RIGHT] 2 [FRONT_RIGHT, FRONT_LEFT] = some mix ∧
      mix.in_channels ≤ 63 ∧
      ∀ i j, 0 ≤ mix.matrix_int i j ∧ mix.matrix_int i j ≤ 1024 := by
  have hnew : gst_audio_channel_mix_new Real.sqrt 0 GstAudioFormat.S32
      2 [FRONT_LEFT, FRONT_RIGHT] 2 [FRONT_RIGHT, FRONT_LEFT] =
      some (gst_audio_channel_mix_setup_matrix Real.sqrt
        (mixInit (α := ℝ) 0 GstAudioFormat.S32 2 [FRONT_LEFT, FRONT_RIGHT] 2
          [FRONT_RIGHT, FRONT_LEFT])) :=
    (new_eq_some _ _ _ _ _ _ _ _).mpr ⟨⟨Or.inl rfl, by decide, by decide⟩, rfl⟩
  have h := accumulator_never_overflows 0 GstAudioFormat.S32
    2 [FRONT_LEFT, FRONT_RIGHT] 2 [FRONT_RIGHT, FRONT_LEFT] _ hnew (fun _ => 5)
    (fun _ => ⟨(by decide : G_MININT32 ≤ (5 : Int)), (by decide : (5 : Int) ≤ G_MAXINT32)⟩)
    0 0 0
  exact ⟨_, hnew, h.1, h.2.1⟩

end Accumulator


/-! ## The cross terms of the spatial-proximity fill -/

section CrossTerms

variable {α : Type} [LinearOrderedField α]

theorem ite_setCell_other {β : Type} (c : Prop) [Decidable c] (M : Nat → Nat → β)
    (i j : Nat) (v : β) (a b : Nat) (h : c → ¬ (a = i ∧ b = j)) :
    (if c then setCell M i j v else M) a b = M a b := by
  split_ifs with hc
  · unfold setCell
    rw [if_neg (h hc)]
  · rfl

theorem ite2_setCell_other {β : Type} (c1 c2 : Prop) [Decidable c1] [Decidable c2]
    (M : Nat → Nat → β) (i j : Nat) (v1 v2 : β) (a b : Nat)
    (h : c1 ∨ c2 → ¬ (a = i ∧ b = j)) :
    (if c1 then setCell M i j v1 else if c2 then setCell M i j v2 else M) a b = M a b := by
  split_ifs with hc1 hc2
  · unfold setCell
    rw [if_neg (h (Or.inl hc1))]
  · unfold setCell
    rw [if_neg (h (Or.inr hc2))]
  · rfl

theorem setCell_same {β : Type} (M : Nat → Nat → β) (i j : Nat) (v : β) :
    setCell M i j v i j = v := by
  unfold setCell
  rw [if_pos ⟨rfl, rfl⟩]

theorem ite2_setCell_same {β : Type} (a b e : Prop) [Decidable a] [Decidable b] [Decidable e]
    (M : Nat → Nat → β) (i j : Nat) (v1 v2 : β) (ha : a) (hb : b) :
    (if a ∧ b ∧ ¬ e then setCell M i j v1 else if a ∧ b ∧ e then setCell M i j v2 else M) i j
      = if ¬ e then v1 else v2 := by
  by_cases he : e
  · rw [if_neg (fun h => h.2.2 he), if_pos ⟨ha, hb, he⟩, if_neg (not_not.mpr he), setCell_same]
  · rw [if_pos ⟨ha, hb, he⟩, if_pos he, setCell_same]

/-- Claim C16, refuted as stated: with a source group that has a left and a right
sub-channel and no center (indices 0 and 1) and a destination group that has only a
center sub-channel (index 0), `gst_audio_channel_mix_fill_one_other` with ratio 1
writes the full ratio 1, not 1/2, from each source channel into the destination
center; and with a source that has only a center and a destination that has a left
and a right sub-channel it writes the full ratio into each of them. -/
theorem fill_one_other_cross_term_is_full_ratio :
    gst_audio_channel_mix_fill_one_other (fun _ _ => (0 : ℚ)) ⟨0, -1, 1⟩ ⟨-1, 0, -1⟩ 1 0 0 = 1 ∧
    gst_audio_channel_mix_fill_one_other (fun _ _ => (0 : ℚ)) ⟨0, -1, 1⟩ ⟨-1, 0, -1⟩ 1 1 0 = 1 ∧
    gst_audio_channel_mix_fill_one_other (fun _ _ => (0 : ℚ)) ⟨-1, 0, -1⟩ ⟨0, -1, 1⟩ 1 0 0 = 1 ∧
    gst_audio_channel_mix_fill_one_other (fun _ _ => (0 : ℚ)) ⟨-1, 0, -1⟩ ⟨0, -1, 1⟩ 1 0 1 = 1 ∧
    (1 : ℚ) ≠ 1 / 2 * 1 := by
  refine ⟨?_, ?_, ?_, ?_, by norm_num⟩ <;> decide

/-- The cross terms of `gst_audio_channel_mix_fill_one_other`, cell by cell. -/
theorem one_other_cross_cells (matrix : Nat → Nat → α) (from_idx to_idx : Idx3)
    (ratio : α) (hf : from_idx.Distinct) (ht : to_idx.Distinct) :
    (from_idx.i0 ≠ -1 → to_idx.i1 ≠ -1 →
      gst_audio_channel_mix_fill_one_other matrix from_idx to_idx ratio
          from_idx.i0.toNat to_idx.i1.toNat
        = if from_idx.i1 ≠ -1 then 1 / 2 * ratio else ratio) ∧
    (from_idx.i2 ≠ -1 → to_idx.i1 ≠ -1 →
      gst_audio_channel_mix_fill_one_other matrix from_idx to_idx ratio
          from_idx.i2.toNat to_idx.i1.toNat
        = if from_idx.i1 ≠ -1 then 1 / 2 * ratio else ratio) ∧
    (from_idx.i1 ≠ -1 → to_idx.i0 ≠ -1 →
      gst_audio_channel_mix_fill_one_other matrix from_idx to_idx ratio
          from_idx.i1.toNat to_idx.i0.toNat
        = if from_idx.i0 ≠ -1 then 1 / 2 * ratio else ratio) ∧
    (from_idx.i1 ≠ -1 → to_idx.i2 ≠ -1 →
      gst_audio_channel_mix_fill_one_other matrix from_idx to_idx ratio
          from_idx.i1.toNat to_idx.i2.toNat
        = if from_idx.i2 ≠ -1 then 1 / 2 * ratio else ratio) := by
  obtain ⟨f0, f1, f2, f01, f02, f12⟩ := hf
  obtain ⟨t0, t1, t2, t01, t02, t12⟩ := ht
  unfold gst_audio_channel_mix_fill_one_other
  refine ⟨?_, ?_, ?_, ?_⟩
  · intro h1 h2
    rw [ite2_setCell_other, ite2_setCell_other, ite2_setCell_other]
    · exact ite2_setCell_same _ _ _ _ _ _ _ _ h1 h2
    · rintro (h | h) <;> omega
    · rintro (h | h) <;> omega
    · rintro (h | h) <;> omega
  · intro h1 h2
    rw [ite2_setCell_other, ite2_setCell_other]
    · exact ite2_setCell_same _ _ _ _ _ _ _ _ h1 h2
    · rintro (h | h) <;> omega
    · rintro (h | h) <;> omega
  · intro h1 h2
    rw [ite2_setCell_other]
    · exact ite2_setCell_same _ _ _ _ _ _ _ _ h1 h2
    · rintro (h | h) <;> omega
  · intro h1 h2
    exact ite2_setCell_same _ _ _ _ _ _ _ _ h1 h2

/-- Claim C16, amended: for every call of `gst_audio_channel_mix_fill_one_other`
with group ratio `ratio` on index arrays whose entries other than `-1` are pairwise
different, a source left (right) channel is written into the destination center at
`ratio / 2` when the source group also has a center sub-channel and at the full
`ratio` when it has none; a source center is written into the destination left
(right) at `ratio / 2` when the source group also has a left (right) sub-channel
and at the full `ratio` when it has none. -/
theorem fill_one_other_cross_terms (matrix : Nat → Nat → α) (from_idx to_idx : Idx3)
    (ratio : α) (hf : from_idx.Distinct) (ht : to_idx.Distinct) :
    (from_idx.i0 ≠ -1 → to_idx.i1 ≠ -1 →
      gst_audio_channel_mix_fill_one_other matrix from_idx to_idx ratio
          from_idx.i0.toNat to_idx.i1.toNat
        = if from_idx.i1 ≠ -1 then 1 / 2 * ratio else ratio) ∧
    (from_idx.i2 ≠ -1 → to_idx.i1 ≠ -1 →
      gst_audio_channel_mix_fill_one_other matrix from_idx to_idx ratio
          from_idx.i2.toNat to_idx.i1.toNat
        = if from_idx.i1 ≠ -1 then 1 / 2 * ratio else ratio) ∧
    (from_idx.i1 ≠ -1 → to_idx.i0 ≠ -1 →
      gst_audio_channel_mix_fill_one_other matrix from_idx to_idx ratio
          from_idx.i1.toNat to_idx.i0.toNat
        = if from_idx.i0 ≠ -1 then 1 / 2 * ratio else ratio) ∧
    (from_idx.i1 ≠ -1 → to_idx.i2 ≠ -1 →
      gst_audio_channel_mix_fill_one_other matrix from_idx to_idx ratio
          from_idx.i1.toNat to_idx.i2.toNat
        = if from_idx.i2 ≠ -1 then 1 / 2 * ratio else ratio) :=
  one_other_cross_cells matrix from_idx to_idx ratio hf ht

/-- Claim C16, amended, at a concrete call: a source with left, center and right
sub-channels (indices 0, 1, 2) and a destination with only a center (index 0). -/
theorem fill_one_other_cross_terms_witness :
    gst_audio_channel_mix_fill_one_other (fun _ _ => (0 : ℚ)) ⟨0, 1, 2⟩ ⟨-1, 0, -1⟩ 1 0 0
      = 1 / 2 * 1 :=
  ((fill_one_other_cross_terms (fun _ _ => (0 : ℚ)) ⟨0, 1, 2⟩ ⟨-1, 0, -1⟩ 1
    (by unfold Idx3.Distinct; decide) (by unfold Idx3.Distinct; decide)).1
      (by decide) (by decide)).trans (if_pos (by decide))

end CrossTerms


/-! ## What the scans of a layout find -/

section Scans

theorem isLastIndex_zero (position : List GstAudioChannelPosition)
    (q : GstAudioChannelPosition → Prop) : IsLastIndex 0 position q (-1) :=
  Or.inl ⟨rfl, fun _ hk => absurd hk (Nat.not_lt_zero _)⟩

theorem isLastIndex_succ_pos (n : Nat) (position : List GstAudioChannelPosition)
    (q : GstAudioChannelPosition → Prop) (h : q (posAt position n)) :
    IsLastIndex (n + 1) position q (n : Int) := by
  refine Or.inr ⟨Int.natCast_nonneg n, ?_, ?_, ?_⟩
  · simp
  · simpa using h
  · intro k hk _
    simp only [Int.toNat_ofNat]
    omega

theorem isLastIndex_succ_neg (n : Nat) (position : List GstAudioChannelPosition)
    (q : GstAudioChannelPosition → Prop) (x : Int) (h : ¬ q (posAt position n))
    (hx : IsLastIndex n position q x) : IsLastIndex (n + 1) position q x := by
  rcases hx with ⟨h1, h2⟩ | ⟨h1, h2, h3, h4⟩
  · refine Or.inl ⟨h1, fun k hk => ?_⟩
    rcases Nat.lt_succ_iff_lt_or_eq.mp hk with hk | hk
    · exact h2 k hk
    · rw [hk]; exact h
  · refine Or.inr ⟨h1, Nat.lt_succ_of_lt h2, h3, fun k hk hq => ?_⟩
    rcases Nat.lt_succ_iff_lt_or_eq.mp hk with hk | hk
    · exact h4 k hk hq
    · rw [hk] at hq; exact absurd hq h

/-- One iteration of `gst_audio_channel_mix_detect_pos`, entry by entry. -/
theorem detect_pos_step (p : GstAudioChannelPosition) (n : Nat) (d : DetectPos)
    (X : SpatialGroup) (k : Nat) (hk : k < 3) :
    (((match p with
      | .MONO => { d with f := { d.f with i1 := n }, has_f := true }
      | .FRONT_LEFT => { d with f := { d.f with i0 := n }, has_f := true }
      | .FRONT_RIGHT => { d with f := { d.f with i2 := n }, has_f := true }
      | .FRONT_CENTER => { d with c := { d.c with i1 := n }, has_c := true }
      | .FRONT_LEFT_OF_CENTER => { d with c := { d.c with i0 := n }, has_c := true }
      | .FRONT_RIGHT_OF_CENTER => { d with c := { d.c with i2 := n }, has_c := true }
      | .REAR_CENTER => { d with r := { d.r with i1 := n }, has_r := true }
      | .REAR_LEFT => { d with r := { d.r with i0 := n }, has_r := true }
      | .REAR_RIGHT => { d with r := { d.r with i2 := n }, has_r := true }
      | .SIDE_LEFT => { d with s := { d.s with i0 := n }, has_s := true }
      | .SIDE_RIGHT => { d with s := { d.s with i2 := n }, has_s := true }
      | .LFE1 => { d with has_b := true, b := { d.b with i1 := n } }
      | _ => d : DetectPos).group X).get k)
      = if slotOf p = some (X, k) then (n : Int) else (d.group X).get k := by
  have h3 : k = 0 ∨ k = 1 ∨ k = 2 := by omega
  rcases h3 with rfl | rfl | rfl <;> cases X <;> cases p <;> rfl

/-- One iteration of `gst_audio_channel_mix_detect_pos`, flag by flag. -/
theorem detect_pos_step_has (p : GstAudioChannelPosition) (n : Nat) (d : DetectPos)
    (X : SpatialGroup) :
    ((match p with
      | .MONO => { d with f := { d.f with i1 := n }, has_f := true }
      | .FRONT_LEFT => { d with f := { d.f with i0 := n }, has_f := true }
      | .FRONT_RIGHT => { d with f := { d.f with i2 := n }, has_f := true }
      | .FRONT_CENTER => { d with c := { d.c with i1 := n }, has_c := true }
      | .FRONT_LEFT_OF_CENTER => { d with c := { d.c with i0 := n }, has_c := true }
      | .FRONT_RIGHT_OF_CENTER => { d with c := { d.c with i2 := n }, has_c := true }
      | .REAR_CENTER => { d with r := { d.r with i1 := n }, has_r := true }
      | .REAR_LEFT => { d with r := { d.r with i0 := n }, has_r := true }
      | .REAR_RIGHT => { d with r := { d.r with i2 := n }, has_r := true }
      | .SIDE_LEFT => { d with s := { d.s with i0 := n }, has_s := true }
      | .SIDE_RIGHT => { d with s := { d.s with i2 := n }, has_s := true }
      | .LFE1 => { d with has_b := true, b := { d.b with i1 := n } }
      | _ => d : DetectPos).has X)
      = if (slotOf p).map Prod.fst = some X then true else d.has X := by
  cases X <;> cases p <;> rfl

/-- Every entry of the index arrays of `gst_audio_channel_mix_detect_pos` is the
index of the last channel whose position the `switch` sends to that entry, or `-1`
when the layout has no such channel. -/
theorem detect_pos_spec (channels : Nat) (position : List GstAudioChannelPosition)
    (X : SpatialGroup) (k : Nat) (hk : k < 3) :
    IsLastIndex channels position (fun p => slotOf p = some (X, k))
      (((gst_audio_channel_mix_detect_pos channels position).group X).get k) := by
  unfold gst_audio_channel_mix_detect_pos
  induction channels with
  | zero =>
    have h3 : k = 0 ∨ k = 1 ∨ k = 2 := by omega
    rcases h3 with rfl | rfl | rfl <;> cases X <;> exact isLastIndex_zero _ _
  | succ n ih =>
    rw [forLoop_succ]
    have hstep := detect_pos_step (posAt position n) n
      (forLoop (fun n (d : DetectPos) =>
        match posAt position n with
        | .MONO => { d with f := { d.f with i1 := n }, has_f := true }
        | .FRONT_LEFT => { d with f := { d.f with i0 := n }, has_f := true }
        | .FRONT_RIGHT => { d with f := { d.f with i2 := n }, has_f := true }
        | .FRONT_CENTER => { d with c := { d.c with i1 := n }, has_c := true }
        | .FRONT_LEFT_OF_CENTER => { d with c := { d.c with i0 := n }, has_c := true }
        | .FRONT_RIGHT_OF_CENTER => { d with c := { d.c with i2 := n }, has_c := true }
        | .REAR_CENTER => { d with r := { d.r with i1 := n }, has_r := true }
        | .REAR_LEFT => { d with r := { d.r with i0 := n }, has_r := true }
        | .REAR_RIGHT => { d with r := { d.r with i2 := n }, has_r := true }
        | .SIDE_LEFT => { d with s := { d.s with i0 := n }, has_s := true }
        | .SIDE_RIGHT => { d with s := { d.s with i2 := n }, has_s := true }
        | .LFE1 => { d with has_b := true, b := { d.b with i1 := n } }
        | _ => d) n {}) X k hk
    simp only [] at hstep ⊢
    rw [hstep]
    by_cases hq : slotOf (posAt position n) = some (X, k)
    · rw [if_pos hq]
      exact isLastIndex_succ_pos n position _ hq
    · rw [if_neg hq]
      exact isLastIndex_succ_neg n position _ _ hq ih

/-- The flag of a group is set exactly when the layout has a channel of the group. -/
theorem detect_pos_has (channels : Nat) (position : List GstAudioChannelPosition)
    (X : SpatialGroup) :
    (gst_audio_channel_mix_detect_pos channels position).has X = true ↔
      ∃ k, k < channels ∧ (slotOf (posAt position k)).map Prod.fst = some X := by
  unfold gst_audio_channel_mix_detect_pos
  induction channels with
  | zero =>
    constructor
    · intro h
      cases X <;> exact absurd h Bool.false_ne_true
    · rintro ⟨k, hk, _⟩
      exact absurd hk (Nat.not_lt_zero _)
  | succ n ih =>
    rw [forLoop_succ]
    have hstep := detect_pos_step_has (posAt position n) n
      (forLoop (fun n (d : DetectPos) =>
        match posAt position n with
        | .MONO => { d with f := { d.f with i1 := n }, has_f := true }
        | .FRONT_LEFT => { d with f := { d.f with i0 := n }, has_f := true }
        | .FRONT_RIGHT => { d with f := { d.f with i2 := n }, has_f := true }
        | .FRONT_CENTER => { d with c := { d.c with i1 := n }, has_c := true }
        | .FRONT_LEFT_OF_CENTER => { d with c := { d.c with i0 := n }, has_c := true }
        | .FRONT_RIGHT_OF_CENTER => { d with c := { d.c with i2 := n }, has_c := true }
        | .REAR_CENTER => { d with r := { d.r with i1 := n }, has_r := true }
        | .REAR_LEFT => { d with r := { d.r with i0 := n }, has_r := true }
        | .REAR_RIGHT => { d with r := { d.r with i2 := n }, has_r := true }
        | .SIDE_LEFT => { d with s := { d.s with i0 := n }, has_s := true }
        | .SIDE_RIGHT => { d with s := { d.s with i2 := n }, has_s := true }
        | .LFE1 => { d with has_b := true, b := { d.b with i1 := n } }
        | _ => d) n {}) X
    simp only [] at hstep ⊢
    rw [hstep]
    by_cases hq : (slotOf (posAt position n)).map Prod.fst = some X
    · rw [if_pos hq]
      exact ⟨fun _ => ⟨n, Nat.lt_succ_self n, hq⟩, fun _ => rfl⟩
    · rw [if_neg hq, ih]
      constructor
      · rintro ⟨k, hk, h⟩
        exact ⟨k, Nat.lt_succ_of_lt hk, h⟩
      · rintro ⟨k, hk, h⟩
        rcases Nat.lt_succ_iff_lt_or_eq.mp hk with hk | hk
        · exact ⟨k, hk, h⟩
        · rw [hk] at h; exact absurd h hq

/-- The three variables of a scan of `gst_audio_channel_mix_fill_compatible`, for an
entry of `conv[]` with three different positions. -/
theorem convScan_spec (cv : Conv) (h01 : cv.pos1_0 ≠ cv.pos1_1) (h02 : cv.pos1_0 ≠ cv.pos2_0)
    (h12 : cv.pos1_1 ≠ cv.pos2_0) (channels : Nat)
    (position : List GstAudioChannelPosition) :
    IsLastIndex channels position (fun p => p = cv.pos1_0) (convScan cv channels position).i0 ∧
    IsLastIndex channels position (fun p => p = cv.pos1_1) (convScan cv channels position).i1 ∧
    IsLastIndex channels position (fun p => p = cv.pos2_0)
      (convScan cv channels position).i2 := by
  unfold convScan
  induction channels with
  | zero => exact ⟨isLastIndex_zero _ _, isLastIndex_zero _ _, isLastIndex_zero _ _⟩
  | succ n ih =>
    rw [forLoop_succ]
    obtain ⟨ih0, ih1, ih2⟩ := ih
    by_cases q0 : posAt position n = cv.pos1_0
    · rw [if_pos q0]
      refine ⟨isLastIndex_succ_pos n position _ q0,
        isLastIndex_succ_neg n position _ _ (fun h => h01 (q0.symm.trans h)) ih1,
        isLastIndex_succ_neg n position _ _ (fun h => h02 (q0.symm.trans h)) ih2⟩
    · rw [if_neg q0]
      by_cases q1 : posAt position n = cv.pos1_1
      · rw [if_pos q1]
        refine ⟨isLastIndex_succ_neg n position _ _ q0 ih0,
          isLastIndex_succ_pos n position _ q1,
          isLastIndex_succ_neg n position _ _ (fun h => h12 (q1.symm.trans h)) ih2⟩
      · rw [if_neg q1]
        by_cases q2 : posAt position n = cv.pos2_0
        · rw [if_pos q2]
          exact ⟨isLastIndex_succ_neg n position _ _ q0 ih0,
            isLastIndex_succ_neg n position _ _ q1 ih1,
            isLastIndex_succ_pos n position _ q2⟩
        · rw [if_neg q2]
          exact ⟨isLastIndex_succ_neg n position _ _ q0 ih0,
            isLastIndex_succ_neg n position _ _ q1 ih1,
            isLastIndex_succ_neg n position _ _ q2 ih2⟩

theorem conv_distinct (cv : Conv) (h : cv ∈ conv) :
    cv.pos1_0 ≠ cv.pos1_1 ∧ cv.pos1_0 ≠ cv.pos2_0 ∧ cv.pos1_1 ≠ cv.pos2_0 := by
  unfold conv at h
  simp only [List.mem_cons, List.mem_singleton, List.not_mem_nil, or_false] at h
  rcases h with rfl | rfl | rfl <;> decide

end Scans


/-! ## The cells that the later fill stages can write -/

section Frames

variable {α : Type} [LinearOrderedField α]

theorem isLastIndex_found (channels : Nat) (position : List GstAudioChannelPosition)
    (q : GstAudioChannelPosition → Prop) (x : Int) (h : IsLastIndex channels position q x)
    (hx : x ≠ -1) :
    0 ≤ x ∧ x.toNat < channels ∧ q (posAt position x.toNat) ∧
      ∀ k, k < channels → q (posAt position k) → k ≤ x.toNat := by
  rcases h with ⟨h1, _⟩ | h
  · exact absurd h1 hx
  · exact h

/-- An entry other than `-1` of the index array of a group is the index of a channel
of that group. -/
theorem detect_pos_entry (channels : Nat) (position : List GstAudioChannelPosition)
    (X : SpatialGroup) (x : Int)
    (hx : x = ((gst_audio_channel_mix_detect_pos channels position).group X).i0 ∨
      x = ((gst_audio_channel_mix_detect_pos channels position).group X).i1 ∨
      x = ((gst_audio_channel_mix_detect_pos channels position).group X).i2)
    (hne : x ≠ -1) :
    x.toNat < channels ∧ ∃ k, slotOf (posAt position x.toNat) = some (X, k) := by
  rcases hx with rfl | rfl | rfl
  · have h := isLastIndex_found _ _ _ _ (detect_pos_spec channels position X 0 (by decide)) hne
    exact ⟨h.2.1, 0, h.2.2.1⟩
  · have h := isLastIndex_found _ _ _ _ (detect_pos_spec channels position X 1 (by decide)) hne
    exact ⟨h.2.1, 1, h.2.2.1⟩
  · have h := isLastIndex_found _ _ _ _ (detect_pos_spec channels position X 2 (by decide)) hne
    exact ⟨h.2.1, 2, h.2.2.1⟩

/-- An assignment `matrix[x][y] = v` of a call of
`gst_audio_channel_mix_fill_one_other` on the index arrays of an input group `X`
and an output group `Y` has its row in group `X` and its column in group `Y`. -/
theorem fill_one_other_frame (in_channels out_channels : Nat)
    (in_position out_position : List GstAudioChannelPosition) (X Y : SpatialGroup)
    (m : Nat → Nat → α) (ratio : α) (a b : Nat)
    (h : ¬ (a < in_channels ∧ b < out_channels ∧
      (∃ s, slotOf (posAt in_position a) = some (X, s)) ∧
      ∃ t, slotOf (posAt out_position b) = some (Y, t))) :
    gst_audio_channel_mix_fill_one_other m
      ((gst_audio_channel_mix_detect_pos in_channels in_position).group X)
      ((gst_audio_channel_mix_detect_pos out_channels out_position).group Y) ratio a b
      = m a b := by
  refine fill_one_other_induct (fun m2 => m2 a b = m a b) m _ _ ratio rfl ?_
  intro m2 x y v h2 hx hx1 hy hy1 _
  have ex := detect_pos_entry in_channels in_position X x hx hx1
  have ey := detect_pos_entry out_channels out_position Y y hy hy1
  show (if a = x.toNat ∧ b = y.toNat then v else m2 a b) = m a b
  rw [if_neg, h2]
  rintro ⟨rfl, rfl⟩
  exact h ⟨ex.1, ey.1, ex.2, ey.2⟩

/-- The spatial-proximity fill writes only cells whose input channel and output
channel belong to two different groups. -/
theorem fill_others_frame (sqrt : α → α) (mix : GstAudioChannelMix α) (a b : Nat)
    (h : ¬ (a < mix.in_channels ∧ b < mix.out_channels ∧
      ∃ X Y s t, X ≠ Y ∧ slotOf (posAt mix.in_position a) = some (X, s) ∧
      slotOf (posAt mix.out_position b) = some (Y, t))) :
    (gst_audio_channel_mix_fill_others sqrt mix).matrix a b = mix.matrix a b := by
  show fillOthersBass sqrt _ _ (fillOthersRear sqrt _ _ (fillOthersSide sqrt _ _
    (fillOthersFront sqrt _ _ (fillOthersCenter sqrt _ _ mix.matrix)))) a b = mix.matrix a b
  refine fill_others_induct sqrt _ _ (fun m2 => m2 a b = mix.matrix a b) mix.matrix rfl ?_
  intro m2 X Y ratio hXY _ h2
  show gst_audio_channel_mix_fill_one_other m2 _ _ ratio a b = mix.matrix a b
  rw [fill_one_other_frame mix.in_channels mix.out_channels mix.in_position mix.out_position
    X Y m2 ratio a b, h2]
  rintro ⟨ha, hb, ⟨s, hs⟩, ⟨t, ht⟩⟩
  exact h ⟨ha, hb, X, Y, s, t, hXY, hs, ht⟩

/-- One pass of the compatible fill writes only from a position of the entry of
`conv[]` to another position of the same entry. -/
theorem fillCompatibleOne_frame (mix : GstAudioChannelMix α) (cv : Conv) (hcv : cv ∈ conv)
    (m : Nat → Nat → α) (a b : Nat)
    (h : ¬ (a < mix.in_channels ∧ b < mix.out_channels ∧
      ((posAt mix.in_position a = cv.pos1_0 ∧ posAt mix.out_position b = cv.pos2_0) ∨
       (posAt mix.in_position a = cv.pos1_1 ∧ posAt mix.out_position b = cv.pos2_0) ∨
       (posAt mix.in_position a = cv.pos2_0 ∧ posAt mix.out_position b = cv.pos1_0) ∨
       (posAt mix.in_position a = cv.pos2_0 ∧ posAt mix.out_position b = cv.pos1_1)))) :
    fillCompatibleOne mix cv m a b = m a b := by
  obtain ⟨d01, d02, d12⟩ := conv_distinct cv hcv
  obtain ⟨i0, i1, i2⟩ := convScan_spec cv d01 d02 d12 mix.in_channels mix.in_position
  obtain ⟨o0, o1, o2⟩ := convScan_spec cv d01 d02 d12 mix.out_channels mix.out_position
  refine fillCompatibleOne_induct (fun m2 => m2 a b = m a b) mix cv m rfl ?_
  intro m2 x y v h2 hxy hx hy _
  show (if a = x.toNat ∧ b = y.toNat then v else m2 a b) = m a b
  rw [if_neg, h2]
  rintro ⟨rfl, rfl⟩
  apply h
  rcases hxy with ⟨rfl, rfl⟩ | ⟨rfl, rfl⟩ | ⟨rfl, rfl⟩ | ⟨rfl, rfl⟩
  · have e1 := isLastIndex_found _ _ _ _ i0 hx
    have e2 := isLastIndex_found _ _ _ _ o2 hy
    exact ⟨e1.2.1, e2.2.1, Or.inl ⟨e1.2.2.1, e2.2.2.1⟩⟩
  · have e1 := isLastIndex_found _ _ _ _ i1 hx
    have e2 := isLastIndex_found _ _ _ _ o2 hy
    exact ⟨e1.2.1, e2.2.1, Or.inr (Or.inl ⟨e1.2.2.1, e2.2.2.1⟩)⟩
  · have e1 := isLastIndex_found _ _ _ _ i2 hx
    have e2 := isLastIndex_found _ _ _ _ o0 hy
    exact ⟨e1.2.1, e2.2.1, Or.inr (Or.inr (Or.inl ⟨e1.2.2.1, e2.2.2.1⟩))⟩
  · have e1 := isLastIndex_found _ _ _ _ i2 hx
    have e2 := isLastIndex_found _ _ _ _ o1 hy
    exact ⟨e1.2.1, e2.2.1, Or.inr (Or.inr (Or.inr ⟨e1.2.2.1, e2.2.2.1⟩))⟩

/-- The positions of an entry of `conv[]` belong to one group and to three
different slots of it. -/
theorem conv_slots (cv : Conv) (h : cv ∈ conv) :
    ∃ X, slotOf cv.pos1_0 = some (X, 0) ∧ slotOf cv.pos1_1 = some (X, 2) ∧
      slotOf cv.pos2_0 = some (X, 1) := by
  unfold conv at h
  simp only [List.mem_cons, List.mem_singleton, List.not_mem_nil, or_false] at h
  rcases h with rfl | rfl | rfl
  · exact ⟨.front, rfl, rfl, rfl⟩
  · exact ⟨.center, rfl, rfl, rfl⟩
  · exact ⟨.rear, rfl, rfl, rfl⟩

/-- The compatible fill writes only cells whose input and output position are two
different positions of one group. -/
theorem fill_compatible_frame (mix : GstAudioChannelMix α) (a b : Nat)
    (h : ¬ (a < mix.in_channels ∧ b < mix.out_channels ∧
      ∃ X s t, s ≠ t ∧ slotOf (posAt mix.in_position a) = some (X, s) ∧
      slotOf (posAt mix.out_position b) = some (X, t))) :
    (gst_audio_channel_mix_fill_compatible mix).matrix a b = mix.matrix a b := by
  refine fill_compatible_induct (fun m2 => m2 a b = mix.matrix a b) mix rfl ?_
  intro cv hcv m2 h2
  show fillCompatibleOne mix cv m2 a b = mix.matrix a b
  rw [fillCompatibleOne_frame mix cv hcv m2 a b, h2]
  obtain ⟨X, s0, s1, s2⟩ := conv_slots cv hcv
  rintro ⟨ha, hb, hp⟩
  apply h
  refine ⟨ha, hb, X, ?_⟩
  rcases hp with ⟨p, q⟩ | ⟨p, q⟩ | ⟨p, q⟩ | ⟨p, q⟩
  · exact ⟨0, 1, by decide, by rw [p]; exact s0, by rw [q]; exact s2⟩
  · exact ⟨2, 1, by decide, by rw [p]; exact s1, by rw [q]; exact s2⟩
  · exact ⟨1, 0, by decide, by rw [p]; exact s2, by rw [q]; exact s0⟩
  · exact ⟨1, 2, by decide, by rw [p]; exact s2, by rw [q]; exact s1⟩

end Frames


/-! ## Which stage may write which cell -/

section StagePrecedence

open GstAudioChannelPosition

/-- The matrix for input [front-left, front-right] and output [front-center,
side-left, side-right] before normalization, assignment by assignment: the chain
`center <-> front/side/rear` stores the front-to-center ratio, the chain
`front <-> center/side/rear` stores half of it in the same cells and half of the
front-to-side ratio, the chain `side <-> center/front/rear` stores the whole
front-to-side ratio in the cells of the latter. -/
theorem front_to_center_side_before_normalize {α : Type} [LinearOrderedField α]
    (sqrt : α → α) (flags : Nat) (format : GstAudioFormat) :
    (gst_audio_channel_mix_fill_others sqrt
      (gst_audio_channel_mix_fill_compatible
        (gst_audio_channel_mix_fill_identical
          (mixInit (α := α) flags format
            2 [FRONT_LEFT, FRONT_RIGHT]
            3 [FRONT_CENTER, SIDE_LEFT, SIDE_RIGHT])))).matrix =
      setCell (setCell (setCell (setCell (setCell (setCell (setCell (setCell
        (fun _ _ => 0)
        0 0 (RATIO_CENTER_FRONT sqrt)) 1 0 (RATIO_CENTER_FRONT sqrt))
        0 0 (1 / 2 * RATIO_CENTER_FRONT sqrt)) 1 0 (1 / 2 * RATIO_CENTER_FRONT sqrt))
        0 1 (1 / 2 * RATIO_FRONT_SIDE sqrt)) 1 2 (1 / 2 * RATIO_FRONT_SIDE sqrt))
        0 1 (RATIO_FRONT_SIDE sqrt)) 1 2 (RATIO_FRONT_SIDE sqrt) := rfl

theorem front_to_center_side_center_chain {α : Type} [LinearOrderedField α]
    (sqrt : α → α) (flags : Nat) (format : GstAudioFormat) :
    fillOthersCenter sqrt
      (gst_audio_channel_mix_detect_pos 2 [FRONT_LEFT, FRONT_RIGHT])
      (gst_audio_channel_mix_detect_pos 3 [FRONT_CENTER, SIDE_LEFT, SIDE_RIGHT])
      (gst_audio_channel_mix_fill_compatible
        (gst_audio_channel_mix_fill_identical
          (mixInit (α := α) flags format
            2 [FRONT_LEFT, FRONT_RIGHT]
            3 [FRONT_CENTER, SIDE_LEFT, SIDE_RIGHT]))).matrix =
      setCell (setCell (fun _ _ => 0)
        0 0 (RATIO_CENTER_FRONT sqrt)) 1 0 (RATIO_CENTER_FRONT sqrt) := rfl

theorem front_to_center_side_front_chain {α : Type} [LinearOrderedField α]
    (sqrt : α → α) (m : Nat → Nat → α) :
    fillOthersFront sqrt
      (gst_audio_channel_mix_detect_pos 2 [FRONT_LEFT, FRONT_RIGHT])
      (gst_audio_channel_mix_detect_pos 3 [FRONT_CENTER, SIDE_LEFT, SIDE_RIGHT]) m =
      setCell (setCell (setCell (setCell m
        0 0 (1 / 2 * RATIO_CENTER_FRONT sqrt)) 1 0 (1 / 2 * RATIO_CENTER_FRONT sqrt))
        0 1 (1 / 2 * RATIO_FRONT_SIDE sqrt)) 1 2 (1 / 2 * RATIO_FRONT_SIDE sqrt) := rfl

theorem sqrt_two_ratio_facts :
    (1 / Real.sqrt 2 : ℝ) ≠ 0 ∧ (1 / 2 * (1 / Real.sqrt 2) : ℝ) ≠ 1 / Real.sqrt 2 := by
  have h : (0 : ℝ) < 1 / Real.sqrt 2 := by positivity
  constructor
  · exact ne_of_gt h
  · intro e
    linarith

/-- Claim C18, refuted as stated: for input [front-left, front-right] and output
[front-center, side-left, side-right] the chain `center <-> front/side/rear` sets
the cell front-left -> front-center to `1/sqrt 2`, which is not zero, and the later
chain `front <-> center/side/rear` of the same stage stores the different value
`(1/2) * (1/sqrt 2)` in it, which is the value the cell has before normalization. -/
theorem later_chain_overwrites_nonzero_cell :
    fillOthersCenter Real.sqrt
      (gst_audio_channel_mix_detect_pos 2 [FRONT_LEFT, FRONT_RIGHT])
      (gst_audio_channel_mix_detect_pos 3 [FRONT_CENTER, SIDE_LEFT, SIDE_RIGHT])
      (gst_audio_channel_mix_fill_compatible
        (gst_audio_channel_mix_fill_identical
          (mixInit (α := ℝ) 0 GstAudioFormat.S32
            2 [FRONT_LEFT, FRONT_RIGHT]
            3 [FRONT_CENTER, SIDE_LEFT, SIDE_RIGHT]))).matrix 0 0 = 1 / Real.sqrt 2 ∧
    (1 / Real.sqrt 2 : ℝ) ≠ 0 ∧
    fillOthersFront Real.sqrt
      (gst_audio_channel_mix_detect_pos 2 [FRONT_LEFT, FRONT_RIGHT])
      (gst_audio_channel_mix_detect_pos 3 [FRONT_CENTER, SIDE_LEFT, SIDE_RIGHT])
      (fillOthersCenter Real.sqrt
        (gst_audio_channel_mix_detect_pos 2 [FRONT_LEFT, FRONT_RIGHT])
        (gst_audio_channel_mix_detect_pos 3 [FRONT_CENTER, SIDE_LEFT, SIDE_RIGHT])
        (gst_audio_channel_mix_fill_compatible
          (gst_audio_channel_mix_fill_identical
            (mixInit (α := ℝ) 0 GstAudioFormat.S32
              2 [FRONT_LEFT, FRONT_RIGHT]
              3 [FRONT_CENTER, SIDE_LEFT, SIDE_RIGHT]))).matrix) 0 0
      = 1 / 2 * (1 / Real.sqrt 2) ∧
    (1 / 2 * (1 / Real.sqrt 2) : ℝ) ≠ 1 / Real.sqrt 2 ∧
    (gst_audio_channel_mix_fill_others Real.sqrt
      (gst_audio_channel_mix_fill_compatible
        (gst_audio_channel_mix_fill_identical
          (mixInit (α := ℝ) 0 GstAudioFormat.S32
            2 [FRONT_LEFT, FRONT_RIGHT]
            3 [FRONT_CENTER, SIDE_LEFT, SIDE_RIGHT])))).matrix 0 0
      = 1 / 2 * (1 / Real.sqrt 2) := by
  refine ⟨?_, sqrt_two_ratio_facts.1, ?_, sqrt_two_ratio_facts.2, ?_⟩
  · rw [front_to_center_side_center_chain]
    simp [setCell, RATIO_CENTER_FRONT]
  · rw [front_to_center_side_front_chain]
    simp [setCell, RATIO_CENTER_FRONT]
  · rw [front_to_center_side_before_normalize]
    simp [setCell, RATIO_CENTER_FRONT]

theorem slot_eq_of_pos_eq {p q : GstAudioChannelPosition} {X Y : SpatialGroup} {s t : Nat}
    (h : p = q) (hp : slotOf p = some (X, s)) (hq : slotOf q = some (Y, t)) :
    X = Y ∧ s = t := by
  rw [h, hq] at hp
  injection hp with hp
  injection hp with h1 h2
  exact ⟨h1.symm, h2.symm⟩

/-- Claim C18, amended: precedence holds between the stages. The identical fill
changes only cells whose input and output position are equal, the compatible fill
only cells whose two positions are different positions of one group, and the
spatial-proximity fill only cells whose two positions lie in two different groups;
hence a cell changed by the identical fill keeps its value through the compatible
and the spatial-proximity fill, and a cell changed by the compatible fill keeps its
value through the spatial-proximity fill, up to normalization. -/
theorem stages_write_disjoint_cells {α : Type} [LinearOrderedField α]
    (sqrt : α → α) (mix : GstAudioChannelMix α) :
    (∀ a b, (gst_audio_channel_mix_fill_identical mix).matrix a b ≠ mix.matrix a b →
      a < mix.in_channels ∧ b < mix.out_channels ∧
      posAt mix.in_position a = posAt mix.out_position b) ∧
    (∀ a b, (gst_audio_channel_mix_fill_compatible mix).matrix a b ≠ mix.matrix a b →
      a < mix.in_channels ∧ b < mix.out_channels ∧
      ∃ X s t, s ≠ t ∧ slotOf (posAt mix.in_position a) = some (X, s) ∧
        slotOf (posAt mix.out_position b) = some (X, t)) ∧
    (∀ a b, (gst_audio_channel_mix_fill_others sqrt mix).matrix a b ≠ mix.matrix a b →
      a < mix.in_channels ∧ b < mix.out_channels ∧
      ∃ X Y s t, X ≠ Y ∧ slotOf (posAt mix.in_position a) = some (X, s) ∧
        slotOf (posAt mix.out_position b) = some (Y, t)) ∧
    (∀ a b, (gst_audio_channel_mix_fill_identical mix).matrix a b ≠ mix.matrix a b →
      (gst_audio_channel_mix_fill_others sqrt (gst_audio_channel_mix_fill_compatible
        (gst_audio_channel_mix_fill_identical mix))).matrix a b
        = (gst_audio_channel_mix_fill_identical mix).matrix a b) ∧
    (∀ a b, (gst_audio_channel_mix_fill_compatible
          (gst_audio_channel_mix_fill_identical mix)).matrix a b
        ≠ (gst_audio_channel_mix_fill_identical mix).matrix a b →
      (gst_audio_channel_mix_fill_others sqrt (gst_audio_channel_mix_fill_compatible
        (gst_audio_channel_mix_fill_identical mix))).matrix a b
        = (gst_audio_channel_mix_fill_compatible
          (gst_audio_channel_mix_fill_identical mix)).matrix a b) := by
  have h1 : ∀ a b, (gst_audio_channel_mix_fill_identical mix).matrix a b ≠ mix.matrix a b →
      a < mix.in_channels ∧ b < mix.out_channels ∧
      posAt mix.in_position a = posAt mix.out_position b := by
    intro a b h
    by_contra hn
    rw [fill_identical_matrix, if_neg hn] at h
    exact h rfl
  have h2 : ∀ (mx : GstAudioChannelMix α) a b,
      (gst_audio_channel_mix_fill_compatible mx).matrix a b ≠ mx.matrix a b →
      a < mx.in_channels ∧ b < mx.out_channels ∧
      ∃ X s t, s ≠ t ∧ slotOf (posAt mx.in_position a) = some (X, s) ∧
        slotOf (posAt mx.out_position b) = some (X, t) := by
    intro mx a b h
    by_contra hn
    exact h (fill_compatible_frame mx a b hn)
  have h3 : ∀ a b, (gst_audio_channel_mix_fill_others sqrt mix).matrix a b ≠ mix.matrix a b →
      a < mix.in_channels ∧ b < mix.out_channels ∧
      ∃ X Y s t, X ≠ Y ∧ slotOf (posAt mix.in_position a) = some (X, s) ∧
        slotOf (posAt mix.out_position b) = some (Y, t) := by
    intro a b h
    by_contra hn
    exact h (fill_others_frame sqrt mix a b hn)
  refine ⟨h1, h2 mix, h3, ?_, ?_⟩
  · intro a b h
    obtain ⟨_, _, hp⟩ := h1 a b h
    rw [fill_others_frame, fill_compatible_frame]
    · rintro ⟨_, _, X, s, t, hst, hs, ht⟩
      exact hst (slot_eq_of_pos_eq hp hs ht).2
    · rintro ⟨_, _, X, Y, s, t, hXY, hs, ht⟩
      exact hXY (slot_eq_of_pos_eq hp hs ht).1
  · intro a b h
    obtain ⟨_, _, X, s, t, _, hs, ht⟩ := h2 _ a b h
    rw [fill_others_frame]
    rintro ⟨_, _, X2, Y2, s2, t2, hXY, hs2, ht2⟩
    have e1 := slot_eq_of_pos_eq rfl hs hs2
    have e2 := slot_eq_of_pos_eq rfl ht ht2
    exact hXY (e1.1.symm.trans e2.1)

/-- Claim C18, amended, at input [front-left, front-right] and output [front-left,
front-center]: the cell front-left -> front-left, set by the identical fill, keeps
its value through the two later stages. -/
theorem stages_write_disjoint_cells_witness :
    (gst_audio_channel_mix_fill_others (fun x : ℚ => x) (gst_audio_channel_mix_fill_compatible
      (gst_audio_channel_mix_fill_identical
        (mixInit (α := ℚ) 0 GstAudioFormat.S32 2 [FRONT_LEFT, FRONT_RIGHT]
          2 [FRONT_LEFT, FRONT_CENTER])))).matrix 0 0
      = (gst_audio_channel_mix_fill_identical
        (mixInit (α := ℚ) 0 GstAudioFormat.S32 2 [FRONT_LEFT, FRONT_RIGHT]
          2 [FRONT_LEFT, FRONT_CENTER])).matrix 0 0 :=
  (stages_write_disjoint_cells (fun x : ℚ => x)
    (mixInit (α := ℚ) 0 GstAudioFormat.S32 2 [FRONT_LEFT, FRONT_RIGHT]
      2 [FRONT_LEFT, FRONT_CENTER])).2.2.2.1 0 0 (by decide)

/-- Claim C19: `gst_audio_channel_mix_fill_compatible` and
`gst_audio_channel_mix_fill_others` leave every cell `[a][b]` with
`in_position[a] = out_position[b]` as it was, for every layout pair, layouts with
repeated positions included; hence every such cell of an `in_channels` by
`out_channels` matrix still holds exactly 1.0 after the three fill stages, which
is the matrix that normalization starts from when the pair is not a special case
and the unpositioned flag is clear. -/
theorem identical_matches_are_never_overwritten {α : Type} [LinearOrderedField α]
    (sqrt : α → α) (mix : GstAudioChannelMix α) :
    (∀ a b, posAt mix.in_position a = posAt mix.out_position b →
      (gst_audio_channel_mix_fill_compatible mix).matrix a b = mix.matrix a b) ∧
    (∀ a b, posAt mix.in_position a = posAt mix.out_position b →
      (gst_audio_channel_mix_fill_others sqrt mix).matrix a b = mix.matrix a b) ∧
    (∀ a b, a < mix.in_channels → b < mix.out_channels →
      posAt mix.in_position a = posAt mix.out_position b →
      (gst_audio_channel_mix_fill_others sqrt (gst_audio_channel_mix_fill_compatible
        (gst_audio_channel_mix_fill_identical mix))).matrix a b = 1) ∧
    ((gst_audio_channel_mix_fill_special mix).2 = false →
      mix.flags &&& GST_AUDIO_CHANNEL_MIX_FLAGS_UNPOSITIONED_IN = 0 →
      gst_audio_channel_mix_fill_matrix sqrt mix =
        gst_audio_channel_mix_fill_normalize
          (gst_audio_channel_mix_fill_others sqrt (gst_audio_channel_mix_fill_compatible
            (gst_audio_channel_mix_fill_identical mix)))) := by
  have hc : ∀ (mx : GstAudioChannelMix α) a b,
      posAt mx.in_position a = posAt mx.out_position b →
      (gst_audio_channel_mix_fill_compatible mx).matrix a b = mx.matrix a b := by
    intro mx a b hp
    apply fill_compatible_frame
    rintro ⟨_, _, X, s, t, hst, hs, ht⟩
    exact hst (slot_eq_of_pos_eq hp hs ht).2
  have ho : ∀ (mx : GstAudioChannelMix α) a b,
      posAt mx.in_position a = posAt mx.out_position b →
      (gst_audio_channel_mix_fill_others sqrt mx).matrix a b = mx.matrix a b := by
    intro mx a b hp
    apply fill_others_frame
    rintro ⟨_, _, X, Y, s, t, hXY, hs, ht⟩
    exact hXY (slot_eq_of_pos_eq hp hs ht).1
  refine ⟨hc mix, ho mix, ?_, ?_⟩
  · intro a b ha hb hp
    rw [ho (gst_audio_channel_mix_fill_compatible (gst_audio_channel_mix_fill_identical mix))
      a b hp, hc (gst_audio_channel_mix_fill_identical mix) a b hp, fill_identical_matrix,
      if_pos ⟨ha, hb, hp⟩]
  · intro hs hf
    rw [fill_matrix_cases, if_neg (by rw [hs]; exact Bool.false_ne_true), if_pos hf]

end StagePrecedence


/-! ## The chains of the spatial-proximity fill, cell by cell -/

section Chains

variable {α : Type} [LinearOrderedField α]

theorem one_other_frame_either (in_channels out_channels : Nat)
    (in_position out_position : List GstAudioChannelPosition) (a b : Nat)
    (X Y : SpatialGroup) (m : Nat → Nat → α) (ratio : α)
    (h : (¬ ∃ s, slotOf (posAt in_position a) = some (X, s)) ∨
      ¬ ∃ t, slotOf (posAt out_position b) = some (Y, t)) :
    gst_audio_channel_mix_fill_one_other m
      ((gst_audio_channel_mix_detect_pos in_channels in_position).group X)
      ((gst_audio_channel_mix_detect_pos out_channels out_position).group Y) ratio a b
      = m a b := by
  apply fill_one_other_frame
  rintro ⟨_, _, hs, ht⟩
  rcases h with h | h
  · exact h hs
  · exact h ht

theorem fillOthersSide_frame (sqrt : α → α) (in_channels out_channels : Nat)
    (in_position out_position : List GstAudioChannelPosition) (m : Nat → Nat → α) (a b : Nat)
    (ha : ¬ ∃ s, slotOf (posAt in_position a) = some (.side, s))
    (hb : ¬ ∃ t, slotOf (posAt out_position b) = some (.side, t)) :
    fillOthersSide sqrt (gst_audio_channel_mix_detect_pos in_channels in_position)
      (gst_audio_channel_mix_detect_pos out_channels out_position) m a b = m a b := by
  have hcall := one_other_frame_either (α := α) in_channels out_channels in_position
    out_position a b
  unfold fillOthersSide
  refine ite_split (fun M : Nat → Nat → α => M a b = m a b) _ _ _ (fun _ => (hcall .front .side _ _ (Or.inr hb))) (fun _ => ?_)
  refine ite_split (fun M : Nat → Nat → α => M a b = m a b) _ _ _ (fun _ => (hcall .rear .side _ _ (Or.inr hb))) (fun _ => ?_)
  refine ite_split (fun M : Nat → Nat → α => M a b = m a b) _ _ _
    (fun _ => ((hcall .rear .side _ _ (Or.inr hb))).trans (hcall .front .side _ _ (Or.inr hb))) (fun _ => ?_)
  refine ite_split (fun M : Nat → Nat → α => M a b = m a b) _ _ _ (fun _ => (hcall .center .side _ _ (Or.inr hb))) (fun _ => ?_)
  refine ite_split (fun M : Nat → Nat → α => M a b = m a b) _ _ _ (fun _ => (hcall .side .front _ _ (Or.inl ha))) (fun _ => ?_)
  refine ite_split (fun M : Nat → Nat → α => M a b = m a b) _ _ _ (fun _ => (hcall .side .rear _ _ (Or.inl ha))) (fun _ => ?_)
  refine ite_split (fun M : Nat → Nat → α => M a b = m a b) _ _ _
    (fun _ => ((hcall .side .rear _ _ (Or.inl ha))).trans (hcall .side .front _ _ (Or.inl ha))) (fun _ => ?_)
  refine ite_split (fun M : Nat → Nat → α => M a b = m a b) _ _ _ (fun _ => (hcall .side .center _ _ (Or.inl ha))) (fun _ => ?_)
  rfl

theorem fillOthersRear_frame (sqrt : α → α) (in_channels out_channels : Nat)
    (in_position out_position : List GstAudioChannelPosition) (m : Nat → Nat → α) (a b : Nat)
    (ha : ¬ ∃ s, slotOf (posAt in_position a) = some (.rear, s))
    (hb : ¬ ∃ t, slotOf (posAt out_position b) = some (.rear, t)) :
    fillOthersRear sqrt (gst_audio_channel_mix_detect_pos in_channels in_position)
      (gst_audio_channel_mix_detect_pos out_channels out_position) m a b = m a b := by
  have hcall := one_other_frame_either (α := α) in_channels out_channels in_position
    out_position a b
  unfold fillOthersRear
  refine ite_split (fun M : Nat → Nat → α => M a b = m a b) _ _ _ (fun _ => (hcall .side .rear _ _ (Or.inr hb))) (fun _ => ?_)
  refine ite_split (fun M : Nat → Nat → α => M a b = m a b) _ _ _ (fun _ => (hcall .front .rear _ _ (Or.inr hb))) (fun _ => ?_)
  refine ite_split (fun M : Nat → Nat → α => M a b = m a b) _ _ _ (fun _ => (hcall .center .rear _ _ (Or.inr hb))) (fun _ => ?_)
  refine ite_split (fun M : Nat → Nat → α => M a b = m a b) _ _ _ (fun _ => (hcall .rear .side _ _ (Or.inl ha))) (fun _ => ?_)
  refine ite_split (fun M : Nat → Nat → α => M a b = m a b) _ _ _ (fun _ => (hcall .rear .front _ _ (Or.inl ha))) (fun _ => ?_)
  refine ite_split (fun M : Nat → Nat → α => M a b = m a b) _ _ _ (fun _ => (hcall .rear .center _ _ (Or.inl ha))) (fun _ => ?_)
  rfl

theorem ite_frame {β : Type} (c : Prop) [Decidable c] (f : (Nat → Nat → β) → Nat → Nat → β)
    (m : Nat → Nat → β) (a b : Nat) (h : ∀ m2, f m2 a b = m2 a b) :
    (if c then f m else m) a b = m a b := by
  split_ifs
  · exact h m
  · rfl

theorem fillOthersBass_frame (sqrt : α → α) (in_channels out_channels : Nat)
    (in_position out_position : List GstAudioChannelPosition) (m : Nat → Nat → α) (a b : Nat)
    (ha : ¬ ∃ s, slotOf (posAt in_position a) = some (.bass, s))
    (hb : ¬ ∃ t, slotOf (posAt out_position b) = some (.bass, t)) :
    fillOthersBass sqrt (gst_audio_channel_mix_detect_pos in_channels in_position)
      (gst_audio_channel_mix_detect_pos out_channels out_position) m a b = m a b := by
  have hcall := one_other_frame_either (α := α) in_channels out_channels in_position
    out_position a b
  unfold fillOthersBass
  simp only []
  refine ite_split (fun M : Nat → Nat → α => M a b = m a b) _ _ _ (fun _ => ?_)
    (fun _ => ite_split (fun M : Nat → Nat → α => M a b = m a b) _ _ _ (fun _ => ?_) (fun _ => rfl))
  · refine ite_induct (fun M : Nat → Nat → α => M a b = m a b) _ _
      (fun M => gst_audio_channel_mix_fill_one_other M _ _ _) ?_
      (fun _ m3 h3 => (hcall .bass .rear m3 _ (Or.inl ha)).trans h3)
    refine ite_induct (fun M : Nat → Nat → α => M a b = m a b) _ _
      (fun M => gst_audio_channel_mix_fill_one_other M _ _ _) ?_
      (fun _ m3 h3 => (hcall .bass .side m3 _ (Or.inl ha)).trans h3)
    refine ite_induct (fun M : Nat → Nat → α => M a b = m a b) _ _
      (fun M => gst_audio_channel_mix_fill_one_other M _ _ _) ?_
      (fun _ m3 h3 => (hcall .bass .front m3 _ (Or.inl ha)).trans h3)
    exact ite_induct (fun M : Nat → Nat → α => M a b = m a b) _ _
      (fun M => gst_audio_channel_mix_fill_one_other M _ _ _) rfl
      (fun _ m3 h3 => (hcall .bass .center m3 _ (Or.inl ha)).trans h3)
  · refine ite_induct (fun M : Nat → Nat → α => M a b = m a b) _ _
      (fun M => gst_audio_channel_mix_fill_one_other M _ _ _) ?_
      (fun _ m3 h3 => (hcall .rear .bass m3 _ (Or.inr hb)).trans h3)
    refine ite_induct (fun M : Nat → Nat → α => M a b = m a b) _ _
      (fun M => gst_audio_channel_mix_fill_one_other M _ _ _) ?_
      (fun _ m3 h3 => (hcall .side .bass m3 _ (Or.inr hb)).trans h3)
    refine ite_induct (fun M : Nat → Nat → α => M a b = m a b) _ _
      (fun M => gst_audio_channel_mix_fill_one_other M _ _ _) ?_
      (fun _ m3 h3 => (hcall .front .bass m3 _ (Or.inr hb)).trans h3)
    exact ite_induct (fun M : Nat → Nat → α => M a b = m a b) _ _
      (fun M => gst_audio_channel_mix_fill_one_other M _ _ _) rfl
      (fun _ m3 h3 => (hcall .center .bass m3 _ (Or.inr hb)).trans h3)

end Chains


section DetectedIndices

variable {α : Type} [LinearOrderedField α]

theorem slotOf_inj (p q : GstAudioChannelPosition) (s : SpatialGroup × Nat)
    (hp : slotOf p = some s) (hq : slotOf q = some s) : p = q := by
  cases p <;> cases q <;> simp [slotOf] at hp hq <;>
    first
    | rfl
    | (rw [← hp] at hq; exact absurd hq (by decide))

theorem isLastIndex_eq_of_last (channels : Nat) (position : List GstAudioChannelPosition)
    (q : GstAudioChannelPosition → Prop) (x : Int) (a : Nat)
    (h : IsLastIndex channels position q x) (ha : a < channels) (hq : q (posAt position a))
    (hlast : ∀ k, k < channels → q (posAt position k) → k ≤ a) : x = (a : Int) := by
  rcases h with ⟨_, h2⟩ | ⟨h1, h2, h3, h4⟩
  · exact absurd hq (h2 a ha)
  · have e1 := h4 a ha hq
    have e2 := hlast x.toNat h2 h3
    omega

theorem isLastIndex_eq_of_none (channels : Nat) (position : List GstAudioChannelPosition)
    (q : GstAudioChannelPosition → Prop) (x : Int)
    (h : IsLastIndex channels position q x) (hn : ∀ k, k < channels → ¬ q (posAt position k)) :
    x = -1 := by
  rcases h with ⟨h1, _⟩ | ⟨_, h2, h3, _⟩
  · exact h1
  · exact absurd h3 (hn _ h2)

/-- The entry of the index arrays for a position that the layout has: the index of
its last channel with that position. -/
theorem detect_pos_get_of_last (channels : Nat) (position : List GstAudioChannelPosition)
    (p : GstAudioChannelPosition) (a : Nat) (X : SpatialGroup) (k : Nat) (hk : k < 3)
    (hs : slotOf p = some (X, k)) (h : IsLastAt channels position p a) :
    ((gst_audio_channel_mix_detect_pos channels position).group X).get k = (a : Int) := by
  obtain ⟨h1, h2, h3⟩ := h
  refine isLastIndex_eq_of_last channels position _ _ a (detect_pos_spec channels position X k hk)
    h1 (by rw [h2]; exact hs) ?_
  intro j hj hq
  exact h3 j hj (slotOf_inj _ _ _ hq hs)

/-- The entry of the index arrays for a position that the layout lacks is `-1`. -/
theorem detect_pos_get_of_lacks (channels : Nat) (position : List GstAudioChannelPosition)
    (p : GstAudioChannelPosition) (X : SpatialGroup) (k : Nat) (hk : k < 3)
    (hs : slotOf p = some (X, k)) (h : Lacks channels position p) :
    ((gst_audio_channel_mix_detect_pos channels position).group X).get k = -1 := by
  refine isLastIndex_eq_of_none channels position _ _ (detect_pos_spec channels position X k hk) ?_
  intro j hj hq
  exact h j hj (slotOf_inj _ _ _ hq hs)

/-- An entry of the index arrays that no position is sent to is `-1`. -/
theorem detect_pos_get_of_no_slot (channels : Nat) (position : List GstAudioChannelPosition)
    (X : SpatialGroup) (k : Nat) (hk : k < 3)
    (hs : ∀ p, slotOf p ≠ some (X, k)) :
    ((gst_audio_channel_mix_detect_pos channels position).group X).get k = -1 :=
  isLastIndex_eq_of_none channels position _ _ (detect_pos_spec channels position X k hk)
    (fun _ _ => hs _)

theorem detect_pos_has_iff (channels : Nat) (position : List GstAudioChannelPosition)
    (X : SpatialGroup) :
    (gst_audio_channel_mix_detect_pos channels position).has X = true ↔
      HasGroup channels position X := by
  rw [detect_pos_has]
  unfold HasGroup
  constructor
  · rintro ⟨k, hk, h⟩
    refine ⟨k, hk, ?_⟩
    cases hsl : slotOf (posAt position k) with
    | none => rw [hsl] at h; exact absurd h (by simp)
    | some v =>
      rw [hsl] at h
      simp only [Option.map_some', Option.some.injEq] at h
      exact ⟨v.2, by rw [← h]⟩
  · rintro ⟨k, hk, s, h⟩
    exact ⟨k, hk, by rw [h]; rfl⟩

theorem detect_pos_has_false (channels : Nat) (position : List GstAudioChannelPosition)
    (X : SpatialGroup) (h : ¬ HasGroup channels position X) :
    (gst_audio_channel_mix_detect_pos channels position).has X = false := by
  cases hb : (gst_audio_channel_mix_detect_pos channels position).has X with
  | false => rfl
  | true => exact absurd ((detect_pos_has_iff channels position X).mp hb) h

/-- The entries other than `-1` of an index array are pairwise different. -/
theorem detect_pos_distinct (channels : Nat) (position : List GstAudioChannelPosition)
    (X : SpatialGroup) :
    ((gst_audio_channel_mix_detect_pos channels position).group X).Distinct := by
  have h0 := detect_pos_spec channels position X 0 (by decide)
  have h1 := detect_pos_spec channels position X 1 (by decide)
  have h2 := detect_pos_spec channels position X 2 (by decide)
  have key : ∀ (j k : Nat) (x y : Int), j ≠ k →
      IsLastIndex channels position (fun p => slotOf p = some (X, j)) x →
      IsLastIndex channels position (fun p => slotOf p = some (X, k)) y →
      x ≠ -1 → x ≠ y := by
    intro j k x y hjk hx hy hne e
    have fx := isLastIndex_found _ _ _ _ hx hne
    have fy := isLastIndex_found _ _ _ _ hy (e ▸ hne)
    have e1 := fx.2.2.1
    have e2 := fy.2.2.1
    rw [← e] at e2
    simp only [] at e1 e2
    rw [e1] at e2
    injection e2 with e2
    injection e2 with _ e3
    exact hjk e3
  have lb : ∀ (k : Nat) (x : Int),
      IsLastIndex channels position (fun p => slotOf p = some (X, k)) x → -1 ≤ x := by
    intro k x hx
    rcases hx with ⟨h, _⟩ | ⟨h, _⟩ <;> omega
  exact ⟨lb 0 _ h0, lb 1 _ h1, lb 2 _ h2, key 0 1 _ _ (by decide) h0 h1,
    key 0 2 _ _ (by decide) h0 h2, key 1 2 _ _ (by decide) h1 h2⟩

theorem ite_setCell_same {β : Type} (c : Prop) [Decidable c] (M : Nat → Nat → β)
    (i j : Nat) (v : β) (hc : c) : (if c then setCell M i j v else M) i j = v := by
  rw [if_pos hc, setCell_same]

/-- The straight terms of `gst_audio_channel_mix_fill_one_other`: left to left,
center to center and right to right carry the ratio. -/
theorem one_other_straight_cells (matrix : Nat → Nat → α) (from_idx to_idx : Idx3)
    (ratio : α) (hf : from_idx.Distinct) (ht : to_idx.Distinct) :
    (from_idx.i0 ≠ -1 → to_idx.i0 ≠ -1 →
      gst_audio_channel_mix_fill_one_other matrix from_idx to_idx ratio
          from_idx.i0.toNat to_idx.i0.toNat = ratio) ∧
    (from_idx.i1 ≠ -1 → to_idx.i1 ≠ -1 →
      gst_audio_channel_mix_fill_one_other matrix from_idx to_idx ratio
          from_idx.i1.toNat to_idx.i1.toNat = ratio) ∧
    (from_idx.i2 ≠ -1 → to_idx.i2 ≠ -1 →
      gst_audio_channel_mix_fill_one_other matrix from_idx to_idx ratio
          from_idx.i2.toNat to_idx.i2.toNat = ratio) := by
  obtain ⟨f0, f1, f2, f01, f02, f12⟩ := hf
  obtain ⟨t0, t1, t2, t01, t02, t12⟩ := ht
  unfold gst_audio_channel_mix_fill_one_other
  refine ⟨?_, ?_, ?_⟩
  · intro h1 h2
    rw [ite2_setCell_other, ite2_setCell_other, ite2_setCell_other, ite2_setCell_other,
      ite_setCell_other]
    · exact ite_setCell_same _ _ _ _ _ ⟨h1, h2⟩
    · intro h; omega
    · rintro (h | h) <;> omega
    · rintro (h | h) <;> omega
    · rintro (h | h) <;> omega
    · rintro (h | h) <;> omega
  · intro h1 h2
    rw [ite2_setCell_other, ite2_setCell_other, ite2_setCell_other, ite2_setCell_other,
      ite_setCell_other, ite_setCell_other]
    · exact ite_setCell_same _ _ _ _ _ ⟨h1, h2⟩
    · intro h; omega
    · intro h; omega
    · rintro (h | h) <;> omega
    · rintro (h | h) <;> omega
    · rintro (h | h) <;> omega
    · rintro (h | h) <;> omega
  · intro h1 h2
    rw [ite2_setCell_other, ite2_setCell_other, ite2_setCell_other, ite2_setCell_other]
    · exact ite_setCell_same _ _ _ _ _ ⟨h1, h2⟩
    · rintro (h | h) <;> omega
    · rintro (h | h) <;> omega
    · rintro (h | h) <;> omega
    · rintro (h | h) <;> omega

end DetectedIndices


section ChainBranches

variable {α : Type} [LinearOrderedField α]

/-- The branch of the chain `front <-> center/side/rear` for an input with a front
group and an output with a center and a side group and no front group. -/
theorem fillOthersFront_center_and_side (sqrt : α → α) (i o : DetectPos) (m : Nat → Nat → α)
    (h1 : i.has_f = true) (h2 : o.has_f = false) (h3 : o.has_c = true) (h4 : o.has_s = true) :
    fillOthersFront sqrt i o m =
      gst_audio_channel_mix_fill_one_other
        (gst_audio_channel_mix_fill_one_other m i.f o.c (1 / 2 * RATIO_CENTER_FRONT sqrt))
        i.f o.s (1 / 2 * RATIO_FRONT_SIDE sqrt) := by
  unfold fillOthersFront
  simp [h1, h2, h3, h4]

/-- The branch of the chain `side <-> center/front/rear` for an input with a front
group and no side and no rear group, and an output with a side group. -/
theorem fillOthersSide_front_only (sqrt : α → α) (i o : DetectPos) (m : Nat → Nat → α)
    (h1 : i.has_s = false) (h2 : i.has_f = true) (h3 : i.has_r = false)
    (h4 : o.has_s = true) :
    fillOthersSide sqrt i o m =
      gst_audio_channel_mix_fill_one_other m i.f o.s (RATIO_FRONT_SIDE sqrt) := by
  unfold fillOthersSide
  simp [h1, h2, h3, h4]

/-- The branch of the chain `side <-> center/front/rear` for an input with a front
and a rear group and no side group, and an output with a side group. -/
theorem fillOthersSide_front_and_rear (sqrt : α → α) (i o : DetectPos) (m : Nat → Nat → α)
    (h1 : i.has_s = false) (h2 : i.has_f = true) (h3 : i.has_r = true)
    (h4 : o.has_s = true) :
    fillOthersSide sqrt i o m =
      gst_audio_channel_mix_fill_one_other
        (gst_audio_channel_mix_fill_one_other m i.f o.s (1 / 2 * RATIO_FRONT_SIDE sqrt))
        i.r o.s (1 / 2 * RATIO_SIDE_REAR sqrt) := by
  unfold fillOthersSide
  simp [h1, h2, h3, h4]

/-- The chain `side <-> center/front/rear` does nothing when both layouts have a
side group. -/
theorem fillOthersSide_both_side (sqrt : α → α) (i o : DetectPos) (m : Nat → Nat → α)
    (h1 : i.has_s = true) (h4 : o.has_s = true) :
    fillOthersSide sqrt i o m = m := by
  unfold fillOthersSide
  simp [h1, h4]

/-- The branch of the chain `bass <-> any` for an input with a bass channel and an
output without one. -/
theorem fillOthersBass_from_bass (sqrt : α → α) (i o : DetectPos) (m : Nat → Nat → α)
    (h1 : i.has_b = true) (h2 : o.has_b = false) (h3 : o.has_c = true) (h4 : o.has_f = true) :
    fillOthersBass sqrt i o m =
      (if o.has_r then gst_audio_channel_mix_fill_one_other
          (if o.has_s then gst_audio_channel_mix_fill_one_other
            (gst_audio_channel_mix_fill_one_other
              (gst_audio_channel_mix_fill_one_other m i.b o.c (RATIO_CENTER_BASS sqrt))
              i.b o.f RATIO_FRONT_BASS) i.b o.s (RATIO_SIDE_BASS sqrt)
          else (gst_audio_channel_mix_fill_one_other
              (gst_audio_channel_mix_fill_one_other m i.b o.c (RATIO_CENTER_BASS sqrt))
              i.b o.f RATIO_FRONT_BASS)) i.b o.r (RATIO_REAR_BASS sqrt)
        else (if o.has_s then gst_audio_channel_mix_fill_one_other
            (gst_audio_channel_mix_fill_one_other
              (gst_audio_channel_mix_fill_one_other m i.b o.c (RATIO_CENTER_BASS sqrt))
              i.b o.f RATIO_FRONT_BASS) i.b o.s (RATIO_SIDE_BASS sqrt)
          else (gst_audio_channel_mix_fill_one_other
              (gst_audio_channel_mix_fill_one_other m i.b o.c (RATIO_CENTER_BASS sqrt))
              i.b o.f RATIO_FRONT_BASS))) := by
  unfold fillOthersBass
  simp [h1, h2, h3, h4]

theorem toNat_of_eq_natCast {x : Int} {a : Nat} (h : x = (a : Int)) :
    x.toNat = a ∧ x ≠ -1 := by
  constructor <;> omega

end ChainBranches


section OthersCells

variable {α : Type} [LinearOrderedField α]

theorem not_in_group (p : GstAudioChannelPosition) (X Z : SpatialGroup) (k : Nat)
    (h : slotOf p = some (X, k)) (hne : Z ≠ X) : ¬ ∃ s, slotOf p = some (Z, s) := by
  rintro ⟨s, hs⟩
  rw [h] at hs
  injection hs with hs
  injection hs with h1 _
  exact hne h1.symm

theorem one_other_left_center (m : Nat → Nat → α) (from_idx to_idx : Idx3) (ratio : α)
    (a c : Nat) (hf : from_idx.Distinct) (ht : to_idx.Distinct)
    (h0 : from_idx.i0 = (a : Int)) (h1 : from_idx.i1 = -1) (hc : to_idx.i1 = (c : Int)) :
    gst_audio_channel_mix_fill_one_other m from_idx to_idx ratio a c = ratio := by
  have h := (one_other_cross_cells m from_idx to_idx ratio hf ht).1
    (toNat_of_eq_natCast h0).2 (toNat_of_eq_natCast hc).2
  rw [(toNat_of_eq_natCast h0).1, (toNat_of_eq_natCast hc).1, if_neg (not_not.mpr h1)] at h
  exact h

theorem one_other_right_center (m : Nat → Nat → α) (from_idx to_idx : Idx3) (ratio : α)
    (a c : Nat) (hf : from_idx.Distinct) (ht : to_idx.Distinct)
    (h2 : from_idx.i2 = (a : Int)) (h1 : from_idx.i1 = -1) (hc : to_idx.i1 = (c : Int)) :
    gst_audio_channel_mix_fill_one_other m from_idx to_idx ratio a c = ratio := by
  have h := (one_other_cross_cells m from_idx to_idx ratio hf ht).2.1
    (toNat_of_eq_natCast h2).2 (toNat_of_eq_natCast hc).2
  rw [(toNat_of_eq_natCast h2).1, (toNat_of_eq_natCast hc).1, if_neg (not_not.mpr h1)] at h
  exact h

theorem one_other_center_left (m : Nat → Nat → α) (from_idx to_idx : Idx3) (ratio : α)
    (a c : Nat) (hf : from_idx.Distinct) (ht : to_idx.Distinct)
    (h1 : from_idx.i1 = (a : Int)) (h0 : from_idx.i0 = -1) (hc : to_idx.i0 = (c : Int)) :
    gst_audio_channel_mix_fill_one_other m from_idx to_idx ratio a c = ratio := by
  have h := (one_other_cross_cells m from_idx to_idx ratio hf ht).2.2.1
    (toNat_of_eq_natCast h1).2 (toNat_of_eq_natCast hc).2
  rw [(toNat_of_eq_natCast h1).1, (toNat_of_eq_natCast hc).1, if_neg (not_not.mpr h0)] at h
  exact h

theorem one_other_center_right (m : Nat → Nat → α) (from_idx to_idx : Idx3) (ratio : α)
    (a c : Nat) (hf : from_idx.Distinct) (ht : to_idx.Distinct)
    (h1 : from_idx.i1 = (a : Int)) (h2 : from_idx.i2 = -1) (hc : to_idx.i2 = (c : Int)) :
    gst_audio_channel_mix_fill_one_other m from_idx to_idx ratio a c = ratio := by
  have h := (one_other_cross_cells m from_idx to_idx ratio hf ht).2.2.2
    (toNat_of_eq_natCast h1).2 (toNat_of_eq_natCast hc).2
  rw [(toNat_of_eq_natCast h1).1, (toNat_of_eq_natCast hc).1, if_neg (not_not.mpr h2)] at h
  exact h

theorem one_other_left_left (m : Nat → Nat → α) (from_idx to_idx : Idx3) (ratio : α)
    (a c : Nat) (hf : from_idx.Distinct) (ht : to_idx.Distinct)
    (h0 : from_idx.i0 = (a : Int)) (hc : to_idx.i0 = (c : Int)) :
    gst_audio_channel_mix_fill_one_other m from_idx to_idx ratio a c = ratio := by
  have h := (one_other_straight_cells m from_idx to_idx ratio hf ht).1
    (toNat_of_eq_natCast h0).2 (toNat_of_eq_natCast hc).2
  rw [(toNat_of_eq_natCast h0).1, (toNat_of_eq_natCast hc).1] at h
  exact h

theorem one_other_center_center (m : Nat → Nat → α) (from_idx to_idx : Idx3) (ratio : α)
    (a c : Nat) (hf : from_idx.Distinct) (ht : to_idx.Distinct)
    (h0 : from_idx.i1 = (a : Int)) (hc : to_idx.i1 = (c : Int)) :
    gst_audio_channel_mix_fill_one_other m from_idx to_idx ratio a c = ratio := by
  have h := (one_other_straight_cells m from_idx to_idx ratio hf ht).2.1
    (toNat_of_eq_natCast h0).2 (toNat_of_eq_natCast hc).2
  rw [(toNat_of_eq_natCast h0).1, (toNat_of_eq_natCast hc).1] at h
  exact h

theorem one_other_right_right (m : Nat → Nat → α) (from_idx to_idx : Idx3) (ratio : α)
    (a c : Nat) (hf : from_idx.Distinct) (ht : to_idx.Distinct)
    (h0 : from_idx.i2 = (a : Int)) (hc : to_idx.i2 = (c : Int)) :
    gst_audio_channel_mix_fill_one_other m from_idx to_idx ratio a c = ratio := by
  have h := (one_other_straight_cells m from_idx to_idx ratio hf ht).2.2
    (toNat_of_eq_natCast h0).2 (toNat_of_eq_natCast hc).2
  rw [(toNat_of_eq_natCast h0).1, (toNat_of_eq_natCast hc).1] at h
  exact h

theorem hasGroup_of_last (channels : Nat) (position : List GstAudioChannelPosition)
    (p : GstAudioChannelPosition) (a : Nat) (X : SpatialGroup) (k : Nat)
    (hs : slotOf p = some (X, k)) (h : IsLastAt channels position p a) :
    HasGroup channels position X :=
  ⟨a, h.1, k, by rw [h.2.1]; exact hs⟩

end OthersCells


section FrontRouting

variable {α : Type} [LinearOrderedField α]

/-- Front input into an output with a center and a side group and no front group,
whatever the matrix held before the spatial-proximity fill. -/
theorem others_front_cells (sqrt : α → α) (mix : GstAudioChannelMix α) (a a2 c s s2 : Nat)
    (hFL : IsLastAt mix.in_channels mix.in_position .FRONT_LEFT a)
    (hFR : IsLastAt mix.in_channels mix.in_position .FRONT_RIGHT a2)
    (hmono : Lacks mix.in_channels mix.in_position .MONO)
    (hof : ¬ HasGroup mix.out_channels mix.out_position .front)
    (hFC : IsLastAt mix.out_channels mix.out_position .FRONT_CENTER c)
    (hSL : IsLastAt mix.out_channels mix.out_position .SIDE_LEFT s)
    (hSR : IsLastAt mix.out_channels mix.out_position .SIDE_RIGHT s2) :
    (gst_audio_channel_mix_fill_others sqrt mix).matrix a c = 1 / 2 * RATIO_CENTER_FRONT sqrt ∧
    (gst_audio_channel_mix_fill_others sqrt mix).matrix a2 c = 1 / 2 * RATIO_CENTER_FRONT sqrt ∧
    (¬ HasGroup mix.in_channels mix.in_position .side →
      ¬ HasGroup mix.in_channels mix.in_position .rear →
      (gst_audio_channel_mix_fill_others sqrt mix).matrix a s = RATIO_FRONT_SIDE sqrt ∧
      (gst_audio_channel_mix_fill_others sqrt mix).matrix a2 s2 = RATIO_FRONT_SIDE sqrt) ∧
    (HasGroup mix.in_channels mix.in_position .side ∨
        HasGroup mix.in_channels mix.in_position .rear →
      (gst_audio_channel_mix_fill_others sqrt mix).matrix a s
        = 1 / 2 * RATIO_FRONT_SIDE sqrt ∧
      (gst_audio_channel_mix_fill_others sqrt mix).matrix a2 s2
        = 1 / 2 * RATIO_FRONT_SIDE sqrt) := by
  have fi0 : (gst_audio_channel_mix_detect_pos mix.in_channels mix.in_position).f.i0 = (a : Int) :=
    detect_pos_get_of_last _ _ .FRONT_LEFT a .front 0 (by decide) rfl hFL
  have fi1 : (gst_audio_channel_mix_detect_pos mix.in_channels mix.in_position).f.i1 = -1 :=
    detect_pos_get_of_lacks _ _ .MONO .front 1 (by decide) rfl hmono
  have fi2 : (gst_audio_channel_mix_detect_pos mix.in_channels mix.in_position).f.i2 = (a2 : Int) :=
    detect_pos_get_of_last _ _ .FRONT_RIGHT a2 .front 2 (by decide) rfl hFR
  have oc1 : (gst_audio_channel_mix_detect_pos mix.out_channels mix.out_position).c.i1
      = (c : Int) :=
    detect_pos_get_of_last _ _ .FRONT_CENTER c .center 1 (by decide) rfl hFC
  have os0 : (gst_audio_channel_mix_detect_pos mix.out_channels mix.out_position).s.i0
      = (s : Int) :=
    detect_pos_get_of_last _ _ .SIDE_LEFT s .side 0 (by decide) rfl hSL
  have os2 : (gst_audio_channel_mix_detect_pos mix.out_channels mix.out_position).s.i2
      = (s2 : Int) :=
    detect_pos_get_of_last _ _ .SIDE_RIGHT s2 .side 2 (by decide) rfl hSR
  have dif : (gst_audio_channel_mix_detect_pos mix.in_channels mix.in_position).f.Distinct :=
    detect_pos_distinct _ _ .front
  have doc : (gst_audio_channel_mix_detect_pos mix.out_channels mix.out_position).c.Distinct :=
    detect_pos_distinct _ _ .center
  have dos : (gst_audio_channel_mix_detect_pos mix.out_channels mix.out_position).s.Distinct :=
    detect_pos_distinct _ _ .side
  have hif : (gst_audio_channel_mix_detect_pos mix.in_channels mix.in_position).has_f = true :=
    (detect_pos_has_iff _ _ .front).mpr (hasGroup_of_last _ _ .FRONT_LEFT a .front 0 rfl hFL)
  have hof2 : (gst_audio_channel_mix_detect_pos mix.out_channels mix.out_position).has_f
      = false := detect_pos_has_false _ _ .front hof
  have hoc : (gst_audio_channel_mix_detect_pos mix.out_channels mix.out_position).has_c = true :=
    (detect_pos_has_iff _ _ .center).mpr (hasGroup_of_last _ _ .FRONT_CENTER c .center 1 rfl hFC)
  have hos : (gst_audio_channel_mix_detect_pos mix.out_channels mix.out_position).has_s = true :=
    (detect_pos_has_iff _ _ .side).mpr (hasGroup_of_last _ _ .SIDE_LEFT s .side 0 rfl hSL)
  have ga : slotOf (posAt mix.in_position a) = some (.front, 0) := by rw [hFL.2.1]; rfl
  have ga2 : slotOf (posAt mix.in_position a2) = some (.front, 2) := by rw [hFR.2.1]; rfl
  have gc : slotOf (posAt mix.out_position c) = some (.center, 1) := by rw [hFC.2.1]; rfl
  have gs : slotOf (posAt mix.out_position s) = some (.side, 0) := by rw [hSL.2.1]; rfl
  have gs2 : slotOf (posAt mix.out_position s2) = some (.side, 2) := by rw [hSR.2.1]; rfl
  -- the chains `rear <-> ...` and `bass <-> any` do not touch front rows of
  -- center and side columns
  have hBR : ∀ (x y : Nat) (kx ky : Nat) (Y : SpatialGroup), Y ≠ .rear → Y ≠ .bass →
      slotOf (posAt mix.in_position x) = some (.front, kx) →
      slotOf (posAt mix.out_position y) = some (Y, ky) →
      (gst_audio_channel_mix_fill_others sqrt mix).matrix x y =
        fillOthersSide sqrt (gst_audio_channel_mix_detect_pos mix.in_channels mix.in_position)
          (gst_audio_channel_mix_detect_pos mix.out_channels mix.out_position)
          (fillOthersFront sqrt
            (gst_audio_channel_mix_detect_pos mix.in_channels mix.in_position)
            (gst_audio_channel_mix_detect_pos mix.out_channels mix.out_position)
            (fillOthersCenter sqrt
              (gst_audio_channel_mix_detect_pos mix.in_channels mix.in_position)
              (gst_audio_channel_mix_detect_pos mix.out_channels mix.out_position)
              mix.matrix)) x y := by
    intro x y kx ky Y hY1 hY2 hx hy
    show fillOthersBass sqrt _ _ (fillOthersRear sqrt _ _ _) x y = _
    rw [fillOthersBass_frame sqrt _ _ _ _ _ x y
        (not_in_group _ _ _ _ hx (by decide)) (not_in_group _ _ _ _ hy (Ne.symm hY2)),
      fillOthersRear_frame sqrt _ _ _ _ _ x y
        (not_in_group _ _ _ _ hx (by decide)) (not_in_group _ _ _ _ hy (Ne.symm hY1))]
  -- the front chain
  have hF := fillOthersFront_center_and_side sqrt _ _
    (fillOthersCenter sqrt
      (gst_audio_channel_mix_detect_pos mix.in_channels mix.in_position)
      (gst_audio_channel_mix_detect_pos mix.out_channels mix.out_position) mix.matrix)
    hif hof2 hoc hos
  have hfc : ∀ (x kx : Nat), slotOf (posAt mix.in_position x) = some (.front, kx) →
      ((gst_audio_channel_mix_detect_pos mix.in_channels mix.in_position).f.i0 = (x : Int) ∨
       (gst_audio_channel_mix_detect_pos mix.in_channels mix.in_position).f.i2 = (x : Int)) →
      (gst_audio_channel_mix_fill_others sqrt mix).matrix x c
        = 1 / 2 * RATIO_CENTER_FRONT sqrt := by
    intro x kx hx hcase
    rw [hBR x c kx 1 .center (by decide) (by decide) hx gc,
      fillOthersSide_frame sqrt _ _ _ _ _ x c
        (not_in_group _ _ _ _ hx (by decide)) (not_in_group _ _ _ _ gc (by decide)),
      hF]
    refine (one_other_frame_either mix.in_channels mix.out_channels mix.in_position
        mix.out_position x c .front .side _ _
        (Or.inr (not_in_group _ _ _ _ gc (by decide)))).trans ?_
    rcases hcase with h | h
    · exact one_other_left_center _ _ _ _ x c dif doc h fi1 oc1
    · exact one_other_right_center _ _ _ _ x c dif doc h fi1 oc1
  -- the cells front-left -> side-left and front-right -> side-right
  have hfs : ∀ (x y kx ky : Nat), slotOf (posAt mix.in_position x) = some (.front, kx) →
      slotOf (posAt mix.out_position y) = some (.side, ky) →
      (∀ (m : Nat → Nat → α) (ratio : α), gst_audio_channel_mix_fill_one_other m
        (gst_audio_channel_mix_detect_pos mix.in_channels mix.in_position).f
        (gst_audio_channel_mix_detect_pos mix.out_channels mix.out_position).s ratio x y
          = ratio) →
      (¬ HasGroup mix.in_channels mix.in_position .side →
        ¬ HasGroup mix.in_channels mix.in_position .rear →
        (gst_audio_channel_mix_fill_others sqrt mix).matrix x y = RATIO_FRONT_SIDE sqrt) ∧
      (HasGroup mix.in_channels mix.in_position .side ∨
          HasGroup mix.in_channels mix.in_position .rear →
        (gst_audio_channel_mix_fill_others sqrt mix).matrix x y
          = 1 / 2 * RATIO_FRONT_SIDE sqrt) := by
    intro x y kx ky hx hy hcell
    rw [hBR x y kx ky .side (by decide) (by decide) hx hy]
    constructor
    · intro hs hr
      rw [fillOthersSide_front_only sqrt _ _ _ (detect_pos_has_false _ _ .side hs) hif
        (detect_pos_has_false _ _ .rear hr) hos]
      exact hcell _ _
    · intro hsr
      by_cases hs : HasGroup mix.in_channels mix.in_position .side
      · rw [fillOthersSide_both_side sqrt _ _ _ ((detect_pos_has_iff _ _ .side).mpr hs) hos, hF]
        exact hcell _ _
      · have hr : HasGroup mix.in_channels mix.in_position .rear := hsr.resolve_left hs
        rw [fillOthersSide_front_and_rear sqrt _ _ _ (detect_pos_has_false _ _ .side hs) hif
          ((detect_pos_has_iff _ _ .rear).mpr hr) hos]
        refine (one_other_frame_either mix.in_channels mix.out_channels mix.in_position
          mix.out_position x y .rear .side _ _
          (Or.inl (not_in_group _ _ _ _ hx (by decide)))).trans ?_
        exact hcell _ _
  have hL := hfs a s 0 0 ga gs
    (fun m ratio => one_other_left_left m _ _ ratio a s dif dos fi0 os0)
  have hR := hfs a2 s2 2 2 ga2 gs2
    (fun m ratio => one_other_right_right m _ _ ratio a2 s2 dif dos fi2 os2)
  exact ⟨hfc a 0 ga (Or.inl fi0), hfc a2 2 ga2 (Or.inr fi2),
    fun hs hr => ⟨hL.1 hs hr, hR.1 hs hr⟩, fun h => ⟨hL.2 h, hR.2 h⟩⟩

end FrontRouting


section BassRouting

variable {α : Type} [LinearOrderedField α]

theorem no_bass_side_slot (p : GstAudioChannelPosition) (k : Nat) (hk : k ≠ 1) :
    slotOf p ≠ some (.bass, k) := by
  intro h
  cases p <;> simp [slotOf] at h
  exact hk h.symm

/-- Low-frequency input into an output without a low-frequency channel that has a
front and a center group, whatever the matrix held before the spatial-proximity
fill. -/
theorem others_bass_cells (sqrt : α → α) (mix : GstAudioChannelMix α) (l c f f2 : Nat)
    (hL : IsLastAt mix.in_channels mix.in_position .LFE1 l)
    (hob : ¬ HasGroup mix.out_channels mix.out_position .bass)
    (hFC : IsLastAt mix.out_channels mix.out_position .FRONT_CENTER c)
    (hFL : IsLastAt mix.out_channels mix.out_position .FRONT_LEFT f)
    (hFR : IsLastAt mix.out_channels mix.out_position .FRONT_RIGHT f2) :
    (gst_audio_channel_mix_fill_others sqrt mix).matrix l c = RATIO_CENTER_BASS sqrt ∧
    (gst_audio_channel_mix_fill_others sqrt mix).matrix l f = RATIO_FRONT_BASS ∧
    (gst_audio_channel_mix_fill_others sqrt mix).matrix l f2 = RATIO_FRONT_BASS := by
  have b0 : (gst_audio_channel_mix_detect_pos mix.in_channels mix.in_position).b.i0 = -1 :=
    detect_pos_get_of_no_slot _ _ .bass 0 (by decide) (fun p => no_bass_side_slot p 0 (by decide))
  have b1 : (gst_audio_channel_mix_detect_pos mix.in_channels mix.in_position).b.i1 = (l : Int) :=
    detect_pos_get_of_last _ _ .LFE1 l .bass 1 (by decide) rfl hL
  have b2 : (gst_audio_channel_mix_detect_pos mix.in_channels mix.in_position).b.i2 = -1 :=
    detect_pos_get_of_no_slot _ _ .bass 2 (by decide) (fun p => no_bass_side_slot p 2 (by decide))
  have oc1 : (gst_audio_channel_mix_detect_pos mix.out_channels mix.out_position).c.i1
      = (c : Int) :=
    detect_pos_get_of_last _ _ .FRONT_CENTER c .center 1 (by decide) rfl hFC
  have of0 : (gst_audio_channel_mix_detect_pos mix.out_channels mix.out_position).f.i0
      = (f : Int) :=
    detect_pos_get_of_last _ _ .FRONT_LEFT f .front 0 (by decide) rfl hFL
  have of2 : (gst_audio_channel_mix_detect_pos mix.out_channels mix.out_position).f.i2
      = (f2 : Int) :=
    detect_pos_get_of_last _ _ .FRONT_RIGHT f2 .front 2 (by decide) rfl hFR
  have dib : (gst_audio_channel_mix_detect_pos mix.in_channels mix.in_position).b.Distinct :=
    detect_pos_distinct _ _ .bass
  have doc : (gst_audio_channel_mix_detect_pos mix.out_channels mix.out_position).c.Distinct :=
    detect_pos_distinct _ _ .center
  have dof : (gst_audio_channel_mix_detect_pos mix.out_channels mix.out_position).f.Distinct :=
    detect_pos_distinct _ _ .front
  have hib : (gst_audio_channel_mix_detect_pos mix.in_channels mix.in_position).has_b = true :=
    (detect_pos_has_iff _ _ .bass).mpr (hasGroup_of_last _ _ .LFE1 l .bass 1 rfl hL)
  have hob2 : (gst_audio_channel_mix_detect_pos mix.out_channels mix.out_position).has_b
      = false := detect_pos_has_false _ _ .bass hob
  have hoc : (gst_audio_channel_mix_detect_pos mix.out_channels mix.out_position).has_c = true :=
    (detect_pos_has_iff _ _ .center).mpr (hasGroup_of_last _ _ .FRONT_CENTER c .center 1 rfl hFC)
  have hof : (gst_audio_channel_mix_detect_pos mix.out_channels mix.out_position).has_f = true :=
    (detect_pos_has_iff _ _ .front).mpr (hasGroup_of_last _ _ .FRONT_LEFT f .front 0 rfl hFL)
  have gc : slotOf (posAt mix.out_position c) = some (.center, 1) := by rw [hFC.2.1]; rfl
  have gf : slotOf (posAt mix.out_position f) = some (.front, 0) := by rw [hFL.2.1]; rfl
  have gf2 : slotOf (posAt mix.out_position f2) = some (.front, 2) := by rw [hFR.2.1]; rfl
  -- the calls towards the side and the rear group do not touch front and
  -- center columns
  have hB : ∀ (y ky : Nat) (Y : SpatialGroup), Y ≠ .side → Y ≠ .rear →
      slotOf (posAt mix.out_position y) = some (Y, ky) →
      ∃ m : Nat → Nat → α, (gst_audio_channel_mix_fill_others sqrt mix).matrix l y =
        gst_audio_channel_mix_fill_one_other
          (gst_audio_channel_mix_fill_one_other m
            (gst_audio_channel_mix_detect_pos mix.in_channels mix.in_position).b
            (gst_audio_channel_mix_detect_pos mix.out_channels mix.out_position).c
            (RATIO_CENTER_BASS sqrt))
          (gst_audio_channel_mix_detect_pos mix.in_channels mix.in_position).b
          (gst_audio_channel_mix_detect_pos mix.out_channels mix.out_position).f
          RATIO_FRONT_BASS l y := by
    intro y ky Y hY1 hY2 hy
    refine ⟨fillOthersRear sqrt (gst_audio_channel_mix_detect_pos mix.in_channels mix.in_position)
      (gst_audio_channel_mix_detect_pos mix.out_channels mix.out_position)
      (fillOthersSide sqrt (gst_audio_channel_mix_detect_pos mix.in_channels mix.in_position)
        (gst_audio_channel_mix_detect_pos mix.out_channels mix.out_position)
        (fillOthersFront sqrt (gst_audio_channel_mix_detect_pos mix.in_channels mix.in_position)
          (gst_audio_channel_mix_detect_pos mix.out_channels mix.out_position)
          (fillOthersCenter sqrt (gst_audio_channel_mix_detect_pos mix.in_channels mix.in_position)
            (gst_audio_channel_mix_detect_pos mix.out_channels mix.out_position) mix.matrix))), ?_⟩
    show fillOthersBass sqrt _ _ _ l y = _
    rw [fillOthersBass_from_bass sqrt _ _ _ hib hob2 hoc hof]
    refine (ite_frame _ (fun M => gst_audio_channel_mix_fill_one_other M _ _ _) _ l y
      (fun m2 => one_other_frame_either mix.in_channels mix.out_channels mix.in_position
        mix.out_position l y .bass .rear m2 _
        (Or.inr (not_in_group _ _ _ _ hy (Ne.symm hY2))))).trans ?_
    exact ite_frame _ (fun M => gst_audio_channel_mix_fill_one_other M _ _ _) _ l y
      (fun m2 => one_other_frame_either mix.in_channels mix.out_channels mix.in_position
        mix.out_position l y .bass .side m2 _
        (Or.inr (not_in_group _ _ _ _ hy (Ne.symm hY1))))
  refine ⟨?_, ?_, ?_⟩
  · obtain ⟨m, hm⟩ := hB c 1 .center (by decide) (by decide) gc
    rw [hm]
    refine (one_other_frame_either mix.in_channels mix.out_channels mix.in_position
      mix.out_position l c .bass .front _ _
      (Or.inr (not_in_group _ _ _ _ gc (by decide)))).trans ?_
    exact one_other_center_center _ _ _ _ l c dib doc b1 oc1
  · obtain ⟨m, hm⟩ := hB f 0 .front (by decide) (by decide) gf
    rw [hm]
    exact one_other_center_left _ _ _ _ l f dib dof b1 b0 of0
  · obtain ⟨m, hm⟩ := hB f2 2 .front (by decide) (by decide) gf2
    rw [hm]
    exact one_other_center_right _ _ _ _ l f2 dib dof b1 b2 of2

end BassRouting


section SplitBetweenGroups

open GstAudioChannelPosition

/-- The matrix for input [low-frequency] and output [front-left, front-right,
front-center] before normalization. -/
theorem bass_to_front_center_before_normalize {α : Type} [LinearOrderedField α]
    (sqrt : α → α) (flags : Nat) (format : GstAudioFormat) :
    (gst_audio_channel_mix_fill_others sqrt
      (gst_audio_channel_mix_fill_compatible
        (gst_audio_channel_mix_fill_identical
          (mixInit (α := α) flags format
            1 [LFE1] 3 [FRONT_LEFT, FRONT_RIGHT, FRONT_CENTER])))).matrix =
      setCell (setCell (setCell (fun _ _ => 0)
        0 2 (RATIO_CENTER_BASS sqrt)) 0 0 RATIO_FRONT_BASS) 0 1 RATIO_FRONT_BASS := rfl

/-- Claim C17, refuted as stated: for input [front-left, front-right] and output
[front-center, side-left, side-right] the matrix just before normalization has
front-left -> front-center at `(1/2) * (1/sqrt 2)` but front-left -> side-left and
front-right -> side-right at the whole ratio `1/sqrt 2`, which the later chain
`side <-> center/front/rear` stores; and for input [low-frequency] and output
[front-left, front-right, front-center] the low-frequency channel reaches
front-center at the whole ratio `1/sqrt 2` and front-left at the whole ratio 1. -/
theorem front_to_side_is_not_halved :
    (gst_audio_channel_mix_fill_others Real.sqrt
      (gst_audio_channel_mix_fill_compatible
        (gst_audio_channel_mix_fill_identical
          (mixInit (α := ℝ) 0 GstAudioFormat.S32
            2 [FRONT_LEFT, FRONT_RIGHT]
            3 [FRONT_CENTER, SIDE_LEFT, SIDE_RIGHT])))).matrix 0 0
      = 1 / 2 * (1 / Real.sqrt 2) ∧
    (gst_audio_channel_mix_fill_others Real.sqrt
      (gst_audio_channel_mix_fill_compatible
        (gst_audio_channel_mix_fill_identical
          (mixInit (α := ℝ) 0 GstAudioFormat.S32
            2 [FRONT_LEFT, FRONT_RIGHT]
            3 [FRONT_CENTER, SIDE_LEFT, SIDE_RIGHT])))).matrix 0 1
      = 1 / Real.sqrt 2 ∧
    (gst_audio_channel_mix_fill_others Real.sqrt
      (gst_audio_channel_mix_fill_compatible
        (gst_audio_channel_mix_fill_identical
          (mixInit (α := ℝ) 0 GstAudioFormat.S32
            2 [FRONT_LEFT, FRONT_RIGHT]
            3 [FRONT_CENTER, SIDE_LEFT, SIDE_RIGHT])))).matrix 1 2
      = 1 / Real.sqrt 2 ∧
    (1 / Real.sqrt 2 : ℝ) ≠ 1 / 2 * (1 / Real.sqrt 2) ∧
    (gst_audio_channel_mix_fill_others Real.sqrt
      (gst_audio_channel_mix_fill_compatible
        (gst_audio_channel_mix_fill_identical
          (mixInit (α := ℝ) 0 GstAudioFormat.S32
            1 [LFE1] 3 [FRONT_LEFT, FRONT_RIGHT, FRONT_CENTER])))).matrix 0 2
      = 1 / Real.sqrt 2 ∧
    (gst_audio_channel_mix_fill_others Real.sqrt
      (gst_audio_channel_mix_fill_compatible
        (gst_audio_channel_mix_fill_identical
          (mixInit (α := ℝ) 0 GstAudioFormat.S32
            1 [LFE1] 3 [FRONT_LEFT, FRONT_RIGHT, FRONT_CENTER])))).matrix 0 0
      = 1 ∧
    (1 : ℝ) ≠ 1 / 2 * 1 := by
  refine ⟨?_, ?_, ?_, fun h => sqrt_two_ratio_facts.2 h.symm, ?_, ?_, by norm_num⟩
  · rw [front_to_center_side_before_normalize]
    simp [setCell, RATIO_CENTER_FRONT]
  · rw [front_to_center_side_before_normalize]
    simp [setCell, RATIO_FRONT_SIDE]
  · rw [front_to_center_side_before_normalize]
    simp [setCell, RATIO_FRONT_SIDE]
  · rw [bass_to_front_center_before_normalize]
    simp [setCell, RATIO_CENTER_BASS]
  · rw [bass_to_front_center_before_normalize]
    simp [setCell, RATIO_FRONT_BASS]

/-- Claim C17, amended: in the matrix just before normalization, for every layout
pair whose input has front-left and front-right and no mono channel and whose
output has no front channel but has front-center, side-left and side-right, the
input front channels reach front-center at half the table ratio,
`(1/2) * (1/sqrt 2)`, and, when the input also has side or rear channels,
front-left -> side-left and front-right -> side-right carry half the table ratio
as well. Low-frequency input into an output without a low-frequency channel that
has front-left, front-right and front-center is not halved: it reaches
front-center at `1/sqrt 2` and front-left and front-right at 1. With repeated
positions the cells are those of the last channel of each position. -/
theorem front_and_bass_routing_before_normalize {α : Type} [LinearOrderedField α]
    (sqrt : α → α) (mix : GstAudioChannelMix α) :
    (∀ a a2 c s s2 : Nat,
      IsLastAt mix.in_channels mix.in_position FRONT_LEFT a →
      IsLastAt mix.in_channels mix.in_position FRONT_RIGHT a2 →
      Lacks mix.in_channels mix.in_position MONO →
      ¬ HasGroup mix.out_channels mix.out_position .front →
      IsLastAt mix.out_channels mix.out_position FRONT_CENTER c →
      IsLastAt mix.out_channels mix.out_position SIDE_LEFT s →
      IsLastAt mix.out_channels mix.out_position SIDE_RIGHT s2 →
      (gst_audio_channel_mix_fill_others sqrt (gst_audio_channel_mix_fill_compatible
        (gst_audio_channel_mix_fill_identical mix))).matrix a c = 1 / 2 * (1 / sqrt 2) ∧
      (gst_audio_channel_mix_fill_others sqrt (gst_audio_channel_mix_fill_compatible
        (gst_audio_channel_mix_fill_identical mix))).matrix a2 c = 1 / 2 * (1 / sqrt 2) ∧
      (HasGroup mix.in_channels mix.in_position .side ∨
          HasGroup mix.in_channels mix.in_position .rear →
        (gst_audio_channel_mix_fill_others sqrt (gst_audio_channel_mix_fill_compatible
          (gst_audio_channel_mix_fill_identical mix))).matrix a s = 1 / 2 * (1 / sqrt 2) ∧
        (gst_audio_channel_mix_fill_others sqrt (gst_audio_channel_mix_fill_compatible
          (gst_audio_channel_mix_fill_identical mix))).matrix a2 s2
          = 1 / 2 * (1 / sqrt 2))) ∧
    (∀ l c f f2 : Nat,
      IsLastAt mix.in_channels mix.in_position LFE1 l →
      ¬ HasGroup mix.out_channels mix.out_position .bass →
      IsLastAt mix.out_channels mix.out_position FRONT_CENTER c →
      IsLastAt mix.out_channels mix.out_position FRONT_LEFT f →
      IsLastAt mix.out_channels mix.out_position FRONT_RIGHT f2 →
      (gst_audio_channel_mix_fill_others sqrt (gst_audio_channel_mix_fill_compatible
        (gst_audio_channel_mix_fill_identical mix))).matrix l c = 1 / sqrt 2 ∧
      (gst_audio_channel_mix_fill_others sqrt (gst_audio_channel_mix_fill_compatible
        (gst_audio_channel_mix_fill_identical mix))).matrix l f = 1 ∧
      (gst_audio_channel_mix_fill_others sqrt (gst_audio_channel_mix_fill_compatible
        (gst_audio_channel_mix_fill_identical mix))).matrix l f2 = 1) :=
  ⟨fun a a2 c s s2 h1 h2 h3 h4 h5 h6 h7 =>
      ⟨(others_front_cells sqrt (gst_audio_channel_mix_fill_compatible
          (gst_audio_channel_mix_fill_identical mix)) a a2 c s s2 h1 h2 h3 h4 h5 h6 h7).1,
        (others_front_cells sqrt (gst_audio_channel_mix_fill_compatible
          (gst_audio_channel_mix_fill_identical mix)) a a2 c s s2 h1 h2 h3 h4 h5 h6 h7).2.1,
        (others_front_cells sqrt (gst_audio_channel_mix_fill_compatible
          (gst_audio_channel_mix_fill_identical mix)) a a2 c s s2 h1 h2 h3 h4 h5 h6 h7).2.2.2⟩,
    fun l c f f2 h1 h2 h3 h4 h5 =>
      others_bass_cells sqrt (gst_audio_channel_mix_fill_compatible
        (gst_audio_channel_mix_fill_identical mix)) l c f f2 h1 h2 h3 h4 h5⟩

theorem center_side_layout_has_no_front :
    ¬ HasGroup 3 [FRONT_CENTER, SIDE_LEFT, SIDE_RIGHT] .front := by
  rintro ⟨k, hk, s, hs⟩
  interval_cases k <;> simp [posAt, slotOf] at hs

/-- Claim C17, amended, at input [front-left, front-right] and output
[front-center, side-left, side-right]. -/
theorem front_and_bass_routing_before_normalize_witness :
    (gst_audio_channel_mix_fill_others Real.sqrt (gst_audio_channel_mix_fill_compatible
      (gst_audio_channel_mix_fill_identical
        (mixInit (α := ℝ) 0 GstAudioFormat.S32 2 [FRONT_LEFT, FRONT_RIGHT]
          3 [FRONT_CENTER, SIDE_LEFT, SIDE_RIGHT])))).matrix 0 0
      = 1 / 2 * (1 / Real.sqrt 2) ∧
    (gst_audio_channel_mix_fill_others Real.sqrt (gst_audio_channel_mix_fill_compatible
      (gst_audio_channel_mix_fill_identical
        (mixInit (α := ℝ) 0 GstAudioFormat.S32 2 [FRONT_LEFT, FRONT_RIGHT]
          3 [FRONT_CENTER, SIDE_LEFT, SIDE_RIGHT])))).matrix 1 0
      = 1 / 2 * (1 / Real.sqrt 2) :=
  have h := (front_and_bass_routing_before_normalize Real.sqrt
    (mixInit (α := ℝ) 0 GstAudioFormat.S32 2 [FRONT_LEFT, FRONT_RIGHT]
      3 [FRONT_CENTER, SIDE_LEFT, SIDE_RIGHT])).1 0 1 0 1 2
    (by unfold IsLastAt; decide) (by unfold IsLastAt; decide) (by unfold Lacks; decide)
    center_side_layout_has_no_front
    (by unfold IsLastAt; decide) (by unfold IsLastAt; decide) (by unfold IsLastAt; decide)
  ⟨h.1, h.2.1⟩

end SplitBetweenGroups


/-! ## The weights of the compatible fill -/

section CompatibleWeights

variable {α : Type} [LinearOrderedField α]

theorem ite3_setCell_other {β : Type} (c1 c2 c3 : Prop) [Decidable c1] [Decidable c2]
    [Decidable c3] (M : Nat → Nat → β) (i j : Nat) (v1 v2 v3 : β) (a b : Nat)
    (h : c1 ∨ c2 ∨ c3 → ¬ (a = i ∧ b = j)) :
    (if c1 then setCell M i j v1 else if c2 then setCell M i j v2
      else if c3 then setCell M i j v3 else M) a b = M a b := by
  split_ifs with hc1 hc2 hc3
  · unfold setCell
    rw [if_neg (h (Or.inl hc1))]
  · unfold setCell
    rw [if_neg (h (Or.inr (Or.inl hc2)))]
  · unfold setCell
    rw [if_neg (h (Or.inr (Or.inr hc3)))]
  · rfl

theorem ite3_setCell_same {β : Type} (A C D B : Prop) [Decidable A] [Decidable C]
    [Decidable D] [Decidable B] (M : Nat → Nat → β) (i j : Nat) (v1 v2 v3 : β)
    (hA : A) (hD : D) (hB : B) :
    (if A ∧ C ∧ D ∧ B then setCell M i j v1 else if A ∧ ¬ C ∧ D ∧ B then setCell M i j v2
      else if A ∧ C ∧ ¬ D ∧ B then setCell M i j v3 else M) i j
      = if C then v1 else v2 := by
  by_cases hC : C
  · rw [if_pos ⟨hA, hC, hD, hB⟩, if_pos hC, setCell_same]
  · rw [if_neg (fun h => hC h.2.1), if_pos ⟨hA, hC, hD, hB⟩, if_neg hC, setCell_same]

/-- The indices found by a scan for an entry of `conv[]` are pairwise different
where they are not `-1`. -/
theorem convScan_distinct (cv : Conv) (hcv : cv ∈ conv) (channels : Nat)
    (position : List GstAudioChannelPosition) : (convScan cv channels position).Distinct := by
  obtain ⟨d01, d02, d12⟩ := conv_distinct cv hcv
  obtain ⟨h0, h1, h2⟩ := convScan_spec cv d01 d02 d12 channels position
  have key : ∀ (p q : GstAudioChannelPosition) (x y : Int), p ≠ q →
      IsLastIndex channels position (fun r => r = p) x →
      IsLastIndex channels position (fun r => r = q) y →
      x ≠ -1 → x ≠ y := by
    intro p q x y hpq hx hy hne e
    have fx := isLastIndex_found _ _ _ _ hx hne
    have fy := isLastIndex_found _ _ _ _ hy (e ▸ hne)
    have e1 := fx.2.2.1
    have e2 := fy.2.2.1
    rw [← e] at e2
    simp only [] at e1 e2
    exact hpq (e1.symm.trans e2)
  have lb : ∀ (p : GstAudioChannelPosition) (x : Int),
      IsLastIndex channels position (fun r => r = p) x → -1 ≤ x := by
    intro p x hx
    rcases hx with ⟨h, _⟩ | ⟨h, _⟩ <;> omega
  exact ⟨lb _ _ h0, lb _ _ h1, lb _ _ h2, key _ _ _ _ d01 h0 h1,
    key _ _ _ _ d02 h0 h2, key _ _ _ _ d12 h1 h2⟩

/-- One pass of the compatible fill, cell by cell: the weight from a side channel
of the input to the unified channel of an output without that side channel, and
from the unified channel of the input to a side channel of an output without the
unified channel. -/
theorem compatibleOne_cells (mix : GstAudioChannelMix α) (cv : Conv) (hcv : cv ∈ conv)
    (m : Nat → Nat → α) :
    ((convScan cv mix.in_channels mix.in_position).i0 ≠ -1 →
      (convScan cv mix.out_channels mix.out_position).i2 ≠ -1 →
      (convScan cv mix.out_channels mix.out_position).i0 = -1 →
      fillCompatibleOne mix cv m (convScan cv mix.in_channels mix.in_position).i0.toNat
          (convScan cv mix.out_channels mix.out_position).i2.toNat
        = if (convScan cv mix.in_channels mix.in_position).i2 = -1 then 1 else 1 / 2) ∧
    ((convScan cv mix.in_channels mix.in_position).i1 ≠ -1 →
      (convScan cv mix.out_channels mix.out_position).i2 ≠ -1 →
      (convScan cv mix.out_channels mix.out_position).i1 = -1 →
      fillCompatibleOne mix cv m (convScan cv mix.in_channels mix.in_position).i1.toNat
          (convScan cv mix.out_channels mix.out_position).i2.toNat
        = if (convScan cv mix.in_channels mix.in_position).i2 = -1 then 1 else 1 / 2) ∧
    ((convScan cv mix.in_channels mix.in_position).i2 ≠ -1 →
      (convScan cv mix.out_channels mix.out_position).i0 ≠ -1 →
      (convScan cv mix.out_channels mix.out_position).i2 = -1 →
      fillCompatibleOne mix cv m (convScan cv mix.in_channels mix.in_position).i2.toNat
          (convScan cv mix.out_channels mix.out_position).i0.toNat
        = if (convScan cv mix.in_channels mix.in_position).i0 = -1 then 1 else 1 / 2) ∧
    ((convScan cv mix.in_channels mix.in_position).i2 ≠ -1 →
      (convScan cv mix.out_channels mix.out_position).i1 ≠ -1 →
      (convScan cv mix.out_channels mix.out_position).i2 = -1 →
      fillCompatibleOne mix cv m (convScan cv mix.in_channels mix.in_position).i2.toNat
          (convScan cv mix.out_channels mix.out_position).i1.toNat
        = if (convScan cv mix.in_channels mix.in_position).i1 = -1 then 1 else 1 / 2) := by
  obtain ⟨f0, f1, f2, f01, f02, f12⟩ := convScan_distinct cv hcv mix.in_channels mix.in_position
  obtain ⟨t0, t1, t2, t01, t02, t12⟩ :=
    convScan_distinct cv hcv mix.out_channels mix.out_position
  unfold fillCompatibleOne
  refine ⟨?_, ?_, ?_, ?_⟩
  · intro h1 h2 h3
    rw [ite3_setCell_other, ite3_setCell_other, ite3_setCell_other]
    · exact ite3_setCell_same _ _ _ _ _ _ _ _ _ _ h1 h3 h2
    · rintro (h | h | h) <;> omega
    · rintro (h | h | h) <;> omega
    · rintro (h | h | h) <;> omega
  · intro h1 h2 h3
    rw [ite3_setCell_other, ite3_setCell_other]
    · exact ite3_setCell_same _ _ _ _ _ _ _ _ _ _ h1 h3 h2
    · rintro (h | h | h) <;> omega
    · rintro (h | h | h) <;> omega
  · intro h1 h2 h3
    rw [ite3_setCell_other]
    · exact ite3_setCell_same _ _ _ _ _ _ _ _ _ _ h1 h3 h2
    · rintro (h | h | h) <;> omega
  · intro h1 h2 h3
    exact ite3_setCell_same _ _ _ _ _ _ _ _ _ _ h1 h3 h2

theorem isLastIndex_ne_of_has (channels : Nat) (position : List GstAudioChannelPosition)
    (p : GstAudioChannelPosition) (x : Int)
    (h : IsLastIndex channels position (fun r => r = p) x)
    (hp : ¬ Lacks channels position p) : x ≠ -1 := by
  intro hx
  rcases h with ⟨_, h2⟩ | ⟨h1, _⟩
  · exact hp h2
  · omega

theorem isLastIndex_of_isLastAt (channels : Nat) (position : List GstAudioChannelPosition)
    (p : GstAudioChannelPosition) (x : Int) (a : Nat)
    (h : IsLastIndex channels position (fun r => r = p) x)
    (ha : IsLastAt channels position p a) : x = (a : Int) :=
  isLastIndex_eq_of_last channels position _ x a h ha.1 ha.2.1 ha.2.2

theorem isLastIndex_of_lacks (channels : Nat) (position : List GstAudioChannelPosition)
    (p : GstAudioChannelPosition) (x : Int)
    (h : IsLastIndex channels position (fun r => r = p) x)
    (hp : Lacks channels position p) : x = -1 :=
  isLastIndex_eq_of_none channels position _ x h hp

/-- The position triples of two different entries of `conv[]` are disjoint. -/
theorem conv_disjoint (c cv : Conv) (hc : c ∈ conv) (hcv : cv ∈ conv) (hne : c ≠ cv)
    (p : GstAudioChannelPosition)
    (hp : p = cv.pos1_0 ∨ p = cv.pos1_1 ∨ p = cv.pos2_0) :
    p ≠ c.pos1_0 ∧ p ≠ c.pos1_1 ∧ p ≠ c.pos2_0 := by
  unfold conv at hc hcv
  simp only [List.mem_cons, List.mem_singleton, List.not_mem_nil, or_false] at hc hcv
  rcases hc with rfl | rfl | rfl <;> rcases hcv with rfl | rfl | rfl <;>
    first
    | exact absurd rfl hne
    | (rcases hp with rfl | rfl | rfl <;> decide)

/-- A cell whose input position belongs to an entry of `conv[]` has, after the
compatible fill, the value that the pass for that entry gives it. -/
theorem fill_compatible_cell (mix : GstAudioChannelMix α) (cv : Conv) (hcv : cv ∈ conv)
    (a b : Nat) (v : α)
    (hp : posAt mix.in_position a = cv.pos1_0 ∨ posAt mix.in_position a = cv.pos1_1 ∨
      posAt mix.in_position a = cv.pos2_0)
    (hval : ∀ m, fillCompatibleOne mix cv m a b = v) :
    (gst_audio_channel_mix_fill_compatible mix).matrix a b = v := by
  show (conv.foldl (fun m c => fillCompatibleOne mix c m) mix.matrix) a b = v
  have key : ∀ (l : List Conv) (m0 : Nat → Nat → α), (∀ c, c ∈ l → c ∈ conv) →
      (m0 a b = v ∨ cv ∈ l) →
      (l.foldl (fun m c => fillCompatibleOne mix c m) m0) a b = v := by
    intro l
    induction l with
    | nil =>
      intro m0 _ h
      rcases h with h | h
      · exact h
      · exact absurd h (List.not_mem_nil cv)
    | cons c t ih =>
      intro m0 hl h
      rw [List.foldl_cons]
      apply ih _ (fun c2 hc2 => hl c2 (List.mem_cons_of_mem c hc2))
      by_cases hce : c = cv
      · left
        rw [hce]
        exact hval m0
      · rcases h with h | h
        · left
          rw [fillCompatibleOne_frame mix c (hl c (List.mem_cons_self c t)) m0 a b, h]
          rintro ⟨_, _, hpairs⟩
          obtain ⟨n0, n1, n2⟩ := conv_disjoint c cv (hl c (List.mem_cons_self c t)) hcv hce
            (posAt mix.in_position a) hp
          rcases hpairs with ⟨q, _⟩ | ⟨q, _⟩ | ⟨q, _⟩ | ⟨q, _⟩
          · exact n0 q
          · exact n1 q
          · exact n2 q
          · exact n2 q
        · right
          rcases List.mem_cons.mp h with h | h
          · exact absurd h.symm hce
          · exact h
  exact key conv mix.matrix (fun _ h => h) (Or.inr hcv)

end CompatibleWeights


section CompatibleClaim

variable {α : Type} [LinearOrderedField α]

open GstAudioChannelPosition

/-- The weights of the compatible fill for an entry of `conv[]`, whatever the
matrix held before. -/
theorem compatible_weights_any (mix : GstAudioChannelMix α) (cv : Conv) (hcv : cv ∈ conv)
    (side : GstAudioChannelPosition) (hside : side = cv.pos1_0 ∨ side = cv.pos1_1)
    (a b : Nat) :
    (IsLastAt mix.in_channels mix.in_position side a →
      IsLastAt mix.out_channels mix.out_position cv.pos2_0 b →
      Lacks mix.out_channels mix.out_position side →
      (Lacks mix.in_channels mix.in_position cv.pos2_0 →
        (gst_audio_channel_mix_fill_compatible mix).matrix a b = 1) ∧
      (¬ Lacks mix.in_channels mix.in_position cv.pos2_0 →
        (gst_audio_channel_mix_fill_compatible mix).matrix a b = 1 / 2)) ∧
    (IsLastAt mix.in_channels mix.in_position cv.pos2_0 a →
      IsLastAt mix.out_channels mix.out_position side b →
      Lacks mix.out_channels mix.out_position cv.pos2_0 →
      (Lacks mix.in_channels mix.in_position side →
        (gst_audio_channel_mix_fill_compatible mix).matrix a b = 1) ∧
      (¬ Lacks mix.in_channels mix.in_position side →
        (gst_audio_channel_mix_fill_compatible mix).matrix a b = 1 / 2)) := by
  obtain ⟨d01, d02, d12⟩ := conv_distinct cv hcv
  obtain ⟨i0, i1, i2⟩ := convScan_spec cv d01 d02 d12 mix.in_channels mix.in_position
  obtain ⟨o0, o1, o2⟩ := convScan_spec cv d01 d02 d12 mix.out_channels mix.out_position
  have cells := compatibleOne_cells mix cv hcv
  rcases hside with rfl | rfl
  · constructor
    · intro hA hB hL
      have eA := toNat_of_eq_natCast (isLastIndex_of_isLastAt _ _ _ _ a i0 hA)
      have eB := toNat_of_eq_natCast (isLastIndex_of_isLastAt _ _ _ _ b o2 hB)
      have eL := isLastIndex_of_lacks _ _ _ _ o0 hL
      have hval : ∀ m, fillCompatibleOne mix cv m a b =
          if (convScan cv mix.in_channels mix.in_position).i2 = -1 then 1 else 1 / 2 := by
        intro m
        have h := (cells m).1 eA.2 eB.2 eL
        rw [eA.1, eB.1] at h
        exact h
      constructor
      · intro hU
        rw [fill_compatible_cell mix cv hcv a b _ (Or.inl hA.2.1) hval,
          if_pos (isLastIndex_of_lacks _ _ _ _ i2 hU)]
      · intro hU
        rw [fill_compatible_cell mix cv hcv a b _ (Or.inl hA.2.1) hval,
          if_neg (isLastIndex_ne_of_has _ _ _ _ i2 hU)]
    · intro hA hB hL
      have eA := toNat_of_eq_natCast (isLastIndex_of_isLastAt _ _ _ _ a i2 hA)
      have eB := toNat_of_eq_natCast (isLastIndex_of_isLastAt _ _ _ _ b o0 hB)
      have eL := isLastIndex_of_lacks _ _ _ _ o2 hL
      have hval : ∀ m, fillCompatibleOne mix cv m a b =
          if (convScan cv mix.in_channels mix.in_position).i0 = -1 then 1 else 1 / 2 := by
        intro m
        have h := (cells m).2.2.1 eA.2 eB.2 eL
        rw [eA.1, eB.1] at h
        exact h
      constructor
      · intro hU
        rw [fill_compatible_cell mix cv hcv a b _ (Or.inr (Or.inr hA.2.1)) hval,
          if_pos (isLastIndex_of_lacks _ _ _ _ i0 hU)]
      · intro hU
        rw [fill_compatible_cell mix cv hcv a b _ (Or.inr (Or.inr hA.2.1)) hval,
          if_neg (isLastIndex_ne_of_has _ _ _ _ i0 hU)]
  · constructor
    · intro hA hB hL
      have eA := toNat_of_eq_natCast (isLastIndex_of_isLastAt _ _ _ _ a i1 hA)
      have eB := toNat_of_eq_natCast (isLastIndex_of_isLastAt _ _ _ _ b o2 hB)
      have eL := isLastIndex_of_lacks _ _ _ _ o1 hL
      have hval : ∀ m, fillCompatibleOne mix cv m a b =
          if (convScan cv mix.in_channels mix.in_position).i2 = -1 then 1 else 1 / 2 := by
        intro m
        have h := (cells m).2.1 eA.2 eB.2 eL
        rw [eA.1, eB.1] at h
        exact h
      constructor
      · intro hU
        rw [fill_compatible_cell mix cv hcv a b _ (Or.inr (Or.inl hA.2.1)) hval,
          if_pos (isLastIndex_of_lacks _ _ _ _ i2 hU)]
      · intro hU
        rw [fill_compatible_cell mix cv hcv a b _ (Or.inr (Or.inl hA.2.1)) hval,
          if_neg (isLastIndex_ne_of_has _ _ _ _ i2 hU)]
    · intro hA hB hL
      have eA := toNat_of_eq_natCast (isLastIndex_of_isLastAt _ _ _ _ a i2 hA)
      have eB := toNat_of_eq_natCast (isLastIndex_of_isLastAt _ _ _ _ b o1 hB)
      have eL := isLastIndex_of_lacks _ _ _ _ o2 hL
      have hval : ∀ m, fillCompatibleOne mix cv m a b =
          if (convScan cv mix.in_channels mix.in_position).i1 = -1 then 1 else 1 / 2 := by
        intro m
        have h := (cells m).2.2.2 eA.2 eB.2 eL
        rw [eA.1, eB.1] at h
        exact h
      constructor
      · intro hU
        rw [fill_compatible_cell mix cv hcv a b _ (Or.inr (Or.inr hA.2.1)) hval,
          if_pos (isLastIndex_of_lacks _ _ _ _ i1 hU)]
      · intro hU
        rw [fill_compatible_cell mix cv hcv a b _ (Or.inr (Or.inr hA.2.1)) hval,
          if_neg (isLastIndex_ne_of_has _ _ _ _ i1 hU)]

/-- Claim C20: for each entry `cv` of `conv[]`, that is for each of the pairs
(front-left, front-right | mono), (front-left-of-center, front-right-of-center |
front-center), (rear-left, rear-right | rear-center), and each side position of it,
after `gst_audio_channel_mix_fill_compatible` has run on the matrix of the
identical fill: the weight side -> unified is 1.0 when the input has the side
channel and not the unified channel and the output has the unified channel and
not the side channel, and 0.5 when the input has both and the output has the
unified channel and not the side channel; the weight unified -> side is 1.0 when
the input has the unified channel and not the side channel and the output has the
side channel and not the unified channel, and 0.5 when the input has both and the
output has the side channel and not the unified channel. With repeated positions
the cell is that of the last channel of each position. -/
theorem compatible_group_weights (mix : GstAudioChannelMix α) (cv : Conv) (hcv : cv ∈ conv)
    (side : GstAudioChannelPosition) (hside : side = cv.pos1_0 ∨ side = cv.pos1_1)
    (a b : Nat) :
    (IsLastAt mix.in_channels mix.in_position side a →
      IsLastAt mix.out_channels mix.out_position cv.pos2_0 b →
      Lacks mix.out_channels mix.out_position side →
      (Lacks mix.in_channels mix.in_position cv.pos2_0 →
        (gst_audio_channel_mix_fill_compatible
          (gst_audio_channel_mix_fill_identical mix)).matrix a b = 1) ∧
      (¬ Lacks mix.in_channels mix.in_position cv.pos2_0 →
        (gst_audio_channel_mix_fill_compatible
          (gst_audio_channel_mix_fill_identical mix)).matrix a b = 1 / 2)) ∧
    (IsLastAt mix.in_channels mix.in_position cv.pos2_0 a →
      IsLastAt mix.out_channels mix.out_position side b →
      Lacks mix.out_channels mix.out_position cv.pos2_0 →
      (Lacks mix.in_channels mix.in_position side →
        (gst_audio_channel_mix_fill_compatible
          (gst_audio_channel_mix_fill_identical mix)).matrix a b = 1) ∧
      (¬ Lacks mix.in_channels mix.in_position side →
        (gst_audio_channel_mix_fill_compatible
          (gst_audio_channel_mix_fill_identical mix)).matrix a b = 1 / 2)) ∧
    conv = [⟨FRONT_LEFT, FRONT_RIGHT, MONO⟩,
      ⟨FRONT_LEFT_OF_CENTER, FRONT_RIGHT_OF_CENTER, FRONT_CENTER⟩,
      ⟨REAR_LEFT, REAR_RIGHT, REAR_CENTER⟩] :=
  ⟨(compatible_weights_any (gst_audio_channel_mix_fill_identical mix) cv hcv side hside a b).1,
    (compatible_weights_any (gst_audio_channel_mix_fill_identical mix) cv hcv side hside a b).2,
    rfl⟩

/-- Claim C20 at input [front-left, mono] and output [mono]: the input has both
the side and the unified channel, the output only the unified one, and front-left
reaches mono at 0.5. -/
theorem compatible_group_weights_witness :
    (gst_audio_channel_mix_fill_compatible (gst_audio_channel_mix_fill_identical
      (mixInit (α := ℚ) 0 GstAudioFormat.S32 2 [FRONT_LEFT, MONO] 1 [MONO]))).matrix 0 0
      = 1 / 2 :=
  ((compatible_group_weights
    (mixInit (α := ℚ) 0 GstAudioFormat.S32 2 [FRONT_LEFT, MONO] 1 [MONO])
    ⟨FRONT_LEFT, FRONT_RIGHT, MONO⟩ (List.mem_cons_self _ _) FRONT_LEFT (Or.inl rfl) 0 0).1
    (by unfold IsLastAt; decide) (by unfold IsLastAt; decide) (by unfold Lacks; decide)).2
    (by unfold Lacks; decide)

end CompatibleClaim


/-! ## Fixed point against exact weights -/

section FixedPointError

open GstAudioChannelPosition

/-- The matrix for input [front-left, front-right, low-frequency, rear-left,
rear-right] and stereo output before normalization. -/
theorem surround41_stereo_before_normalize {α : Type} [LinearOrderedField α]
    (sqrt : α → α) (flags : Nat) (format : GstAudioFormat) :
    (gst_audio_channel_mix_fill_others sqrt
      (gst_audio_channel_mix_fill_compatible
        (gst_audio_channel_mix_fill_identical
          (mixInit (α := α) flags format
            5 [FRONT_LEFT, FRONT_RIGHT, LFE1, REAR_LEFT, REAR_RIGHT]
            2 [FRONT_LEFT, FRONT_RIGHT])))).matrix =
      setCell (setCell (setCell (setCell (setCell (setCell
        (fun _ _ => 0) 0 0 1) 1 1 1)
        3 0 RATIO_FRONT_REAR) 4 1 RATIO_FRONT_REAR)
        2 0 RATIO_FRONT_BASS) 2 1 RATIO_FRONT_BASS := rfl

theorem truncToInt_eq_of_floor {α : Type} [LinearOrderedField α] [FloorRing α] (x : α) (k : Int)
    (h0 : 0 ≤ x) (h1 : (k : α) ≤ x) (h2 : x < (k : α) + 1) : truncToInt x = k := by
  unfold truncToInt
  rw [if_pos h0, Int.floor_eq_iff]
  exact ⟨h1, h2⟩

/-- The weights of the mixer from [front-left, front-right, low-frequency,
rear-left, rear-right] to stereo that reach the left output: 2/5, 0, 2/5, 1/5, 0,
stored in fixed point as 409, 0, 409, 204, 0. -/
theorem surround41_stereo_left_column (mix : GstAudioChannelMix ℝ)
    (hnew : gst_audio_channel_mix_new Real.sqrt 0 GstAudioFormat.S32
      5 [FRONT_LEFT, FRONT_RIGHT, LFE1, REAR_LEFT, REAR_RIGHT]
      2 [FRONT_LEFT, FRONT_RIGHT] = some mix) :
    mix.in_channels = 5 ∧ mix.out_channels = 2 ∧
    mix.matrix 0 0 = 2 / 5 ∧ mix.matrix 1 0 = 0 ∧ mix.matrix 2 0 = 2 / 5 ∧
    mix.matrix 3 0 = 1 / 5 ∧ mix.matrix 4 0 = 0 ∧
    mix.matrix_int 0 0 = 409 ∧ mix.matrix_int 1 0 = 0 ∧ mix.matrix_int 2 0 = 409 ∧
    mix.matrix_int 3 0 = 204 ∧ mix.matrix_int 4 0 = 0 := by
  obtain ⟨hin, hout, hmat⟩ := new_matrix_cases _ _ _ _ _ _ _ _ hnew
  have hns : ¬ IsSpecialPair (5 : Int).toNat
      [FRONT_LEFT, FRONT_RIGHT, LFE1, REAR_LEFT, REAR_RIGHT] (2 : Int).toNat
      [FRONT_LEFT, FRONT_RIGHT] := by decide
  rw [if_neg hns, if_pos (by decide)] at hmat
  have hin5 : mix.in_channels = 5 := hin
  have hout2 : mix.out_channels = 2 := hout
  have hpre := surround41_stereo_before_normalize Real.sqrt 0 GstAudioFormat.S32
  have hsum : ∀ j, j < 2 → normalizeSum (gst_audio_channel_mix_fill_others Real.sqrt
      (gst_audio_channel_mix_fill_compatible
        (gst_audio_channel_mix_fill_identical
          (mixInit (α := ℝ) 0 GstAudioFormat.S32
            5 [FRONT_LEFT, FRONT_RIGHT, LFE1, REAR_LEFT, REAR_RIGHT]
            2 [FRONT_LEFT, FRONT_RIGHT])))) j = 5 / 2 := by
    intro j hj
    rw [normalizeSum_eq, hpre]
    show ∑ i in Finset.range 5, _ = _
    have : j = 0 ∨ j = 1 := by omega
    rcases this with h | h <;> subst h <;>
      simp [Finset.sum_range_succ, setCell, RATIO_FRONT_REAR, RATIO_FRONT_BASS, abs_of_pos] <;>
      norm_num
  have htop := normalizeTop_eq_of _ (5 / 2 : ℝ) (by norm_num)
    (fun j hj => le_of_eq (hsum j hj)) ⟨0, Nat.zero_lt_two, hsum 0 Nat.zero_lt_two⟩
  have hcell : ∀ i j, i < 5 → j < 2 →
      mix.matrix i j =
      (setCell (setCell (setCell (setCell (setCell (setCell
        (fun _ _ => (0 : ℝ)) 0 0 1) 1 1 1)
        3 0 RATIO_FRONT_REAR) 4 1 RATIO_FRONT_REAR)
        2 0 RATIO_FRONT_BASS) 2 1 RATIO_FRONT_BASS) i j / (5 / 2) := by
    intro i j hi hj
    rw [hmat, fill_normalize_matrix, htop, hpre]
    exact if_pos ⟨by norm_num, hi, hj⟩
  have m0 : mix.matrix 0 0 = 2 / 5 := by
    rw [hcell 0 0 (by decide) (by decide)]; simp [setCell]
  have m1 : mix.matrix 1 0 = 0 := by
    rw [hcell 1 0 (by decide) (by decide)]; simp [setCell]
  have m2 : mix.matrix 2 0 = 2 / 5 := by
    rw [hcell 2 0 (by decide) (by decide)]; simp [setCell, RATIO_FRONT_BASS]
  have m3 : mix.matrix 3 0 = 1 / 5 := by
    rw [hcell 3 0 (by decide) (by decide)]; simp [setCell, RATIO_FRONT_REAR]; norm_num
  have m4 : mix.matrix 4 0 = 0 := by
    rw [hcell 4 0 (by decide) (by decide)]; simp [setCell]
  have hint : ∀ i, i < 5 → mix.matrix_int i 0 = truncToInt (mix.matrix i 0 * 1024) := by
    intro i hi
    rw [new_matrix_int_cell _ _ _ _ _ _ _ _ hnew i 0, if_pos ⟨by rw [hin5]; exact hi,
      by rw [hout2]; decide⟩]
  refine ⟨hin5, hout2, m0, m1, m2, m3, m4, ?_, ?_, ?_, ?_, ?_⟩
  · rw [hint 0 (by decide), m0]
    exact truncToInt_eq_of_floor _ 409 (by norm_num) (by norm_num) (by norm_num)
  · rw [hint 1 (by decide), m1]
    exact truncToInt_eq_of_floor _ 0 (by norm_num) (by norm_num) (by norm_num)
  · rw [hint 2 (by decide), m2]
    exact truncToInt_eq_of_floor _ 409 (by norm_num) (by norm_num) (by norm_num)
  · rw [hint 3 (by decide), m3]
    exact truncToInt_eq_of_floor _ 204 (by norm_num) (by norm_num) (by norm_num)
  · rw [hint 4 (by decide), m4]
    exact truncToInt_eq_of_floor _ 0 (by norm_num) (by norm_num) (by norm_num)

/-- Claim C12, refuted as stated: the mixer from [front-left, front-right,
low-frequency, rear-left, rear-right] to stereo, built with the unpositioned flag
clear, has the left-column weights 2/5, 2/5, 1/5, stored as 409, 409, 204 of 1024.
On a frame whose samples are all 2147483647 the S32 path writes 2143289343 to the
left output, the exact mix is 2147483647, and the difference 4194304 = 2^22
exceeds 2^21. -/
theorem fixed_point_error_exceeds_one_step :
    ∃ mix : GstAudioChannelMix ℝ,
      gst_audio_channel_mix_new Real.sqrt 0 GstAudioFormat.S32
        5 [FRONT_LEFT, FRONT_RIGHT, LFE1, REAR_LEFT, REAR_RIGHT]
        2 [FRONT_LEFT, FRONT_RIGHT] = some mix ∧
      gst_audio_channel_mix_mix_int mix (fun _ => 2147483647) 0 100 1
        (100 + (0 * mix.out_channels + 0)) = 2143289343 ∧
      ∑ i in Finset.range mix.in_channels,
        (((fun _ => 2147483647 : Nat → Int) (0 + (0 * mix.in_channels + i)) : Int) : ℝ)
          * mix.matrix i 0 = 2147483647 ∧
      (2 : ℝ) ^ 21 < |((2143289343 : Int) : ℝ) - 2147483647| := by
  have hnew : gst_audio_channel_mix_new Real.sqrt 0 GstAudioFormat.S32
      5 [FRONT_LEFT, FRONT_RIGHT, LFE1, REAR_LEFT, REAR_RIGHT]
      2 [FRONT_LEFT, FRONT_RIGHT] =
      some (gst_audio_channel_mix_setup_matrix Real.sqrt
        (mixInit (α := ℝ) 0 GstAudioFormat.S32
          5 [FRONT_LEFT, FRONT_RIGHT, LFE1, REAR_LEFT, REAR_RIGHT]
          2 [FRONT_LEFT, FRONT_RIGHT])) :=
    (new_eq_some _ _ _ _ _ _ _ _).mpr ⟨⟨Or.inl rfl, by decide, by decide⟩, rfl⟩
  obtain ⟨hin, hout, m0, m1, m2, m3, m4, k0, k1, k2, k3, k4⟩ :=
    surround41_stereo_left_column _ hnew
  refine ⟨_, hnew, ?_, ?_, ?_⟩
  · rw [mix_int_sample _ _ 0 100 1 (Or.inr (Or.inl (by rw [hin]; decide))) 0 (by decide) 0
        (by rw [hout]; decide),
      mixIntSample_eq _ _ 0 0 0 (by rw [hin]; decide)
        (fun i _ => new_matrix_int_abs_le _ _ _ _ _ _ _ _ hnew i 0)
        (fun _ => ⟨by decide, by decide⟩),
      floor_div_1024, hin]
    simp only [Finset.sum_range_succ, Finset.sum_range_zero, k0, k1, k2, k3, k4]
    decide
  · rw [hin]
    simp only [Finset.sum_range_succ, Finset.sum_range_zero, m0, m1, m2, m3, m4]
    norm_num
  · norm_num

end FixedPointError


section FixedPointBound

open GstAudioChannelPosition

/-- With the unpositioned flag clear every output column of a mixer has absolute
weights that sum to at most 1. -/
theorem new_column_sum_le_one {α : Type} [LinearOrderedField α] [FloorRing α]
    (sqrt : α → α) (flags : Nat) (format : GstAudioFormat)
    (in_channels : Int) (in_position : List GstAudioChannelPosition)
    (out_channels : Int) (out_position : List GstAudioChannelPosition)
    (mix : GstAudioChannelMix α)
    (hnew : gst_audio_channel_mix_new sqrt flags format in_channels in_position
      out_channels out_position = some mix)
    (hflag : flags &&& GST_AUDIO_CHANNEL_MIX_FLAGS_UNPOSITIONED_IN = 0) :
    ∀ j, j < mix.out_channels →
      ∑ i in Finset.range mix.in_channels, |mix.matrix i j| ≤ 1 := by
  obtain ⟨hin, hout, hmat⟩ := new_matrix_cases _ _ _ _ _ _ _ _ hnew
  by_cases hs : IsSpecialPair in_channels.toNat in_position out_channels.toNat out_position
  · rw [if_pos hs] at hmat
    rcases fill_special_mixInit_matrix (α := α) flags format in_channels in_position
      out_channels out_position hs with ⟨h1, h2, hm⟩ | ⟨h1, h2, hm⟩
    · rw [hm] at hmat
      rw [hin, hout, h1, h2, hmat]
      have habs : |(1 : α) / 2| = 1 / 2 := abs_of_pos (by norm_num)
      intro j hj
      have : j = 0 := by omega
      subst this
      simp only [Finset.sum_range_succ, Finset.sum_range_zero, setCell]
      norm_num [habs]
    · rw [hm] at hmat
      rw [hin, hout, h1, h2, hmat]
      intro j hj
      have : j = 0 ∨ j = 1 := by omega
      rcases this with h | h <;> subst h <;>
        simp only [Finset.sum_range_succ, Finset.sum_range_zero, setCell] <;> norm_num
  · rw [if_neg hs, if_pos hflag] at hmat
    have hsums := fill_normalize_sums
      (gst_audio_channel_mix_fill_others sqrt
        (gst_audio_channel_mix_fill_compatible
          (gst_audio_channel_mix_fill_identical
            (mixInit (α := α) flags format in_channels in_position
              out_channels out_position))))
    have hi0 : (gst_audio_channel_mix_fill_others sqrt
        (gst_audio_channel_mix_fill_compatible
          (gst_audio_channel_mix_fill_identical
            (mixInit (α := α) flags format in_channels in_position
              out_channels out_position)))).in_channels = mix.in_channels := hin.symm
    have ho0 : (gst_audio_channel_mix_fill_others sqrt
        (gst_audio_channel_mix_fill_compatible
          (gst_audio_channel_mix_fill_identical
            (mixInit (α := α) flags format in_channels in_position
              out_channels out_position)))).out_channels = mix.out_channels := hout.symm
    simp only [normalizeSum_eq, fill_normalize_in_channels] at hsums
    rw [hi0, ho0, ← hmat] at hsums
    exact hsums.1

theorem clip_toward_range (R out : Int) (E B : ℝ)
    (hout : out = max (-2 ^ 31) (min (2 ^ 31 - 1) R))
    (hlo : -2 ^ 31 ≤ E) (hhi : E ≤ 2 ^ 31 - 1)
    (h1 : (R : ℝ) - E < B) (h2 : E - (R : ℝ) < B) :
    |(out : ℝ) - E| < B := by
  have hB : 0 < B := by linarith
  rw [abs_lt]
  by_cases c1 : R < -2 ^ 31
  · have e : out = -2 ^ 31 := by omega
    have c1r : (R : ℝ) < -2 ^ 31 := by exact_mod_cast c1
    rw [e]
    push_cast
    constructor <;> linarith
  · by_cases c2 : 2 ^ 31 - 1 < R
    · have e : out = 2 ^ 31 - 1 := by omega
      have c2r : (2 : ℝ) ^ 31 - 1 < (R : ℝ) := by exact_mod_cast c2
      rw [e]
      push_cast
      constructor <;> linarith
    · have e : out = R := by omega
      rw [e]
      constructor <;> linarith

end FixedPointBound


section FixedPointClaim

open GstAudioChannelPosition

theorem int_div_1024_bounds (I : Int) :
    (1024 : ℝ) * ((I / 1024 : Int) : ℝ) ≤ (I : ℝ) ∧
    (I : ℝ) < 1024 * ((I / 1024 : Int) : ℝ) + 1024 := by
  have h1 : 1024 * (I / 1024) ≤ I := by omega
  have h2 : I < 1024 * (I / 1024) + 1024 := by omega
  constructor
  · exact_mod_cast h1
  · exact_mod_cast h2

/-- The exact mix `sum_i s_i * matrix[i][o]` of a frame of `gint32` samples lies in
the `gint32` range, and the fixed-point accumulator differs from 1024 times it by
at most `2^31` for each input channel. -/
theorem exact_mix_bounds (flags : Nat) (format : GstAudioFormat)
    (in_channels : Int) (in_position : List GstAudioChannelPosition)
    (out_channels : Int) (out_position : List GstAudioChannelPosition)
    (mix : GstAudioChannelMix ℝ)
    (hnew : gst_audio_channel_mix_new Real.sqrt flags format in_channels in_position
      out_channels out_position = some mix)
    (hflag : flags &&& GST_AUDIO_CHANNEL_MIX_FLAGS_UNPOSITIONED_IN = 0)
    (s : Nat → Int) (hs : ∀ i, G_MININT32 ≤ s i ∧ s i ≤ G_MAXINT32)
    (o : Nat) (ho : o < mix.out_channels) :
    -2 ^ 31 ≤ ∑ i in Finset.range mix.in_channels, (s i : ℝ) * mix.matrix i o ∧
    ∑ i in Finset.range mix.in_channels, (s i : ℝ) * mix.matrix i o ≤ 2 ^ 31 - 1 ∧
    |((∑ i in Finset.range mix.in_channels, s i * mix.matrix_int i o : Int) : ℝ) -
      1024 * ∑ i in Finset.range mix.in_channels, (s i : ℝ) * mix.matrix i o|
      ≤ (mix.in_channels : ℝ) * 2 ^ 31 := by
  have hm0 : ∀ i, 0 ≤ mix.matrix i o := fun i =>
    new_matrix_nonneg _ _ _ _ _ _ _ _ othersRatios_real_nonneg hnew i o
  have hcol := new_column_sum_le_one _ _ _ _ _ _ _ _ hnew hflag o ho
  have hcol2 : ∑ i in Finset.range mix.in_channels, mix.matrix i o ≤ 1 := by
    refine le_trans (le_of_eq ?_) hcol
    exact Finset.sum_congr rfl (fun i _ => (abs_of_nonneg (hm0 i)).symm)
  have hcol0 : 0 ≤ ∑ i in Finset.range mix.in_channels, mix.matrix i o :=
    Finset.sum_nonneg (fun i _ => hm0 i)
  have hsr : ∀ i, (-2 ^ 31 : ℝ) ≤ (s i : ℝ) ∧ (s i : ℝ) ≤ 2 ^ 31 - 1 := by
    intro i
    have h := hs i
    unfold G_MININT32 G_MAXINT32 at h
    constructor
    · exact_mod_cast h.1
    · exact_mod_cast h.2
  refine ⟨?_, ?_, ?_⟩
  · have h1 : ∑ i in Finset.range mix.in_channels, (-2 ^ 31 : ℝ) * mix.matrix i o ≤
        ∑ i in Finset.range mix.in_channels, (s i : ℝ) * mix.matrix i o :=
      Finset.sum_le_sum (fun i _ => mul_le_mul_of_nonneg_right (hsr i).1 (hm0 i))
    rw [← Finset.mul_sum] at h1
    nlinarith
  · have h1 : ∑ i in Finset.range mix.in_channels, (s i : ℝ) * mix.matrix i o ≤
        ∑ i in Finset.range mix.in_channels, (2 ^ 31 - 1 : ℝ) * mix.matrix i o :=
      Finset.sum_le_sum (fun i _ => mul_le_mul_of_nonneg_right (hsr i).2 (hm0 i))
    rw [← Finset.mul_sum] at h1
    nlinarith
  · have hk : ∀ i, i ∈ Finset.range mix.in_channels →
        |(s i : ℝ) * ((mix.matrix_int i o : Int) : ℝ) - 1024 * ((s i : ℝ) * mix.matrix i o)|
          ≤ 2 ^ 31 := by
      intro i hi
      have hi2 : i < mix.in_channels := Finset.mem_range.mp hi
      have hcell := new_matrix_int_cell _ _ _ _ _ _ _ _ hnew i o
      rw [if_pos ⟨hi2, ho⟩] at hcell
      have hnn : (0 : ℝ) ≤ mix.matrix i o * 1024 := mul_nonneg (hm0 i) (by norm_num)
      have hfl : mix.matrix_int i o = Int.floor (mix.matrix i o * 1024) := by
        rw [hcell]
        unfold truncToInt
        rw [if_pos hnn]
      have f1 : ((mix.matrix_int i o : Int) : ℝ) ≤ mix.matrix i o * 1024 := by
        rw [hfl]; exact Int.floor_le _
      have f2 : mix.matrix i o * 1024 < ((mix.matrix_int i o : Int) : ℝ) + 1 := by
        rw [hfl]; exact Int.lt_floor_add_one _
      have e : (s i : ℝ) * ((mix.matrix_int i o : Int) : ℝ) -
          1024 * ((s i : ℝ) * mix.matrix i o) =
          (s i : ℝ) * (((mix.matrix_int i o : Int) : ℝ) - mix.matrix i o * 1024) := by ring
      rw [e, abs_mul]
      have a1 : |(s i : ℝ)| ≤ 2 ^ 31 := by
        rw [abs_le]
        constructor <;> linarith [(hsr i).1, (hsr i).2]
      have a2 : |((mix.matrix_int i o : Int) : ℝ) - mix.matrix i o * 1024| ≤ 1 := by
        rw [abs_le]
        constructor <;> linarith
      calc |(s i : ℝ)| * |((mix.matrix_int i o : Int) : ℝ) - mix.matrix i o * 1024|
          ≤ 2 ^ 31 * 1 := mul_le_mul a1 a2 (abs_nonneg _) (by norm_num)
        _ = 2 ^ 31 := by ring
    have e2 : ((∑ i in Finset.range mix.in_channels, s i * mix.matrix_int i o : Int) : ℝ) -
        1024 * ∑ i in Finset.range mix.in_channels, (s i : ℝ) * mix.matrix i o =
        ∑ i in Finset.range mix.in_channels,
          ((s i : ℝ) * ((mix.matrix_int i o : Int) : ℝ) -
            1024 * ((s i : ℝ) * mix.matrix i o)) := by
      rw [Finset.sum_sub_distrib, Finset.mul_sum]
      push_cast
      rfl
    rw [e2]
    refine le_trans (Finset.abs_sum_le_sum_abs _ _) ?_
    refine le_trans (Finset.sum_le_sum hk) ?_
    rw [Finset.sum_const, Finset.card_range]
    simp

/-- Claim C12, amended: for every mixer built with the unpositioned flag clear and
every frame of `gint32` samples, the output sample of the S32 path for an output
channel `o` differs from the exact real-valued mix `sum_i s_i * matrix[i][o]` by
less than `in_channels * 2^21 + 1`: each weight is truncated to a multiple of
`2^-10` separately, so the bound grows with the number of input channels. The
exact mix is what the F64 path computes on the same signal scaled by `2^-31`. -/
theorem fixed_point_error_bound (flags : Nat) (format : GstAudioFormat)
    (in_channels : Int) (in_position : List GstAudioChannelPosition)
    (out_channels : Int) (out_position : List GstAudioChannelPosition)
    (mix : GstAudioChannelMix ℝ)
    (hnew : gst_audio_channel_mix_new Real.sqrt flags format in_channels in_position
      out_channels out_position = some mix)
    (hflag : flags &&& GST_AUDIO_CHANNEL_MIX_FLAGS_UNPOSITIONED_IN = 0)
    (mem : Nat → Int) (in_data out_data : Nat) (samples : Int)
    (hb : BuffersOk mix in_data out_data samples)
    (hmem : ∀ a, G_MININT32 ≤ mem a ∧ mem a ≤ G_MAXINT32)
    (n : Nat) (hn : n < samples.toNat) (o : Nat) (ho : o < mix.out_channels) :
    |((gst_audio_channel_mix_mix_int mix mem in_data out_data samples
        (out_data + (n * mix.out_channels + o)) : Int) : ℝ) -
      ∑ i in Finset.range mix.in_channels,
        (mem (in_data + (n * mix.in_channels + i)) : ℝ) * mix.matrix i o|
      < (mix.in_channels : ℝ) * 2 ^ 21 + 1 ∧
    ∀ memd : Nat → ℝ, (∀ a, memd a = (mem a : ℝ) / 2 ^ 31) →
      gst_audio_channel_mix_mix_double mix memd in_data out_data samples
        (out_data + (n * mix.out_channels + o)) =
      (∑ i in Finset.range mix.in_channels,
        (mem (in_data + (n * mix.in_channels + i)) : ℝ) * mix.matrix i o) / 2 ^ 31 := by
  obtain ⟨hlo, hhi, hacc⟩ := exact_mix_bounds flags format in_channels in_position
    out_channels out_position mix hnew hflag
    (fun i => mem (in_data + (n * mix.in_channels + i)))
    (fun i => hmem _) o ho
  constructor
  · have hout : gst_audio_channel_mix_mix_int mix mem in_data out_data samples
        (out_data + (n * mix.out_channels + o)) =
        max (-2 ^ 31) (min (2 ^ 31 - 1)
          ((∑ i in Finset.range mix.in_channels,
            mem (in_data + (n * mix.in_channels + i)) * mix.matrix_int i o) / 1024)) := by
      rw [mix_int_sample mix mem in_data out_data samples hb n hn o ho,
        mixIntSample_eq mix mem in_data n o
          (new_in_channels_le _ _ _ _ _ _ _ _ hnew).1
          (fun i _ => new_matrix_int_abs_le _ _ _ _ _ _ _ _ hnew i o) hmem,
        floor_div_1024]
    obtain ⟨d1, d2⟩ := int_div_1024_bounds (∑ i in Finset.range mix.in_channels,
      mem (in_data + (n * mix.in_channels + i)) * mix.matrix_int i o)
    rw [abs_le] at hacc
    have hN : (0 : ℝ) ≤ (mix.in_channels : ℝ) := Nat.cast_nonneg _
    refine clip_toward_range _ _ _ _ hout hlo hhi ?_ ?_
    · linarith [hacc.2]
    · linarith [hacc.1]
  · intro memd hd
    rw [mix_double_sample mix memd in_data out_data samples hb n hn o ho, mixDoubleSample_eq]
    have e : ∑ i in Finset.range mix.in_channels,
        memd (in_data + (n * mix.in_channels + i)) * mix.matrix i o =
        (∑ i in Finset.range mix.in_channels,
          (mem (in_data + (n * mix.in_channels + i)) : ℝ) * mix.matrix i o) / 2 ^ 31 := by
      rw [Finset.sum_div]
      refine Finset.sum_congr rfl (fun i _ => ?_)
      rw [hd]
      ring
    rw [e]
    have p31 : (0 : ℝ) < 2 ^ 31 := by norm_num
    have b1 : -1 ≤ (∑ i in Finset.range mix.in_channels,
        (mem (in_data + (n * mix.in_channels + i)) : ℝ) * mix.matrix i o) / 2 ^ 31 := by
      rw [le_div_iff₀ p31]; linarith
    have b2 : (∑ i in Finset.range mix.in_channels,
        (mem (in_data + (n * mix.in_channels + i)) : ℝ) * mix.matrix i o) / 2 ^ 31 ≤ 1 := by
      rw [div_le_iff₀ p31]; linarith
    rw [max_eq_right b1, min_eq_right b2]

/-- Claim C12, amended, at the mixer from [front-left, front-right, low-frequency,
rear-left, rear-right] to stereo on a frame whose samples are all 2147483647. -/
theorem fixed_point_error_bound_witness :
    ∃ mix : GstAudioChannelMix ℝ,
      gst_audio_channel_mix_new Real.sqrt 0 GstAudioFormat.S32
        5 [FRONT_LEFT, FRONT_RIGHT, LFE1, REAR_LEFT, REAR_RIGHT]
        2 [FRONT_LEFT, FRONT_RIGHT] = some mix ∧
      |((gst_audio_channel_mix_mix_int mix (fun _ => 2147483647) 0 100 1
          (100 + (0 * mix.out_channels + 0)) : Int) : ℝ) -
        ∑ i in Finset.range mix.in_channels,
          (((fun _ => 2147483647 : Nat → Int) (0 + (0 * mix.in_channels + i)) : Int) : ℝ)
            * mix.matrix i 0|
        < (mix.in_channels : ℝ) * 2 ^ 21 + 1 := by
  have hnew : gst_audio_channel_mix_new Real.sqrt 0 GstAudioFormat.S32
      5 [FRONT_LEFT, FRONT_RIGHT, LFE1, REAR_LEFT, REAR_RIGHT]
      2 [FRONT_LEFT, FRONT_RIGHT] =
      some (gst_audio_channel_mix_setup_matrix Real.sqrt
        (mixInit (α := ℝ) 0 GstAudioFormat.S32
          5 [FRONT_LEFT, FRONT_RIGHT, LFE1, REAR_LEFT, REAR_RIGHT]
          2 [FRONT_LEFT, FRONT_RIGHT])) :=
    (new_eq_some _ _ _ _ _ _ _ _).mpr ⟨⟨Or.inl rfl, by decide, by decide⟩, rfl⟩
  obtain ⟨hin, hout, _⟩ := surround41_stereo_left_column _ hnew
  exact ⟨_, hnew, (fixed_point_error_bound 0 GstAudioFormat.S32
    5 [FRONT_LEFT, FRONT_RIGHT, LFE1, REAR_LEFT, REAR_RIGHT]
    2 [FRONT_LEFT, FRONT_RIGHT] _ hnew (by decide) (fun _ => 2147483647) 0 100 1
    (Or.inr (Or.inl (by rw [hin]; decide)))
    (fun _ => ⟨(by decide : G_MININT32 ≤ (2147483647 : Int)),
      (by decide : (2147483647 : Int) ≤ G_MAXINT32)⟩) 0 (by decide) 0
    (by rw [hout]; decide)).1⟩

end FixedPointClaim


/-! ## Fixed-point entries of a constructed mixer -/

section FixedPointEntries

open GstAudioChannelPosition

/-- The fixed-point entry of a cell of a constructed mixer is the floor of 1024
times a non-negative weight. -/
theorem new_matrix_int_floor (flags : Nat) (format : GstAudioFormat)
    (in_channels : Int) (in_position : List GstAudioChannelPosition)
    (out_channels : Int) (out_position : List GstAudioChannelPosition)
    (mix : GstAudioChannelMix ℝ)
    (hnew : gst_audio_channel_mix_new Real.sqrt flags format in_channels in_position
      out_channels out_position = some mix)
    (i j : Nat) (hi : i < mix.in_channels) (hj : j < mix.out_channels) :
    0 ≤ mix.matrix i j ∧
    mix.matrix_int i j = truncToInt (mix.matrix i j * 1024) ∧
    mix.matrix_int i j = Int.floor (mix.matrix i j * 1024) := by
  have h0 : 0 ≤ mix.matrix i j :=
    new_matrix_nonneg _ _ _ _ _ _ _ _ othersRatios_real_nonneg hnew i j
  have hcell := new_matrix_int_cell _ _ _ _ _ _ _ _ hnew i j
  rw [if_pos ⟨hi, hj⟩] at hcell
  refine ⟨h0, hcell, ?_⟩
  rw [hcell]
  unfold truncToInt
  rw [if_pos (mul_nonneg h0 (by norm_num))]

/-- Claim C21: for every constructed mixer and every cell of its matrix,
`matrix_int[i][j]` is `matrix[i][j] * 1024` truncated toward zero; the weight is
not negative, so this is the floor and
`matrix_int[i][j] <= 1024 * matrix[i][j] < matrix_int[i][j] + 1`; weight 1.0 gives
1024, weight 0.5 gives 512 and weight 0 gives 0. -/
theorem matrix_int_is_truncated_weight (flags : Nat) (format : GstAudioFormat)
    (in_channels : Int) (in_position : List GstAudioChannelPosition)
    (out_channels : Int) (out_position : List GstAudioChannelPosition)
    (mix : GstAudioChannelMix ℝ)
    (hnew : gst_audio_channel_mix_new Real.sqrt flags format in_channels in_position
      out_channels out_position = some mix)
    (i j : Nat) (hi : i < mix.in_channels) (hj : j < mix.out_channels) :
    mix.matrix_int i j = truncToInt (mix.matrix i j * 1024) ∧
    0 ≤ mix.matrix i j ∧
    mix.matrix_int i j = Int.floor (mix.matrix i j * 1024) ∧
    ((mix.matrix_int i j : Int) : ℝ) ≤ 1024 * mix.matrix i j ∧
    1024 * mix.matrix i j < ((mix.matrix_int i j : Int) : ℝ) + 1 ∧
    (mix.matrix i j = 1 → mix.matrix_int i j = 1024) ∧
    (mix.matrix i j = 1 / 2 → mix.matrix_int i j = 512) ∧
    (mix.matrix i j = 0 → mix.matrix_int i j = 0) := by
  obtain ⟨h0, ht, hf⟩ := new_matrix_int_floor flags format in_channels in_position
    out_channels out_position mix hnew i j hi hj
  have f1 : ((mix.matrix_int i j : Int) : ℝ) ≤ mix.matrix i j * 1024 := by
    rw [hf]; exact Int.floor_le _
  have f2 : mix.matrix i j * 1024 < ((mix.matrix_int i j : Int) : ℝ) + 1 := by
    rw [hf]; exact Int.lt_floor_add_one _
  refine ⟨ht, h0, hf, by linarith, by linarith, ?_, ?_, ?_⟩
  · intro h
    rw [hf, h, Int.floor_eq_iff]
    norm_num
  · intro h
    rw [hf, h, Int.floor_eq_iff]
    norm_num
  · intro h
    rw [hf, h, Int.floor_eq_iff]
    norm_num

/-- Claim C21 at the mixer for input [front-left, front-right] and output
[front-right, front-left], cell `[0][0]`. -/
theorem matrix_int_is_truncated_weight_witness :
    ∃ mix : GstAudioChannelMix ℝ,
      gst_audio_channel_mix_new Real.sqrt 0 GstAudioFormat.S32
        2 [FRONT_LEFT, FRONT_RIGHT] 2 [FRONT_RIGHT, FRONT_LEFT] = some mix ∧
      mix.matrix_int 0 0 = truncToInt (mix.matrix 0 0 * 1024) ∧
      0 ≤ mix.matrix 0 0 := by
  have hnew : gst_audio_channel_mix_new Real.sqrt 0 GstAudioFormat.S32
      2 [FRONT_LEFT, FRONT_RIGHT] 2 [FRONT_RIGHT, FRONT_LEFT] =
      some (gst_audio_channel_mix_setup_matrix Real.sqrt
        (mixInit (α := ℝ) 0 GstAudioFormat.S32 2 [FRONT_LEFT, FRONT_RIGHT] 2
          [FRONT_RIGHT, FRONT_LEFT])) :=
    (new_eq_some _ _ _ _ _ _ _ _).mpr ⟨⟨Or.inl rfl, by decide, by decide⟩, rfl⟩
  obtain ⟨hin, hout, _⟩ := new_matrix_cases _ _ _ _ _ _ _ _ hnew
  have h := matrix_int_is_truncated_weight 0 GstAudioFormat.S32
    2 [FRONT_LEFT, FRONT_RIGHT] 2 [FRONT_RIGHT, FRONT_LEFT] _ hnew 0 0
    (by rw [hin]; decide) (by rw [hout]; decide)
  exact ⟨_, hnew, h.1, h.2.1⟩

/-- Claim C24: for every mixer returned by `gst_audio_channel_mix_new`, whatever
the flags and the layouts (repeated positions and the special-case pairs
included), every weight of the matrix satisfies `0 <= matrix[i][j] <= 1` and every
fixed-point entry satisfies `0 <= matrix_int[i][j] <= 1024`. -/
theorem weights_in_unit_range (flags : Nat) (format : GstAudioFormat)
    (in_channels : Int) (in_position : List GstAudioChannelPosition)
    (out_channels : Int) (out_position : List GstAudioChannelPosition)
    (mix : GstAudioChannelMix ℝ)
    (hnew : gst_audio_channel_mix_new Real.sqrt flags format in_channels in_position
      out_channels out_position = some mix) :
    (∀ i j, i < mix.in_channels → j < mix.out_channels →
      0 ≤ mix.matrix i j ∧ mix.matrix i j ≤ 1) ∧
    (∀ i j, i < mix.in_channels → j < mix.out_channels →
      0 ≤ mix.matrix_int i j ∧ mix.matrix_int i j ≤ 1024) := by
  constructor
  · intro i j hi hj
    have h0 : 0 ≤ mix.matrix i j :=
      new_matrix_nonneg _ _ _ _ _ _ _ _ othersRatios_real_nonneg hnew i j
    have h1 := new_matrix_abs_le_one _ _ _ _ _ _ _ _ hnew i j hi hj
    rw [abs_of_nonneg h0] at h1
    exact ⟨h0, h1⟩
  · intro i j _ _
    exact new_matrix_int_range _ _ _ _ _ _ _ _ othersRatios_real_nonneg hnew i j

/-- Claim C24 at the mixer with the unpositioned flag set for the input
[front-left, front-left] and the output [front-left]. -/
theorem weights_in_unit_range_witness :
    ∃ mix : GstAudioChannelMix ℝ,
      gst_audio_channel_mix_new Real.sqrt GST_AUDIO_CHANNEL_MIX_FLAGS_UNPOSITIONED_IN
        GstAudioFormat.S32 2 [FRONT_LEFT, FRONT_LEFT] 1 [FRONT_LEFT] = some mix ∧
      (∀ i j, i < mix.in_channels → j < mix.out_channels →
        0 ≤ mix.matrix i j ∧ mix.matrix i j ≤ 1) := by
  have hnew : gst_audio_channel_mix_new Real.sqrt GST_AUDIO_CHANNEL_MIX_FLAGS_UNPOSITIONED_IN
      GstAudioFormat.S32 2 [FRONT_LEFT, FRONT_LEFT] 1 [FRONT_LEFT] =
      some (gst_audio_channel_mix_setup_matrix Real.sqrt
        (mixInit (α := ℝ) GST_AUDIO_CHANNEL_MIX_FLAGS_UNPOSITIONED_IN GstAudioFormat.S32
          2 [FRONT_LEFT, FRONT_LEFT] 1 [FRONT_LEFT])) :=
    (new_eq_some _ _ _ _ _ _ _ _).mpr ⟨⟨Or.inl rfl, by decide, by decide⟩, rfl⟩
  exact ⟨_, hnew, (weights_in_unit_range GST_AUDIO_CHANNEL_MIX_FLAGS_UNPOSITIONED_IN
    GstAudioFormat.S32 2 [FRONT_LEFT, FRONT_LEFT] 1 [FRONT_LEFT] _ hnew).1⟩

end FixedPointEntries


/-! ## The clamp of the S32 path -/

section ClampNotNeeded

open GstAudioChannelPosition

/-- With the unpositioned flag clear every output column of `matrix_int` has
entries that are not negative and sum to at most 1024. -/
theorem new_matrix_int_column_sum (flags : Nat) (format : GstAudioFormat)
    (in_channels : Int) (in_position : List GstAudioChannelPosition)
    (out_channels : Int) (out_position : List GstAudioChannelPosition)
    (mix : GstAudioChannelMix ℝ)
    (hnew : gst_audio_channel_mix_new Real.sqrt flags format in_channels in_position
      out_channels out_position = some mix)
    (hflag : flags &&& GST_AUDIO_CHANNEL_MIX_FLAGS_UNPOSITIONED_IN = 0)
    (o : Nat) (ho : o < mix.out_channels) :
    ∑ i in Finset.range mix.in_channels, mix.matrix_int i o ≤ 1024 := by
  have hm0 : ∀ i, 0 ≤ mix.matrix i o := fun i =>
    new_matrix_nonneg _ _ _ _ _ _ _ _ othersRatios_real_nonneg hnew i o
  have hcol := new_column_sum_le_one _ _ _ _ _ _ _ _ hnew hflag o ho
  have h1 : ∑ i in Finset.range mix.in_channels, ((mix.matrix_int i o : Int) : ℝ) ≤
      ∑ i in Finset.range mix.in_channels, 1024 * |mix.matrix i o| := by
    refine Finset.sum_le_sum (fun i hi => ?_)
    obtain ⟨_, _, hf⟩ := new_matrix_int_floor flags format in_channels in_position
      out_channels out_position mix hnew i o (Finset.mem_range.mp hi) ho
    rw [hf, abs_of_nonneg (hm0 i), mul_comm]
    exact Int.floor_le _
  rw [← Finset.mul_sum] at h1
  have h2 : ((∑ i in Finset.range mix.in_channels, mix.matrix_int i o : Int) : ℝ) ≤ 1024 := by
    push_cast
    linarith
  exact_mod_cast h2

/-- A sum of `gint32` samples with weights that are not negative and sum to at most
1024 lies between `-2^31 * 1024` and `(2^31 - 1) * 1024`. -/
theorem weighted_sum_range (s k : Nat → Int) (n : Nat)
    (hs : ∀ i, -2 ^ 31 ≤ s i ∧ s i ≤ 2 ^ 31 - 1) (hk : ∀ i, 0 ≤ k i)
    (hsum : ∑ i in Finset.range n, k i ≤ 1024) :
    -2 ^ 31 * 1024 ≤ ∑ i in Finset.range n, s i * k i ∧
    ∑ i in Finset.range n, s i * k i ≤ (2 ^ 31 - 1) * 1024 := by
  have hk0 : 0 ≤ ∑ i in Finset.range n, k i := Finset.sum_nonneg (fun i _ => hk i)
  constructor
  · have h1 : ∑ i in Finset.range n, (-2 ^ 31) * k i ≤ ∑ i in Finset.range n, s i * k i :=
      Finset.sum_le_sum (fun i _ => mul_le_mul_of_nonneg_right (hs i).1 (hk i))
    rw [← Finset.mul_sum] at h1
    nlinarith
  · have h1 : ∑ i in Finset.range n, s i * k i ≤ ∑ i in Finset.range n, (2 ^ 31 - 1) * k i :=
      Finset.sum_le_sum (fun i _ => mul_le_mul_of_nonneg_right (hs i).2 (hk i))
    rw [← Finset.mul_sum] at h1
    nlinarith

/-- Claim C25: for every mixer built with the unpositioned flag clear every output
column of `matrix_int` sums to at most 1024, so for every frame of `gint32`
samples the shifted accumulator `floor (sum_i in[i] * matrix_int[i][o] / 1024)`
lies in `[-2^31, 2^31 - 1]` and the output sample of the S32 path equals it: the
clamp changes nothing. -/
theorem clamp_not_needed_when_positioned (flags : Nat) (format : GstAudioFormat)
    (in_channels : Int) (in_position : List GstAudioChannelPosition)
    (out_channels : Int) (out_position : List GstAudioChannelPosition)
    (mix : GstAudioChannelMix ℝ)
    (hnew : gst_audio_channel_mix_new Real.sqrt flags format in_channels in_position
      out_channels out_position = some mix)
    (hflag : flags &&& GST_AUDIO_CHANNEL_MIX_FLAGS_UNPOSITIONED_IN = 0)
    (mem : Nat → Int) (in_data out_data : Nat) (samples : Int)
    (hb : BuffersOk mix in_data out_data samples)
    (hmem : ∀ a, G_MININT32 ≤ mem a ∧ mem a ≤ G_MAXINT32)
    (n : Nat) (hn : n < samples.toNat) (o : Nat) (ho : o < mix.out_channels) :
    ∑ i in Finset.range mix.in_channels, mix.matrix_int i o ≤ 1024 ∧
    -2 ^ 31 ≤ Int.floor (((∑ i in Finset.range mix.in_channels,
        mem (in_data + (n * mix.in_channels + i)) * mix.matrix_int i o : Int) : ℚ) / 1024) ∧
    Int.floor (((∑ i in Finset.range mix.in_channels,
        mem (in_data + (n * mix.in_channels + i)) * mix.matrix_int i o : Int) : ℚ) / 1024)
      ≤ 2 ^ 31 - 1 ∧
    gst_audio_channel_mix_mix_int mix mem in_data out_data samples
        (out_data + (n * mix.out_channels + o)) =
      Int.floor (((∑ i in Finset.range mix.in_channels,
        mem (in_data + (n * mix.in_channels + i)) * mix.matrix_int i o : Int) : ℚ) / 1024) ∧
    (∑ i in Finset.range mix.in_channels,
        mem (in_data + (n * mix.in_channels + i)) * mix.matrix_int i o) >>>
        INT_MATRIX_FACTOR_EXPONENT =
      Int.floor (((∑ i in Finset.range mix.in_channels,
        mem (in_data + (n * mix.in_channels + i)) * mix.matrix_int i o : Int) : ℚ) / 1024) := by
  have hcol := new_matrix_int_column_sum flags format in_channels in_position
    out_channels out_position mix hnew hflag o ho
  have hk : ∀ i, 0 ≤ mix.matrix_int i o := fun i =>
    (new_matrix_int_range _ _ _ _ _ _ _ _ othersRatios_real_nonneg hnew i o).1
  have hs : ∀ i, -2 ^ 31 ≤ mem (in_data + (n * mix.in_channels + i)) ∧
      mem (in_data + (n * mix.in_channels + i)) ≤ 2 ^ 31 - 1 := by
    intro i
    have h := hmem (in_data + (n * mix.in_channels + i))
    unfold G_MININT32 G_MAXINT32 at h
    constructor <;> omega
  have hr := weighted_sum_range
    (fun i => mem (in_data + (n * mix.in_channels + i))) (fun i => mix.matrix_int i o)
    mix.in_channels hs hk hcol
  have r1 : -2 ^ 31 * 1024 ≤ ∑ i in Finset.range mix.in_channels,
      mem (in_data + (n * mix.in_channels + i)) * mix.matrix_int i o := hr.1
  have r2 : ∑ i in Finset.range mix.in_channels,
      mem (in_data + (n * mix.in_channels + i)) * mix.matrix_int i o ≤ (2 ^ 31 - 1) * 1024 :=
    hr.2
  have hout := mixIntSample_eq mix mem in_data n o
    (new_in_channels_le _ _ _ _ _ _ _ _ hnew).1
    (fun i _ => new_matrix_int_abs_le _ _ _ _ _ _ _ _ hnew i o) hmem
  rw [← mix_int_sample mix mem in_data out_data samples hb n hn o ho] at hout
  rw [hout, floor_div_1024]
  have b1 : -2 ^ 31 ≤ (∑ i in Finset.range mix.in_channels,
      mem (in_data + (n * mix.in_channels + i)) * mix.matrix_int i o) / 1024 := by
    omega
  have b2 : (∑ i in Finset.range mix.in_channels,
      mem (in_data + (n * mix.in_channels + i)) * mix.matrix_int i o) / 1024 ≤ 2 ^ 31 - 1 := by
    omega
  refine ⟨hcol, b1, b2, ?_, ?_⟩
  · rw [min_eq_right b2, max_eq_right b1]
  · rw [shiftRight_ten_eq_floor, floor_div_1024]

/-- Claim C25 at the mixer from [front-left, front-right, low-frequency,
rear-left, rear-right] to stereo on a frame whose samples are all 2147483647. -/
theorem clamp_not_needed_when_positioned_witness :
    ∃ mix : GstAudioChannelMix ℝ,
      gst_audio_channel_mix_new Real.sqrt 0 GstAudioFormat.S32
        5 [FRONT_LEFT, FRONT_RIGHT, LFE1, REAR_LEFT, REAR_RIGHT]
        2 [FRONT_LEFT, FRONT_RIGHT] = some mix ∧
      ∑ i in Finset.range mix.in_channels, mix.matrix_int i 0 ≤ 1024 := by
  have hnew : gst_audio_channel_mix_new Real.sqrt 0 GstAudioFormat.S32
      5 [FRONT_LEFT, FRONT_RIGHT, LFE1, REAR_LEFT, REAR_RIGHT]
      2 [FRONT_LEFT, FRONT_RIGHT] =
      some (gst_audio_channel_mix_setup_matrix Real.sqrt
        (mixInit (α := ℝ) 0 GstAudioFormat.S32
          5 [FRONT_LEFT, FRONT_RIGHT, LFE1, REAR_LEFT, REAR_RIGHT]
          2 [FRONT_LEFT, FRONT_RIGHT])) :=
    (new_eq_some _ _ _ _ _ _ _ _).mpr ⟨⟨Or.inl rfl, by decide, by decide⟩, rfl⟩
  obtain ⟨hin, hout, _⟩ := surround41_stereo_left_column _ hnew
  exact ⟨_, hnew, (clamp_not_needed_when_positioned 0 GstAudioFormat.S32
    5 [FRONT_LEFT, FRONT_RIGHT, LFE1, REAR_LEFT, REAR_RIGHT]
    2 [FRONT_LEFT, FRONT_RIGHT] _ hnew (by decide) (fun _ => 2147483647) 0 100 1
    (Or.inr (Or.inl (by rw [hin]; decide)))
    (fun _ => ⟨(by decide : G_MININT32 ≤ (2147483647 : Int)),
      (by decide : (2147483647 : Int) ≤ G_MAXINT32)⟩) 0 (by decide) 0
    (by rw [hout]; decide)).1⟩

end ClampNotNeeded


/-! ## The special cases against the general pipeline -/

section FastPath

variable {α : Type} [LinearOrderedField α]

open GstAudioChannelPosition

theorem take_one_of_posAt (l : List GstAudioChannelPosition) (a : GstAudioChannelPosition)
    (ha : posAt l 0 = a) (ha2 : a ≠ INVALID) : l.take 1 = [a] := by
  cases l with
  | nil => exact absurd ha.symm ha2
  | cons x t =>
    have : x = a := ha
    rw [this]
    rfl

theorem take_two_of_posAt (l : List GstAudioChannelPosition) (a b : GstAudioChannelPosition)
    (ha : posAt l 0 = a) (hb : posAt l 1 = b) (hb2 : b ≠ INVALID) : l.take 2 = [a, b] := by
  cases l with
  | nil => exact absurd hb.symm hb2
  | cons x t =>
    cases t with
    | nil => exact absurd hb.symm hb2
    | cons y t2 =>
      have h1 : x = a := ha
      have h2 : y = b := hb
      rw [h1, h2]
      rfl

theorem mixInit_eq (flags : Nat) (format : GstAudioFormat)
    (in_channels : Int) (in_position : List GstAudioChannelPosition)
    (out_channels : Int) (out_position : List GstAudioChannelPosition)
    (n m : Nat) (l l2 : List GstAudioChannelPosition)
    (h1 : in_channels.toNat = n) (h2 : out_channels.toNat = m)
    (e1 : in_position.take n = l.take n) (e2 : out_position.take m = l2.take m) :
    mixInit (α := α) flags format in_channels in_position out_channels out_position =
      mixInit flags format (n : Int) l (m : Int) l2 := by
  unfold mixInit
  simp only [h1, h2, e1, e2, Int.toNat_ofNat]

/-- The general pipeline on the four special layout pairs, before normalization. -/
theorem special_pairs_before_normalize (sqrt : α → α) (flags : Nat) (format : GstAudioFormat) :
    (gst_audio_channel_mix_fill_others sqrt (gst_audio_channel_mix_fill_compatible
      (gst_audio_channel_mix_fill_identical
        (mixInit (α := α) flags format (2 : Nat) [FRONT_LEFT, FRONT_RIGHT] (1 : Nat) [MONO])))).matrix
      = setCell (setCell (fun _ _ => 0) 0 0 1) 1 0 1 ∧
    (gst_audio_channel_mix_fill_others sqrt (gst_audio_channel_mix_fill_compatible
      (gst_audio_channel_mix_fill_identical
        (mixInit (α := α) flags format (2 : Nat) [FRONT_RIGHT, FRONT_LEFT] (1 : Nat) [MONO])))).matrix
      = setCell (setCell (fun _ _ => 0) 1 0 1) 0 0 1 ∧
    (gst_audio_channel_mix_fill_others sqrt (gst_audio_channel_mix_fill_compatible
      (gst_audio_channel_mix_fill_identical
        (mixInit (α := α) flags format (1 : Nat) [MONO] (2 : Nat) [FRONT_LEFT, FRONT_RIGHT])))).matrix
      = setCell (setCell (fun _ _ => 0) 0 0 1) 0 1 1 ∧
    (gst_audio_channel_mix_fill_others sqrt (gst_audio_channel_mix_fill_compatible
      (gst_audio_channel_mix_fill_identical
        (mixInit (α := α) flags format (1 : Nat) [MONO] (2 : Nat) [FRONT_RIGHT, FRONT_LEFT])))).matrix
      = setCell (setCell (fun _ _ => 0) 0 1 1) 0 0 1 :=
  ⟨rfl, rfl, rfl, rfl⟩

/-- Claim C22: for the layout pairs that `gst_audio_channel_mix_fill_special`
recognises (front-left and front-right in either order to mono, mono to front-left
and front-right in either order), the general pipeline run on the zero matrix with
the unpositioned flag clear (identical fill, compatible fill, spatial-proximity
fill, normalization) gives the same matrix as the special case: `[[0.5],[0.5]]`
for stereo to mono and `[[1.0, 1.0]]` for mono to stereo. -/
theorem fast_path_is_shortcut (sqrt : α → α) (flags : Nat) (format : GstAudioFormat)
    (in_channels : Int) (in_position : List GstAudioChannelPosition)
    (out_channels : Int) (out_position : List GstAudioChannelPosition)
    (hflag : flags &&& GST_AUDIO_CHANNEL_MIX_FLAGS_UNPOSITIONED_IN = 0)
    (hs : IsSpecialPair in_channels.toNat in_position out_channels.toNat out_position) :
    (if (mixInit (α := α) flags format in_channels in_position out_channels
          out_position).flags &&& GST_AUDIO_CHANNEL_MIX_FLAGS_UNPOSITIONED_IN = 0 then
        gst_audio_channel_mix_fill_normalize
          (gst_audio_channel_mix_fill_others sqrt (gst_audio_channel_mix_fill_compatible
            (gst_audio_channel_mix_fill_identical
              (mixInit (α := α) flags format in_channels in_position out_channels
                out_position))))
      else gst_audio_channel_mix_fill_identical
        (mixInit (α := α) flags format in_channels in_position out_channels
          out_position)).matrix =
      (gst_audio_channel_mix_fill_special
        (mixInit (α := α) flags format in_channels in_position out_channels
          out_position)).1.matrix ∧
    ((in_channels.toNat = 2 ∧
        (gst_audio_channel_mix_fill_special
          (mixInit (α := α) flags format in_channels in_position out_channels
            out_position)).1.matrix 0 0 = 1 / 2 ∧
        (gst_audio_channel_mix_fill_special
          (mixInit (α := α) flags format in_channels in_position out_channels
            out_position)).1.matrix 1 0 = 1 / 2) ∨
      (in_channels.toNat = 1 ∧
        (gst_audio_channel_mix_fill_special
          (mixInit (α := α) flags format in_channels in_position out_channels
            out_position)).1.matrix 0 0 = 1 ∧
        (gst_audio_channel_mix_fill_special
          (mixInit (α := α) flags format in_channels in_position out_channels
            out_position)).1.matrix 0 1 = 1)) := by
  have hfl : (mixInit (α := α) flags format in_channels in_position out_channels
      out_position).flags &&& GST_AUDIO_CHANNEL_MIX_FLAGS_UNPOSITIONED_IN = 0 := hflag
  rw [if_pos hfl]
  have hsp := fill_special_mixInit_matrix (α := α) flags format in_channels in_position
    out_channels out_position hs
  rcases hs with ⟨h1, h2, hpos, hmono⟩ | ⟨h1, h2, hpos, hmono⟩
  · have hm : (gst_audio_channel_mix_fill_special
        (mixInit (α := α) flags format in_channels in_position out_channels
          out_position)).1.matrix = setCell (setCell (fun _ _ => 0) 0 0 (1 / 2)) 1 0 (1 / 2) := by
      rcases hsp with ⟨_, _, hm⟩ | ⟨e, _, _⟩
      · exact hm
      · omega
    have tout := take_one_of_posAt out_position MONO hmono (by decide)
    rcases hpos with ⟨p0, p1⟩ | ⟨p0, p1⟩
    · have tin := take_two_of_posAt in_position FRONT_LEFT FRONT_RIGHT p0 p1 (by decide)
      have hmix := mixInit_eq (α := α) flags format in_channels in_position out_channels
        out_position 2 1 [FRONT_LEFT, FRONT_RIGHT] [MONO] h1 h2 tin tout
      have hpre := (special_pairs_before_normalize sqrt flags format).1
      have hsum : ∀ j, j < 1 → normalizeSum (gst_audio_channel_mix_fill_others sqrt (gst_audio_channel_mix_fill_compatible
          (gst_audio_channel_mix_fill_identical
            (mixInit (α := α) flags format (2 : Nat) [FRONT_LEFT, FRONT_RIGHT] (1 : Nat) [MONO])))) j = 2 := by
        intro j hj
        rw [normalizeSum_eq, hpre]
        show ∑ i in Finset.range 2, _ = _
        interval_cases j
        simp [Finset.sum_range_succ, setCell]
        norm_num
      have htop := normalizeTop_eq_of (gst_audio_channel_mix_fill_others sqrt (gst_audio_channel_mix_fill_compatible
          (gst_audio_channel_mix_fill_identical
            (mixInit (α := α) flags format (2 : Nat) [FRONT_LEFT, FRONT_RIGHT] (1 : Nat) [MONO])))) (2 : α) (by norm_num)
        (fun j hj => le_of_eq (hsum j hj)) ⟨0, Nat.succ_pos _, hsum 0 (Nat.succ_pos _)⟩
      refine ⟨?_, Or.inl ⟨h1, ?_⟩⟩
      · rw [hm, hmix]
        funext a b
        rw [fill_normalize_matrix, htop, hpre]
        show (if _ ∧ a < 2 ∧ b < 1 then _ else _) = _
        rcases a with _ | _ | a <;> rcases b with _ | _ | b <;> simp [setCell]
      · rw [hm]
        simp [setCell]
    · have tin := take_two_of_posAt in_position FRONT_RIGHT FRONT_LEFT p0 p1 (by decide)
      have hmix := mixInit_eq (α := α) flags format in_channels in_position out_channels
        out_position 2 1 [FRONT_RIGHT, FRONT_LEFT] [MONO] h1 h2 tin tout
      have hpre := (special_pairs_before_normalize sqrt flags format).2.1
      have hsum : ∀ j, j < 1 → normalizeSum (gst_audio_channel_mix_fill_others sqrt (gst_audio_channel_mix_fill_compatible
          (gst_audio_channel_mix_fill_identical
            (mixInit (α := α) flags format (2 : Nat) [FRONT_RIGHT, FRONT_LEFT] (1 : Nat) [MONO])))) j = 2 := by
        intro j hj
        rw [normalizeSum_eq, hpre]
        show ∑ i in Finset.range 2, _ = _
        interval_cases j
        simp [Finset.sum_range_succ, setCell]
        norm_num
      have htop := normalizeTop_eq_of (gst_audio_channel_mix_fill_others sqrt (gst_audio_channel_mix_fill_compatible
          (gst_audio_channel_mix_fill_identical
            (mixInit (α := α) flags format (2 : Nat) [FRONT_RIGHT, FRONT_LEFT] (1 : Nat) [MONO])))) (2 : α) (by norm_num)
        (fun j hj => le_of_eq (hsum j hj)) ⟨0, Nat.succ_pos _, hsum 0 (Nat.succ_pos _)⟩
      refine ⟨?_, Or.inl ⟨h1, ?_⟩⟩
      · rw [hm, hmix]
        funext a b
        rw [fill_normalize_matrix, htop, hpre]
        show (if _ ∧ a < 2 ∧ b < 1 then _ else _) = _
        rcases a with _ | _ | a <;> rcases b with _ | _ | b <;> simp [setCell]
      · rw [hm]
        simp [setCell]
  · have hm : (gst_audio_channel_mix_fill_special
        (mixInit (α := α) flags format in_channels in_position out_channels
          out_position)).1.matrix = setCell (setCell (fun _ _ => 0) 0 0 1) 0 1 1 := by
      rcases hsp with ⟨e, _, _⟩ | ⟨_, _, hm⟩
      · omega
      · exact hm
    have tin := take_one_of_posAt in_position MONO hmono (by decide)
    rcases hpos with ⟨p0, p1⟩ | ⟨p0, p1⟩
    · have tout := take_two_of_posAt out_position FRONT_LEFT FRONT_RIGHT p0 p1 (by decide)
      have hmix := mixInit_eq (α := α) flags format in_channels in_position out_channels
        out_position 1 2 [MONO] [FRONT_LEFT, FRONT_RIGHT] h1 h2 tin tout
      have hpre := (special_pairs_before_normalize sqrt flags format).2.2.1
      have hsum : ∀ j, j < 2 → normalizeSum (gst_audio_channel_mix_fill_others sqrt (gst_audio_channel_mix_fill_compatible
          (gst_audio_channel_mix_fill_identical
            (mixInit (α := α) flags format (1 : Nat) [MONO] (2 : Nat) [FRONT_LEFT, FRONT_RIGHT])))) j = 1 := by
        intro j hj
        rw [normalizeSum_eq, hpre]
        show ∑ i in Finset.range 1, _ = _
        interval_cases j <;> simp [Finset.sum_range_succ, setCell]
      have htop := normalizeTop_eq_of (gst_audio_channel_mix_fill_others sqrt (gst_audio_channel_mix_fill_compatible
          (gst_audio_channel_mix_fill_identical
            (mixInit (α := α) flags format (1 : Nat) [MONO] (2 : Nat) [FRONT_LEFT, FRONT_RIGHT])))) (1 : α) (by norm_num)
        (fun j hj => le_of_eq (hsum j hj)) ⟨0, Nat.succ_pos _, hsum 0 (Nat.succ_pos _)⟩
      refine ⟨?_, Or.inr ⟨h1, ?_⟩⟩
      · rw [hm, hmix]
        funext a b
        rw [fill_normalize_matrix, htop, hpre]
        show (if _ ∧ a < 1 ∧ b < 2 then _ else _) = _
        rcases a with _ | _ | a <;> rcases b with _ | _ | b <;> simp [setCell]
      · rw [hm]
        simp [setCell]
    · have tout := take_two_of_posAt out_position FRONT_RIGHT FRONT_LEFT p0 p1 (by decide)
      have hmix := mixInit_eq (α := α) flags format in_channels in_position out_channels
        out_position 1 2 [MONO] [FRONT_RIGHT, FRONT_LEFT] h1 h2 tin tout
      have hpre := (special_pairs_before_normalize sqrt flags format).2.2.2
      have hsum : ∀ j, j < 2 → normalizeSum (gst_audio_channel_mix_fill_others sqrt (gst_audio_channel_mix_fill_compatible
          (gst_audio_channel_mix_fill_identical
            (mixInit (α := α) flags format (1 : Nat) [MONO] (2 : Nat) [FRONT_RIGHT, FRONT_LEFT])))) j = 1 := by
        intro j hj
        rw [normalizeSum_eq, hpre]
        show ∑ i in Finset.range 1, _ = _
        interval_cases j <;> simp [Finset.sum_range_succ, setCell]
      have htop := normalizeTop_eq_of (gst_audio_channel_mix_fill_others sqrt (gst_audio_channel_mix_fill_compatible
          (gst_audio_channel_mix_fill_identical
            (mixInit (α := α) flags format (1 : Nat) [MONO] (2 : Nat) [FRONT_RIGHT, FRONT_LEFT])))) (1 : α) (by norm_num)
        (fun j hj => le_of_eq (hsum j hj)) ⟨0, Nat.succ_pos _, hsum 0 (Nat.succ_pos _)⟩
      refine ⟨?_, Or.inr ⟨h1, ?_⟩⟩
      · rw [hm, hmix]
        funext a b
        rw [fill_normalize_matrix, htop, hpre]
        show (if _ ∧ a < 1 ∧ b < 2 then _ else _) = _
        rcases a with _ | _ | a <;> rcases b with _ | _ | b <;> simp [setCell]
      · rw [hm]
        simp [setCell]

/-- Claim C22 at input [front-left, front-right] and output [mono]. -/
theorem fast_path_is_shortcut_witness :
    (gst_audio_channel_mix_fill_normalize
      (gst_audio_channel_mix_fill_others (fun x : ℚ => x)
        (gst_audio_channel_mix_fill_compatible
          (gst_audio_channel_mix_fill_identical
            (mixInit (α := ℚ) 0 GstAudioFormat.S32 2 [FRONT_LEFT, FRONT_RIGHT]
              1 [MONO]))))).matrix =
      (gst_audio_channel_mix_fill_special
        (mixInit (α := ℚ) 0 GstAudioFormat.S32 2 [FRONT_LEFT, FRONT_RIGHT] 1 [MONO])).1.matrix :=
  (fast_path_is_shortcut (fun x : ℚ => x) 0 GstAudioFormat.S32 2 [FRONT_LEFT, FRONT_RIGHT]
    1 [MONO] (by decide) (by decide)).1

end FastPath


/-! ## Layouts with the same positions -/

section SamePositions

variable {α : Type} [LinearOrderedField α]

theorem isLastIndex_neg_one_iff (channels : Nat) (position : List GstAudioChannelPosition)
    (q : GstAudioChannelPosition → Prop) (x : Int) (h : IsLastIndex channels position q x) :
    x = -1 ↔ ¬ ∃ k, k < channels ∧ q (posAt position k) := by
  rcases h with ⟨h1, h2⟩ | ⟨h1, h2, h3, _⟩
  · exact ⟨fun _ ⟨k, hk, hq⟩ => h2 k hk hq, fun _ => h1⟩
  · constructor
    · intro e
      omega
    · intro hn
      exact absurd ⟨_, h2, h3⟩ hn

theorem ite3_neg {β : Type} (c1 c2 c3 : Prop) [Decidable c1] [Decidable c2] [Decidable c3]
    (a b c m : β) (h1 : ¬ c1) (h2 : ¬ c2) (h3 : ¬ c3) :
    (if c1 then a else if c2 then b else if c3 then c else m) = m := by
  rw [if_neg h1, if_neg h2, if_neg h3]

/-- One pass of the compatible fill changes nothing when each position of the
entry of `conv[]` is in both layouts or in neither. -/
theorem fillCompatibleOne_noop (mix : GstAudioChannelMix α) (cv : Conv) (hcv : cv ∈ conv)
    (m : Nat → Nat → α)
    (hperm : ∀ p, (∃ i, i < mix.in_channels ∧ posAt mix.in_position i = p) ↔
      (∃ j, j < mix.out_channels ∧ posAt mix.out_position j = p)) :
    fillCompatibleOne mix cv m = m := by
  obtain ⟨d01, d02, d12⟩ := conv_distinct cv hcv
  obtain ⟨i0, i1, i2⟩ := convScan_spec cv d01 d02 d12 mix.in_channels mix.in_position
  obtain ⟨o0, o1, o2⟩ := convScan_spec cv d01 d02 d12 mix.out_channels mix.out_position
  have e0 : (convScan cv mix.in_channels mix.in_position).i0 = -1 ↔
      (convScan cv mix.out_channels mix.out_position).i0 = -1 := by
    rw [isLastIndex_neg_one_iff _ _ _ _ i0, isLastIndex_neg_one_iff _ _ _ _ o0, hperm]
  have e1 : (convScan cv mix.in_channels mix.in_position).i1 = -1 ↔
      (convScan cv mix.out_channels mix.out_position).i1 = -1 := by
    rw [isLastIndex_neg_one_iff _ _ _ _ i1, isLastIndex_neg_one_iff _ _ _ _ o1, hperm]
  have e2 : (convScan cv mix.in_channels mix.in_position).i2 = -1 ↔
      (convScan cv mix.out_channels mix.out_position).i2 = -1 := by
    rw [isLastIndex_neg_one_iff _ _ _ _ i2, isLastIndex_neg_one_iff _ _ _ _ o2, hperm]
  unfold fillCompatibleOne
  simp only []
  rw [ite3_neg, ite3_neg, ite3_neg, ite3_neg]
  all_goals
    intro h
    omega

/-- The compatible fill changes nothing when the two layouts have the same
positions. -/
theorem fill_compatible_noop (mix : GstAudioChannelMix α)
    (hperm : ∀ p, (∃ i, i < mix.in_channels ∧ posAt mix.in_position i = p) ↔
      (∃ j, j < mix.out_channels ∧ posAt mix.out_position j = p)) :
    (gst_audio_channel_mix_fill_compatible mix).matrix = mix.matrix := by
  refine fill_compatible_induct (fun m2 => m2 = mix.matrix) mix rfl ?_
  intro cv hcv m2 h2
  show fillCompatibleOne mix cv m2 = mix.matrix
  rw [fillCompatibleOne_noop mix cv hcv m2 hperm, h2]

/-- The five chains of the spatial-proximity fill change nothing when both layouts
have the same groups. -/
theorem others_chains_noop (sqrt : α → α) (i o : DetectPos) (m : Nat → Nat → α)
    (hf : i.has_f = o.has_f) (hc : i.has_c = o.has_c) (hr : i.has_r = o.has_r)
    (hs : i.has_s = o.has_s) (hb : i.has_b = o.has_b) :
    fillOthersBass sqrt i o (fillOthersRear sqrt i o (fillOthersSide sqrt i o
      (fillOthersFront sqrt i o (fillOthersCenter sqrt i o m)))) = m := by
  have h1 : fillOthersCenter sqrt i o m = m := by
    unfold fillOthersCenter
    rw [← hf, ← hc, ← hs, ← hr]
    cases i.has_f <;> cases i.has_c <;> cases i.has_s <;> cases i.has_r <;> rfl
  have h2 : fillOthersFront sqrt i o m = m := by
    unfold fillOthersFront
    rw [← hf, ← hc, ← hs, ← hr]
    cases i.has_f <;> cases i.has_c <;> cases i.has_s <;> cases i.has_r <;> rfl
  have h3 : fillOthersSide sqrt i o m = m := by
    unfold fillOthersSide
    rw [← hf, ← hc, ← hs, ← hr]
    cases i.has_f <;> cases i.has_c <;> cases i.has_s <;> cases i.has_r <;> rfl
  have h4 : fillOthersRear sqrt i o m = m := by
    unfold fillOthersRear
    rw [← hf, ← hc, ← hs, ← hr]
    cases i.has_f <;> cases i.has_c <;> cases i.has_s <;> cases i.has_r <;> rfl
  have h5 : fillOthersBass sqrt i o m = m := by
    unfold fillOthersBass
    rw [← hb]
    cases i.has_b <;> rfl
  rw [h1, h2, h3, h4, h5]

end SamePositions


/-! ## Pure reordering -/

section Reordering

variable {α : Type} [LinearOrderedField α]

/-- The cells built for an output layout that has the positions of the input
layout in another order, with the unpositioned flag clear: the pipeline leaves the
matrix of the identical fill as it is. -/
theorem reorder_pipeline_matrix (sqrt : α → α) (flags : Nat) (format : GstAudioFormat)
    (n : Nat) (in_position out_position : List GstAudioChannelPosition)
    (σ : Equiv.Perm (Fin n))
    (hdist : ∀ i i2 : Fin n, posAt in_position i = posAt in_position i2 → i = i2)
    (hout : ∀ j : Fin n, posAt out_position j = posAt in_position (σ j))
    (i j : Nat) (hi : i < n) (hj : j < n) :
    (gst_audio_channel_mix_fill_normalize
      (gst_audio_channel_mix_fill_others sqrt (gst_audio_channel_mix_fill_compatible
        (gst_audio_channel_mix_fill_identical
          (mixInit (α := α) flags format (n : Int) in_position (n : Int)
            out_position))))).matrix i j =
      if posAt in_position i = posAt out_position j then 1 else 0 := by
  have hn : ((n : Int)).toNat = n := Int.toNat_ofNat n
  have hperm : ∀ p, (∃ a, a < n ∧ posAt (in_position.take n) a = p) ↔
      (∃ b, b < n ∧ posAt (out_position.take n) b = p) := by
    intro p
    constructor
    · rintro ⟨a, ha, hp⟩
      refine ⟨(σ.symm ⟨a, ha⟩ : Fin n), (σ.symm ⟨a, ha⟩).isLt, ?_⟩
      rw [posAt_take _ _ _ (σ.symm ⟨a, ha⟩).isLt, hout, Equiv.apply_symm_apply]
      rw [posAt_take _ _ _ ha] at hp
      exact hp
    · rintro ⟨b, hb, hp⟩
      refine ⟨(σ ⟨b, hb⟩ : Fin n), (σ ⟨b, hb⟩).isLt, ?_⟩
      rw [posAt_take _ _ _ (σ ⟨b, hb⟩).isLt, ← hout]
      rw [posAt_take _ _ _ hb] at hp
      exact hp
  have hgroup : ∀ X, HasGroup n (in_position.take n) X ↔ HasGroup n (out_position.take n) X := by
    intro X
    constructor
    · rintro ⟨a, ha, s, hs⟩
      obtain ⟨b, hb, hp⟩ := (hperm _).mp ⟨a, ha, rfl⟩
      exact ⟨b, hb, s, by rw [hp]; exact hs⟩
    · rintro ⟨b, hb, s, hs⟩
      obtain ⟨a, ha, hp⟩ := (hperm _).mpr ⟨b, hb, rfl⟩
      exact ⟨a, ha, s, by rw [hp]; exact hs⟩
  have hhas : ∀ X, (gst_audio_channel_mix_detect_pos n (in_position.take n)).has X =
      (gst_audio_channel_mix_detect_pos n (out_position.take n)).has X := by
    intro X
    rw [Bool.eq_iff_iff, detect_pos_has_iff, detect_pos_has_iff]
    exact hgroup X
  -- the matrix before normalization is the matrix of the identical fill
  have hpre : (gst_audio_channel_mix_fill_others sqrt (gst_audio_channel_mix_fill_compatible
      (gst_audio_channel_mix_fill_identical
        (mixInit (α := α) flags format (n : Int) in_position (n : Int)
          out_position)))).matrix =
      (gst_audio_channel_mix_fill_identical
        (mixInit (α := α) flags format (n : Int) in_position (n : Int)
          out_position)).matrix := by
    have hc := fill_compatible_noop (gst_audio_channel_mix_fill_identical
      (mixInit (α := α) flags format (n : Int) in_position (n : Int) out_position))
      (by
        show ∀ p, (∃ a, a < ((n : Int)).toNat ∧ posAt (in_position.take ((n : Int)).toNat) a = p) ↔
          (∃ b, b < ((n : Int)).toNat ∧ posAt (out_position.take ((n : Int)).toNat) b = p)
        rw [hn]
        exact hperm)
    rw [← hc]
    show fillOthersBass sqrt _ _ (fillOthersRear sqrt _ _ (fillOthersSide sqrt _ _
      (fillOthersFront sqrt _ _ (fillOthersCenter sqrt _ _ _)))) = _
    have hh : ∀ X, (gst_audio_channel_mix_detect_pos ((n : Int)).toNat
        (in_position.take ((n : Int)).toNat)).has X =
        (gst_audio_channel_mix_detect_pos ((n : Int)).toNat
          (out_position.take ((n : Int)).toNat)).has X := by
      rw [hn]
      exact hhas
    exact others_chains_noop sqrt _ _ _ (hh .front) (hh .center) (hh .rear) (hh .side) (hh .bass)
  have hcell : ∀ a b, a < n → b < n →
      (gst_audio_channel_mix_fill_identical
        (mixInit (α := α) flags format (n : Int) in_position (n : Int)
          out_position)).matrix a b = if posAt in_position a = posAt out_position b then 1 else 0 :=
    fun a b ha hb => fill_identical_mixInit flags format (n : Int) in_position (n : Int)
      out_position a b (by rw [hn]; exact ha) (by rw [hn]; exact hb)
  have hsum : ∀ b, b < n → normalizeSum (gst_audio_channel_mix_fill_others sqrt
      (gst_audio_channel_mix_fill_compatible (gst_audio_channel_mix_fill_identical
        (mixInit (α := α) flags format (n : Int) in_position (n : Int)
          out_position)))) b = 1 := by
    intro b hb
    rw [normalizeSum_eq, hpre]
    show ∑ a in Finset.range ((n : Int)).toNat, _ = _
    rw [hn]
    have hs := indicator_sum (α := α) n (fun a => posAt in_position a = posAt out_position b)
      (by
        intro a a2 ha ha2 e1 e2
        have := hdist ⟨a, ha⟩ ⟨a2, ha2⟩ (e1.trans e2.symm)
        exact Fin.mk.inj_iff.mp this)
    rw [← hs.2 ⟨(σ ⟨b, hb⟩ : Fin n), (σ ⟨b, hb⟩).isLt, (hout ⟨b, hb⟩).symm⟩]
    exact Finset.sum_congr rfl (fun a ha => by rw [hcell a b (Finset.mem_range.mp ha) hb])
  have hout_ch : (gst_audio_channel_mix_fill_others sqrt
      (gst_audio_channel_mix_fill_compatible (gst_audio_channel_mix_fill_identical
        (mixInit (α := α) flags format (n : Int) in_position (n : Int)
          out_position)))).out_channels = n := hn
  have htop := normalizeTop_eq_of (gst_audio_channel_mix_fill_others sqrt
      (gst_audio_channel_mix_fill_compatible (gst_audio_channel_mix_fill_identical
        (mixInit (α := α) flags format (n : Int) in_position (n : Int)
          out_position)))) (1 : α) zero_le_one
      (fun b hb => le_of_eq (hsum b (by rw [hout_ch] at hb; exact hb)))
      ⟨j, by rw [hout_ch]; exact hj, hsum j hj⟩
  rw [fill_normalize_matrix, htop, hpre, hcell i j hi hj]
  split_ifs <;> simp

end Reordering

section ReorderingClaim

variable {α : Type} [LinearOrderedField α] [FloorRing α]

open GstAudioChannelPosition

/-- Claim C23: for every layout of `n` pairwise different positions and every
permutation `σ` of it used as the output layout (`out_position[j] =
in_position[σ j]`), whatever the flags, the constructed matrix is the permutation
matrix with `matrix[i][j] = 1` exactly when `in_position[i] = out_position[j]`,
that is when `i = σ j` (the identity matrix when the layouts are equal),
`matrix_int` is 1024 times it, and the S32 path copies the sample of input
channel `σ j` of every frame, unchanged for every `gint32` value, to output
channel `j`. -/
theorem reordering_is_routed_exactly (sqrt : α → α) (flags : Nat) (format : GstAudioFormat)
    (n : Nat) (in_position out_position : List GstAudioChannelPosition)
    (σ : Equiv.Perm (Fin n))
    (hdist : ∀ i i2 : Fin n, posAt in_position i = posAt in_position i2 → i = i2)
    (hout : ∀ j : Fin n, posAt out_position j = posAt in_position (σ j))
    (mix : GstAudioChannelMix α)
    (hnew : gst_audio_channel_mix_new sqrt flags format (n : Int) in_position
      (n : Int) out_position = some mix) :
    mix.in_channels = n ∧ mix.out_channels = n ∧
    (∀ i j : Fin n, mix.matrix i j =
      if posAt in_position i = posAt out_position j then 1 else 0) ∧
    (∀ i j : Fin n, mix.matrix i j = if i = σ j then 1 else 0) ∧
    (∀ i j : Fin n, mix.matrix_int i j = if i = σ j then 1024 else 0) ∧
    ((∀ j : Fin n, σ j = j) → ∀ i j : Fin n, mix.matrix i j = if i = j then 1 else 0) ∧
    ∀ (mem : Nat → Int) (in_data out_data : Nat) (samples : Int),
      BuffersOk mix in_data out_data samples →
      (∀ a, G_MININT32 ≤ mem a ∧ mem a ≤ G_MAXINT32) →
      ∀ (k : Nat) (j : Fin n), k < samples.toNat →
        gst_audio_channel_mix_mix_int mix mem in_data out_data samples
          (out_data + (k * n + j)) = mem (in_data + (k * n + σ j)) := by
  have hn : ((n : Int)).toNat = n := Int.toNat_ofNat n
  obtain ⟨hin0, hout0, hmat⟩ := new_matrix_cases _ _ _ _ _ _ _ _ hnew
  have hin : mix.in_channels = n := by rw [hin0, hn]
  have hoc : mix.out_channels = n := by rw [hout0, hn]
  have hns : ¬ IsSpecialPair ((n : Int)).toNat in_position ((n : Int)).toNat out_position := by
    rw [hn]
    rintro (⟨h1, h2, _⟩ | ⟨h1, h2, _⟩) <;> omega
  have hiff : ∀ i j : Fin n, posAt in_position i = posAt out_position j ↔ i = σ j := by
    intro i j
    rw [hout]
    exact ⟨hdist i (σ j), fun e => by rw [e]⟩
  have hcell : ∀ i j : Fin n, mix.matrix i j =
      if posAt in_position i = posAt out_position j then 1 else 0 := by
    intro i j
    by_cases hflag : flags &&& GST_AUDIO_CHANNEL_MIX_FLAGS_UNPOSITIONED_IN = 0
    · rw [if_neg hns, if_pos hflag] at hmat
      rw [hmat]
      exact reorder_pipeline_matrix sqrt flags format n in_position out_position σ hdist hout
        i j i.isLt j.isLt
    · exact new_unpositioned_cell _ _ _ _ _ _ _ _ hnew hflag hns i j
        (by rw [hin]; exact i.isLt) (by rw [hoc]; exact j.isLt)
  have hcell2 : ∀ i j : Fin n, mix.matrix i j = if i = σ j then 1 else 0 := by
    intro i j
    rw [hcell i j]
    by_cases h : i = σ j
    · rw [if_pos h, if_pos ((hiff i j).mpr h)]
    · rw [if_neg h, if_neg (fun e => h ((hiff i j).mp e))]
  have hint : ∀ i j : Fin n, mix.matrix_int i j = if i = σ j then 1024 else 0 := by
    intro i j
    rw [new_matrix_int_cell _ _ _ _ _ _ _ _ hnew i j,
      if_pos ⟨by rw [hin]; exact i.isLt, by rw [hoc]; exact j.isLt⟩, hcell2 i j]
    by_cases h : i = σ j
    · rw [if_pos h, if_pos h]
      have e : (1 : α) * 1024 = ((1024 : Int) : α) := by push_cast; ring
      rw [e, truncToInt_intCast]
    · rw [if_neg h, if_neg h]
      have e : (0 : α) * 1024 = ((0 : Int) : α) := by push_cast; ring
      rw [e, truncToInt_intCast]
  refine ⟨hin, hoc, hcell, hcell2, hint, ?_, ?_⟩
  · intro hid i j
    rw [hcell2 i j, hid j]
  · intro mem in_data out_data samples hb hmem k j hk
    have hs := mix_int_sample mix mem in_data out_data samples hb k hk j
      (by rw [hoc]; exact j.isLt)
    rw [hoc] at hs
    rw [hs, mixIntSample_eq mix mem in_data k j (new_in_channels_le _ _ _ _ _ _ _ _ hnew).1
      (fun i _ => new_matrix_int_abs_le _ _ _ _ _ _ _ _ hnew i j) hmem, floor_div_1024, hin]
    have hsum : ∑ i in Finset.range n, mem (in_data + (k * n + i)) * mix.matrix_int i j =
        mem (in_data + (k * n + σ j)) * 1024 := by
      rw [Finset.sum_eq_single ((σ j : Fin n) : Nat)]
      · have := hint (σ j) j
        rw [if_pos rfl] at this
        rw [this]
      · intro i hi hne
        have := hint ⟨i, Finset.mem_range.mp hi⟩ j
        rw [if_neg (fun e => hne (by rw [← e]))] at this
        simp only [] at this
        rw [this, mul_zero]
      · intro h
        exact absurd (Finset.mem_range.mpr (σ j).isLt) h
    rw [hsum]
    have hr := hmem (in_data + (k * n + σ j))
    unfold G_MININT32 G_MAXINT32 at hr
    omega

/-- Claim C23 at input [front-left, front-right] and output [front-right,
front-left]: the fixed-point matrix is 1024 times the exchange matrix. -/
theorem reordering_is_routed_exactly_witness :
    ∃ mix : GstAudioChannelMix ℚ,
      gst_audio_channel_mix_new (fun x : ℚ => x) 0 GstAudioFormat.S32
        ((2 : Nat) : Int) [FRONT_LEFT, FRONT_RIGHT] ((2 : Nat) : Int)
        [FRONT_RIGHT, FRONT_LEFT] = some mix ∧
      mix.in_channels = 2 ∧ mix.out_channels = 2 ∧
      ∀ i j : Fin 2, mix.matrix_int i j = if i = Equiv.swap (0 : Fin 2) 1 j then 1024 else 0 := by
  have hnew : gst_audio_channel_mix_new (fun x : ℚ => x) 0 GstAudioFormat.S32
      ((2 : Nat) : Int) [FRONT_LEFT, FRONT_RIGHT] ((2 : Nat) : Int)
      [FRONT_RIGHT, FRONT_LEFT] =
      some (gst_audio_channel_mix_setup_matrix (fun x : ℚ => x)
        (mixInit (α := ℚ) 0 GstAudioFormat.S32 ((2 : Nat) : Int) [FRONT_LEFT, FRONT_RIGHT]
          ((2 : Nat) : Int) [FRONT_RIGHT, FRONT_LEFT])) :=
    (new_eq_some _ _ _ _ _ _ _ _).mpr ⟨⟨Or.inl rfl, by decide, by decide⟩, rfl⟩
  have h := reordering_is_routed_exactly (fun x : ℚ => x) 0 GstAudioFormat.S32 2
    [FRONT_LEFT, FRONT_RIGHT] [FRONT_RIGHT, FRONT_LEFT] (Equiv.swap (0 : Fin 2) 1)
    (by decide) (by decide) _ hnew
  exact ⟨_, hnew, h.1, h.2.1, h.2.2.2.2.1⟩

end ReorderingClaim


/-! ## Reordering the input channels -/

section RowsMovedBasics

variable {α : Type} [LinearOrderedField α]

theorem movedIndex_eq_neg_one (q : Nat → Nat) (x : Int) : movedIndex q x = -1 ↔ x = -1 := by
  unfold movedIndex
  split_ifs with h
  · exact ⟨fun _ => h, fun _ => rfl⟩
  · constructor
    · intro e
      exact e.elim
    · intro e
      exact absurd e h

theorem movedIndex_toNat (q : Nat → Nat) (x : Int) (h : x ≠ -1) :
    (movedIndex q x).toNat = q x.toNat := by
  unfold movedIndex
  rw [if_neg h, Int.toNat_ofNat]

theorem rowsMoved_setCell {β : Type} (p q : Nat → Nat) (hqp : ∀ a, q (p a) = a)
    (hpq : ∀ a, p (q a) = a) (m2 m : Nat → Nat → β) (x y : Nat) (v : β)
    (h : RowsMoved p m2 m) : RowsMoved p (setCell m2 (q x) y v) (setCell m x y v) := by
  intro a b
  unfold setCell
  by_cases hc : a = q x ∧ b = y
  · rw [if_pos hc, if_pos ⟨by rw [hc.1, hpq], hc.2⟩]
  · rw [if_neg hc, if_neg (fun h2 => hc ⟨by rw [← h2.1, hqp], h2.2⟩)]
    exact h a b

/-- A conditional assignment on both sides. -/
theorem rowsMoved_ite {β : Type} (p q : Nat → Nat) (hqp : ∀ a, q (p a) = a)
    (hpq : ∀ a, p (q a) = a) (c2 c : Prop) [Decidable c2] [Decidable c]
    (m2 m : Nat → Nat → β) (x2 x y : Nat) (v : β)
    (h : RowsMoved p m2 m) (hc : c2 ↔ c) (hx : c → x2 = q x) :
    RowsMoved p (if c2 then setCell m2 x2 y v else m2) (if c then setCell m x y v else m) := by
  by_cases h1 : c
  · rw [if_pos h1, if_pos (hc.mpr h1), hx h1]
    exact rowsMoved_setCell p q hqp hpq m2 m x y v h
  · rw [if_neg h1, if_neg (fun h2 => h1 (hc.mp h2))]
    exact h

/-- A chain of two conditional assignments to one cell on both sides. -/
theorem rowsMoved_ite2 {β : Type} (p q : Nat → Nat) (hqp : ∀ a, q (p a) = a)
    (hpq : ∀ a, p (q a) = a) (c2 d2 c d : Prop) [Decidable c2] [Decidable d2] [Decidable c]
    [Decidable d] (m2 m : Nat → Nat → β) (x2 x y : Nat) (v w : β)
    (h : RowsMoved p m2 m) (hc : c2 ↔ c) (hd : d2 ↔ d) (hx : c ∨ d → x2 = q x) :
    RowsMoved p (if c2 then setCell m2 x2 y v else if d2 then setCell m2 x2 y w else m2)
      (if c then setCell m x y v else if d then setCell m x y w else m) := by
  by_cases h1 : c
  · rw [if_pos h1, if_pos (hc.mpr h1), hx (Or.inl h1)]
    exact rowsMoved_setCell p q hqp hpq m2 m x y v h
  · rw [if_neg h1, if_neg (fun h2 => h1 (hc.mp h2))]
    exact rowsMoved_ite p q hqp hpq d2 d m2 m x2 x y w h hd (fun h3 => hx (Or.inr h3))

/-- A chain of three conditional assignments to one cell on both sides. -/
theorem rowsMoved_ite3 {β : Type} (p q : Nat → Nat) (hqp : ∀ a, q (p a) = a)
    (hpq : ∀ a, p (q a) = a) (c2 d2 e2 c d e : Prop) [Decidable c2] [Decidable d2]
    [Decidable e2] [Decidable c] [Decidable d] [Decidable e]
    (m2 m : Nat → Nat → β) (x2 x y : Nat) (v w u : β)
    (h : RowsMoved p m2 m) (hc : c2 ↔ c) (hd : d2 ↔ d) (he : e2 ↔ e)
    (hx : c ∨ d ∨ e → x2 = q x) :
    RowsMoved p
      (if c2 then setCell m2 x2 y v else if d2 then setCell m2 x2 y w
        else if e2 then setCell m2 x2 y u else m2)
      (if c then setCell m x y v else if d then setCell m x y w
        else if e then setCell m x y u else m) := by
  by_cases h1 : c
  · rw [if_pos h1, if_pos (hc.mpr h1), hx (Or.inl h1)]
    exact rowsMoved_setCell p q hqp hpq m2 m x y v h
  · rw [if_neg h1, if_neg (fun h2 => h1 (hc.mp h2))]
    exact rowsMoved_ite2 p q hqp hpq d2 e2 d e m2 m x2 x y w u h hd he
      (fun h3 => hx (Or.inr h3))

theorem rowsMoved_ite_same {β : Type} (p : Nat → Nat) (c : Prop) [Decidable c]
    (a2 a b2 b : Nat → Nat → β) (ha : RowsMoved p a2 a) (hb : RowsMoved p b2 b) :
    RowsMoved p (if c then a2 else b2) (if c then a else b) := by
  split_ifs
  · exact ha
  · exact hb

/-- The function `gst_audio_channel_mix_fill_one_other` on a reordered source index
array writes the reordered rows. -/
theorem fill_one_other_moved (p q : Nat → Nat) (hqp : ∀ a, q (p a) = a)
    (hpq : ∀ a, p (q a) = a) (m2 m : Nat → Nat → α) (from_idx to_idx : Idx3) (ratio : α)
    (h : RowsMoved p m2 m) :
    RowsMoved p (gst_audio_channel_mix_fill_one_other m2 (from_idx.moved q) to_idx ratio)
      (gst_audio_channel_mix_fill_one_other m from_idx to_idx ratio) := by
  have n0 := movedIndex_eq_neg_one q from_idx.i0
  have n1 := movedIndex_eq_neg_one q from_idx.i1
  have n2 := movedIndex_eq_neg_one q from_idx.i2
  have t0 := movedIndex_toNat q from_idx.i0
  have t1 := movedIndex_toNat q from_idx.i1
  have t2 := movedIndex_toNat q from_idx.i2
  unfold gst_audio_channel_mix_fill_one_other Idx3.moved
  simp only []
  refine rowsMoved_ite2 p q hqp hpq _ _ _ _ _ _ _ _ _ _ _ ?_ (by simp only [ne_eq, n1, n2])
    (by simp only [ne_eq, n1, n2]) (fun hc => by rcases hc with hc | hc <;> exact t1 hc.1)
  refine rowsMoved_ite2 p q hqp hpq _ _ _ _ _ _ _ _ _ _ _ ?_ (by simp only [ne_eq, n1, n0])
    (by simp only [ne_eq, n1, n0]) (fun hc => by rcases hc with hc | hc <;> exact t1 hc.1)
  refine rowsMoved_ite2 p q hqp hpq _ _ _ _ _ _ _ _ _ _ _ ?_ (by simp only [ne_eq, n2, n1])
    (by simp only [ne_eq, n2, n1]) (fun hc => by rcases hc with hc | hc <;> exact t2 hc.1)
  refine rowsMoved_ite2 p q hqp hpq _ _ _ _ _ _ _ _ _ _ _ ?_ (by simp only [ne_eq, n0, n1])
    (by simp only [ne_eq, n0, n1]) (fun hc => by rcases hc with hc | hc <;> exact t0 hc.1)
  refine rowsMoved_ite p q hqp hpq _ _ _ _ _ _ _ _ ?_ (by simp only [ne_eq, n2]) (fun hc => t2 hc.1)
  refine rowsMoved_ite p q hqp hpq _ _ _ _ _ _ _ _ ?_ (by simp only [ne_eq, n0]) (fun hc => t0 hc.1)
  exact rowsMoved_ite p q hqp hpq _ _ _ _ _ _ _ _ h (by simp only [ne_eq, n1]) (fun hc => t1 hc.1)

end RowsMovedBasics


section ChainsMoved

variable {α : Type} [LinearOrderedField α]

theorem rowsMoved_ite_call {β : Type} (p : Nat → Nat) (c : Prop) [Decidable c]
    (f2 f : (Nat → Nat → β) → Nat → Nat → β) (x2 x : Nat → Nat → β)
    (hf : ∀ M2 M, RowsMoved p M2 M → RowsMoved p (f2 M2) (f M)) (hx : RowsMoved p x2 x) :
    RowsMoved p (if c then f2 x2 else x2) (if c then f x else x) := by
  split_ifs
  · exact hf x2 x hx
  · exact hx

theorem fillOthersCenter_moved (sqrt : α → α) (p q : Nat → Nat) (hqp : ∀ a, q (p a) = a)
    (hpq : ∀ a, p (q a) = a) (i o : DetectPos) (m2 m : Nat → Nat → α)
    (h : RowsMoved p m2 m) :
    RowsMoved p (fillOthersCenter sqrt (i.moved q) o m2) (fillOthersCenter sqrt i o m) := by
  unfold fillOthersCenter DetectPos.moved
  refine rowsMoved_ite_same p _ _ _ _ _ (fill_one_other_moved p q hqp hpq _ _ _ _ _ h) ?_
  refine rowsMoved_ite_same p _ _ _ _ _ (fill_one_other_moved p q hqp hpq _ _ _ _ _ h) ?_
  refine rowsMoved_ite_same p _ _ _ _ _ (fill_one_other_moved p q hqp hpq _ _ _ _ _ h) ?_
  refine rowsMoved_ite_same p _ _ _ _ _ (fill_one_other_moved p q hqp hpq _ _ _ _ _ h) ?_
  refine rowsMoved_ite_same p _ _ _ _ _ (fill_one_other_moved p q hqp hpq _ _ _ _ _ h) ?_
  refine rowsMoved_ite_same p _ _ _ _ _ (fill_one_other_moved p q hqp hpq _ _ _ _ _ h) ?_
  exact h

theorem fillOthersFront_moved (sqrt : α → α) (p q : Nat → Nat) (hqp : ∀ a, q (p a) = a)
    (hpq : ∀ a, p (q a) = a) (i o : DetectPos) (m2 m : Nat → Nat → α)
    (h : RowsMoved p m2 m) :
    RowsMoved p (fillOthersFront sqrt (i.moved q) o m2) (fillOthersFront sqrt i o m) := by
  unfold fillOthersFront DetectPos.moved
  refine rowsMoved_ite_same p _ _ _ _ _ (fill_one_other_moved p q hqp hpq _ _ _ _ _ h) ?_
  refine rowsMoved_ite_same p _ _ _ _ _ (fill_one_other_moved p q hqp hpq _ _ _ _ _ h) ?_
  refine rowsMoved_ite_same p _ _ _ _ _ (fill_one_other_moved p q hqp hpq _ _ _ _ _ (fill_one_other_moved p q hqp hpq _ _ _ _ _ h)) ?_
  refine rowsMoved_ite_same p _ _ _ _ _ (fill_one_other_moved p q hqp hpq _ _ _ _ _ h) ?_
  refine rowsMoved_ite_same p _ _ _ _ _ (fill_one_other_moved p q hqp hpq _ _ _ _ _ h) ?_
  refine rowsMoved_ite_same p _ _ _ _ _ (fill_one_other_moved p q hqp hpq _ _ _ _ _ h) ?_
  refine rowsMoved_ite_same p _ _ _ _ _ (fill_one_other_moved p q hqp hpq _ _ _ _ _ (fill_one_other_moved p q hqp hpq _ _ _ _ _ h)) ?_
  refine rowsMoved_ite_same p _ _ _ _ _ (fill_one_other_moved p q hqp hpq _ _ _ _ _ h) ?_
  exact h

theorem fillOthersSide_moved (sqrt : α → α) (p q : Nat → Nat) (hqp : ∀ a, q (p a) = a)
    (hpq : ∀ a, p (q a) = a) (i o : DetectPos) (m2 m : Nat → Nat → α)
    (h : RowsMoved p m2 m) :
    RowsMoved p (fillOthersSide sqrt (i.moved q) o m2) (fillOthersSide sqrt i o m) := by
  unfold fillOthersSide DetectPos.moved
  refine rowsMoved_ite_same p _ _ _ _ _ (fill_one_other_moved p q hqp hpq _ _ _ _ _ h) ?_
  refine rowsMoved_ite_same p _ _ _ _ _ (fill_one_other_moved p q hqp hpq _ _ _ _ _ h) ?_
  refine rowsMoved_ite_same p _ _ _ _ _ (fill_one_other_moved p q hqp hpq _ _ _ _ _ (fill_one_other_moved p q hqp hpq _ _ _ _ _ h)) ?_
  refine rowsMoved_ite_same p _ _ _ _ _ (fill_one_other_moved p q hqp hpq _ _ _ _ _ h) ?_
  refine rowsMoved_ite_same p _ _ _ _ _ (fill_one_other_moved p q hqp hpq _ _ _ _ _ h) ?_
  refine rowsMoved_ite_same p _ _ _ _ _ (fill_one_other_moved p q hqp hpq _ _ _ _ _ h) ?_
  refine rowsMoved_ite_same p _ _ _ _ _ (fill_one_other_moved p q hqp hpq _ _ _ _ _ (fill_one_other_moved p q hqp hpq _ _ _ _ _ h)) ?_
  refine rowsMoved_ite_same p _ _ _ _ _ (fill_one_other_moved p q hqp hpq _ _ _ _ _ h) ?_
  exact h

theorem fillOthersRear_moved (sqrt : α → α) (p q : Nat → Nat) (hqp : ∀ a, q (p a) = a)
    (hpq : ∀ a, p (q a) = a) (i o : DetectPos) (m2 m : Nat → Nat → α)
    (h : RowsMoved p m2 m) :
    RowsMoved p (fillOthersRear sqrt (i.moved q) o m2) (fillOthersRear sqrt i o m) := by
  unfold fillOthersRear DetectPos.moved
  refine rowsMoved_ite_same p _ _ _ _ _ (fill_one_other_moved p q hqp hpq _ _ _ _ _ h) ?_
  refine rowsMoved_ite_same p _ _ _ _ _ (fill_one_other_moved p q hqp hpq _ _ _ _ _ h) ?_
  refine rowsMoved_ite_same p _ _ _ _ _ (fill_one_other_moved p q hqp hpq _ _ _ _ _ h) ?_
  refine rowsMoved_ite_same p _ _ _ _ _ (fill_one_other_moved p q hqp hpq _ _ _ _ _ h) ?_
  refine rowsMoved_ite_same p _ _ _ _ _ (fill_one_other_moved p q hqp hpq _ _ _ _ _ h) ?_
  refine rowsMoved_ite_same p _ _ _ _ _ (fill_one_other_moved p q hqp hpq _ _ _ _ _ h) ?_
  exact h

theorem fillOthersBass_moved (sqrt : α → α) (p q : Nat → Nat) (hqp : ∀ a, q (p a) = a)
    (hpq : ∀ a, p (q a) = a) (i o : DetectPos) (m2 m : Nat → Nat → α)
    (h : RowsMoved p m2 m) :
    RowsMoved p (fillOthersBass sqrt (i.moved q) o m2) (fillOthersBass sqrt i o m) := by
  unfold fillOthersBass DetectPos.moved
  simp only []
  have hcall : ∀ (fr dst : Idx3) (r : α) (M2 M : Nat → Nat → α), RowsMoved p M2 M →
      RowsMoved p (gst_audio_channel_mix_fill_one_other M2 (fr.moved q) dst r)
        (gst_audio_channel_mix_fill_one_other M fr dst r) :=
    fun fr dst r M2 M hM => fill_one_other_moved p q hqp hpq M2 M fr dst r hM
  refine rowsMoved_ite_same p _ _ _ _ _ ?_ (rowsMoved_ite_same p _ _ _ _ _ ?_ h)
  · refine rowsMoved_ite_call p _
      (fun M => gst_audio_channel_mix_fill_one_other M _ _ _)
      (fun M => gst_audio_channel_mix_fill_one_other M _ _ _) _ _ (hcall _ _ _) ?_
    refine rowsMoved_ite_call p _
      (fun M => gst_audio_channel_mix_fill_one_other M _ _ _)
      (fun M => gst_audio_channel_mix_fill_one_other M _ _ _) _ _ (hcall _ _ _) ?_
    refine rowsMoved_ite_call p _
      (fun M => gst_audio_channel_mix_fill_one_other M _ _ _)
      (fun M => gst_audio_channel_mix_fill_one_other M _ _ _) _ _ (hcall _ _ _) ?_
    exact rowsMoved_ite_call p _
      (fun M => gst_audio_channel_mix_fill_one_other M _ _ _)
      (fun M => gst_audio_channel_mix_fill_one_other M _ _ _) _ _ (hcall _ _ _) h
  · refine rowsMoved_ite_call p _
      (fun M => gst_audio_channel_mix_fill_one_other M _ _ _)
      (fun M => gst_audio_channel_mix_fill_one_other M _ _ _) _ _ (hcall _ _ _) ?_
    refine rowsMoved_ite_call p _
      (fun M => gst_audio_channel_mix_fill_one_other M _ _ _)
      (fun M => gst_audio_channel_mix_fill_one_other M _ _ _) _ _ (hcall _ _ _) ?_
    refine rowsMoved_ite_call p _
      (fun M => gst_audio_channel_mix_fill_one_other M _ _ _)
      (fun M => gst_audio_channel_mix_fill_one_other M _ _ _) _ _ (hcall _ _ _) ?_
    exact rowsMoved_ite_call p _
      (fun M => gst_audio_channel_mix_fill_one_other M _ _ _)
      (fun M => gst_audio_channel_mix_fill_one_other M _ _ _) _ _ (hcall _ _ _) h

/-- The five chains of the spatial-proximity fill on reordered input index arrays
write the reordered rows. -/
theorem others_chains_moved (sqrt : α → α) (p q : Nat → Nat) (hqp : ∀ a, q (p a) = a)
    (hpq : ∀ a, p (q a) = a) (i o : DetectPos) (m2 m : Nat → Nat → α)
    (h : RowsMoved p m2 m) :
    RowsMoved p
      (fillOthersBass sqrt (i.moved q) o (fillOthersRear sqrt (i.moved q) o
        (fillOthersSide sqrt (i.moved q) o (fillOthersFront sqrt (i.moved q) o
          (fillOthersCenter sqrt (i.moved q) o m2)))))
      (fillOthersBass sqrt i o (fillOthersRear sqrt i o (fillOthersSide sqrt i o
        (fillOthersFront sqrt i o (fillOthersCenter sqrt i o m))))) :=
  fillOthersBass_moved sqrt p q hqp hpq i o _ _
    (fillOthersRear_moved sqrt p q hqp hpq i o _ _
      (fillOthersSide_moved sqrt p q hqp hpq i o _ _
        (fillOthersFront_moved sqrt p q hqp hpq i o _ _
          (fillOthersCenter_moved sqrt p q hqp hpq i o _ _ h))))

end ChainsMoved


section ScansMoved

theorem idx3_eq (a b : Idx3) (h0 : a.i0 = b.i0) (h1 : a.i1 = b.i1) (h2 : a.i2 = b.i2) :
    a = b := by
  cases a
  cases b
  simp only [Idx3.mk.injEq]
  exact ⟨h0, h1, h2⟩

theorem detectPos_eq (a b : DetectPos) (hf : a.f = b.f) (hhf : a.has_f = b.has_f)
    (hc : a.c = b.c) (hhc : a.has_c = b.has_c) (hr : a.r = b.r) (hhr : a.has_r = b.has_r)
    (hs : a.s = b.s) (hhs : a.has_s = b.has_s) (hb : a.b = b.b) (hhb : a.has_b = b.has_b) :
    a = b := by
  cases a
  cases b
  simp only [DetectPos.mk.injEq]
  exact ⟨hf, hhf, hc, hhc, hr, hhr, hs, hhs, hb, hhb⟩

/-- A scan variable of a reordered layout is the moved scan variable of the
original layout, when at most one channel has the scanned property. -/
theorem isLastIndex_moved (n : Nat) (pos2 pos : List GstAudioChannelPosition)
    (p q : Nat → Nat) (hpq : ∀ a, p (q a) = a) (hqp : ∀ a, q (p a) = a)
    (hlt : ∀ a, p a < n ↔ a < n)
    (hpos : ∀ a, a < n → posAt pos2 a = posAt pos (p a))
    (P : GstAudioChannelPosition → Prop)
    (huniq : ∀ a a2, a < n → a2 < n → P (posAt pos a) → P (posAt pos a2) → a = a2)
    (x2 x : Int) (h2 : IsLastIndex n pos2 P x2) (h : IsLastIndex n pos P x) :
    x2 = movedIndex q x := by
  rcases h with ⟨e, hnone⟩ | ⟨h0, h1, h3, _⟩
  · rw [e]
    have : movedIndex q (-1) = -1 := (movedIndex_eq_neg_one q (-1)).mpr rfl
    rw [this]
    refine isLastIndex_eq_of_none n pos2 P x2 h2 ?_
    intro k hk hP
    rw [hpos k hk] at hP
    exact hnone (p k) ((hlt k).mpr hk) hP
  · have hx : x ≠ -1 := by omega
    unfold movedIndex
    rw [if_neg hx]
    have hq : q x.toNat < n := by
      rw [← hlt, hpq]
      exact h1
    refine isLastIndex_eq_of_last n pos2 P x2 (q x.toNat) h2 hq ?_ ?_
    · rw [hpos _ hq, hpq]
      exact h3
    · intro k hk hP
      rw [hpos k hk] at hP
      have := huniq (p k) x.toNat ((hlt k).mpr hk) h1 hP h3
      rw [← this, hqp]

/-- The scan `gst_audio_channel_mix_detect_pos` of a reordered layout with pairwise
different positions gives the moved index arrays and the same flags. -/
theorem detect_pos_moved (n : Nat) (pos2 pos : List GstAudioChannelPosition)
    (p q : Nat → Nat) (hpq : ∀ a, p (q a) = a) (hqp : ∀ a, q (p a) = a)
    (hlt : ∀ a, p a < n ↔ a < n)
    (hpos : ∀ a, a < n → posAt pos2 a = posAt pos (p a))
    (hdist : ∀ a a2, a < n → a2 < n → posAt pos a = posAt pos a2 → a = a2) :
    gst_audio_channel_mix_detect_pos n pos2 = (gst_audio_channel_mix_detect_pos n pos).moved q := by
  have hidx : ∀ (X : SpatialGroup) (k : Nat), k < 3 →
      ((gst_audio_channel_mix_detect_pos n pos2).group X).get k =
        movedIndex q (((gst_audio_channel_mix_detect_pos n pos).group X).get k) := by
    intro X k hk
    refine isLastIndex_moved n pos2 pos p q hpq hqp hlt hpos _ ?_ _ _
      (detect_pos_spec n pos2 X k hk) (detect_pos_spec n pos X k hk)
    intro a a2 ha ha2 e1 e2
    exact hdist a a2 ha ha2 (slotOf_inj _ _ _ e1 e2)
  have hgrp : ∀ X : SpatialGroup, (gst_audio_channel_mix_detect_pos n pos2).group X =
      ((gst_audio_channel_mix_detect_pos n pos).group X).moved q := by
    intro X
    exact idx3_eq _ _ (hidx X 0 (by decide)) (hidx X 1 (by decide)) (hidx X 2 (by decide))
  have hhas : ∀ X : SpatialGroup, (gst_audio_channel_mix_detect_pos n pos2).has X =
      (gst_audio_channel_mix_detect_pos n pos).has X := by
    intro X
    rw [Bool.eq_iff_iff, detect_pos_has_iff, detect_pos_has_iff]
    constructor
    · rintro ⟨k, hk, s, hs⟩
      exact ⟨p k, (hlt k).mpr hk, s, by rw [← hpos k hk]; exact hs⟩
    · rintro ⟨k, hk, s, hs⟩
      have hq : q k < n := by
        rw [← hlt, hpq]
        exact hk
      exact ⟨q k, hq, s, by rw [hpos _ hq, hpq]; exact hs⟩
  exact detectPos_eq _ _ (hgrp .front) (hhas .front) (hgrp .center) (hhas .center)
    (hgrp .rear) (hhas .rear) (hgrp .side) (hhas .side) (hgrp .bass) (hhas .bass)

/-- A scan of `gst_audio_channel_mix_fill_compatible` over a reordered layout with
pairwise different positions gives the moved indices. -/
theorem convScan_moved (cv : Conv) (hcv : cv ∈ conv) (n : Nat)
    (pos2 pos : List GstAudioChannelPosition)
    (p q : Nat → Nat) (hpq : ∀ a, p (q a) = a) (hqp : ∀ a, q (p a) = a)
    (hlt : ∀ a, p a < n ↔ a < n)
    (hpos : ∀ a, a < n → posAt pos2 a = posAt pos (p a))
    (hdist : ∀ a a2, a < n → a2 < n → posAt pos a = posAt pos a2 → a = a2) :
    convScan cv n pos2 = (convScan cv n pos).moved q := by
  obtain ⟨d01, d02, d12⟩ := conv_distinct cv hcv
  obtain ⟨a0, a1, a2⟩ := convScan_spec cv d01 d02 d12 n pos2
  obtain ⟨b0, b1, b2⟩ := convScan_spec cv d01 d02 d12 n pos
  have huniq : ∀ (r : GstAudioChannelPosition) (a a2 : Nat), a < n → a2 < n →
      posAt pos a = r → posAt pos a2 = r → a = a2 :=
    fun r a a2 ha ha2 e1 e2 => hdist a a2 ha ha2 (e1.trans e2.symm)
  exact idx3_eq _ _
    (isLastIndex_moved n pos2 pos p q hpq hqp hlt hpos _ (huniq _) _ _ a0 b0)
    (isLastIndex_moved n pos2 pos p q hpq hqp hlt hpos _ (huniq _) _ _ a1 b1)
    (isLastIndex_moved n pos2 pos p q hpq hqp hlt hpos _ (huniq _) _ _ a2 b2)

end ScansMoved


section StagesMoved

variable {α : Type} [LinearOrderedField α]

/-- The identical fill of a mixer with reordered input channels. -/
theorem fill_identical_moved (mix2 mix : GstAudioChannelMix α) (p : Nat → Nat)
    (hlt : ∀ a, p a < mix.in_channels ↔ a < mix.in_channels)
    (hin : mix2.in_channels = mix.in_channels) (hout : mix2.out_channels = mix.out_channels)
    (hop : mix2.out_position = mix.out_position)
    (hpos : ∀ a, a < mix.in_channels → posAt mix2.in_position a = posAt mix.in_position (p a))
    (h : RowsMoved p mix2.matrix mix.matrix) :
    RowsMoved p (gst_audio_channel_mix_fill_identical mix2).matrix
      (gst_audio_channel_mix_fill_identical mix).matrix := by
  intro a b
  rw [fill_identical_matrix, fill_identical_matrix, hin, hout, hop, h a b]
  by_cases ha : a < mix.in_channels
  · rw [hpos a ha]
    by_cases hc : p a < mix.in_channels ∧ b < mix.out_channels ∧
        posAt mix.in_position (p a) = posAt mix.out_position b
    · rw [if_pos hc, if_pos ⟨ha, hc.2⟩]
    · rw [if_neg hc, if_neg (fun h2 => hc ⟨(hlt a).mpr ha, h2.2⟩)]
  · rw [if_neg (fun h2 => ha h2.1), if_neg (fun h2 => ha ((hlt a).mp h2.1))]

/-- One pass of the compatible fill of a mixer with reordered input channels. -/
theorem fillCompatibleOne_moved (mix2 mix : GstAudioChannelMix α) (p q : Nat → Nat)
    (hpq : ∀ a, p (q a) = a) (hqp : ∀ a, q (p a) = a)
    (hlt : ∀ a, p a < mix.in_channels ↔ a < mix.in_channels)
    (hin : mix2.in_channels = mix.in_channels) (hout : mix2.out_channels = mix.out_channels)
    (hop : mix2.out_position = mix.out_position)
    (hpos : ∀ a, a < mix.in_channels → posAt mix2.in_position a = posAt mix.in_position (p a))
    (hdist : ∀ a a2, a < mix.in_channels → a2 < mix.in_channels →
      posAt mix.in_position a = posAt mix.in_position a2 → a = a2)
    (cv : Conv) (hcv : cv ∈ conv) (m2 m : Nat → Nat → α) (h : RowsMoved p m2 m) :
    RowsMoved p (fillCompatibleOne mix2 cv m2) (fillCompatibleOne mix cv m) := by
  have hscan : convScan cv mix2.in_channels mix2.in_position =
      (convScan cv mix.in_channels mix.in_position).moved q := by
    rw [hin]
    exact convScan_moved cv hcv mix.in_channels mix2.in_position mix.in_position p q hpq hqp
      hlt hpos hdist
  have n0 := movedIndex_eq_neg_one q (convScan cv mix.in_channels mix.in_position).i0
  have n1 := movedIndex_eq_neg_one q (convScan cv mix.in_channels mix.in_position).i1
  have n2 := movedIndex_eq_neg_one q (convScan cv mix.in_channels mix.in_position).i2
  have t0 := movedIndex_toNat q (convScan cv mix.in_channels mix.in_position).i0
  have t1 := movedIndex_toNat q (convScan cv mix.in_channels mix.in_position).i1
  have t2 := movedIndex_toNat q (convScan cv mix.in_channels mix.in_position).i2
  unfold fillCompatibleOne
  rw [hscan, hout, hop]
  unfold Idx3.moved
  simp only []
  refine rowsMoved_ite3 p q hqp hpq _ _ _ _ _ _ _ _ _ _ _ _ _ _ ?_
    (by simp only [ne_eq, n2, n1]) (by simp only [ne_eq, n2, n1])
    (by simp only [ne_eq, n2, n1])
    (fun hc => by rcases hc with hc | hc | hc <;> exact t2 hc.1)
  refine rowsMoved_ite3 p q hqp hpq _ _ _ _ _ _ _ _ _ _ _ _ _ _ ?_
    (by simp only [ne_eq, n2, n0]) (by simp only [ne_eq, n2, n0])
    (by simp only [ne_eq, n2, n0])
    (fun hc => by rcases hc with hc | hc | hc <;> exact t2 hc.1)
  refine rowsMoved_ite3 p q hqp hpq _ _ _ _ _ _ _ _ _ _ _ _ _ _ ?_
    (by simp only [ne_eq, n1, n2]) (by simp only [ne_eq, n1, n2])
    (by simp only [ne_eq, n1, n2])
    (fun hc => by rcases hc with hc | hc | hc <;> exact t1 hc.1)
  exact rowsMoved_ite3 p q hqp hpq _ _ _ _ _ _ _ _ _ _ _ _ _ _ h
    (by simp only [ne_eq, n0, n2]) (by simp only [ne_eq, n0, n2])
    (by simp only [ne_eq, n0, n2])
    (fun hc => by rcases hc with hc | hc | hc <;> exact t0 hc.1)

/-- The compatible fill of a mixer with reordered input channels. -/
theorem fill_compatible_moved (mix2 mix : GstAudioChannelMix α) (p q : Nat → Nat)
    (hpq : ∀ a, p (q a) = a) (hqp : ∀ a, q (p a) = a)
    (hlt : ∀ a, p a < mix.in_channels ↔ a < mix.in_channels)
    (hin : mix2.in_channels = mix.in_channels) (hout : mix2.out_channels = mix.out_channels)
    (hop : mix2.out_position = mix.out_position)
    (hpos : ∀ a, a < mix.in_channels → posAt mix2.in_position a = posAt mix.in_position (p a))
    (hdist : ∀ a a2, a < mix.in_channels → a2 < mix.in_channels →
      posAt mix.in_position a = posAt mix.in_position a2 → a = a2)
    (h : RowsMoved p mix2.matrix mix.matrix) :
    RowsMoved p (gst_audio_channel_mix_fill_compatible mix2).matrix
      (gst_audio_channel_mix_fill_compatible mix).matrix := by
  show RowsMoved p (conv.foldl (fun m c => fillCompatibleOne mix2 c m) mix2.matrix)
    (conv.foldl (fun m c => fillCompatibleOne mix c m) mix.matrix)
  have key : ∀ (l : List Conv) (m2 m : Nat → Nat → α), (∀ c, c ∈ l → c ∈ conv) →
      RowsMoved p m2 m →
      RowsMoved p (l.foldl (fun m c => fillCompatibleOne mix2 c m) m2)
        (l.foldl (fun m c => fillCompatibleOne mix c m) m) := by
    intro l
    induction l with
    | nil => intro m2 m _ hm; exact hm
    | cons c t ih =>
      intro m2 m hl hm
      rw [List.foldl_cons, List.foldl_cons]
      exact ih _ _ (fun c2 hc2 => hl c2 (List.mem_cons_of_mem c hc2))
        (fillCompatibleOne_moved mix2 mix p q hpq hqp hlt hin hout hop hpos hdist c
          (hl c (List.mem_cons_self c t)) m2 m hm)
  exact key conv _ _ (fun _ hc => hc) h

/-- The spatial-proximity fill of a mixer with reordered input channels. -/
theorem fill_others_moved (sqrt : α → α) (mix2 mix : GstAudioChannelMix α) (p q : Nat → Nat)
    (hpq : ∀ a, p (q a) = a) (hqp : ∀ a, q (p a) = a)
    (hlt : ∀ a, p a < mix.in_channels ↔ a < mix.in_channels)
    (hin : mix2.in_channels = mix.in_channels) (hout : mix2.out_channels = mix.out_channels)
    (hop : mix2.out_position = mix.out_position)
    (hpos : ∀ a, a < mix.in_channels → posAt mix2.in_position a = posAt mix.in_position (p a))
    (hdist : ∀ a a2, a < mix.in_channels → a2 < mix.in_channels →
      posAt mix.in_position a = posAt mix.in_position a2 → a = a2)
    (h : RowsMoved p mix2.matrix mix.matrix) :
    RowsMoved p (gst_audio_channel_mix_fill_others sqrt mix2).matrix
      (gst_audio_channel_mix_fill_others sqrt mix).matrix := by
  have hdet : gst_audio_channel_mix_detect_pos mix2.in_channels mix2.in_position =
      (gst_audio_channel_mix_detect_pos mix.in_channels mix.in_position).moved q := by
    rw [hin]
    exact detect_pos_moved mix.in_channels mix2.in_position mix.in_position p q hpq hqp
      hlt hpos hdist
  unfold gst_audio_channel_mix_fill_others
  simp only []
  rw [hdet, hout, hop]
  exact others_chains_moved sqrt p q hqp hpq _ _ _ _ h

end StagesMoved


section NormalizeMoved

variable {α : Type} [LinearOrderedField α]

/-- The normalization of a mixer with reordered input channels: the column sums
and `top` are the same, so the rows of the result are the reordered rows. -/
theorem fill_normalize_moved (mix2 mix : GstAudioChannelMix α) (p q : Nat → Nat)
    (hpq : ∀ a, p (q a) = a) (hqp : ∀ a, q (p a) = a)
    (hlt : ∀ a, p a < mix.in_channels ↔ a < mix.in_channels)
    (hin : mix2.in_channels = mix.in_channels) (hout : mix2.out_channels = mix.out_channels)
    (h : RowsMoved p mix2.matrix mix.matrix) :
    RowsMoved p (gst_audio_channel_mix_fill_normalize mix2).matrix
      (gst_audio_channel_mix_fill_normalize mix).matrix := by
  have hq : ∀ a, q a < mix.in_channels ↔ a < mix.in_channels := by
    intro a
    rw [← hlt (q a), hpq]
  have hsum : ∀ j, normalizeSum mix2 j = normalizeSum mix j := by
    intro j
    rw [normalizeSum_eq, normalizeSum_eq, hin]
    refine Finset.sum_nbij' p q ?_ ?_ ?_ ?_ ?_
    · intro a ha
      exact Finset.mem_range.mpr ((hlt a).mpr (Finset.mem_range.mp ha))
    · intro a ha
      exact Finset.mem_range.mpr ((hq a).mpr (Finset.mem_range.mp ha))
    · intro a _
      exact hqp a
    · intro a _
      exact hpq a
    · intro a _
      rw [h a j]
  have htop : normalizeTop mix2 = normalizeTop mix := by
    unfold normalizeTop
    rw [hout, funext hsum]
  intro a b
  rw [fill_normalize_matrix, fill_normalize_matrix, htop, hin, hout, h a b]
  by_cases hc : normalizeTop mix ≠ 0 ∧ a < mix.in_channels ∧ b < mix.out_channels
  · rw [if_pos hc, if_pos ⟨hc.1, (hlt a).mpr hc.2.1, hc.2.2⟩]
  · rw [if_neg hc, if_neg (fun h2 => hc ⟨h2.1, (hlt a).mp h2.2.1, h2.2.2⟩)]

/-- A permutation of the first `n` numbers, continued by the identity. -/
theorem perm_extend (n : Nat) (p : Equiv.Perm (Fin n)) :
    ∃ P Q : Nat → Nat, (∀ a, P (Q a) = a) ∧ (∀ a, Q (P a) = a) ∧
      (∀ a, P a < n ↔ a < n) ∧ ∀ a : Fin n, P a = p a := by
  refine ⟨fun a => if h : a < n then ((p ⟨a, h⟩ : Fin n) : Nat) else a,
    fun a => if h : a < n then ((p.symm ⟨a, h⟩ : Fin n) : Nat) else a, ?_, ?_, ?_, ?_⟩
  · intro a
    by_cases h : a < n
    · simp only [h, dite_true, Fin.is_lt, Fin.eta, Equiv.apply_symm_apply]
    · simp only [h, dite_false]
  · intro a
    by_cases h : a < n
    · simp only [h, dite_true, Fin.is_lt, Fin.eta, Equiv.symm_apply_apply]
    · simp only [h, dite_false]
  · intro a
    by_cases h : a < n
    · simp only [h, dite_true, Fin.is_lt]
    · simp only [h, dite_false]
  · intro a
    simp only [a.isLt, dite_true, Fin.eta]

/-- The two special-case matrices have equal rows below the channel count. -/
theorem special_matrices_moved (P : Nat → Nat) :
    ((∀ a, P a < 2 ↔ a < 2) →
      RowsMoved P (setCell (setCell (fun _ _ => (0 : α)) 0 0 (1 / 2)) 1 0 (1 / 2))
        (setCell (setCell (fun _ _ => (0 : α)) 0 0 (1 / 2)) 1 0 (1 / 2))) ∧
    ((∀ a, P a < 1 ↔ a < 1) →
      RowsMoved P (setCell (setCell (fun _ _ => (0 : α)) 0 0 1) 0 1 1)
        (setCell (setCell (fun _ _ => (0 : α)) 0 0 1) 0 1 1)) := by
  constructor
  · intro hlt a b
    have e : ∀ x y : Nat, setCell (setCell (fun _ _ => (0 : α)) 0 0 (1 / 2)) 1 0 (1 / 2) x y =
        if x < 2 ∧ y = 0 then 1 / 2 else 0 := by
      intro x y
      unfold setCell
      by_cases h1 : x = 1 ∧ y = 0
      · rw [if_pos h1, if_pos ⟨by omega, h1.2⟩]
      · rw [if_neg h1]
        by_cases h0 : x = 0 ∧ y = 0
        · rw [if_pos h0, if_pos ⟨by omega, h0.2⟩]
        · rw [if_neg h0, if_neg (fun h => by omega)]
    rw [e a b, e (P a) b]
    by_cases hc : a < 2 ∧ b = 0
    · rw [if_pos hc, if_pos ⟨(hlt a).mpr hc.1, hc.2⟩]
    · rw [if_neg hc, if_neg (fun h => hc ⟨(hlt a).mp h.1, h.2⟩)]
  · intro hlt a b
    have e : ∀ x y : Nat, setCell (setCell (fun _ _ => (0 : α)) 0 0 1) 0 1 1 x y =
        if x < 1 ∧ y < 2 then 1 else 0 := by
      intro x y
      unfold setCell
      by_cases h1 : x = 0 ∧ y = 1
      · rw [if_pos h1, if_pos ⟨by omega, by omega⟩]
      · rw [if_neg h1]
        by_cases h0 : x = 0 ∧ y = 0
        · rw [if_pos h0, if_pos ⟨by omega, by omega⟩]
        · rw [if_neg h0, if_neg (fun h => by omega)]
    rw [e a b, e (P a) b]
    by_cases hc : a < 1 ∧ b < 2
    · rw [if_pos hc, if_pos ⟨(hlt a).mpr hc.1, hc.2⟩]
    · rw [if_neg hc, if_neg (fun h => hc ⟨(hlt a).mp h.1, h.2⟩)]

end NormalizeMoved


section OrderClaim

variable {α : Type} [LinearOrderedField α] [FloorRing α]

open GstAudioChannelPosition

theorem isSpecialPair_of_moved (n m : Nat) (in2 inp out : List GstAudioChannelPosition)
    (P Q : Nat → Nat) (hQP : ∀ a, Q (P a) = a) (hlt : ∀ a, P a < n ↔ a < n)
    (hpos : ∀ a, a < n → posAt in2 a = posAt inp (P a))
    (h : IsSpecialPair n inp m out) : IsSpecialPair n in2 m out := by
  unfold IsSpecialPair at h ⊢
  rcases h with ⟨h1, h2, hp, hm⟩ | ⟨h1, h2, hp, hm⟩
  · left
    refine ⟨h1, h2, ?_, hm⟩
    have l0 : P 0 < 2 := by rw [← h1, hlt, h1]; decide
    have l1 : P 1 < 2 := by rw [← h1, hlt, h1]; decide
    have hne : P 0 ≠ P 1 := by
      intro e
      have := congrArg Q e
      rw [hQP, hQP] at this
      exact absurd this (by decide)
    rw [hpos 0 (by rw [h1]; decide), hpos 1 (by rw [h1]; decide)]
    have hcase : (P 0 = 0 ∧ P 1 = 1) ∨ (P 0 = 1 ∧ P 1 = 0) := by omega
    rcases hcase with ⟨e0, e1⟩ | ⟨e0, e1⟩
    · rw [e0, e1]
      exact hp
    · rw [e0, e1]
      rcases hp with ⟨a, b⟩ | ⟨a, b⟩
      · exact Or.inr ⟨b, a⟩
      · exact Or.inl ⟨b, a⟩
  · right
    refine ⟨h1, h2, hp, ?_⟩
    have l0 : P 0 < 1 := by rw [← h1, hlt, h1]; decide
    have e0 : P 0 = 0 := by omega
    rw [hpos 0 (by rw [h1]; decide), e0]
    exact hm

/-- The matrix built by `gst_audio_channel_mix_fill_matrix` from the zero matrix for
a reordered input layout with pairwise different positions. -/
theorem built_matrix_moved (sqrt : α → α) (flags : Nat) (format : GstAudioFormat)
    (in_channels : Int) (in_position in_position2 : List GstAudioChannelPosition)
    (out_channels : Int) (out_position : List GstAudioChannelPosition)
    (P Q : Nat → Nat) (hPQ : ∀ a, P (Q a) = a) (hQP : ∀ a, Q (P a) = a)
    (hlt : ∀ a, P a < in_channels.toNat ↔ a < in_channels.toNat)
    (hdist : ∀ a a2, a < in_channels.toNat → a2 < in_channels.toNat →
      posAt in_position a = posAt in_position a2 → a = a2)
    (hperm : ∀ a, a < in_channels.toNat → posAt in_position2 a = posAt in_position (P a))
    (mix mix2 : GstAudioChannelMix α)
    (hnew : gst_audio_channel_mix_new sqrt flags format in_channels in_position
      out_channels out_position = some mix)
    (hnew2 : gst_audio_channel_mix_new sqrt flags format in_channels in_position2
      out_channels out_position = some mix2) :
    RowsMoved P mix2.matrix mix.matrix := by
  obtain ⟨_, _, hmat⟩ := new_matrix_cases _ _ _ _ _ _ _ _ hnew
  obtain ⟨_, _, hmat2⟩ := new_matrix_cases _ _ _ _ _ _ _ _ hnew2
  have hq : ∀ a, Q a < in_channels.toNat ↔ a < in_channels.toNat := by
    intro a
    rw [← hlt (Q a), hPQ]
  have hsp : IsSpecialPair in_channels.toNat in_position2 out_channels.toNat out_position ↔
      IsSpecialPair in_channels.toNat in_position out_channels.toNat out_position := by
    constructor
    · refine isSpecialPair_of_moved _ _ in_position in_position2 out_position Q P hPQ hq ?_
      intro a ha
      rw [hperm (Q a) ((hq a).mpr ha), hPQ]
    · exact isSpecialPair_of_moved _ _ in_position2 in_position out_position P Q hQP hlt hperm
  -- the two instances before the matrix is filled
  have hpos : ∀ a, a < in_channels.toNat →
      posAt (in_position2.take in_channels.toNat) a =
        posAt (in_position.take in_channels.toNat) (P a) := by
    intro a ha
    rw [posAt_take _ _ _ ha, posAt_take _ _ _ ((hlt a).mpr ha)]
    exact hperm a ha
  have hdist2 : ∀ a a2, a < in_channels.toNat → a2 < in_channels.toNat →
      posAt (in_position.take in_channels.toNat) a =
        posAt (in_position.take in_channels.toNat) a2 → a = a2 := by
    intro a a2 ha ha2 e
    rw [posAt_take _ _ _ ha, posAt_take _ _ _ ha2] at e
    exact hdist a a2 ha ha2 e
  have h0 : RowsMoved P
      (mixInit (α := α) flags format in_channels in_position2 out_channels out_position).matrix
      (mixInit (α := α) flags format in_channels in_position out_channels out_position).matrix :=
    fun _ _ => rfl
  have hid := fill_identical_moved
    (mixInit (α := α) flags format in_channels in_position2 out_channels out_position)
    (mixInit (α := α) flags format in_channels in_position out_channels out_position)
    P hlt rfl rfl rfl hpos h0
  rw [hmat, hmat2]
  by_cases hs : IsSpecialPair in_channels.toNat in_position out_channels.toNat out_position
  · rw [if_pos hs, if_pos (hsp.mpr hs)]
    rcases fill_special_mixInit_matrix (α := α) flags format in_channels in_position
      out_channels out_position hs with ⟨h1, _, hm⟩ | ⟨h1, _, hm⟩
    · rcases fill_special_mixInit_matrix (α := α) flags format in_channels in_position2
        out_channels out_position (hsp.mpr hs) with ⟨_, _, hm2⟩ | ⟨h3, _, _⟩
      · rw [hm, hm2]
        exact (special_matrices_moved P).1 (by rw [← h1]; exact hlt)
      · omega
    · rcases fill_special_mixInit_matrix (α := α) flags format in_channels in_position2
        out_channels out_position (hsp.mpr hs) with ⟨h3, _, _⟩ | ⟨_, _, hm2⟩
      · omega
      · rw [hm, hm2]
        exact (special_matrices_moved P).2 (by rw [← h1]; exact hlt)
  · rw [if_neg hs, if_neg (fun h => hs (hsp.mp h))]
    by_cases hflag : flags &&& GST_AUDIO_CHANNEL_MIX_FLAGS_UNPOSITIONED_IN = 0
    · rw [if_pos hflag, if_pos hflag]
      have hco := fill_compatible_moved
        (gst_audio_channel_mix_fill_identical
          (mixInit (α := α) flags format in_channels in_position2 out_channels out_position))
        (gst_audio_channel_mix_fill_identical
          (mixInit (α := α) flags format in_channels in_position out_channels out_position))
        P Q hPQ hQP hlt rfl rfl rfl hpos hdist2 hid
      have hot := fill_others_moved sqrt
        (gst_audio_channel_mix_fill_compatible (gst_audio_channel_mix_fill_identical
          (mixInit (α := α) flags format in_channels in_position2 out_channels out_position)))
        (gst_audio_channel_mix_fill_compatible (gst_audio_channel_mix_fill_identical
          (mixInit (α := α) flags format in_channels in_position out_channels out_position)))
        P Q hPQ hQP hlt rfl rfl rfl hpos hdist2 hco
      exact fill_normalize_moved
        (gst_audio_channel_mix_fill_others sqrt
          (gst_audio_channel_mix_fill_compatible (gst_audio_channel_mix_fill_identical
            (mixInit (α := α) flags format in_channels in_position2 out_channels
              out_position))))
        (gst_audio_channel_mix_fill_others sqrt
          (gst_audio_channel_mix_fill_compatible (gst_audio_channel_mix_fill_identical
            (mixInit (α := α) flags format in_channels in_position out_channels
              out_position))))
        P Q hPQ hQP hlt rfl rfl hot
    · rw [if_neg hflag, if_neg hflag]
      exact hid

/-- Claim C26: for every pair of layouts whose input layout has pairwise different
positions, every flags value and every permutation `p` of the input channels
(`in_position2[a] = in_position[p a]`), the matrix built from the permuted input
layout is the matrix of the original layout with its rows permuted by `p`, over
any ordered field of exact weights, and so is the fixed-point matrix; in
particular the weight between an input position and an output channel does not
depend on where the input channel sits in the layout. -/
theorem matrix_follows_input_order (sqrt : α → α) (flags : Nat) (format : GstAudioFormat)
    (n : Nat) (in_position in_position2 : List GstAudioChannelPosition)
    (out_channels : Int) (out_position : List GstAudioChannelPosition)
    (p : Equiv.Perm (Fin n))
    (hdist : ∀ a a2 : Fin n, posAt in_position a = posAt in_position a2 → a = a2)
    (hperm : ∀ a : Fin n, posAt in_position2 a = posAt in_position (p a))
    (mix mix2 : GstAudioChannelMix α)
    (hnew : gst_audio_channel_mix_new sqrt flags format (n : Int) in_position
      out_channels out_position = some mix)
    (hnew2 : gst_audio_channel_mix_new sqrt flags format (n : Int) in_position2
      out_channels out_position = some mix2) :
    (∀ (a : Fin n) (b : Nat), mix2.matrix a b = mix.matrix (p a) b) ∧
    (∀ (a : Fin n) (b : Nat), mix2.matrix_int a b = mix.matrix_int (p a) b) ∧
    (∀ (a a2 : Fin n) (b : Nat), posAt in_position2 a2 = posAt in_position a →
      mix2.matrix a2 b = mix.matrix a b) := by
  obtain ⟨P, Q, hPQ, hQP, hlt, hPp⟩ := perm_extend n p
  have hn : ((n : Int)).toNat = n := Int.toNat_ofNat n
  have hR := built_matrix_moved sqrt flags format (n : Int) in_position in_position2
    out_channels out_position P Q hPQ hQP (by rw [hn]; exact hlt)
    (by
      rw [hn]
      intro a a2 ha ha2 e
      exact Fin.mk.inj_iff.mp (hdist ⟨a, ha⟩ ⟨a2, ha2⟩ e))
    (by
      rw [hn]
      intro a ha
      have := hperm ⟨a, ha⟩
      rw [← hPp ⟨a, ha⟩] at this
      exact this)
    mix mix2 hnew hnew2
  have hcell : ∀ (a : Fin n) (b : Nat), mix2.matrix a b = mix.matrix (p a) b := by
    intro a b
    rw [hR a b, hPp a]
  obtain ⟨hin, hout, _⟩ := new_matrix_cases _ _ _ _ _ _ _ _ hnew
  obtain ⟨hin2, hout2, _⟩ := new_matrix_cases _ _ _ _ _ _ _ _ hnew2
  rw [hn] at hin hin2
  refine ⟨hcell, ?_, ?_⟩
  · intro a b
    rw [new_matrix_int_cell _ _ _ _ _ _ _ _ hnew2 a b,
      new_matrix_int_cell _ _ _ _ _ _ _ _ hnew (p a) b, hin, hin2, hout, hout2, hcell a b]
    by_cases hb : b < out_channels.toNat
    · rw [if_pos ⟨a.isLt, hb⟩, if_pos ⟨(p a).isLt, hb⟩]
    · rw [if_neg (fun h => hb h.2), if_neg (fun h => hb h.2)]
  · intro a a2 b e
    rw [hperm a2] at e
    rw [hcell a2 b, hdist (p a2) a e]

/-- Claim C26 at the input layouts [front-left, front-center] and [front-center,
front-left] with the stereo output [front-left, front-right]. -/
theorem matrix_follows_input_order_witness :
    ∃ mix mix2 : GstAudioChannelMix ℚ,
      gst_audio_channel_mix_new (fun x : ℚ => x) 0 GstAudioFormat.S32
        ((2 : Nat) : Int) [FRONT_LEFT, FRONT_CENTER] 2 [FRONT_LEFT, FRONT_RIGHT] = some mix ∧
      gst_audio_channel_mix_new (fun x : ℚ => x) 0 GstAudioFormat.S32
        ((2 : Nat) : Int) [FRONT_CENTER, FRONT_LEFT] 2 [FRONT_LEFT, FRONT_RIGHT] = some mix2 ∧
      ∀ (a : Fin 2) (b : Nat), mix2.matrix a b = mix.matrix (Equiv.swap (0 : Fin 2) 1 a) b := by
  have hnew : gst_audio_channel_mix_new (fun x : ℚ => x) 0 GstAudioFormat.S32
      ((2 : Nat) : Int) [FRONT_LEFT, FRONT_CENTER] 2 [FRONT_LEFT, FRONT_RIGHT] =
      some (gst_audio_channel_mix_setup_matrix (fun x : ℚ => x)
        (mixInit (α := ℚ) 0 GstAudioFormat.S32 ((2 : Nat) : Int) [FRONT_LEFT, FRONT_CENTER]
          2 [FRONT_LEFT, FRONT_RIGHT])) :=
    (new_eq_some _ _ _ _ _ _ _ _).mpr ⟨⟨Or.inl rfl, by decide, by decide⟩, rfl⟩
  have hnew2 : gst_audio_channel_mix_new (fun x : ℚ => x) 0 GstAudioFormat.S32
      ((2 : Nat) : Int) [FRONT_CENTER, FRONT_LEFT] 2 [FRONT_LEFT, FRONT_RIGHT] =
      some (gst_audio_channel_mix_setup_matrix (fun x : ℚ => x)
        (mixInit (α := ℚ) 0 GstAudioFormat.S32 ((2 : Nat) : Int) [FRONT_CENTER, FRONT_LEFT]
          2 [FRONT_LEFT, FRONT_RIGHT])) :=
    (new_eq_some _ _ _ _ _ _ _ _).mpr ⟨⟨Or.inl rfl, by decide, by decide⟩, rfl⟩
  exact ⟨_, _, hnew, hnew2, (matrix_follows_input_order (fun x : ℚ => x) 0 GstAudioFormat.S32 2
    [FRONT_LEFT, FRONT_CENTER] [FRONT_CENTER, FRONT_LEFT] 2 [FRONT_LEFT, FRONT_RIGHT]
    (Equiv.swap (0 : Fin 2) 1) (by decide) (by decide) _ _ hnew hnew2).1⟩

end OrderClaim

end AudioChannelMix
